import Mathlib

/-!
# Ultrahand-Overlay: package parser and placeholder resolver

A shallow embedding of `source/utils.hpp`.  A `std::string` is the list of its
characters, a `std::vector` is a list, a position returned by `std::string::find`
is an `Option Nat` (`none` is `std::string::npos`).
-/

namespace Ultrahand

/-! ## Strings and streams -/

/-- A std::string, as the list of its characters. -/
abbrev Str := List Char

/-- The single-quote character, the toggle delimiter of the tokenizer. -/
def quoteChar : Char := Char.ofNat 39

/-- The carriage-return character. -/
def crChar : Char := Char.ofNat 13

/-- The line-feed character, the default delimiter of `std::getline`. -/
def nlChar : Char := Char.ofNat 10

/-- The `std::isspace` test of the "C" locale: space, `\t`, `\n`, `\v`, `\f`, `\r`. -/
def isspace (c : Char) : Bool :=
  c.toNat == 32 || (9 ≤ c.toNat && c.toNat ≤ 13)

/-- The successive strings that `while (std::getline(stream, part, delim))` reads from a
stream holding `s`: each call extracts up to the next `delim` (which it consumes and drops)
or up to the end of input, and the call that finds the stream already exhausted fails and
ends the loop.  So a final delimiter does not open one more (empty) part. -/
def getlines (delim : Char) : Str → List Str
  | [] => []
  | c :: cs =>
    if c = delim then [] :: getlines delim cs
    else
      match getlines delim cs with
      | [] => [[c]]
      | p :: ps => (c :: p) :: ps

/-- The loop `while (argIss >> arg) commandParts.push_back(arg)`, with the word read so
far in `cur`: `operator>>` skips leading whitespace, then extracts characters up to the
next whitespace or the end of input, and fails when nothing is left to extract. -/
def extractWordsAux : Str → Str → List Str
  | [], cur => if cur = [] then [] else [cur]
  | c :: cs, cur =>
    if isspace c then
      (if cur = [] then extractWordsAux cs [] else cur :: extractWordsAux cs [])
    else extractWordsAux cs (cur ++ [c])

/-- The words that `while (argIss >> arg)` extracts from a stream holding `s`. -/
def extractWords (s : Str) : List Str := extractWordsAux s []

/-! ## Package parser (`loadOptionsFromIni`) -/

/-- A command: its tokens. -/
abbrev Command := List Str

/-- A package: the sections in file order, each with its command list. -/
abbrev Package := List (Str × List Command)

/-- One round of `while (std::getline(iss, part, (quote)))` in `loadOptionsFromIni`: the
state is `(commandParts, inQuotes)`. -/
def tokenizeStep (st : List Str × Bool) (part : Str) : List Str × Bool :=
  if st.2 then (st.1 ++ [part], !st.2)
  else (st.1 ++ extractWords part, !st.2)

/-- The tokenizer of `loadOptionsFromIni` (the body of the command-line branch):
`commandParts` after the `getline` loop over the line, starting outside quotes. -/
def tokenizeLine (line : Str) : Command :=
  ((getlines quoteChar line).foldl tokenizeStep ([], false)).1

/-- The loop state of `loadOptionsFromIni`. -/
structure ParserState where
  /-- The sections emitted so far. -/
  options : Package
  /-- The name of the open section (empty: none). -/
  currentSection : Str
  /-- The commands of the open section. -/
  sectionCommands : List Command
deriving DecidableEq, Repr

/-- The text of a line once `line.erase(std::remove(line.begin(), line.end(), (CR)), line.end())`
has run: every carriage return is removed. -/
def stripCR (line : Str) : Str := line.filter (fun c => c != crChar)

/-- The test `line.front() == (open bracket) && line.back() == (close bracket)`. -/
def isHeader (line : Str) : Bool :=
  line.head? == some '[' && line.getLast? == some ']'

/-- The section name `line.substr(1, line.size() - 2)` of a header line. -/
def headerName (line : Str) : Str := (line.drop 1).take (line.length - 2)

/-- The test `line.empty() || line.front() == (hash)`. -/
def isSkipped (line : Str) : Bool := line.isEmpty || line.head? == some '#'

/-- The body of the `while (std::getline(packageFile, line))` loop of `loadOptionsFromIni`. -/
def processLine (st : ParserState) (rawLine : Str) : ParserState :=
  let line := stripCR rawLine
  if isSkipped line then st
  else if isHeader line then
    let st1 : ParserState :=
      if st.currentSection ≠ [] then
        { options := st.options ++ [(st.currentSection, st.sectionCommands)],
          currentSection := st.currentSection,
          sectionCommands := [] }
      else st
    { st1 with currentSection := headerName line }
  else if st.currentSection ≠ [] then
    { st with sectionCommands := st.sectionCommands ++ [tokenizeLine line] }
  else st

/-- The flush of the last section after the loop of `loadOptionsFromIni`. -/
def finishParse (st : ParserState) : Package :=
  if st.currentSection ≠ [] then st.options ++ [(st.currentSection, st.sectionCommands)]
  else st.options

/-- The state before the first line. -/
def initialParserState : ParserState := ⟨[], [], []⟩

/-- The function `loadOptionsFromIni`, on the content of the package file (`none`: the file
cannot be opened). -/
def loadOptionsFromIni (packageFile : Option Str) : Package :=
  match packageFile with
  | none => []
  | some text => finishParse ((getlines nlChar text).foldl processLine initialParserState)

/-- The function `removeEmptyCommands`. -/
def removeEmptyCommands (commands : List Command) : List Command :=
  commands.filter (fun vec => !vec.isEmpty)

/-! ## The rules of the specification, stated independently of the code -/

/-- Splitting on runs of whitespace into non-empty tokens. -/
def splitWhitespace (s : Str) : List Str :=
  (s.splitOnP isspace).filter (fun w => !w.isEmpty)

/-- The alternating rule on the pieces of a line cut at each quote, the first of them
numbered `i`: an even-numbered piece is split on whitespace, an odd-numbered piece is one
token verbatim. -/
def alternatingRule (i : Nat) : List Str → List Str
  | [] => []
  | p :: ps => (if i % 2 = 0 then splitWhitespace p else [p]) ++ alternatingRule (i + 1) ps

/-- The tokens that the alternating rule gives for a line. -/
def alternatingTokens (line : Str) : List Str :=
  alternatingRule 0 (line.splitOn quoteChar)

/-- The lines of a package text as the parser classifies them: carriage returns removed,
blank and comment lines left out. -/
def effectiveLines (text : Str) : List Str :=
  ((getlines nlChar text).map stripCR).filter (fun l => !isSkipped l)

/-- The commands that follow a header, up to the next header, in line order. -/
def commandsUntilHeader : List Str → List Command
  | [] => []
  | l :: ls => if isHeader l then [] else tokenizeLine l :: commandsUntilHeader ls

/-- One entry per section header with a non-empty name, in file order, each paired with
the commands that follow that header up to the next header. -/
def sectionsOf : List Str → Package
  | [] => []
  | l :: ls =>
    if isHeader l then
      (if headerName l ≠ [] then [(headerName l, commandsUntilHeader ls)] else [])
        ++ sectionsOf ls
    else sectionsOf ls

/-- The scan of `std::string::find`: the first index, counted from `i` at the head of the
text still to scan, at which `pat` starts. -/
def findAt (pat : Str) : Str → Nat → Option Nat
  | [], i => if pat = [] then some i else none
  | c :: cs, i => if pat.isPrefixOf (c :: cs) then some i else findAt pat cs (i + 1)

/-- The call `s.find(pat, pos)`: the first index at or after `pos` at which `pat` occurs in
`s`, `none` for `npos`. -/
def findFrom (s pat : Str) (pos : Nat) : Option Nat :=
  if pos ≤ s.length then findAt pat (s.drop pos) pos else none

/-- The call `s.find(pat)`. -/
def find (s pat : Str) : Option Nat := findFrom s pat 0

/-- The scan of `std::string::find_last_of` for one character, `last` the latest hit. -/
def findLastOfAux (ch : Char) : Str → Nat → Option Nat → Option Nat
  | [], _, last => last
  | c :: cs, i, last => findLastOfAux ch cs (i + 1) (if c = ch then some i else last)

/-- The call `s.find_last_of(ch)`. -/
def findLastOf (s : Str) (ch : Char) : Option Nat := findLastOfAux ch s 0 none

/-- The value of `pos + 1` on size_t for a position returned by `find`: `npos + 1` wraps
to 0. -/
def succPos (pos : Option Nat) : Nat :=
  match pos with
  | some p => p + 1
  | none => 0

/-- The value of `endPos - startPos` on size_t, read as a character count: exact when
`endPos` is a position at or after `startPos`; when `endPos` is `npos` or lies before
`startPos` the difference wraps to a count larger than any string, written `none`. -/
def countTo (endPos : Option Nat) (startPos : Nat) : Option Nat :=
  match endPos with
  | some e => if startPos ≤ e then some (e - startPos) else none
  | none => none

/-- The call `s.substr(pos, count)` for `pos` within the string (`count` clipped to the end
of the string, `none` a count beyond it). -/
def substr (s : Str) (pos : Nat) (count : Option Nat) : Str :=
  match count with
  | some n => (s.drop pos).take n
  | none => s.drop pos

/-- The call `s.replace(pos, count, replacement)` for `pos` within the string. -/
def replace (s : Str) (pos count : Nat) (replacement : Str) : Str :=
  s.take pos ++ replacement ++ s.drop (pos + count)

/-- The test `::isdigit`. -/
def isdigit (c : Char) : Bool := 48 ≤ c.toNat && c.toNat ≤ 57

/-- The value of a run of decimal digits. -/
def digitsValue (ds : Str) : Nat := ds.foldl (fun acc c => acc * 10 + (c.toNat - 48)) 0

/-- The numeral that `std::stoi` and `std::stoul` read through `strtol` and `strtoul`:
leading whitespace is skipped, then an optional sign and the longest run of decimal digits
are read; with no digit there is no conversion (`none`). The value is not yet bounded. -/
def readNumeral (s : Str) : Option Int :=
  let s1 := s.dropWhile isspace
  let neg := s1.head? == some '-'
  let s2 := if s1.head? == some '-' || s1.head? == some '+' then s1.drop 1 else s1
  let ds := s2.takeWhile isdigit
  if ds = [] then none
  else some (if neg then - (digitsValue ds : Int) else (digitsValue ds : Int))

/-- The function `std::stoi`: it throws `std::invalid_argument` when no numeral is read and
`std::out_of_range` when the value is not that of an `int` (32 bits), both `none`. -/
def stoi (s : Str) : Option Int :=
  match readNumeral s with
  | some v => if -(2 ^ 31 : Int) ≤ v ∧ v < (2 ^ 31 : Int) then some v else none
  | none => none

/-- The conversion of an `int` to `size_t` in `size_t x = std::stoi(...)`: a negative value
wraps to `2 ^ 64 + v`, any other value is unchanged. -/
def toSizeT (v : Int) : Nat := if v < 0 then (v + (2 ^ 64 : Int)).toNat else v.toNat

/-- The function `std::to_string` on a `size_t`. -/
def to_string (n : Nat) : Str := Nat.toDigits 10 n

/-- The outcome of running a loop of the resolver in the model. -/
inductive Run (α : Type) where
  /-- The code returned this value. -/
  | ok (a : α)
  /-- The code did not return normally: an exception left it, or it read a vector out of
  range. -/
  | fault
  /-- The fuel of the model ran out before the code returned. -/
  | outOfFuel
deriving DecidableEq, Repr

/-- Sequencing of two runs. -/
def Run.andThen {α β : Type} (r : Run α) (f : α → Run β) : Run β :=
  match r with
  | .ok a => f a
  | .fault => .fault
  | .outOfFuel => .outOfFuel

/-- The closing `)}` of a call marker. -/
def closeStr : Str := ")\x7d".toList

/-! ## Placeholder resolver -/

/-- The functions, constants and globals that `utils.hpp` takes from `ultra.hpp`, the JSON
library and the device, as parameters of the model. -/
structure Externals where
  /-- The constant `NULL_STR`, the null sentinel. -/
  NULL_STR : Str
  /-- The constant `INI_FILE_STR`. -/
  INI_FILE_STR : Str
  /-- The constant `JSON_STR`. -/
  JSON_STR : Str
  /-- The constant `JSON_FILE_STR`. -/
  JSON_FILE_STR : Str
  /-- The global `memoryVendor`. -/
  memoryVendor : Str
  /-- The global `memoryModel`. -/
  memoryModel : Str
  /-- The global `amsVersion`. -/
  amsVersion : Str
  /-- The global `hosVersion`. -/
  hosVersion : Str
  /-- The function `replaceHexPlaceholder(placeholder, hexPath)`. -/
  replaceHexPlaceholder : Str → Str → Option Str
  /-- The function `replaceJsonPlaceholder(arg, commandName, jsonPathOrString)`, over the
  JSON library. -/
  replaceJsonPlaceholder : Str → Str → Str → Option Str
  /-- The function `parseValueFromIniSection(iniPath, section, key)`. -/
  parseValueFromIniSection : Str → Str → Str → Str
  /-- The function `parseSectionsFromIni(iniPath)`. -/
  parseSectionsFromIni : Str → List Str
  /-- The function `stringToList(listString)`. -/
  stringToList : Str → List Str
  /-- The function `getEntryFromListFile(listPath, listIndex)`. -/
  getEntryFromListFile : Str → Nat → Str
  /-- The function `getCurrentTimestamp(format)`, at the time of the call. -/
  getCurrentTimestamp : Str → Str
  /-- The function `decimalToHex`. -/
  decimalToHex : Str → Option Str
  /-- The function `asciiToHex`. -/
  asciiToHex : Str → Option Str
  /-- The function `hexToReversedHex`. -/
  hexToReversedHex : Str → Option Str
  /-- The function `hexToDecimal`. -/
  hexToDecimal : Str → Option Str
  /-- The function `trim`. -/
  trim : Str → Str
  /-- The function `removeQuotes`. -/
  removeQuotes : Str → Str
  /-- The function `splitStringAtIndex(str, delimiter, index)`. -/
  splitStringAtIndex : Str → Str → Nat → Str

/-- Modelled from the spec: `sliceString(str, start, end)` is defined in `ultra.hpp`, which
is not among the sources; the specification gives it as the substring by half-open index
range, the characters of `str` at the indices from `start` up to, not including,
`endIdx`. -/
def sliceString (str : Str) (start endIdx : Nat) : Str :=
  (str.drop start).take (endIdx - start)

/-- The function `replacePlaceholder`: the first occurrence of `placeholder` in `input` is
replaced. -/
def replacePlaceholder (input placeholder replacement : Str) : Str :=
  match find input placeholder with
  | none => input
  | some pos => replace input pos placeholder.length replacement

/-- The loop of `replaceAllPlaceholders`, on `modifiedArg` and `lastArg`. -/
def replaceAllPlaceholdersLoop (placeholder replacement : Str) : Nat → Str → Str → Run Str
  | 0, modifiedArg, _ =>
    if (find modifiedArg placeholder).isNone then .ok modifiedArg else .outOfFuel
  | fuel + 1, modifiedArg, lastArg =>
    if (find modifiedArg placeholder).isNone then .ok modifiedArg
    else
      let modifiedArg1 := replacePlaceholder modifiedArg placeholder replacement
      if modifiedArg1 = lastArg then .ok modifiedArg1
      else replaceAllPlaceholdersLoop placeholder replacement fuel modifiedArg1 modifiedArg1

/-- The function `replaceAllPlaceholders`, run for at most `fuel` rounds of its loop. -/
def replaceAllPlaceholders (fuel : Nat) (source placeholder replacement : Str) : Run Str :=
  replaceAllPlaceholdersLoop placeholder replacement fuel source []

/-- The test `nextStartPos < nextEndPos` for a found `nextStartPos`: true against `npos`. -/
def beforePos (nextStartPos : Nat) (nextEndPos : Option Nat) : Bool :=
  match nextEndPos with
  | some e => decide (nextStartPos < e)
  | none => true

/-- The inner `while (true)` loop of `replacePlaceholders`, from `nestedStartPos`: its
value is `endPos` (`none` when the fuel of the model runs out). -/
def nestedScan (arg placeholder : Str) : Nat → Nat → Option (Option Nat)
  | 0, _ => none
  | fuel + 1, nestedStartPos =>
    match findFrom arg placeholder (nestedStartPos + 1) with
    | some nextStartPos =>
      if beforePos nextStartPos (findFrom arg closeStr nestedStartPos) then
        nestedScan arg placeholder fuel nextStartPos
      else some (findFrom arg closeStr nestedStartPos)
    | none => some (findFrom arg closeStr nestedStartPos)

/-- The outer loop of `replacePlaceholders`, on `arg` and `lastArg`; the replacer returns
`none` when it does not return normally. -/
def replacePlaceholdersLoop (NULL_STR placeholder : Str) (replacer : Str → Option Str) :
    Nat → Str → Str → Run Str
  | 0, arg, _ => if (find arg placeholder).isNone then .ok arg else .outOfFuel
  | fuel + 1, arg, lastArg =>
    match find arg placeholder with
    | none => .ok arg
    | some startPos =>
      match nestedScan arg placeholder (arg.length + 1) startPos with
      | none => .outOfFuel
      | some none => .ok arg
      | some (some endPos) =>
        if endPos ≤ startPos then .ok arg
        else
          match replacer (substr arg startPos (some (endPos - startPos + 2))) with
          | none => .fault
          | some r =>
            let replacement := if r = [] then NULL_STR else r
            let arg1 := replace arg startPos (endPos - startPos + 2) replacement
            if arg1 = lastArg then
              .ok (replace arg1 startPos (endPos - startPos + 2) NULL_STR)
            else replacePlaceholdersLoop NULL_STR placeholder replacer fuel arg1 arg1

/-- The function `replacePlaceholders`, run for at most `fuel` rounds of its outer loop:
the final value of `arg`. -/
def replacePlaceholders (NULL_STR : Str) (fuel : Nat) (arg placeholder : Str)
    (replacer : Str → Option Str) : Run Str :=
  replacePlaceholdersLoop NULL_STR placeholder replacer fuel arg []

/-- The text `placeholder.substr(startPos, endPos - startPos)` between the first opening
and the first closing parenthesis, as the replacers of `applyPlaceholderReplacement`
compute it. -/
def parametersOf (placeholder : Str) : Str :=
  let startPos := succPos (find placeholder ['('])
  let endPos := find placeholder [')']
  substr placeholder startPos (countTo endPos startPos)

/-- The replacer of the opener of `slice` in `applyPlaceholderReplacement`. -/
def sliceReplacer (placeholder : Str) : Option Str :=
  let parameters := parametersOf placeholder
  match find parameters [','] with
  | some commaPos =>
    let str := substr parameters 0 (some commaPos)
    (stoi (substr parameters (commaPos + 1)
        (countTo (findFrom parameters [','] (commaPos + 1)) (commaPos + 1)))).bind
      fun sliceStart =>
        (stoi (substr parameters (succPos (findLastOf parameters ',')) none)).bind
          fun sliceEnd => some (sliceString str (toSizeT sliceStart) (toSizeT sliceEnd))
  | none => some placeholder

/-- The replacer of the opener of `split` in `applyPlaceholderReplacement`. -/
def splitReplacer (ext : Externals) (placeholder : Str) : Option Str :=
  let parameters := parametersOf placeholder
  match find parameters [','], findLastOf parameters ',' with
  | some firstCommaPos, some lastCommaPos =>
    if firstCommaPos ≠ lastCommaPos then
      let str := substr parameters 0 (some firstCommaPos)
      let delimiter := substr parameters (firstCommaPos + 1)
        (some (lastCommaPos - firstCommaPos - 1))
      (stoi (substr parameters (lastCommaPos + 1) none)).bind fun index =>
        let result := ext.splitStringAtIndex (ext.removeQuotes (ext.trim str))
          (ext.removeQuotes (ext.trim delimiter)) (toSizeT index)
        if result = [] then some (ext.removeQuotes (ext.trim str)) else some result
    else some placeholder
  | _, _ => some placeholder

/-- The opening brace of a marker. -/
def lbraceChar : Char := Char.ofNat 123

/-- The function `replaceIniPlaceholder`. -/
def replaceIniPlaceholder (ext : Externals) (arg commandName iniPath : Str) : Option Str :=
  let searchString := lbraceChar :: (commandName ++ ['('])
  match find arg searchString with
  | none => some arg
  | some startPos =>
    match findFrom arg closeStr startPos with
    | none => some arg
    | some endPos =>
      if endPos ≤ startPos then some arg
      else
        let placeholderContent := ext.trim (substr arg (startPos + searchString.length)
          (countTo (some endPos) (startPos + searchString.length)))
        match find placeholderContent [','] with
        | some commaPos =>
          let iniSection :=
            ext.removeQuotes (ext.trim (substr placeholderContent 0 (some commaPos)))
          let iniKey :=
            ext.removeQuotes (ext.trim (substr placeholderContent (commaPos + 1) none))
          some (substr arg 0 (some startPos)
            ++ ext.parseValueFromIniSection iniPath iniSection iniKey
            ++ substr arg (endPos + 2) none)
        | none =>
          if placeholderContent.all isdigit then
            (stoi placeholderContent).map fun entryIndex =>
              match (ext.parseSectionsFromIni iniPath)[toSizeT entryIndex]? with
              | some sectionName =>
                substr arg 0 (some startPos) ++ sectionName ++ substr arg (endPos + 2) none
              | none =>
                substr arg 0 (some startPos) ++ ext.NULL_STR ++ substr arg (endPos + 2) none
          else
            some (substr arg 0 (some startPos) ++ ext.NULL_STR ++ substr arg (endPos + 2) none)

/-- The replacer of the opener of `list` in `applyPlaceholderReplacement`; reading the list
out of range has no defined result (`none`). -/
def listReplacer (ext : Externals) (listString placeholder : Str) : Option Str :=
  (stoi (parametersOf placeholder)).bind fun listIndex =>
    (ext.stringToList listString)[toSizeT listIndex]?

/-- The replacer of the opener of `list_file` in `applyPlaceholderReplacement`. -/
def listFileReplacer (ext : Externals) (listPath placeholder : Str) : Option Str :=
  (stoi (parametersOf placeholder)).map fun listIndex =>
    ext.getEntryFromListFile listPath (toSizeT listIndex)

/-- The replacer of the opener of `timestamp` in `applyPlaceholderReplacement`. -/
def timestampReplacer (ext : Externals) (placeholder : Str) : Option Str :=
  let format :=
    if (find placeholder [')']).isSome then parametersOf placeholder
    else "%Y-%m-%d %H:%M:%S".toList
  some (ext.getCurrentTimestamp (ext.removeQuotes format))

/-- The table `placeholders` of `applyPlaceholderReplacement`: each opener with its
replacer, in the order of the source. -/
def placeholders (ext : Externals)
    (hexPath iniPath listString listPath jsonString jsonPath : Str) :
    List (Str × (Str → Option Str)) :=
  [ ("\x7bhex_file(".toList, fun placeholder => ext.replaceHexPlaceholder placeholder hexPath),
    ("\x7bini_file(".toList,
      fun placeholder => replaceIniPlaceholder ext placeholder ext.INI_FILE_STR iniPath),
    ("\x7blist(".toList, listReplacer ext listString),
    ("\x7blist_file(".toList, listFileReplacer ext listPath),
    ("\x7bjson(".toList,
      fun placeholder => ext.replaceJsonPlaceholder placeholder ext.JSON_STR jsonString),
    ("\x7bjson_file(".toList,
      fun placeholder => ext.replaceJsonPlaceholder placeholder ext.JSON_FILE_STR jsonPath),
    ("\x7btimestamp(".toList, timestampReplacer ext),
    ("\x7bdecimal_to_hex(".toList, fun placeholder => ext.decimalToHex (parametersOf placeholder)),
    ("\x7bascii_to_hex(".toList, fun placeholder => ext.asciiToHex (parametersOf placeholder)),
    ("\x7bhex_to_rhex(".toList,
      fun placeholder => ext.hexToReversedHex (parametersOf placeholder)),
    ("\x7bhex_to_decimal(".toList, fun placeholder => ext.hexToDecimal (parametersOf placeholder)),
    ("\x7bslice(".toList, sliceReplacer),
    ("\x7bsplit(".toList, splitReplacer ext) ]

/-- The inner `for` loop of `applyPlaceholderReplacement` over the table, on one `arg`. -/
def applyCallPlaceholders (NULL_STR : Str) (fuel : Nat) :
    List (Str × (Str → Option Str)) → Str → Run Str
  | [], arg => .ok arg
  | (placeholder, replacer) :: rest, arg =>
    (replacePlaceholders NULL_STR fuel arg placeholder replacer).andThen
      (applyCallPlaceholders NULL_STR fuel rest)

/-- The body of the outer `for` loop of `applyPlaceholderReplacement`: the final value of
one `arg`. -/
def applyPlaceholderReplacementArg (ext : Externals) (fuel : Nat)
    (hexPath iniPath listString listPath jsonString jsonPath : Str) (arg : Str) : Run Str :=
  (applyCallPlaceholders ext.NULL_STR fuel
      (placeholders ext hexPath iniPath listString listPath jsonString jsonPath) arg).andThen
    fun a1 => (replaceAllPlaceholders fuel a1 "\x7bram_vendor\x7d".toList ext.memoryVendor).andThen
    fun a2 => (replaceAllPlaceholders fuel a2 "\x7bram_model\x7d".toList ext.memoryModel).andThen
    fun a3 => (replaceAllPlaceholders fuel a3 "\x7bams_version\x7d".toList ext.amsVersion).andThen
    fun a4 => replaceAllPlaceholders fuel a4 "\x7bhos_version\x7d".toList ext.hosVersion

/-- The function `applyPlaceholderReplacement`, each loop run for at most `fuel` rounds: the
final value of `cmd`. -/
def applyPlaceholderReplacement (ext : Externals) (fuel : Nat)
    (hexPath iniPath listString listPath jsonString jsonPath : Str) :
    Command → Run Command
  | [] => .ok []
  | arg :: rest =>
    (applyPlaceholderReplacementArg ext fuel hexPath iniPath listString listPath jsonString
        jsonPath arg).andThen
      fun a => (applyPlaceholderReplacement ext fuel hexPath iniPath listString listPath
        jsonString jsonPath rest).andThen fun r => .ok (a :: r)

/-- A sample of `trim` for evaluating the resolver: whitespace is dropped at both ends. -/
def sampleTrim (s : Str) : Str :=
  ((s.dropWhile isspace).reverse.dropWhile isspace).reverse

/-- A sample of `removeQuotes` for evaluating the resolver: one pair of enclosing single or
double quotes is dropped. -/
def sampleRemoveQuotes (s : Str) : Str :=
  if 2 ≤ s.length ∧ s.head? = s.getLast? ∧
      (s.head? = some quoteChar ∨ s.head? = some (Char.ofNat 34)) then (s.drop 1).dropLast
  else s

/-- The fields of a string cut at each occurrence of a delimiter, `cur` the field read so
far and `skip` the number of delimiter characters still to pass over. -/
def sampleFields (delim : Str) : Str → Str → Nat → List Str
  | [], cur, _ => [cur]
  | _ :: cs, cur, skip + 1 => sampleFields delim cs cur skip
  | c :: cs, cur, 0 =>
    if delim ≠ [] ∧ delim.isPrefixOf (c :: cs) then
      cur :: sampleFields delim cs [] (delim.length - 1)
    else sampleFields delim cs (cur ++ [c]) 0

/-- A sample of `splitStringAtIndex` for evaluating the resolver: the field at `index`, empty
when there is none. -/
def sampleSplitStringAtIndex (str delim : Str) (index : Nat) : Str :=
  ((sampleFields delim str [] 0)[index]?).getD []

/-- An instance of the parameters for evaluating the resolver: the null sentinel is the
text null, the device strings are empty, the string helpers are the samples above, and the
file, list, JSON and conversion collaborators return empty results. -/
def sampleExternals : Externals where
  NULL_STR := "null".toList
  INI_FILE_STR := "ini_file".toList
  JSON_STR := "json".toList
  JSON_FILE_STR := "json_file".toList
  memoryVendor := []
  memoryModel := []
  amsVersion := []
  hosVersion := []
  replaceHexPlaceholder := fun _ _ => some []
  replaceJsonPlaceholder := fun arg _ _ => some arg
  parseValueFromIniSection := fun _ _ _ => []
  parseSectionsFromIni := fun _ => []
  stringToList := fun _ => []
  getEntryFromListFile := fun _ _ => []
  getCurrentTimestamp := fun _ => []
  decimalToHex := fun _ => some []
  asciiToHex := fun _ => some []
  hexToReversedHex := fun _ => some []
  hexToDecimal := fun _ => some []
  trim := sampleTrim
  removeQuotes := sampleRemoveQuotes
  splitStringAtIndex := sampleSplitStringAtIndex

/-- The parameterized call openers and the simple markers that `applyPlaceholderReplacement`
resolves, as the specification lists them. -/
def markerTexts : List Str :=
  [ "\x7bhex_file(".toList, "\x7bini_file(".toList, "\x7blist(".toList, "\x7blist_file(".toList,
    "\x7bjson(".toList, "\x7bjson_file(".toList, "\x7btimestamp(".toList,
    "\x7bdecimal_to_hex(".toList, "\x7bascii_to_hex(".toList, "\x7bhex_to_rhex(".toList,
    "\x7bhex_to_decimal(".toList, "\x7bslice(".toList, "\x7bsplit(".toList,
    "\x7bram_vendor\x7d".toList, "\x7bram_model\x7d".toList, "\x7bams_version\x7d".toList,
    "\x7bhos_version\x7d".toList ]

/-- The marker text of a call of `slice` on `s` with the indices `a` and `b`. -/
def sliceMarker (s : Str) (a b : Nat) : Str :=
  "\x7bslice(".toList ++ (s ++ ',' :: (to_string a ++ ',' :: to_string b)) ++ closeStr

/-- A replacer that answers the marker of `f(a)` by the marker of `f(b)` and any other
marker by the marker of `f(a)`. -/
def flipReplacer (marker : Str) : Option Str :=
  if marker = "\x7bf(a)\x7d".toList then some "\x7bf(b)\x7d".toList
  else some "\x7bf(a)\x7d".toList

/-- A replacer that answers every marker by the text v. -/
def constReplacer (_marker : Str) : Option Str := some "v".toList

/-- The marker text of a call of `list` with the index `i`. -/
def listMarker (i : Nat) : Str := "\x7blist(".toList ++ (to_string i ++ closeStr)

/-- A sample of `stringToList` for evaluating the resolver: the fields between commas. -/
def sampleStringToList (listString : Str) : List Str :=
  if listString = [] then [] else sampleFields [','] listString [] 0

/-- The sample parameters with a list collaborator that cuts the list at its commas. -/
def listExternals : Externals :=
  { sampleExternals with stringToList := sampleStringToList }

/-! ## Dangerous-path gate (`isDangerousCombination`) -/

/-- The vector `protectedFolders` of `isDangerousCombination`; the constant `ROOT_PATH` of
`ultra.hpp` is a parameter. -/
def protectedFolders (ROOT_PATH : Str) : List Str :=
  [ "sdmc:/Nintendo/".toList, "sdmc:/emuMMC/".toList, "sdmc:/emuMMC/RAW1/".toList,
    "sdmc:/atmosphere/".toList, "sdmc:/bootloader/".toList, "sdmc:/switch/".toList,
    "sdmc:/config/".toList, ROOT_PATH ]

/-- The vector `ultraProtectedFolders` of `isDangerousCombination`. -/
def ultraProtectedFolders : List Str :=
  [ "sdmc:/Nintendo/Contents/".toList, "sdmc:/Nintendo/save/".toList,
    "sdmc:/emuMMC/RAW1/Nintendo/Contents/".toList, "sdmc:/emuMMC/RAW1/Nintendo/save/".toList ]

/-- The vector `dangerousCombinationPatterns` of `isDangerousCombination`. -/
def dangerousCombinationPatterns : List Str := [ "*".toList, "*/".toList ]

/-- The vector `dangerousPatterns` of `isDangerousCombination`. -/
def dangerousPatterns : List Str := [ "..".toList, "~".toList ]

/-- The body of the loop of `isDangerousCombination` over `protectedFolders`, for one
`folder`: true when the body returns true, false when the loop goes on to the next folder.
Every protected folder of the source is shorter than every ultra-protected folder, so
`ultraFolder.substr(folder.size())` starts within the string. -/
def protectedFolderCheck (patternPath folder : Str) : Bool :=
  if patternPath = folder then true
  else if find patternPath folder = some 0 then
    if dangerousPatterns.any
        (fun pattern => (find (substr patternPath folder.length none) pattern).isSome) then true
    else if (find (substr patternPath folder.length none) ['/']).isNone &&
        dangerousCombinationPatterns.any
          (fun combination => (find (substr patternPath folder.length none) combination).isSome)
      then true
    else ultraProtectedFolders.any
      (fun ultraFolder => find patternPath (substr ultraFolder folder.length none) == some 0)
  else false

/-- The function `isDangerousCombination`. -/
def isDangerousCombination (ROOT_PATH patternPath : Str) : Bool :=
  if ultraProtectedFolders.any (fun folder => find patternPath folder == some 0) then true
  else if (protectedFolders ROOT_PATH).any (protectedFolderCheck patternPath) then true
  else if dangerousPatterns.any (fun pattern => (find patternPath pattern).isSome) then true
  else
    match find patternPath ":/".toList with
    | some colonPos => (find (substr patternPath 0 (some (colonPos + 2))) ['*']).isSome
    | none => false

/-! ## Execution engine (`interpretAndExecuteCommands`) -/

/-- One invocation of a collaborator that acts on the file system, the network or the
hardware: its name and its string arguments, in call order. -/
structure Call where
  /-- The name of the collaborator. -/
  name : String
  /-- The string arguments of the call. -/
  args : List Str
deriving DecidableEq, Repr

/-- The process-wide state that the engine and the handlers read and write: the global run
flags, the lines written by `logMessage`, and the collaborator invocations made so far. -/
structure World where
  /-- The global `commandSuccess`. -/
  commandSuccess : Bool
  /-- The global `refreshPage`. -/
  refreshPage : Bool
  /-- The global `refreshPackage`. -/
  refreshPackage : Bool
  /-- The global `interpreterLogging`. -/
  interpreterLogging : Bool
  /-- The atomic flag `abortCommand`, as the loop reads it. -/
  abortCommand : Bool
  /-- The atomic flag `abortDownload`. -/
  abortDownload : Bool
  /-- The atomic flag `abortUnzip`. -/
  abortUnzip : Bool
  /-- The lines written by `logMessage`, oldest first. -/
  log : List Str
  /-- The collaborator invocations, oldest first. -/
  calls : List Call
deriving DecidableEq, Repr

/-- The function `logMessage`: one line is written to the log. -/
def logMessage (message : Str) (w : World) : World :=
  { w with log := w.log ++ [message] }

/-- The invocation of a collaborator, recorded in call order. -/
def invoke (name : String) (args : List Str) (w : World) : World :=
  { w with calls := w.calls ++ [{ name := name, args := args }] }

/-- The file-system functions of `ultra.hpp` that the handlers read from, as parameters; a
read may depend on what has been done so far. -/
structure Collaborators where
  /-- The function `preprocessPath(path, packagePath)`. -/
  preprocessPath : Str → Str → Str
  /-- The call `preprocessPath(path)`, with the second argument left to its default. -/
  preprocessPathDefault : Str → Str
  /-- What a call of a collaborator that acts on the file system does to the process-wide
  state, apart from being recorded. -/
  effect : Call → World → World
  /-- The function `readListFromFile(path)`. -/
  readListFromFile : World → Str → List Str
  /-- The function `readSetFromFile(path)`, as the list of the members. -/
  readSetFromFile : World → Str → List Str
  /-- The function `isFileOrDirectory(path)`. -/
  isFileOrDirectory : World → Str → Bool

/-- What the engine takes from outside `interpretAndExecuteCommands`: the parameters of the
resolver, the constants that name the source declarations, the platform, the path helper
and the dispatcher `processCommand(cmd, packagePath, selectedCommand)`, which acts on the
process-wide state and may not return normally. -/
structure Engine where
  /-- The parameters of the placeholder resolver. -/
  ext : Externals
  /-- The constant `LIST_STR`. -/
  LIST_STR : Str
  /-- The constant `LIST_FILE_STR`. -/
  LIST_FILE_STR : Str
  /-- The constant `HEX_FILE_STR`. -/
  HEX_FILE_STR : Str
  /-- The global `usingErista`. -/
  usingErista : Bool
  /-- The global `usingMariko`. -/
  usingMariko : Bool
  /-- The function `preprocessPath(path, packagePath)`. -/
  preprocessPath : Str → Str → Str
  /-- The dispatcher `processCommand(cmd, packagePath, selectedCommand)`. -/
  processCommand : Command → Str → Str → World → Run World

/-- What the loop of the engine does with a command, for the record of a run. -/
inductive Event where
  /-- The call `applyPlaceholderReplacement(cmd, ...)` on this command. -/
  | resolved (cmd : Command)
  /-- The call `processCommand(cmd, ...)` with this (resolved) command. -/
  | dispatched (cmd : Command)
deriving DecidableEq, Repr

/-- The locals of `interpretAndExecuteCommands` together with the process-wide state and the
record of the run. -/
structure LoopState where
  /-- The local `inEristaSection`. -/
  inEristaSection : Bool
  /-- The local `inMarikoSection`. -/
  inMarikoSection : Bool
  /-- The local `inTrySection`. -/
  inTrySection : Bool
  /-- The local `listString`. -/
  listString : Str
  /-- The local `listPath`. -/
  listPath : Str
  /-- The local `jsonString`. -/
  jsonString : Str
  /-- The local `jsonPath`. -/
  jsonPath : Str
  /-- The local `hexPath`. -/
  hexPath : Str
  /-- The local `iniPath`. -/
  iniPath : Str
  /-- The process-wide state. -/
  world : World
  /-- The record of the run: the commands resolved and dispatched so far, oldest first. -/
  trace : List Event
deriving DecidableEq, Repr

/-- How one round of the `while` loop of `interpretAndExecuteCommands` ends. -/
inductive LoopOutcome where
  /-- The front command was erased and the loop goes on; for the whole loop: the list was
  used up. -/
  | next (st : LoopState)
  /-- The function returned (abort) or left the loop (`break`) with commands remaining. -/
  | stop (st : LoopState)
  /-- A call did not return normally. -/
  | fault
  /-- The fuel of the resolver ran out. -/
  | outOfFuel
deriving DecidableEq, Repr

/-- The platform test of `interpretAndExecuteCommands`:
`(inEristaSection && !inMarikoSection && usingErista) ||
(!inEristaSection && inMarikoSection && usingMariko) ||
(!inEristaSection && !inMarikoSection)`. -/
def gateOpen (eng : Engine) (st : LoopState) : Bool :=
  (st.inEristaSection && !st.inMarikoSection && eng.usingErista) ||
  (!st.inEristaSection && st.inMarikoSection && eng.usingMariko) ||
  (!st.inEristaSection && !st.inMarikoSection)

/-- The line that the loop logs for a resolved command when `interpreterLogging` is set. -/
def executingMessage (cmd : Command) : Str :=
  cmd.foldl (fun message token => message ++ token ++ " ".toList) "Executing command: ".toList

/-- The part of the loop body after `applyPlaceholderReplacement` has turned the front
command into `cmd`: the optional log line, then a source declaration updates its binding
and any other command is dispatched. -/
def executeResolved (eng : Engine) (packagePath selectedCommand : Str) (st : LoopState)
    (cmd : Command) : LoopOutcome :=
  let w := if st.world.interpreterLogging then logMessage (executingMessage cmd) st.world
    else st.world
  let st1 := { st with world := w }
  let commandName := cmd.headD []
  if commandName = eng.LIST_STR then
    match cmd[1]? with
    | some arg => .next { st1 with listString := eng.ext.removeQuotes arg }
    | none => .next st1
  else if commandName = eng.LIST_FILE_STR then
    match cmd[1]? with
    | some arg => .next { st1 with listPath := eng.preprocessPath arg packagePath }
    | none => .next st1
  else if commandName = eng.ext.JSON_STR then
    match cmd[1]? with
    | some arg => .next { st1 with jsonString := arg }
    | none => .next st1
  else if commandName = eng.ext.JSON_FILE_STR then
    match cmd[1]? with
    | some arg => .next { st1 with jsonPath := eng.preprocessPath arg packagePath }
    | none => .next st1
  else if commandName = eng.ext.INI_FILE_STR then
    match cmd[1]? with
    | some arg => .next { st1 with iniPath := eng.preprocessPath arg packagePath }
    | none => .next st1
  else if commandName = eng.HEX_FILE_STR then
    match cmd[1]? with
    | some arg => .next { st1 with hexPath := eng.preprocessPath arg packagePath }
    | none => .next st1
  else
    match eng.processCommand cmd packagePath selectedCommand w with
    | .ok w1 => .next { st1 with world := w1, trace := st1.trace ++ [Event.dispatched cmd] }
    | .fault => .fault
    | .outOfFuel => .outOfFuel

/-- One round of the `while` loop of `interpretAndExecuteCommands`, on the front command
`cmd`. -/
def interpretCommand (eng : Engine) (fuel : Nat) (packagePath selectedCommand : Str)
    (st : LoopState) (cmd : Command) : LoopOutcome :=
  if st.world.abortCommand then
    .stop { st with world := { st.world with abortCommand := false, commandSuccess := false } }
  else
    match cmd with
    | [] => .next st
    | commandName :: _ =>
      if commandName = "try:".toList then
        if st.inTrySection && st.world.commandSuccess then .stop st
        else .next { st with world := { st.world with commandSuccess := true },
                             inTrySection := true }
      else if commandName = "erista:".toList then
        .next { st with inEristaSection := true, inMarikoSection := false }
      else if commandName = "mariko:".toList then
        .next { st with inEristaSection := false, inMarikoSection := true }
      else if !st.world.commandSuccess && st.inTrySection then .next st
      else if gateOpen eng st then
        if !st.inTrySection || (st.world.commandSuccess && st.inTrySection) then
          match applyPlaceholderReplacement eng.ext fuel st.hexPath st.iniPath st.listString
              st.listPath st.jsonString st.jsonPath cmd with
          | .ok resolved =>
            executeResolved eng packagePath selectedCommand
              { st with trace := st.trace ++ [Event.resolved cmd] } resolved
          | .fault => .fault
          | .outOfFuel => .outOfFuel
        else .next st
      else .next st

/-- The `while (!commands.empty())` loop of `interpretAndExecuteCommands`. -/
def interpretLoop (eng : Engine) (fuel : Nat) (packagePath selectedCommand : Str) :
    LoopState → List Command → LoopOutcome
  | st, [] => .next st
  | st, cmd :: rest =>
    match interpretCommand eng fuel packagePath selectedCommand st cmd with
    | .next st1 => interpretLoop eng fuel packagePath selectedCommand st1 rest
    | .stop st1 => .stop st1
    | .fault => .fault
    | .outOfFuel => .outOfFuel

/-- The state in which the loop of `interpretAndExecuteCommands` starts: the locals are
cleared and the globals `commandSuccess`, `refreshPage`, `refreshPackage` and
`interpreterLogging` are overwritten. -/
def initialLoopState (w : World) : LoopState :=
  { inEristaSection := false, inMarikoSection := false, inTrySection := false,
    listString := [], listPath := [], jsonString := [], jsonPath := [], hexPath := [],
    iniPath := [],
    world := { w with commandSuccess := true, refreshPage := false, refreshPackage := false,
                      interpreterLogging := false },
    trace := [] }

/-- The function `interpretAndExecuteCommands`, from the overwrite of the globals on (the
read of the buffer sizes from the settings file before it touches none of the state kept
here). -/
def interpretAndExecuteCommands (eng : Engine) (fuel : Nat) (commands : List Command)
    (packagePath selectedCommand : Str) (w : World) : LoopOutcome :=
  interpretLoop eng fuel packagePath selectedCommand (initialLoopState w) commands

/-- The updates of `inEristaSection` and `inMarikoSection` in the loop of
`getSourceReplacement`, for one command; `stringToLowercase` of `ultra.hpp` is a
parameter. -/
def sourceReplacementGate (stringToLowercase : Str → Str) (gate : Bool × Bool)
    (cmd : Command) : Bool × Bool :=
  match cmd with
  | [] => gate
  | commandName :: _ =>
    if stringToLowercase commandName = "erista:".toList then (true, false)
    else if stringToLowercase commandName = "mariko:".toList then (false, true)
    else gate

/-- The updates of `inEristaSection` and `inMarikoSection` in the loop of `addTable`, for
one command. -/
def addTableGate (gate : Bool × Bool) (cmd : Command) : Bool × Bool :=
  match cmd with
  | [] => gate
  | commandName :: _ =>
    if commandName = "erista:".toList then (true, false)
    else if commandName = "mariko:".toList then (false, true)
    else gate

/-- A sample dispatcher for evaluating the engine: the command `fail` clears
`commandSuccess`, every other command leaves the state as it is. -/
def sampleProcessCommand (cmd : Command) (_packagePath _selectedCommand : Str) (w : World) :
    Run World :=
  if cmd.headD [] = "fail".toList then .ok { w with commandSuccess := false } else .ok w

/-- A sample engine for evaluating the loop, on an Erista console. -/
def sampleEngine : Engine :=
  { ext := sampleExternals,
    LIST_STR := "list".toList,
    LIST_FILE_STR := "list_file".toList,
    HEX_FILE_STR := "hex_file".toList,
    usingErista := true,
    usingMariko := false,
    preprocessPath := fun path _ => path,
    processCommand := sampleProcessCommand }

/-- A process-wide state for evaluating the engine: every flag cleared, nothing logged,
nothing invoked. -/
def sampleWorld : World :=
  { commandSuccess := false, refreshPage := false, refreshPackage := false,
    interpreterLogging := false, abortCommand := false, abortDownload := false,
    abortUnzip := false, log := [], calls := [] }

/-- The state in which a round, or the loop, ends when it ends normally. -/
def LoopOutcome.finalState : LoopOutcome → Option LoopState
  | .next st => some st
  | .stop st => some st
  | .fault => none
  | .outOfFuel => none

/-! ## Command handlers -/

/-- The call of a collaborator that acts on the file system: it is recorded, then it acts
on the process-wide state. -/
def perform (sys : Collaborators) (name : String) (args : List Str) (w : World) : World :=
  sys.effect { name := name, args := args } (invoke name args w)

/-- The eight strings that `parseCommandArguments` fills in. -/
structure CommandArguments where
  /-- The out-parameter `sourceListPath`. -/
  sourceListPath : Str
  /-- The out-parameter `destinationListPath`. -/
  destinationListPath : Str
  /-- The out-parameter `logSource`. -/
  logSource : Str
  /-- The out-parameter `logDestination`. -/
  logDestination : Str
  /-- The out-parameter `sourcePath`. -/
  sourcePath : Str
  /-- The out-parameter `destinationPath`. -/
  destinationPath : Str
  /-- The out-parameter `copyFilterListPath`. -/
  copyFilterListPath : Str
  /-- The out-parameter `filterListPath`. -/
  filterListPath : Str
deriving DecidableEq, Repr

/-- The eight strings as the handlers declare them: all empty. -/
def CommandArguments.empty : CommandArguments :=
  { sourceListPath := [], destinationListPath := [], logSource := [], logDestination := [],
    sourcePath := [], destinationPath := [], copyFilterListPath := [], filterListPath := [] }

/-- The last two branches of the loop body of `parseCommandArguments`, for the token
`token`: the first path operand is the source, the second the destination, a further one
is dropped. -/
def positionalArgument (preprocessPath : Str → Str → Str) (packagePath token : Str)
    (a : CommandArguments) : CommandArguments :=
  if a.sourcePath.isEmpty then { a with sourcePath := preprocessPath token packagePath }
  else if a.destinationPath.isEmpty then
    { a with destinationPath := preprocessPath token packagePath }
  else a

/-- The loop of `parseCommandArguments` over the tokens `cmd[i], cmd[i+1], ...` that
remain. The test `i + 1 < cmd.size()` holds exactly when a token follows, and a flag then
takes that token as its value (`cmd[++i]`). -/
def parseTokens (preprocessPath : Str → Str → Str) (packagePath : Str) :
    List Str → CommandArguments → CommandArguments
  | [], a => a
  | [token], a => positionalArgument preprocessPath packagePath token a
  | token :: value :: rest, a =>
    if token = "-src".toList then
      parseTokens preprocessPath packagePath rest
        { a with sourceListPath := preprocessPath value packagePath }
    else if token = "-dest".toList then
      parseTokens preprocessPath packagePath rest
        { a with destinationListPath := preprocessPath value packagePath }
    else if token = "-log_src".toList then
      parseTokens preprocessPath packagePath rest
        { a with logSource := preprocessPath value packagePath }
    else if token = "-log_dest".toList then
      parseTokens preprocessPath packagePath rest
        { a with logDestination := preprocessPath value packagePath }
    else if token = "-copy_filter".toList ∨ token = "-cp_filter".toList then
      parseTokens preprocessPath packagePath rest
        { a with copyFilterListPath := preprocessPath value packagePath }
    else if token = "-filter".toList then
      parseTokens preprocessPath packagePath rest
        { a with filterListPath := preprocessPath value packagePath }
    else
      parseTokens preprocessPath packagePath (value :: rest)
        (positionalArgument preprocessPath packagePath token a)

/-- The function `parseCommandArguments`: the loop starts at `i = 1`, after the name of
the command. -/
def parseCommandArguments (preprocessPath : Str → Str → Str) (cmd : Command)
    (packagePath : Str) (a : CommandArguments) : CommandArguments :=
  parseTokens preprocessPath packagePath (cmd.drop 1) a

/-- The `for` loop of the list branch of `handleCopyCommand`, over the entries of the source
list that remain and the entries of the destination list at the same indices. The read
`destinationFilesList[i]` is not checked: with no entry left in the destination list it is
out of range. `getTotalSize` only reads and its value goes to the copy. -/
def copyListLoop (sys : Collaborators) (filterListPath : Str) (filterSet : List Str) :
    List Str → List Str → World → Run World
  | [], _, w => .ok w
  | _ :: _, [], _ => .fault
  | source :: sources, destination :: destinations, w =>
    let sourcePath := sys.preprocessPathDefault source
    let destinationPath := sys.preprocessPathDefault destination
    if filterListPath.isEmpty || (!filterListPath.isEmpty && !filterSet.contains sourcePath)
    then
      copyListLoop sys filterListPath filterSet sources destinations
        (perform sys "copyFileOrDirectory" [sourcePath, destinationPath] w)
    else copyListLoop sys filterListPath filterSet sources destinations w

/-- The function `handleCopyCommand`. -/
def handleCopyCommand (sys : Collaborators) (cmd : Command) (packagePath : Str)
    (w : World) : Run World :=
  let a := parseCommandArguments sys.preprocessPath cmd packagePath CommandArguments.empty
  if !a.sourceListPath.isEmpty && !a.destinationListPath.isEmpty then
    let sourceFilesList := sys.readListFromFile w a.sourceListPath
    let destinationFilesList := sys.readListFromFile w a.destinationListPath
    let filterSet := if !a.filterListPath.isEmpty then sys.readSetFromFile w a.filterListPath
      else []
    copyListLoop sys a.filterListPath filterSet sourceFilesList destinationFilesList w
  else if a.sourcePath.isEmpty || a.destinationPath.isEmpty then
    .ok (logMessage "Source and destination paths must be specified.".toList w)
  else if !sys.isFileOrDirectory w a.sourcePath then
    .ok (logMessage
      ("Source file or directory doesn".toList ++ [Char.ofNat 39] ++ "t exist: ".toList ++
        a.sourcePath) w)
  else if a.sourcePath.contains '*' then
    .ok (perform sys "copyFileOrDirectoryByPattern"
      [a.sourcePath, a.destinationPath, a.logSource, a.logDestination] w)
  else
    .ok (perform sys "copyFileOrDirectory"
      [a.sourcePath, a.destinationPath, a.logSource, a.logDestination] w)

/-- Sample collaborators for evaluating the handlers: paths are taken as they are, list
files hold the two entries `a` and `b`, every path exists, and a call only gets
recorded. -/
def sampleCollaborators : Collaborators :=
  { preprocessPath := fun path _ => path,
    preprocessPathDefault := fun path => path,
    effect := fun _ w => w,
    readListFromFile := fun _ _ => ["a".toList, "b".toList],
    readSetFromFile := fun _ _ => [],
    isFileOrDirectory := fun _ _ => true }

/-- The function `handleMakeDirCommand`. -/
def handleMakeDirCommand (sys : Collaborators) (cmd : Command) (packagePath : Str)
    (w : World) : Run World :=
  match cmd[1]? with
  | some path => .ok (perform sys "createDirectory" [sys.preprocessPath path packagePath] w)
  | none => .ok w

/-- The `for` loop of the list branch of `handleDeleteCommand`, over the entries of the
source list that remain. -/
def deleteListLoop (sys : Collaborators) (filterListPath : Str) (filterSet : List Str) :
    List Str → World → World
  | [], w => w
  | source :: sources, w =>
    let sourcePath := sys.preprocessPathDefault source
    if filterListPath.isEmpty || (!filterListPath.isEmpty && !filterSet.contains sourcePath)
    then
      deleteListLoop sys filterListPath filterSet sources
        (perform sys "deleteFileOrDirectory" [sourcePath] w)
    else deleteListLoop sys filterListPath filterSet sources w

/-- The function `handleDeleteCommand`; the global `ROOT_PATH`, which
`isDangerousCombination` reads, is a parameter. -/
def handleDeleteCommand (sys : Collaborators) (ROOT_PATH : Str) (cmd : Command)
    (packagePath : Str) (w : World) : Run World :=
  let a := parseCommandArguments sys.preprocessPath cmd packagePath CommandArguments.empty
  if !a.sourceListPath.isEmpty then
    let sourceFilesList := sys.readListFromFile w a.sourceListPath
    let filterSet := if !a.filterListPath.isEmpty then sys.readSetFromFile w a.filterListPath
      else []
    .ok (deleteListLoop sys a.filterListPath filterSet sourceFilesList w)
  else if a.sourcePath.isEmpty then
    .ok (logMessage "Source path must be specified.".toList w)
  else if !isDangerousCombination ROOT_PATH a.sourcePath then
    if a.sourcePath.contains '*' then
      .ok (perform sys "deleteFileOrDirectoryByPattern" [a.sourcePath, a.logSource] w)
    else
      .ok (perform sys "deleteFileOrDirectory" [a.sourcePath, a.logSource] w)
  else .ok w

/-- The `for` loop of the list branch of `handleMoveCommand`, over the entries of the two
lists that remain. The loop is entered with lists of equal length; the second case, a
read of `destinationFilesList[i]` out of range, is there for the definition to be total. -/
def moveListLoop (sys : Collaborators) (copyFilterListPath filterListPath : Str)
    (copyFilterSet filterSet : List Str) : List Str → List Str → World → Run World
  | [], _, w => .ok w
  | _ :: _, [], _ => .fault
  | source :: sources, destination :: destinations, w =>
    let sourcePath := sys.preprocessPathDefault source
    let destinationPath := sys.preprocessPathDefault destination
    if filterListPath.isEmpty || (!filterListPath.isEmpty && !filterSet.contains sourcePath)
    then
      if !copyFilterListPath.isEmpty && copyFilterSet.contains sourcePath then
        moveListLoop sys copyFilterListPath filterListPath copyFilterSet filterSet sources
          destinations (perform sys "copyFileOrDirectory" [sourcePath, destinationPath] w)
      else
        moveListLoop sys copyFilterListPath filterListPath copyFilterSet filterSet sources
          destinations (perform sys "moveFileOrDirectory" [sourcePath, destinationPath, [], []] w)
    else
      moveListLoop sys copyFilterListPath filterListPath copyFilterSet filterSet sources
        destinations w

/-- The function `handleMoveCommand`. -/
def handleMoveCommand (sys : Collaborators) (ROOT_PATH : Str) (cmd : Command)
    (packagePath : Str) (w : World) : Run World :=
  let a := parseCommandArguments sys.preprocessPath cmd packagePath CommandArguments.empty
  if !a.sourceListPath.isEmpty && !a.destinationListPath.isEmpty then
    let sourceFilesList := sys.readListFromFile w a.sourceListPath
    let destinationFilesList := sys.readListFromFile w a.destinationListPath
    if sourceFilesList.length ≠ destinationFilesList.length then
      .ok (logMessage
        "Source and destination lists must have the same number of entries.".toList w)
    else
      let copyFilterSet := if !a.copyFilterListPath.isEmpty then
        sys.readSetFromFile w a.copyFilterListPath else []
      let filterSet := if !a.filterListPath.isEmpty then
        sys.readSetFromFile w a.filterListPath else []
      moveListLoop sys a.copyFilterListPath a.filterListPath copyFilterSet filterSet
        sourceFilesList destinationFilesList w
  else if a.sourcePath.isEmpty || a.destinationPath.isEmpty then
    .ok (logMessage "Source and destination paths must be specified.".toList w)
  else if !isDangerousCombination ROOT_PATH a.sourcePath then
    if a.sourcePath.contains '*' then
      .ok (perform sys "moveFilesOrDirectoriesByPattern"
        [a.sourcePath, a.destinationPath, a.logSource, a.logDestination] w)
    else
      .ok (perform sys "moveFileOrDirectory"
        [a.sourcePath, a.destinationPath, a.logSource, a.logDestination] w)
  else .ok w

/-- The read `cmd[i]` of `std::vector::operator[]`: it is not checked, and out of range
when `i` is not below `cmd.size()`. -/
def tokenAt (cmd : Command) (i : Nat) : Run Str :=
  match cmd[i]? with
  | some token => .ok token
  | none => .fault

/-- The `std::accumulate` call of `handleIniCommands` over the tokens from index 4 on: the
lambda returns `b` when the text so far is empty and `a + " " + b` otherwise. -/
def accumulateFrom4 (cmd : Command) : Str :=
  (cmd.drop 4).foldl (fun a b => if a.isEmpty then b else a ++ " ".toList ++ b) []

/-- The function `handleIniCommands`; `removeQuotes` of `ultra.hpp` is a parameter. Every
read of a token is a `tokenAt`, in the order of the source. -/
def handleIniCommands (sys : Collaborators) (removeQuotes : Str → Str) (cmd : Command)
    (packagePath : Str) (w : World) : Run World :=
  (tokenAt cmd 0).andThen fun name =>
  if name = "add-ini-section".toList ∧ cmd.length ≥ 2 then
    (tokenAt cmd 1).andThen fun path =>
    (tokenAt cmd 2).andThen fun sectionToken =>
    .ok (perform sys "addIniSection"
      [sys.preprocessPath path packagePath, removeQuotes sectionToken] w)
  else if name = "rename-ini-section".toList ∧ cmd.length ≥ 3 then
    (tokenAt cmd 1).andThen fun path =>
    (tokenAt cmd 2).andThen fun sectionToken =>
    (tokenAt cmd 3).andThen fun newSectionToken =>
    .ok (perform sys "renameIniSection"
      [sys.preprocessPath path packagePath, removeQuotes sectionToken,
       removeQuotes newSectionToken] w)
  else if name = "remove-ini-section".toList ∧ cmd.length ≥ 2 then
    (tokenAt cmd 1).andThen fun path =>
    (tokenAt cmd 2).andThen fun sectionToken =>
    .ok (perform sys "removeIniSection"
      [sys.preprocessPath path packagePath, removeQuotes sectionToken] w)
  else if name = "remove-ini-key".toList ∧ cmd.length ≥ 3 then
    (tokenAt cmd 1).andThen fun path =>
    (tokenAt cmd 2).andThen fun sectionToken =>
    (tokenAt cmd 3).andThen fun keyToken =>
    .ok (perform sys "removeIniKey"
      [sys.preprocessPath path packagePath, removeQuotes sectionToken,
       removeQuotes keyToken] w)
  else if (name = "set-ini-val".toList ∨ name = "set-ini-value".toList) ∧ cmd.length ≥ 5 then
    (tokenAt cmd 1).andThen fun path =>
    (tokenAt cmd 2).andThen fun sectionToken =>
    (tokenAt cmd 3).andThen fun keyToken =>
    .ok (perform sys "setIniFileValue"
      [sys.preprocessPath path packagePath, removeQuotes sectionToken,
       removeQuotes keyToken, accumulateFrom4 cmd] w)
  else if name = "set-ini-key".toList ∧ cmd.length ≥ 5 then
    (tokenAt cmd 1).andThen fun path =>
    (tokenAt cmd 2).andThen fun sectionToken =>
    (tokenAt cmd 3).andThen fun keyToken =>
    .ok (perform sys "setIniFileKey"
      [sys.preprocessPath path packagePath, removeQuotes sectionToken,
       removeQuotes keyToken, accumulateFrom4 cmd] w)
  else .ok w

/-- The outcome of a call of `downloadFile` or of `unzipFile` (`download_funcs.hpp`), as
far as the state kept here goes: the value returned, the value of the abort flag of the
function (`abortDownload`, `abortUnzip`) when it returns, which the function clears at its
start and another thread may set while it runs, and the lines it logs. -/
structure Transfer where
  /-- The value returned. -/
  success : Bool
  /-- The abort flag of the function when it returns. -/
  abortFlag : Bool
  /-- The lines written by `logMessage` during the call. -/
  log : List Str
deriving DecidableEq, Repr

/-- What `processCommand` takes from outside `utils.hpp`: the collaborators of the handlers,
the parameters of the resolver, constants and globals, string functions of `ultra.hpp`,
reads of the device and of the file system, and the transfers. -/
structure Host where
  /-- The file-system collaborators of the handlers. -/
  sys : Collaborators
  /-- The parameters of the placeholder resolver. -/
  ext : Externals
  /-- The constant `ROOT_PATH`. -/
  ROOT_PATH : Str
  /-- The constant `CONFIG_FILENAME`. -/
  CONFIG_FILENAME : Str
  /-- The constant `FOOTER_STR`. -/
  FOOTER_STR : Str
  /-- The constant `BOOT_PACKAGE_FILENAME`. -/
  BOOT_PACKAGE_FILENAME : Str
  /-- The constant `ULTRAHAND_CONFIG_INI_PATH`. -/
  ULTRAHAND_CONFIG_INI_PATH : Str
  /-- The constant `ULTRAHAND_PROJECT_NAME`. -/
  ULTRAHAND_PROJECT_NAME : Str
  /-- The constant `IN_OVERLAY_STR`. -/
  IN_OVERLAY_STR : Str
  /-- The constant `TRUE_STR`. -/
  TRUE_STR : Str
  /-- The constant `ON_STR`. -/
  ON_STR : Str
  /-- The constant `OFF_STR`. -/
  OFF_STR : Str
  /-- The constant `OVERLAY_PATH`. -/
  OVERLAY_PATH : Str
  /-- The global `logFilePath`. -/
  logFilePath : Str
  /-- The constant `LIST_STR`. -/
  LIST_STR : Str
  /-- The constant `LIST_FILE_STR`. -/
  LIST_FILE_STR : Str
  /-- The constant `HEX_FILE_STR`. -/
  HEX_FILE_STR : Str
  /-- The global `usingErista`. -/
  usingErista : Bool
  /-- The global `usingMariko`. -/
  usingMariko : Bool
  /-- The function `util::IsErista()`. -/
  isErista : Bool
  /-- The function `util::SupportsMarikoRebootToConfig()`. -/
  supportsMarikoRebootToConfig : Bool
  /-- The function `preprocessUrl(path)`. -/
  preprocessUrl : Str → Str
  /-- The function `getNameFromPath(path)`. -/
  getNameFromPath : Str → Str
  /-- The function `isValidNumber(str)`. -/
  isValidNumber : Str → Bool
  /-- The function `decimalToReversedHex`. -/
  decimalToReversedHex : Str → Option Str
  /-- The function `getFilesListByWildcards(pattern)`. -/
  getFilesListByWildcards : World → Str → List Str
  /-- The content of a file as `loadOptionsFromIni` reads it (`none`: it cannot be
  opened). -/
  readFile : World → Str → Option Str
  /-- The function `Payload::LoadHekateConfigList()`, as the names of the entries. -/
  loadHekateConfigList : World → List Str
  /-- The function `Payload::LoadIniConfigList()`, as the names of the entries. -/
  loadIniConfigList : World → List Str
  /-- The function `downloadFile(url, toDestination)`. -/
  downloadFile : World → Str → Str → Transfer
  /-- The function `unzipFile(zipFilePath, toDestination)`. -/
  unzipFile : World → Str → Str → Transfer
  /-- The value returned by `pchtxt2ips(sourcePath, destinationPath)`. -/
  pchtxt2ips : World → Str → Str → Bool
  /-- The value returned by `pchtxt2cheat(sourcePath)`. -/
  pchtxt2cheat : World → Str → Bool

/-- The `for` loop of `handleMirrorCommand` over the entries found by the wildcard. -/
def mirrorLoop (sys : Collaborators) (destinationPath operation : Str) :
    List Str → World → World
  | [], w => w
  | sourceDirectory :: more, w =>
    mirrorLoop sys destinationPath operation more
      (perform sys "mirrorFiles" [sourceDirectory, destinationPath, operation] w)

/-- The function `handleMirrorCommand`; it is called with a command that has a name. -/
def handleMirrorCommand (h : Host) (cmd : Command) (packagePath : Str) (w : World) :
    Run World :=
  match cmd with
  | name :: path :: rest =>
    let sourcePath := h.sys.preprocessPath path packagePath
    let destinationPath := match rest with
      | destination :: _ => h.sys.preprocessPath destination packagePath
      | [] => h.ROOT_PATH
    let operation := if name = "mirror_copy".toList ∨ name = "mirror_cp".toList
      then "copy".toList else "delete".toList
    if !sourcePath.contains '*' then
      .ok (perform h.sys "mirrorFiles" [sourcePath, destinationPath, operation] w)
    else
      .ok (mirrorLoop h.sys destinationPath operation
        (h.getFilesListByWildcards w sourcePath) w)
  | _ => .ok w

/-- The function `std::stoul`: it throws (`none`) when no numeral is read and when the
magnitude of the numeral is not below `2 ^ 64`; a negative numeral wraps, as `strtoul`
negates it in the unsigned type. -/
def stoul (s : Str) : Option Nat :=
  match readNumeral s with
  | some v => if v.natAbs < 2 ^ 64 then some (toSizeT v) else none
  | none => none

/-- The tail shared by the branches of `handleHexEdit` that search and replace: with five
tokens or more the occurrence is read from `cmd[4]`, else the call takes its default. -/
def hexFindReplace (h : Host) (sourcePath hexDataToReplace hexDataReplacement : Str)
    (cmd : Command) (w : World) : Run World :=
  if cmd.length ≥ 5 then
    (tokenAt cmd 4).andThen fun token =>
    match stoul (h.ext.removeQuotes token) with
    | some occurrence =>
      .ok (perform h.sys "hexEditFindReplace"
        [sourcePath, hexDataToReplace, hexDataReplacement, to_string occurrence] w)
    | none => .fault
  else
    .ok (perform h.sys "hexEditFindReplace"
      [sourcePath, hexDataToReplace, hexDataReplacement] w)

/-- The padding of `hex-by-string`: the shorter of the two texts is filled with NUL
characters to the length of the longer. -/
def padToLength (s : Str) (n : Nat) : Str := s ++ List.replicate (n - s.length) (Char.ofNat 0)

/-- The function `handleHexEdit`. A conversion that gives no text is taken as a call that
does not return. -/
def handleHexEdit (h : Host) (sourcePath secondArg thirdArg commandName : Str)
    (cmd : Command) (w : World) : Run World :=
  if commandName = "hex-by-offset".toList then
    .ok (perform h.sys "hexEditByOffset" [sourcePath, secondArg, thirdArg] w)
  else if commandName = "hex-by-swap".toList then
    hexFindReplace h sourcePath secondArg thirdArg cmd w
  else if commandName = "hex-by-string".toList then
    match h.ext.asciiToHex secondArg, h.ext.asciiToHex thirdArg with
    | some hexDataToReplace, some hexDataReplacement =>
      hexFindReplace h sourcePath
        (padToLength hexDataToReplace hexDataReplacement.length)
        (padToLength hexDataReplacement hexDataToReplace.length) cmd w
    | _, _ => .fault
  else if commandName = "hex-by-decimal".toList then
    match h.ext.decimalToHex secondArg, h.ext.decimalToHex thirdArg with
    | some hexDataToReplace, some hexDataReplacement =>
      hexFindReplace h sourcePath hexDataToReplace hexDataReplacement cmd w
    | _, _ => .fault
  else if commandName = "hex-by-rdecimal".toList then
    match h.decimalToReversedHex secondArg, h.decimalToReversedHex thirdArg with
    | some hexDataToReplace, some hexDataReplacement =>
      hexFindReplace h sourcePath hexDataToReplace hexDataReplacement cmd w
    | _, _ => .fault
  else .ok w

/-- The function `handleHexByCustom`. -/
def handleHexByCustom (h : Host) (sourcePath customPattern offset hexDataReplacement
    commandName : Str) (w : World) : Run World :=
  if hexDataReplacement ≠ h.ext.NULL_STR then
    let converted :=
      if commandName = "hex-by-custom-decimal-offset".toList then
        h.ext.decimalToHex hexDataReplacement
      else if commandName = "hex-by-custom-rdecimal-offset".toList then
        h.decimalToReversedHex hexDataReplacement
      else some hexDataReplacement
    match converted with
    | some replacement =>
      .ok (perform h.sys "hexEditByCustomOffset"
        [sourcePath, customPattern, offset, replacement] w)
    | none => .fault
  else .ok w

/-- The branch of `processCommand` for the names that start with `hex-by-`. -/
def processHexCommand (h : Host) (commandName : Str) (cmd : Command) (packagePath : Str)
    (w : World) : Run World :=
  if cmd.length ≥ 4 then
    (tokenAt cmd 1).andThen fun path =>
    (tokenAt cmd 2).andThen fun second =>
    (tokenAt cmd 3).andThen fun third =>
    let sourcePath := h.sys.preprocessPath path packagePath
    let secondArg := h.ext.removeQuotes second
    let thirdArg := h.ext.removeQuotes third
    if commandName = "hex-by-custom-offset".toList ∨
        commandName = "hex-by-custom-decimal-offset".toList ∨
        commandName = "hex-by-custom-rdecimal-offset".toList then
      if cmd.length ≥ 5 then
        (tokenAt cmd 4).andThen fun fourth =>
        handleHexByCustom h sourcePath (h.ext.removeQuotes second)
          (h.ext.removeQuotes third) (h.ext.removeQuotes fourth) commandName w
      else .ok w
    else handleHexEdit h sourcePath secondArg thirdArg commandName cmd w
  else .ok w

/-- The text of a `bool` argument in the record of a call. -/
def boolText (b : Bool) : Str := if b then "true".toList else "false".toList

/-- The function `rebootToHekateConfig`, on the names of the entries of the list. An option
of digits only (the empty option included) goes through `std::stoi` and `std::advance`;
the entry is then read without a test of the index against the size. -/
def rebootToHekateConfig (h : Host) (configList : List Str) (option : Str) (isIni : Bool)
    (w : World) : Run World :=
  if option.all isdigit then
    match stoi option with
    | none => .fault
    | some rebootIndex =>
      match configList[rebootIndex.toNat]? with
      | some entry =>
        .ok (perform h.sys "Payload::RebootToHekateConfig" [entry, boolText isIni] w)
      | none => .fault
  else
    match configList.find? (fun name => name = option) with
    | some entry =>
      .ok (perform h.sys "Payload::RebootToHekateConfig" [entry, boolText isIni] w)
    | none => .ok w

/-- The branch of `processCommand` for `reboot`. The calls that restart the console are
recorded like every other call and taken to return. -/
def processRebootCommand (h : Host) (cmd : Command) (w : World) : Run World :=
  let afterOption : Run World :=
    if h.isErista || h.supportsMarikoRebootToConfig then
      match cmd[1]? with
      | some token =>
        let rebootOption := h.ext.removeQuotes token
        let afterConfig : Run World :=
          match cmd[2]? with
          | some optionToken =>
            let option := h.ext.removeQuotes optionToken
            if rebootOption = "boot".toList then
              rebootToHekateConfig h (h.loadHekateConfigList w) option false w
            else if rebootOption = "ini".toList then
              rebootToHekateConfig h (h.loadIniConfigList w) option true w
            else .ok w
          | none => .ok w
        afterConfig.andThen fun w1 =>
        let afterTarget : Run World :=
          if rebootOption = "UMS".toList then
            .ok (perform h.sys "Payload::RebootToHekateUMS" ["UmsTarget_Sd".toList] w1)
          else if rebootOption = "HEKATE".toList ∨ rebootOption = "hekate".toList then
            .ok (perform h.sys "Payload::RebootToHekateMenu" [] w1)
          else if h.sys.isFileOrDirectory w1 rebootOption then
            let fileName := h.getNameFromPath rebootOption
            if h.isErista then
              .ok (perform h.sys "Payload::RebootToPayload" [fileName, rebootOption] w1)
            else
              let w2 := perform h.sys "setIniFileValue"
                ["/bootloader/ini/".toList ++ fileName ++ ".ini".toList, fileName,
                 "payload".toList, rebootOption] w1
              rebootToHekateConfig h (h.loadIniConfigList w2) fileName true w2
          else .ok w1
        afterTarget.andThen fun w3 =>
        if rebootOption.isEmpty then .ok (perform h.sys "Payload::RebootToHekate" [] w3)
        else .ok w3
      | none => .ok (perform h.sys "Payload::RebootToHekate" [] w)
    else .ok w
  afterOption.andThen fun w4 =>
  .ok (perform h.sys "spsmShutdown" ["SpsmShutdownMode_Reboot".toList]
    (perform h.sys "fsdevUnmountAll" [] (perform h.sys "splExit" []
      (perform h.sys "i2cExit" [] w4))))

/-- One call of `downloadFile`: the call is recorded, its lines are logged and
`abortDownload` has the value the call leaves; the value returned comes with the state. -/
def downloadFile (h : Host) (url toDestination : Str) (w : World) : Bool × World :=
  let outcome := h.downloadFile w url toDestination
  (outcome.success,
   { invoke "downloadFile" [url, toDestination] w with
     abortDownload := outcome.abortFlag, log := w.log ++ outcome.log })

/-- One call of `unzipFile`, like `downloadFile`, with the flag `abortUnzip`. -/
def unzipFile (h : Host) (zipFilePath toDestination : Str) (w : World) : Bool × World :=
  let outcome := h.unzipFile w zipFilePath toDestination
  (outcome.success,
   { invoke "unzipFile" [zipFilePath, toDestination] w with
     abortUnzip := outcome.abortFlag, log := w.log ++ outcome.log })

/-- The `for (size_t i = 0; i < 3; ++i)` loop of the `download` branch, with `attempts`
rounds left: the value of `downloadSuccess` after the loop and the state. With no round
left the last attempt, if any, has returned `false`. -/
def downloadLoop (h : Host) (fileUrl destinationPath : Str) : Nat → World → Bool × World
  | 0, w => (false, w)
  | attempts + 1, w =>
    let attempt := downloadFile h fileUrl destinationPath w
    if attempt.2.abortDownload then (false, attempt.2)
    else if attempt.1 then (true, attempt.2)
    else downloadLoop h fileUrl destinationPath attempts attempt.2

/-- The engine that an `exec` command runs the section with: the constants and globals of
the host and the given dispatcher. -/
def engineOf (h : Host) (dispatch : Command → Str → Str → World → Run World) : Engine :=
  { ext := h.ext, LIST_STR := h.LIST_STR, LIST_FILE_STR := h.LIST_FILE_STR,
    HEX_FILE_STR := h.HEX_FILE_STR, usingErista := h.usingErista,
    usingMariko := h.usingMariko, preprocessPath := h.sys.preprocessPath,
    processCommand := dispatch }

/-- The branch of `processCommand` for `exec`; `dispatch` is the dispatcher of the run of
the section, `fuel` the fuel of its resolver. The run of the section ends by using up the
list, by `break` or by the `return` of an abort; in each case `exec` goes on after the
call. -/
def processExecCommand (h : Host) (fuel : Nat)
    (dispatch : Command → Str → Str → World → Run World) (cmd : Command)
    (packagePath : Str) (w : World) : Run World :=
  match cmd[1]? with
  | some token =>
    let bootCommandName := h.ext.removeQuotes token
    if h.sys.isFileOrDirectory w (packagePath ++ h.BOOT_PACKAGE_FILENAME) then
      let bootOptions := loadOptionsFromIni (h.readFile w (packagePath ++ h.BOOT_PACKAGE_FILENAME))
      match bootOptions.find? (fun bootOption => bootOption.1 = bootCommandName) with
      | some bootOption =>
        let resetCommandSuccess := !w.commandSuccess
        match interpretAndExecuteCommands (engineOf h dispatch) fuel bootOption.2 packagePath
            bootOption.1 w with
        | .next st =>
          .ok (if resetCommandSuccess then { st.world with commandSuccess := false }
            else st.world)
        | .stop st =>
          .ok (if resetCommandSuccess then { st.world with commandSuccess := false }
            else st.world)
        | .fault => .fault
        | .outOfFuel => .outOfFuel
      | none => .ok w
    else .ok w
  | none => .ok w

/-- The body of `processCommand`, with the dispatcher of the runs that `exec` starts as a
parameter. The read of `cmd[0]` at the start is out of range for a command without
tokens. -/
def processCommandWith (h : Host) (fuel : Nat)
    (dispatch : Command → Str → Str → World → Run World) (cmd : Command)
    (packagePath selectedCommand : Str) (w : World) : Run World :=
  match cmd with
  | [] => .fault
  | commandName :: _ =>
    if commandName = "mkdir".toList ∨ commandName = "make".toList then
      handleMakeDirCommand h.sys cmd packagePath w
    else if commandName = "cp".toList ∨ commandName = "copy".toList then
      handleCopyCommand h.sys cmd packagePath w
    else if commandName = "del".toList ∨ commandName = "delete".toList then
      handleDeleteCommand h.sys h.ROOT_PATH cmd packagePath w
    else if substr commandName 0 (some 7) = "mirror_".toList then
      handleMirrorCommand h cmd packagePath w
    else if commandName = "mv".toList ∨ commandName = "move".toList ∨
        commandName = "rename".toList then
      handleMoveCommand h.sys h.ROOT_PATH cmd packagePath w
    else if commandName = "add-ini-section".toList ∨
        commandName = "rename-ini-section".toList ∨
        commandName = "remove-ini-section".toList ∨ commandName = "remove-ini-key".toList ∨
        commandName = "set-ini-val".toList ∨ commandName = "set-ini-value".toList ∨
        commandName = "set-ini-key".toList then
      handleIniCommands h.sys h.ext.removeQuotes cmd packagePath w
    else if commandName = "set-footer".toList then
      match cmd[1]? with
      | some token =>
        .ok (perform h.sys "setIniFileValue"
          [packagePath ++ h.CONFIG_FILENAME, selectedCommand, h.FOOTER_STR,
           h.ext.removeQuotes token] w)
      | none => .ok w
    else if commandName = "compare".toList then
      match cmd[1]?, cmd[2]?, cmd[3]? with
      | some first, some second, some third =>
        let path1 := h.sys.preprocessPath first packagePath
        let path2 := h.sys.preprocessPath second packagePath
        let outputPath := h.sys.preprocessPath third packagePath
        if path1.contains '*' then
          .ok (perform h.sys "compareWildcardFilesLists" [path1, path2, outputPath] w)
        else .ok (perform h.sys "compareFilesLists" [path1, path2, outputPath] w)
      | _, _, _ => .ok w
    else if substr commandName 0 (some 7) = "hex-by-".toList then
      processHexCommand h commandName cmd packagePath w
    else if commandName = "download".toList then
      match cmd[1]?, cmd[2]? with
      | some first, some second =>
        let fileUrl := h.preprocessUrl first
        let destinationPath := h.sys.preprocessPath second packagePath
        let done := downloadLoop h fileUrl destinationPath 3 w
        .ok { done.2 with commandSuccess := done.1 && done.2.commandSuccess }
      | _, _ => .ok w
    else if commandName = "unzip".toList then
      match cmd[1]?, cmd[2]? with
      | some first, some second =>
        let done := unzipFile h (h.sys.preprocessPath first packagePath)
          (h.sys.preprocessPath second packagePath) w
        .ok { done.2 with commandSuccess := done.1 && done.2.commandSuccess }
      | _, _ => .ok w
    else if commandName = "pchtxt2ips".toList then
      match cmd[1]?, cmd[2]? with
      | some first, some second =>
        let sourcePath := h.sys.preprocessPath first packagePath
        let destinationPath := h.sys.preprocessPath second packagePath
        let w1 := perform h.sys "pchtxt2ips" [sourcePath, destinationPath] w
        .ok { w1 with
          commandSuccess := h.pchtxt2ips w sourcePath destinationPath && w1.commandSuccess }
      | _, _ => .ok w
    else if commandName = "pchtxt2cheat".toList then
      match cmd[1]? with
      | some first =>
        let sourcePath := h.sys.preprocessPath first packagePath
        let w1 := perform h.sys "pchtxt2cheat" [sourcePath] w
        .ok { w1 with commandSuccess := h.pchtxt2cheat w sourcePath && w1.commandSuccess }
      | none => .ok w
    else if commandName = "exec".toList then
      processExecCommand h fuel dispatch cmd packagePath w
    else if commandName = "reboot".toList then
      processRebootCommand h cmd w
    else if commandName = "shutdown".toList then
      .ok (perform h.sys "spsmShutdown" ["SpsmShutdownMode_Normal".toList]
        (perform h.sys "fsdevUnmountAll" [] (perform h.sys "splExit" [] w)))
    else if commandName = "exit".toList then
      let w1 :=
        match cmd[1]? with
        | some token =>
          let selection := h.ext.removeQuotes token
          if selection = "overlays".toList then
            perform h.sys "setIniFileValue"
              [h.ULTRAHAND_CONFIG_INI_PATH, h.ULTRAHAND_PROJECT_NAME, h.IN_OVERLAY_STR,
               h.TRUE_STR] w
          else if selection = "packages".toList then
            perform h.sys "setIniFileValue"
              [h.ULTRAHAND_CONFIG_INI_PATH, h.ULTRAHAND_PROJECT_NAME, h.IN_OVERLAY_STR,
               h.TRUE_STR]
              (perform h.sys "setIniFileValue"
                [h.ULTRAHAND_CONFIG_INI_PATH, h.ULTRAHAND_PROJECT_NAME,
                 "to_packages".toList, h.TRUE_STR] w)
          else w
        | none => w
      .ok (perform h.sys "tsl::Overlay::close" []
        (perform h.sys "tsl::setNextOverlay" [h.OVERLAY_PATH ++ "ovlmenu.ovl".toList] w1))
    else if commandName = "backlight".toList then
      match cmd[1]? with
      | some token =>
        let togglePattern := h.ext.removeQuotes token
        let w1 := perform h.sys "lblInitialize" [] w
        let w2 :=
          if togglePattern = h.ON_STR then perform h.sys "lblSwitchBacklightOn" [] w1
          else if togglePattern = h.OFF_STR then perform h.sys "lblSwitchBacklightOff" [] w1
          else if h.isValidNumber togglePattern then
            perform h.sys "lblSetCurrentBrightnessSetting" [togglePattern] w1
          else w1
        .ok (perform h.sys "lblExit" [] w2)
      | none => .ok w
    else if commandName = "refresh".toList then
      match cmd[1]? with
      | none => .ok { w with refreshPage := true }
      | some token =>
        let refreshPattern := h.ext.removeQuotes token
        if refreshPattern = "theme".toList then
          .ok (perform h.sys "tsl::initializeThemeVars" [] w)
        else if refreshPattern = "package".toList then .ok { w with refreshPackage := true }
        else if refreshPattern = "wallpaper".toList then
          .ok (perform h.sys "reloadWallpaper" [] w)
        else .ok w
    else if commandName = "logging".toList then
      .ok { w with interpreterLogging := !w.interpreterLogging }
    else if commandName = "clear".toList then
      match cmd[1]? with
      | some token =>
        let clearOption := h.ext.removeQuotes token
        if clearOption = "log".toList then
          .ok (perform h.sys "deleteFileOrDirectory" [h.logFilePath] w)
        else if clearOption = "hex_sum_cache".toList then
          .ok (perform h.sys "hexSumCache.clear" [] w)
        else .ok w
      | none => .ok w
    else .ok w

/-- The function `processCommand`. An `exec` command runs its section with
`processCommand` again; `depth` bounds the nesting of such runs in the model, and `fuel`
is the fuel of the resolver in them. -/
def processCommand (h : Host) (fuel : Nat) :
    Nat → Command → Str → Str → World → Run World
  | 0 => processCommandWith h fuel (fun _ _ _ _ => .outOfFuel)
  | depth + 1 => processCommandWith h fuel (processCommand h fuel depth)

/-- Sample collaborators with two list files: `src.txt` holds three entries, every other
list file two. -/
def listCollaborators : Collaborators :=
  { sampleCollaborators with
    readListFromFile := fun _ path =>
      if path = "src.txt".toList then ["a".toList, "b".toList, "c".toList]
      else ["x".toList, "y".toList] }

/-- A transfer that fails without a log line and leaves the abort flag clear. -/
def failedTransfer : Transfer := { success := false, abortFlag := false, log := [] }

/-- A sample host for evaluating `processCommand`: the sample collaborators and resolver
parameters, the SD card root, a boot package with the section `boot` holding the command
`logging`, the section `stop` holding the commands `try:`, `refresh`, `try:` and the
section `fail` holding an unzip; a download succeeds at the third call, an unzip fails. -/
def sampleHost : Host :=
  { sys := sampleCollaborators,
    ext := sampleExternals,
    ROOT_PATH := "sdmc:/".toList,
    CONFIG_FILENAME := "config.ini".toList,
    FOOTER_STR := "footer".toList,
    BOOT_PACKAGE_FILENAME := "boot_package.ini".toList,
    ULTRAHAND_CONFIG_INI_PATH := "sdmc:/config/ultrahand/config.ini".toList,
    ULTRAHAND_PROJECT_NAME := "ultrahand".toList,
    IN_OVERLAY_STR := "in_overlay".toList,
    TRUE_STR := "true".toList,
    ON_STR := "on".toList,
    OFF_STR := "off".toList,
    OVERLAY_PATH := "sdmc:/switch/.overlays/".toList,
    logFilePath := "sdmc:/config/ultrahand/log.txt".toList,
    LIST_STR := "list".toList,
    LIST_FILE_STR := "list_file".toList,
    HEX_FILE_STR := "hex_file".toList,
    usingErista := true,
    usingMariko := false,
    isErista := true,
    supportsMarikoRebootToConfig := false,
    preprocessUrl := fun url => url,
    getNameFromPath := fun path => path,
    isValidNumber := fun s => s.all isdigit,
    decimalToReversedHex := fun s => some s,
    getFilesListByWildcards := fun _ _ => [],
    readFile := fun _ _ => some "[boot]\nlogging\n[stop]\ntry:\nrefresh\ntry:\n[fail]\nunzip a b\n".toList,
    loadHekateConfigList := fun _ => [],
    loadIniConfigList := fun _ => [],
    downloadFile := fun w _ _ =>
      { success := decide (w.calls.length ≥ 2), abortFlag := false, log := [] },
    unzipFile := fun _ _ _ => failedTransfer,
    pchtxt2ips := fun _ _ _ => true,
    pchtxt2cheat := fun _ _ => true }

/-- The value returned by the `k`-th of `k` consecutive calls of `downloadFile` (`false`
when `k` is 0) and the state after it. -/
def downloadAttempts (h : Host) (fileUrl destinationPath : Str) : Nat → World → Bool × World
  | 0, w => (false, w)
  | k + 1, w => downloadFile h fileUrl destinationPath
      (downloadAttempts h fileUrl destinationPath k w).2

/-! ## Background worker (`backgroundInterpreter`) -/

/-- An entry of `interpreterQueue`: the commands, the package path and the selected
command. -/
structure Job where
  /-- The command list of the job. -/
  commands : List Command
  /-- The package path of the job. -/
  packagePath : Str
  /-- The selected command of the job. -/
  selectedCommand : Str
deriving DecidableEq, Repr

/-- The function `clearInterpreterFlags()`, on the flags kept in the state (`abortFileOp` is
not among them). -/
def clearInterpreterFlags (w : World) : World :=
  { w with abortDownload := false, abortUnzip := false, abortCommand := false }

/-- How a start of the worker ends in the sequential model, in which no other thread
touches the queue or the exit flag while the worker runs. -/
inductive WorkerOutcome where
  /-- The loop was left: the jobs still in the queue, the jobs run, and the state. -/
  | exited (queue : List Job) (ran : List Job) (w : World)
  /-- The worker blocks in `queueCondition.wait` on an empty queue with no exit
  requested. -/
  | waiting (ran : List Job) (w : World)
  /-- A call did not return normally. -/
  | fault
  /-- The fuel of the resolver ran out. -/
  | outOfFuel
deriving DecidableEq, Repr

/-- The loop `while (!interpreterThreadExit)` of `backgroundInterpreter`, from the queue
and the exit flag at the loop test. A round pops the front job; a job with commands is
run between two calls of `clearInterpreterFlags`, after which the worker stores `true` in
`interpreterThreadExit` (the stores to the percentages, to `threadFailure` and to
`runningInterpreter` touch nothing kept here). -/
def backgroundInterpreter (eng : Engine) (fuel : Nat) :
    List Job → Bool → List Job → World → WorkerOutcome
  | queue, true, ran, w => .exited queue ran w
  | [], false, ran, w => .waiting ran w
  | job :: queue, false, ran, w =>
    if !job.commands.isEmpty then
      match interpretAndExecuteCommands eng fuel job.commands job.packagePath
          job.selectedCommand (clearInterpreterFlags w) with
      | .next st =>
        backgroundInterpreter eng fuel queue true (ran ++ [job])
          (clearInterpreterFlags st.world)
      | .stop st =>
        backgroundInterpreter eng fuel queue true (ran ++ [job])
          (clearInterpreterFlags st.world)
      | .fault => .fault
      | .outOfFuel => .outOfFuel
    else backgroundInterpreter eng fuel queue false ran w

/-! ## Source-replacement expander (`getSourceReplacement`) -/

/-- What `getSourceReplacement` takes from outside `utils.hpp`: the parameters of the
resolver, string and path functions of `ultra.hpp`, and the platform. -/
structure Expander where
  /-- The parameters of the placeholder resolver. -/
  ext : Externals
  /-- The function `stringToLowercase(str)`. -/
  stringToLowercase : Str → Str
  /-- The function `isDirectory(path)`. -/
  isDirectory : Str → Bool
  /-- The function `getNameFromPath(path)`. -/
  getNameFromPath : Str → Str
  /-- The function `dropExtension(name)`. -/
  dropExtension : Str → Str
  /-- The function `getParentDirNameFromPath(path)`. -/
  getParentDirNameFromPath : Str → Str
  /-- The function `preprocessPath(path, packagePath)`. -/
  preprocessPath : Str → Str → Str
  /-- The global `usingErista`. -/
  usingErista : Bool
  /-- The global `usingMariko`. -/
  usingMariko : Bool

/-- The locals of `getSourceReplacement` that its loop updates, and the global
`isDownloadCommand`. -/
structure ExpanderState where
  /-- The local `inEristaSection`. -/
  inEristaSection : Bool
  /-- The local `inMarikoSection`. -/
  inMarikoSection : Bool
  /-- The local `usingFileSource`. -/
  usingFileSource : Bool
  /-- The global `isDownloadCommand`. -/
  isDownloadCommand : Bool
  /-- The local `listString`. -/
  listString : Str
  /-- The local `listPath`. -/
  listPath : Str
  /-- The local `jsonString`. -/
  jsonString : Str
  /-- The local `jsonPath`. -/
  jsonPath : Str
  /-- The local `iniPath`. -/
  iniPath : Str
  /-- The local `modifiedCommands`. -/
  modifiedCommands : List Command
deriving DecidableEq, Repr

/-- The local `fileName` of `getSourceReplacement`. -/
def entryFileName (x : Expander) (entry : Str) : Str :=
  if x.isDirectory entry then x.getNameFromPath entry
  else x.dropExtension (x.getNameFromPath entry)

/-- The chain of tests on `commandName` at the start of the loop over the arguments: a
`file_source` command sets `usingFileSource`, a source declaration sets its binding from
`cmd[1]` while the binding is empty. The read of `cmd[1]` is not checked. -/
def declareSource (x : Expander) (packagePath : Str) (cmd : Command) (commandName : Str)
    (st : ExpanderState) : Run ExpanderState :=
  if commandName = "file_source".toList then .ok { st with usingFileSource := true }
  else if commandName = "list_source".toList ∧ st.listString.isEmpty then
    (tokenAt cmd 1).andThen fun token =>
      .ok { st with listString := x.ext.removeQuotes token }
  else if commandName = "list_file_source".toList ∧ st.listPath.isEmpty then
    (tokenAt cmd 1).andThen fun token =>
      .ok { st with listPath := x.preprocessPath token packagePath }
  else if commandName = "ini_file_source".toList ∧ st.iniPath.isEmpty then
    (tokenAt cmd 1).andThen fun token =>
      .ok { st with iniPath := x.preprocessPath token packagePath }
  else if commandName = "json_source".toList ∧ st.jsonString.isEmpty then
    (tokenAt cmd 1).andThen fun token => .ok { st with jsonString := token }
  else if commandName = "json_file_source".toList ∧ st.jsonPath.isEmpty then
    (tokenAt cmd 1).andThen fun token =>
      .ok { st with jsonPath := x.preprocessPath token packagePath }
  else .ok st

/-- One of the five blocks of `getSourceReplacement` that resolve an entry-indexed marker
with the opener `opener`: the first star becomes the decimal `entryIndex`, and when a
closing `)}` stands after the opener the text from the opener through the closing is
replaced by the value of `lookup` (given the argument, `startPos` and `endPos`), or by
`NULL_STR` when that is empty. A `lookup` without a defined result is `none`. -/
def resolveIndexed (NULL_STR opener : Str) (entryIndex : Nat)
    (lookup : Str → Nat → Nat → Option Str) (modifiedArg : Str) : Run Str :=
  if (find modifiedArg opener).isSome then
    let starred := replacePlaceholder modifiedArg "*".toList (to_string entryIndex)
    match find starred opener, find starred closeStr with
    | some startPos, some endPos =>
      if endPos > startPos then
        match lookup starred startPos endPos with
        | some value =>
          .ok (replace starred startPos (endPos - startPos + 2)
            (if value.isEmpty then NULL_STR else value))
        | none => .fault
      else .ok starred
    | _, _ => .ok starred
  else .ok modifiedArg

/-- The body of the loop over the arguments of a command in `getSourceReplacement`, from
the three calls of `replaceAllPlaceholders` on: the argument `arg` with the markers of the
entry resolved. -/
def expandArgument (x : Expander) (fuel : Nat) (entry : Str) (entryIndex : Nat)
    (st : ExpanderState) (arg : Str) : Run Str :=
  (replaceAllPlaceholders fuel arg "\x7bfile_source\x7d".toList entry).andThen fun a1 =>
  (replaceAllPlaceholders fuel a1 "\x7bfile_name\x7d".toList
    (entryFileName x entry)).andThen fun a2 =>
  (replaceAllPlaceholders fuel a2 "\x7bfolder_name\x7d".toList
    (x.ext.removeQuotes (x.getParentDirNameFromPath entry))).andThen fun a3 =>
  (resolveIndexed x.ext.NULL_STR "\x7blist_source(".toList entryIndex
    (fun _ _ _ => (x.ext.stringToList st.listString)[entryIndex]?) a3).andThen fun a4 =>
  (resolveIndexed x.ext.NULL_STR "\x7blist_file_source(".toList entryIndex
    (fun _ _ _ => some (x.ext.getEntryFromListFile st.listPath entryIndex))
    a4).andThen fun a5 =>
  (resolveIndexed x.ext.NULL_STR "\x7bini_file_source(".toList entryIndex
    (fun starred _ _ => replaceIniPlaceholder x.ext starred "ini_file_source".toList
      st.iniPath) a5).andThen fun a6 =>
  (resolveIndexed x.ext.NULL_STR "\x7bjson_source(".toList entryIndex
    (fun starred startPos endPos => x.ext.replaceJsonPlaceholder
      (substr starred startPos (some (endPos - startPos + 2))) "json_source".toList
      st.jsonString) a6).andThen fun a7 =>
  resolveIndexed x.ext.NULL_STR "\x7bjson_file_source(".toList entryIndex
    (fun starred startPos endPos => x.ext.replaceJsonPlaceholder
      (substr starred startPos (some (endPos - startPos + 2))) "json_file_source".toList
      st.jsonPath) a7

/-- The loop `for (const auto& arg : cmd)` of `getSourceReplacement`, over the arguments
that remain, with `modifiedCmd` so far. -/
def expandArguments (x : Expander) (fuel : Nat) (entry : Str) (entryIndex : Nat)
    (packagePath : Str) (cmd : Command) (commandName : Str) :
    List Str → ExpanderState → Command → Run (ExpanderState × Command)
  | [], st, modifiedCmd => .ok (st, modifiedCmd)
  | arg :: args, st, modifiedCmd =>
    (declareSource x packagePath cmd commandName st).andThen fun st1 =>
    (expandArgument x fuel entry entryIndex st1 arg).andThen fun modifiedArg =>
    expandArguments x fuel entry entryIndex packagePath cmd commandName args st1
      (modifiedCmd ++ [modifiedArg])

/-- The test of `getSourceReplacement` on the platform flags:
`(inEristaSection && usingErista) || (inMarikoSection && usingMariko) ||
(!inEristaSection && !inMarikoSection)`. -/
def expanderGateOpen (x : Expander) (st : ExpanderState) : Bool :=
  (st.inEristaSection && x.usingErista) || (st.inMarikoSection && x.usingMariko) ||
  (!st.inEristaSection && !st.inMarikoSection)

/-- The body of the loop over the commands in `getSourceReplacement`, for the command
`cmd`. -/
def expandCommand (x : Expander) (fuel : Nat) (entry : Str) (entryIndex : Nat)
    (packagePath : Str) (st : ExpanderState) (cmd : Command) : Run ExpanderState :=
  match cmd with
  | [] => .ok st
  | commandName :: _ =>
    let st1 := if commandName = "download".toList then { st with isDownloadCommand := true }
      else st
    if x.stringToLowercase commandName = "erista:".toList then
      .ok { st1 with inEristaSection := true, inMarikoSection := false }
    else if x.stringToLowercase commandName = "mariko:".toList then
      .ok { st1 with inEristaSection := false, inMarikoSection := true }
    else if expanderGateOpen x st1 then
      (expandArguments x fuel entry entryIndex packagePath cmd commandName cmd st1
        []).andThen fun done =>
      .ok { done.1 with modifiedCommands := done.1.modifiedCommands ++ [done.2] }
    else .ok st1

/-- The loop `for (const auto& cmd : commands)` of `getSourceReplacement`. -/
def expandCommands (x : Expander) (fuel : Nat) (entry : Str) (entryIndex : Nat)
    (packagePath : Str) : List Command → ExpanderState → Run ExpanderState
  | [], st => .ok st
  | cmd :: rest, st =>
    (expandCommand x fuel entry entryIndex packagePath st cmd).andThen fun st1 =>
    expandCommands x fuel entry entryIndex packagePath rest st1

/-- The state in which the loop of `getSourceReplacement` starts; the global
`isDownloadCommand` has the value it had. -/
def initialExpanderState (isDownloadCommand : Bool) : ExpanderState :=
  { inEristaSection := false, inMarikoSection := false, usingFileSource := false,
    isDownloadCommand := isDownloadCommand, listString := [], listPath := [],
    jsonString := [], jsonPath := [], iniPath := [], modifiedCommands := [] }

/-- The function `getSourceReplacement`: the commands returned. `fuel` bounds the rounds
of each call of `replaceAllPlaceholders`. -/
def getSourceReplacement (x : Expander) (fuel : Nat) (commands : List Command)
    (entry : Str) (entryIndex : Nat) (packagePath : Str) : Run (List Command) :=
  (expandCommands x fuel entry entryIndex packagePath commands
    (initialExpanderState false)).andThen fun st =>
  if st.usingFileSource then
    .ok (["file_name".toList, entryFileName x entry] :: st.modifiedCommands)
  else .ok st.modifiedCommands

/-- The updates of `inEristaSection` and `inMarikoSection` in the loop of
`interpretAndExecuteCommands`, for one command: the name is compared as it is. -/
def interpreterGate (gate : Bool × Bool) (cmd : Command) : Bool × Bool :=
  match cmd with
  | [] => gate
  | commandName :: _ =>
    if commandName = "erista:".toList then (true, false)
    else if commandName = "mariko:".toList then (false, true)
    else gate

/-- Whether `getSourceReplacement` keeps the command `cmd` in its output, for the platform
flags `gate` that the commands before it leave: the command has a name whose lower-case
form is not a gate marker, and the platform test holds. -/
def keptCommand (stringToLowercase : Str → Str) (usingErista usingMariko : Bool)
    (gate : Bool × Bool) (cmd : Command) : Bool :=
  match cmd with
  | [] => false
  | commandName :: _ =>
    !(stringToLowercase commandName = "erista:".toList) &&
    !(stringToLowercase commandName = "mariko:".toList) &&
    ((gate.1 && usingErista) || (gate.2 && usingMariko) || (!gate.1 && !gate.2))

/-- For each position of a command list, whether `getSourceReplacement` keeps the command
there in its output. -/
def keptBySourceReplacement (stringToLowercase : Str → Str) (usingErista usingMariko : Bool) :
    Bool × Bool → List Command → List Bool
  | _, [] => []
  | gate, cmd :: rest =>
    keptCommand stringToLowercase usingErista usingMariko gate cmd ::
    keptBySourceReplacement stringToLowercase usingErista usingMariko
      (sourceReplacementGate stringToLowercase gate cmd) rest

/-- Modelled from the spec: `stringToLowercase` is defined in `ultra.hpp`, which is not
among the sources; by its name, and by the specification counting `ERISTA:` and `Mariko:`
as gate markers of the expander, it maps the letters `A` to `Z` to `a` to `z` and leaves
every other character. -/
def stringToLowercase (s : Str) : Str :=
  s.map fun c => if 65 ≤ c.toNat ∧ c.toNat ≤ 90 then Char.ofNat (c.toNat + 32) else c

/-- A sample expander for evaluating `getSourceReplacement`, on a Mariko console: the
sample resolver parameters, the name of a path is the text after its last slash, the
extension starts at the last dot, the parent directory is `dir`. -/
def sampleExpander : Expander :=
  { ext := sampleExternals,
    stringToLowercase := stringToLowercase,
    isDirectory := fun _ => false,
    getNameFromPath := fun path =>
      match findLastOf path '/' with
      | some pos => path.drop (pos + 1)
      | none => path,
    dropExtension := fun name =>
      match findLastOf name '.' with
      | some pos => name.take pos
      | none => name,
    getParentDirNameFromPath := fun _ => "dir".toList,
    preprocessPath := fun path _ => path,
    usingErista := false,
    usingMariko := true }

/-- The sample expander with an INI collaborator whose file holds the three sections
`first`, `second` and `third`. -/
def iniExpander : Expander :=
  { sampleExpander with
    ext := { sampleExternals with
      parseSectionsFromIni := fun _ => ["first".toList, "second".toList, "third".toList] } }

/-! ## Archive extraction: the sanitisation of an extracted path -/

/-- The loop of `unzipFile` over the colons after the first one,
`while (colonPos != npos) \x7b extractedFilePath[colonPos] = (space);
colonPos = extractedFilePath.find((colon), colonPos + 1); \x7d`, entered with the position
found before the loop. -/
def unzipFileColonLoop : Nat → Str → Option Nat → Run Str
  | 0, _, _ => .outOfFuel
  | fuel + 1, extractedFilePath, colonPos =>
    match colonPos with
    | none => .ok extractedFilePath
    | some p =>
      let written := extractedFilePath.set p ' '
      unzipFileColonLoop fuel written (findFrom written [':'] (p + 1))

/-- The loop of `unzipFile` over the double spaces,
`while (pos != npos) \x7b extractedFilePath.replace(pos, 2, (one space));
pos = extractedFilePath.find((two spaces), pos + 1); \x7d`, entered with the position found
before the loop. -/
def unzipFileSpaceLoop : Nat → Str → Option Nat → Run Str
  | 0, _, _ => .outOfFuel
  | fuel + 1, extractedFilePath, pos =>
    match pos with
    | none => .ok extractedFilePath
    | some p =>
      let replaced := replace extractedFilePath p 2 " ".toList
      unzipFileSpaceLoop fuel replaced (findFrom replaced "  ".toList (p + 1))

/-- The two sanitisation blocks of `unzipFile` applied to `toDestination + fileName`: the
colons after the first become spaces, then the double-space loop runs. -/
def unzipFileSanitize (fuel : Nat) (extractedFilePath : Str) : Run Str :=
  (match find extractedFilePath [':'] with
    | some firstColonPos =>
      unzipFileColonLoop fuel extractedFilePath
        (findFrom extractedFilePath [':'] (firstColonPos + 1))
    | none => .ok extractedFilePath).andThen fun cleaned =>
  unzipFileSpaceLoop fuel cleaned (find cleaned "  ".toList)

/-! ## Dangerous-path gate: the variant without the two checks that never decide -/

/-- The vector `dangerousCombinationPatterns` with its second entry removed. -/
def reducedCombinationPatterns : List Str := [ "*".toList ]

/-- The body of the loop over `protectedFolders` in the variant: the combination patterns
are `reducedCombinationPatterns`, and the inner loop over `ultraProtectedFolders` is
deleted. -/
def reducedFolderCheck (patternPath folder : Str) : Bool :=
  if patternPath = folder then true
  else if find patternPath folder = some 0 then
    if dangerousPatterns.any
        (fun pattern => (find (substr patternPath folder.length none) pattern).isSome) then true
    else if (find (substr patternPath folder.length none) ['/']).isNone &&
        reducedCombinationPatterns.any
          (fun combination => (find (substr patternPath folder.length none) combination).isSome)
      then true
    else false
  else false

/-- The variant of `isDangerousCombination`: the same function with `reducedFolderCheck`
as the body of the loop over `protectedFolders`. -/
def reducedDangerousCombination (ROOT_PATH patternPath : Str) : Bool :=
  if ultraProtectedFolders.any (fun folder => find patternPath folder == some 0) then true
  else if (protectedFolders ROOT_PATH).any (reducedFolderCheck patternPath) then true
  else if dangerousPatterns.any (fun pattern => (find patternPath pattern).isSome) then true
  else
    match find patternPath ":/".toList with
    | some colonPos => (find (substr patternPath 0 (some (colonPos + 2))) ['*']).isSome
    | none => false

/-! ## Theorems -/

/-! ### The tokenizer and the alternating rule -/

theorem extractWordsAux_eq (s cur : Str) :
    extractWordsAux s cur =
      ((s.splitOnP isspace).modifyHead (fun w => cur ++ w)).filter (fun w => !w.isEmpty) := by
  induction s generalizing cur with
  | nil =>
    by_cases h : cur = [] <;> simp [extractWordsAux, h]
  | cons c cs ih =>
    rw [extractWordsAux, List.splitOnP_cons]
    by_cases hc : isspace c = true
    · have h0 := ih []
      simp only [List.nil_append] at h0
      have hid : (List.modifyHead (fun w : Str => w) (List.splitOnP isspace cs))
          = List.splitOnP isspace cs := by
        cases List.splitOnP isspace cs <;> rfl
      rw [hid] at h0
      by_cases h : cur = [] <;> simp [hc, h, h0]
    · simp only [hc, Bool.false_eq_true, if_false]
      rw [ih (cur ++ [c]), List.modifyHead_modifyHead]
      congr 2
      funext w
      simp

theorem extractWords_eq_splitWhitespace (s : Str) : extractWords s = splitWhitespace s := by
  unfold extractWords splitWhitespace
  rw [extractWordsAux_eq]
  cases List.splitOnP isspace s <;> simp

theorem getlines_splitOn (d : Char) (s : Str) :
    s.splitOn d = getlines d s ∨ s.splitOn d = getlines d s ++ [[]] := by
  induction s with
  | nil => right; rfl
  | cons c cs ih =>
    have hcons : (c :: cs).splitOn d =
        if (c == d) = true then [] :: cs.splitOn d
        else (cs.splitOn d).modifyHead (List.cons c) := by
      simp only [List.splitOn]
      exact List.splitOnP_cons _ c cs
    rw [hcons]
    by_cases hc : c = d
    · subst hc
      simp only [beq_self_eq_true, if_true, getlines]
      rcases ih with h | h
      · left; rw [h]
      · right; rw [h]; rfl
    · have hb : ¬ ((c == d) = true) := by simpa using hc
      simp only [hb, if_false, getlines, hc]
      rcases ih with h | h
      · rw [h]
        cases hg : getlines d cs with
        | nil =>
          exfalso
          rw [hg] at h
          exact List.splitOnP_ne_nil _ cs h
        | cons p ps => left; rfl
      · rw [h]
        cases hg : getlines d cs with
        | nil => left; rfl
        | cons p ps => right; rfl

theorem length_splitOn (d : Char) (s : Str) : (s.splitOn d).length = s.count d + 1 := by
  induction s with
  | nil => rfl
  | cons c cs ih =>
    have hcons : (c :: cs).splitOn d =
        if (c == d) = true then [] :: cs.splitOn d
        else (cs.splitOn d).modifyHead (List.cons c) := by
      simp only [List.splitOn]
      exact List.splitOnP_cons _ c cs
    rw [hcons, List.count_cons]
    by_cases hc : c = d
    · subst hc
      simp [ih]
    · have hb : ¬ ((c == d) = true) := by simpa using hc
      simp [hb, ih]

theorem foldl_tokenizeStep (pieces : List Str) (acc : List Str) (i : Nat) :
    ((pieces.foldl tokenizeStep (acc, decide (i % 2 = 1))).1) =
      acc ++ alternatingRule i pieces := by
  induction pieces generalizing acc i with
  | nil => simp [alternatingRule]
  | cons p ps ih =>
    rw [List.foldl_cons, alternatingRule]
    rcases Nat.mod_two_eq_zero_or_one i with h | h
    · have h1 : (i + 1) % 2 = 1 := by omega
      have hstep : tokenizeStep (acc, decide (i % 2 = 1)) p
          = (acc ++ extractWords p, decide ((i + 1) % 2 = 1)) := by
        simp [tokenizeStep, h, h1]
      rw [hstep, ih, extractWords_eq_splitWhitespace]
      simp [h]
    · have h1 : (i + 1) % 2 = 0 := by omega
      have hstep : tokenizeStep (acc, decide (i % 2 = 1)) p
          = (acc ++ [p], decide ((i + 1) % 2 = 1)) := by
        simp [tokenizeStep, h, h1]
      rw [hstep, ih]
      simp [h]

theorem tokenizeLine_eq (line : Str) :
    tokenizeLine line = alternatingRule 0 (getlines quoteChar line) := by
  have h := foldl_tokenizeStep (getlines quoteChar line) [] 0
  simpa [tokenizeLine] using h

theorem alternatingRule_append_empty (ps : List Str) (i : Nat) (h : (i + ps.length) % 2 = 0) :
    alternatingRule i (ps ++ [[]]) = alternatingRule i ps := by
  induction ps generalizing i with
  | nil =>
    have h0 : i % 2 = 0 := by simpa using h
    simp [alternatingRule, h0, splitWhitespace]
  | cons p ps ih =>
    have h1 : (i + 1 + ps.length) % 2 = 0 := by
      have : i + (p :: ps).length = i + 1 + ps.length := by simp; omega
      rw [this] at h; exact h
    rw [List.cons_append, alternatingRule, alternatingRule, ih (i + 1) h1]

/-- C1. For every command line whose single quotes are balanced, the tokenizer of
loadOptionsFromIni yields exactly the tokens of the alternating rule: the line is cut at
each quote, the even-numbered pieces are split on runs of whitespace into non-empty tokens,
the odd-numbered pieces are one token each, verbatim, in line order. -/
theorem tokenizeLine_balanced (line : Str) (hbal : line.count quoteChar % 2 = 0) :
    tokenizeLine line = alternatingTokens line := by
  rw [tokenizeLine_eq, alternatingTokens]
  rcases getlines_splitOn quoteChar line with h | h
  · rw [h]
  · have hlen := length_splitOn quoteChar line
    rw [h] at hlen
    rw [h, alternatingRule_append_empty]
    simp only [List.length_append, List.length_singleton] at hlen
    omega

/-- C1, witness: the line of the specification. -/
theorem tokenizeLine_balanced_witness :
    ("cp 'my file.txt' dest".toList).count quoteChar % 2 = 0 ∧
      tokenizeLine "cp 'my file.txt' dest".toList = alternatingTokens "cp 'my file.txt' dest".toList ∧
      tokenizeLine "cp 'my file.txt' dest".toList
        = ["cp".toList, "my file.txt".toList, "dest".toList] :=
  ⟨by decide, tokenizeLine_balanced _ (by decide), by decide⟩

/-! ### The sections of a package -/

theorem finishParse_eq (st : ParserState) :
    finishParse st = st.options ++
      (if st.currentSection ≠ [] then [(st.currentSection, st.sectionCommands)] else []) := by
  unfold finishParse
  split <;> simp

theorem foldl_processLine (raws : List Str) (st : ParserState)
    (hinv : st.currentSection = [] → st.sectionCommands = []) :
    finishParse (raws.foldl processLine st) =
      st.options ++
      (if st.currentSection ≠ [] then
        [(st.currentSection, st.sectionCommands ++
          commandsUntilHeader ((raws.map stripCR).filter (fun l => !isSkipped l)))]
       else []) ++
      sectionsOf ((raws.map stripCR).filter (fun l => !isSkipped l)) := by
  induction raws generalizing st with
  | nil => simp [finishParse_eq, commandsUntilHeader, sectionsOf]
  | cons r rs ih =>
    rw [List.foldl_cons]
    by_cases hskip : isSkipped (stripCR r) = true
    · have hstep : processLine st r = st := by simp [processLine, hskip]
      rw [hstep, ih st hinv]
      simp [hskip]
    · have hfilter : ((r :: rs).map stripCR).filter (fun l => !isSkipped l)
          = stripCR r :: (rs.map stripCR).filter (fun l => !isSkipped l) := by
        simp [hskip]
      rw [hfilter]
      by_cases hhead : isHeader (stripCR r) = true
      · by_cases hcur : st.currentSection = []
        · have hstep : processLine st r =
              { st with currentSection := headerName (stripCR r) } := by
            simp [processLine, hskip, hhead, hcur]
          rw [hstep, ih _ (by intro _; exact hinv hcur)]
          simp [hcur, hinv hcur, commandsUntilHeader, sectionsOf, hhead]
        · have hstep : processLine st r =
              { options := st.options ++ [(st.currentSection, st.sectionCommands)],
                currentSection := headerName (stripCR r),
                sectionCommands := [] } := by
            simp [processLine, hskip, hhead, hcur]
          rw [hstep, ih _ (by intro _; rfl)]
          simp [hcur, commandsUntilHeader, sectionsOf, hhead]
      · by_cases hcur : st.currentSection = []
        · have hstep : processLine st r = st := by
            simp [processLine, hskip, hhead, hcur]
          rw [hstep, ih st hinv]
          simp [hcur, sectionsOf, hhead]
        · have hstep : processLine st r =
              { st with sectionCommands := st.sectionCommands ++ [tokenizeLine (stripCR r)] } := by
            simp [processLine, hskip, hhead, hcur]
          rw [hstep, ih _ (by intro h; exact absurd h hcur)]
          simp [hcur, commandsUntilHeader, sectionsOf, hhead]

/-- C2. For every package text, loadOptionsFromIni returns one entry per section header
with a non-empty name, in file order, each paired with exactly the commands that follow
that header up to the next header, in line order; the text with sections A and B of the
specification yields A with the command (cmd1, x), then B with the command (cmd2, y). -/
theorem loadOptionsFromIni_sections :
    (∀ text : Str, loadOptionsFromIni (some text) = sectionsOf (effectiveLines text)) ∧
    loadOptionsFromIni (some "[A]\ncmd1 x\n[B]\ncmd2 y".toList)
      = [("A".toList, [["cmd1".toList, "x".toList]]),
         ("B".toList, [["cmd2".toList, "y".toList]])] := by
  refine ⟨fun text => ?_, by decide⟩
  have h := foldl_processLine (getlines nlChar text) initialParserState (fun _ => rfl)
  simpa [loadOptionsFromIni, effectiveLines, initialParserState] using h

/-! ### Lines without effect -/

theorem getlines_single (d : Char) (l : Str) (hne : l ≠ []) (hd : d ∉ l) :
    getlines d l = [l] := by
  induction l with
  | nil => exact absurd rfl hne
  | cons c cs ih =>
    have hc : c ≠ d := fun h => hd (by simp [h])
    have hcs : d ∉ cs := fun h => hd (List.mem_cons_of_mem _ h)
    rw [getlines, if_neg hc]
    cases cs with
    | nil => rfl
    | cons c2 cs2 => rw [ih (by simp) hcs]

theorem getlines_append_delim (d : Char) (l rest : Str) (hd : d ∉ l) :
    getlines d (l ++ d :: rest) = l :: getlines d rest := by
  induction l with
  | nil => simp [getlines]
  | cons c cs ih =>
    have hc : c ≠ d := fun h => hd (by simp [h])
    have hcs : d ∉ cs := fun h => hd (List.mem_cons_of_mem _ h)
    rw [List.cons_append, getlines, if_neg hc, ih hcs]

theorem getlines_no_delim (d : Char) (s : Str) : ∀ p ∈ getlines d s, d ∉ p := by
  induction s with
  | nil => simp [getlines]
  | cons c cs ih =>
    intro p hp
    rw [getlines] at hp
    by_cases hc : c = d
    · rw [if_pos hc] at hp
      rcases List.mem_cons.mp hp with h | h
      · subst h; simp
      · exact ih p h
    · rw [if_neg hc] at hp
      cases hg : getlines d cs with
      | nil =>
        rw [hg] at hp
        simp only [List.mem_singleton] at hp
        subst hp
        simpa using fun h => hc h.symm
      | cons q qs =>
        rw [hg] at hp ih
        rcases List.mem_cons.mp hp with h | h
        · subst h
          have hq := ih q (by simp)
          simp only [List.mem_cons, not_or]
          exact ⟨fun h => hc h.symm, hq⟩
        · exact ih p (List.mem_cons_of_mem _ h)

theorem extractWordsAux_eq_nil (s cur : Str) :
    extractWordsAux s cur = [] ↔ cur = [] ∧ ∀ c ∈ s, isspace c = true := by
  induction s generalizing cur with
  | nil => by_cases h : cur = [] <;> simp [extractWordsAux, h]
  | cons c cs ih =>
    rw [extractWordsAux]
    by_cases hc : isspace c = true
    · by_cases h : cur = []
      · simp [hc, h, ih]
      · simp [hc, h]
    · simp only [hc, Bool.false_eq_true, if_false, ih]
      simp [hc]

theorem extractWords_eq_nil (s : Str) :
    extractWords s = [] ↔ ∀ c ∈ s, isspace c = true := by
  simp [extractWords, extractWordsAux_eq_nil]

theorem getlines_eq_nil (d : Char) (s : Str) : getlines d s = [] ↔ s = [] := by
  cases s with
  | nil => simp [getlines]
  | cons c cs =>
    rw [getlines]
    by_cases hc : c = d
    · simp [hc]
    · rw [if_neg hc]
      cases getlines d cs <;> simp

theorem alternatingRule_odd_eq_nil (ps : List Str) (i : Nat) (hi : i % 2 = 1) :
    alternatingRule i ps = [] ↔ ps = [] := by
  cases ps with
  | nil => simp [alternatingRule]
  | cons p ps => simp [alternatingRule, hi]

theorem span_delim (d : Char) (s : Str) :
    (d ∉ s) ∨ ∃ pre rest, s = pre ++ d :: rest ∧ d ∉ pre := by
  induction s with
  | nil => left; simp
  | cons c cs ih =>
    by_cases hc : c = d
    · right; exact ⟨[], cs, by simp [hc], by simp⟩
    · rcases ih with h | ⟨pre, rest, h, hpre⟩
      · left
        simp only [List.mem_cons, not_or]
        exact ⟨fun h => hc h.symm, h⟩
      · right
        refine ⟨c :: pre, rest, by simp [h], ?_⟩
        simp only [List.mem_cons, not_or]
        exact ⟨fun h => hc h.symm, hpre⟩

theorem isspace_quoteChar : isspace quoteChar = false := by decide

theorem quoteChar_not_mem_of_isspace (ws : Str) (h : ∀ c ∈ ws, isspace c = true) :
    quoteChar ∉ ws := by
  intro hq
  have := h quoteChar hq
  rw [isspace_quoteChar] at this
  exact Bool.false_ne_true this

theorem tokenizeLine_eq_nil (line : Str) :
    tokenizeLine line = [] ↔
      ∃ ws : Str, (∀ c ∈ ws, isspace c = true) ∧ (line = ws ∨ line = ws ++ [quoteChar]) := by
  rw [tokenizeLine_eq]
  constructor
  · intro h
    rcases span_delim quoteChar line with hno | ⟨pre, rest, hline, hpre⟩
    · refine ⟨line, ?_, Or.inl rfl⟩
      by_cases hl : line = []
      · subst hl; simp
      · rw [getlines_single quoteChar line hl hno] at h
        simp only [alternatingRule, Nat.zero_mod, if_true, List.append_nil] at h
        rw [← extractWords_eq_splitWhitespace, extractWords_eq_nil] at h
        exact h
    · subst hline
      rw [getlines_append_delim quoteChar pre rest hpre] at h
      simp only [alternatingRule, Nat.zero_mod, if_true, List.append_eq_nil] at h
      obtain ⟨h1, h2⟩ := h
      rw [← extractWords_eq_splitWhitespace, extractWords_eq_nil] at h1
      rw [alternatingRule_odd_eq_nil _ _ (by norm_num), getlines_eq_nil] at h2
      subst h2
      exact ⟨pre, h1, Or.inr rfl⟩
  · rintro ⟨ws, hws, h | h⟩
    · subst h
      by_cases hl : line = []
      · subst hl; rfl
      · rw [getlines_single quoteChar line hl (quoteChar_not_mem_of_isspace line hws)]
        simp only [alternatingRule, Nat.zero_mod, if_true, List.append_nil]
        rw [← extractWords_eq_splitWhitespace, extractWords_eq_nil]
        exact hws
    · subst h
      rw [getlines_append_delim quoteChar ws [] (quoteChar_not_mem_of_isspace ws hws)]
      simp only [getlines, alternatingRule, Nat.zero_mod, if_true, List.append_nil]
      rw [← extractWords_eq_splitWhitespace, extractWords_eq_nil]
      exact hws

/-- C4, counterexample. Inside section A, a line of three spaces and a line holding a
single quote each leave a command with zero tokens in the returned Package. -/
theorem loadOptionsFromIni_keeps_empty_command :
    loadOptionsFromIni (some "[A]\n   ".toList) = [("A".toList, [[]])] ∧
    loadOptionsFromIni (some "[A]\n'".toList) = [("A".toList, [[]])] := by
  constructor <;> decide

/-- C4, amended. loadOptionsFromIni does not drop empty commands: the command of a line has
zero tokens exactly when the line is whitespace only, optionally followed by one final
quote; removeEmptyCommands is what drops them: its result holds exactly the commands with
at least one token, so after it no command list of a loaded Package holds an empty
command. -/
theorem empty_commands_dropped_by_removeEmptyCommands :
    (∀ line : Str, tokenizeLine line = [] ↔
      ∃ ws : Str, (∀ c ∈ ws, isspace c = true) ∧ (line = ws ∨ line = ws ++ [quoteChar])) ∧
    (∀ (commands : List Command) (c : Command),
      c ∈ removeEmptyCommands commands ↔ c ∈ commands ∧ c ≠ []) ∧
    (∀ (text : Str), ∀ sec ∈ loadOptionsFromIni (some text),
      ∀ c ∈ removeEmptyCommands sec.2, c ≠ []) := by
  have hmem : ∀ (commands : List Command) (c : Command),
      c ∈ removeEmptyCommands commands ↔ c ∈ commands ∧ c ≠ [] := by
    intro commands c
    simp [removeEmptyCommands, List.mem_filter]
  exact ⟨tokenizeLine_eq_nil, hmem, fun _ sec _ c hc => ((hmem sec.2 c).mp hc).2⟩

/-- C4, witness: a line of two spaces and a quote gives a command with zero tokens; in the
text of section A with the command cmd x and a line of spaces, the command that
removeEmptyCommands keeps is not empty. -/
theorem empty_commands_dropped_by_removeEmptyCommands_witness :
    tokenizeLine "  '".toList = [] ∧
    (["cmd".toList, "x".toList] ∈ removeEmptyCommands [["cmd".toList, "x".toList], []] ↔
      ["cmd".toList, "x".toList] ∈ [["cmd".toList, "x".toList], ([] : Command)] ∧
        ["cmd".toList, "x".toList] ≠ ([] : Command)) ∧
    ["cmd".toList, "x".toList] ≠ ([] : Command) :=
  ⟨(empty_commands_dropped_by_removeEmptyCommands.1 "  '".toList).mpr
      ⟨"  ".toList, by decide, Or.inr (by decide)⟩,
   empty_commands_dropped_by_removeEmptyCommands.2.1 _ _,
   empty_commands_dropped_by_removeEmptyCommands.2.2 "[A]\ncmd x\n   ".toList
      ("A".toList, [["cmd".toList, "x".toList], []]) (by decide)
      ["cmd".toList, "x".toList] (by decide)⟩

/-! ### Facts on `find` -/

theorem findAt_none_of_absent (pat s : Str) (i : Nat) (h : ¬ pat <:+: s) :
    findAt pat s i = none := by
  induction s generalizing i with
  | nil =>
    have hp : pat ≠ [] := fun hp => h (by simp [hp])
    simp [findAt, hp]
  | cons c cs ih =>
    have h1 : ¬ (pat.isPrefixOf (c :: cs) = true) := by
      intro hpre
      exact h (List.isPrefixOf_iff_prefix.mp hpre).isInfix
    have h2 : ¬ pat <:+: cs := fun hin => h (hin.trans (List.suffix_cons c cs).isInfix)
    rw [findAt, if_neg h1, ih _ h2]

theorem find_none_of_absent (pat s : Str) (h : ¬ pat <:+: s) : find s pat = none := by
  simp [find, findFrom, findAt_none_of_absent pat s 0 h]

theorem absent_of_head_not_mem (c : Char) (pt s : Str) (h : c ∉ s) : ¬ (c :: pt) <:+: s := by
  intro hin
  exact h (hin.subset (by simp))

theorem find_none_of_head_not_mem (c : Char) (pt s : Str) (h : c ∉ s) :
    find s (c :: pt) = none :=
  find_none_of_absent _ _ (absent_of_head_not_mem c pt s h)

theorem replacePlaceholdersLoop_of_find_none (NULL_STR placeholder : Str)
    (replacer : Str → Option Str) (fuel : Nat) (arg lastArg : Str)
    (h : find arg placeholder = none) :
    replacePlaceholdersLoop NULL_STR placeholder replacer fuel arg lastArg = .ok arg := by
  cases fuel <;> simp [replacePlaceholdersLoop, h]

theorem replaceAllPlaceholdersLoop_of_find_none (placeholder replacement : Str)
    (fuel : Nat) (arg lastArg : Str) (h : find arg placeholder = none) :
    replaceAllPlaceholdersLoop placeholder replacement fuel arg lastArg = .ok arg := by
  cases fuel <;> simp [replaceAllPlaceholdersLoop, h]

theorem applyCallPlaceholders_of_find_none (NULL_STR : Str) (fuel : Nat)
    (table : List (Str × (Str → Option Str))) (arg : Str)
    (h : ∀ pr ∈ table, find arg pr.1 = none) :
    applyCallPlaceholders NULL_STR fuel table arg = .ok arg := by
  induction table with
  | nil => rfl
  | cons pr rest ih =>
    obtain ⟨placeholder, replacer⟩ := pr
    have h1 : find arg placeholder = none := h (placeholder, replacer) (by simp)
    rw [applyCallPlaceholders, replacePlaceholders,
      replacePlaceholdersLoop_of_find_none _ _ _ _ _ _ h1]
    exact ih (fun pr hpr => h pr (List.mem_cons_of_mem _ hpr))

theorem placeholders_openers (ext : Externals)
    (hexPath iniPath listString listPath jsonString jsonPath : Str) :
    (placeholders ext hexPath iniPath listString listPath jsonString jsonPath).map Prod.fst
      = markerTexts.take 13 := rfl

theorem applyPlaceholderReplacementArg_of_find_none (ext : Externals) (fuel : Nat)
    (hexPath iniPath listString listPath jsonString jsonPath : Str) (arg : Str)
    (h : ∀ m ∈ markerTexts, find arg m = none) :
    applyPlaceholderReplacementArg ext fuel hexPath iniPath listString listPath jsonString
      jsonPath arg = .ok arg := by
  have htable : ∀ pr ∈ placeholders ext hexPath iniPath listString listPath jsonString
      jsonPath, find arg pr.1 = none := by
    intro pr hpr
    apply h
    have hmem : pr.1 ∈ (placeholders ext hexPath iniPath listString listPath jsonString
        jsonPath).map Prod.fst := List.mem_map_of_mem _ hpr
    rw [placeholders_openers] at hmem
    exact List.mem_of_mem_take hmem
  unfold applyPlaceholderReplacementArg
  rw [applyCallPlaceholders_of_find_none _ _ _ _ htable]
  simp only [Run.andThen, replaceAllPlaceholders]
  rw [replaceAllPlaceholdersLoop_of_find_none _ _ _ _ _ (h _ (by simp [markerTexts]))]
  simp only []
  rw [replaceAllPlaceholdersLoop_of_find_none _ _ _ _ _ (h _ (by simp [markerTexts]))]
  simp only []
  rw [replaceAllPlaceholdersLoop_of_find_none _ _ _ _ _ (h _ (by simp [markerTexts]))]
  simp only []
  rw [replaceAllPlaceholdersLoop_of_find_none _ _ _ _ _ (h _ (by simp [markerTexts]))]

/-- C5. Placeholder idempotence: a command whose tokens contain none of the parameterized
call openers and none of the simple markers is returned unchanged by
applyPlaceholderReplacement, whatever the source bindings, the collaborators and the fuel
are. -/
theorem applyPlaceholderReplacement_no_marker (ext : Externals) (fuel : Nat)
    (hexPath iniPath listString listPath jsonString jsonPath : Str) (cmd : Command)
    (h : ∀ token ∈ cmd, ∀ m ∈ markerTexts, ¬ m <:+: token) :
    applyPlaceholderReplacement ext fuel hexPath iniPath listString listPath jsonString
      jsonPath cmd = .ok cmd := by
  induction cmd with
  | nil => rfl
  | cons arg rest ih =>
    have harg : ∀ m ∈ markerTexts, find arg m = none := fun m hm =>
      find_none_of_absent m arg (h arg (by simp) m hm)
    rw [applyPlaceholderReplacement,
      applyPlaceholderReplacementArg_of_find_none ext fuel _ _ _ _ _ _ arg harg,
      Run.andThen, ih (fun token ht => h token (List.mem_cons_of_mem _ ht))]
    rfl

/-- C5, witness: the command `cp a.txt b.txt` holds no marker. -/
theorem applyPlaceholderReplacement_no_marker_witness :
    (∀ token ∈ ["cp".toList, "a.txt".toList, "b.txt".toList], ∀ m ∈ markerTexts,
      ¬ m <:+: token) ∧
    applyPlaceholderReplacement sampleExternals 0 [] [] [] [] [] []
      ["cp".toList, "a.txt".toList, "b.txt".toList]
      = .ok ["cp".toList, "a.txt".toList, "b.txt".toList] :=
  ⟨by decide, applyPlaceholderReplacement_no_marker sampleExternals 0 [] [] [] [] [] [] _
    (by decide)⟩

/-! ### The replacers of `slice` and `split` -/

theorem findAt_append_of_head_not_mem (c : Char) (pt pre post : Str) (i : Nat)
    (h : c ∉ pre) :
    findAt (c :: pt) (pre ++ ((c :: pt) ++ post)) i = some (i + pre.length) := by
  induction pre generalizing i with
  | nil =>
    have hp : (c :: pt).isPrefixOf ((c :: pt) ++ post) = true :=
      List.isPrefixOf_iff_prefix.mpr (List.prefix_append _ _)
    simp only [List.nil_append, List.cons_append] at hp ⊢
    rw [findAt, if_pos hp]
    simp
  | cons x xs ih =>
    have hx : x ≠ c := fun hxc => h (by simp [hxc])
    have hxs : c ∉ xs := fun hm => h (List.mem_cons_of_mem _ hm)
    have hp : ¬ ((c :: pt).isPrefixOf (x :: (xs ++ ((c :: pt) ++ post))) = true) := by
      simp [List.isPrefixOf, hx, Ne.symm hx]
    rw [List.cons_append, findAt, if_neg hp, ih _ hxs]
    simp only [List.length_cons]
    congr 1
    omega

theorem findFrom_append_left (pre rest pat : Str) :
    findFrom (pre ++ rest) pat pre.length = findAt pat rest pre.length := by
  simp [findFrom]

theorem find_eq_findAt (s pat : Str) : find s pat = findAt pat s 0 := by
  simp [find, findFrom]

theorem findLastOfAux_not_mem (ch : Char) (s : Str) (i : Nat) (last : Option Nat)
    (h : ch ∉ s) : findLastOfAux ch s i last = last := by
  induction s generalizing i last with
  | nil => rfl
  | cons x xs ih =>
    have hx : x ≠ ch := fun hxc => h (by simp [hxc])
    have hxs : ch ∉ xs := fun hm => h (List.mem_cons_of_mem _ hm)
    rw [findLastOfAux, if_neg hx, ih _ _ hxs]

theorem findLastOfAux_append (ch : Char) (pre post : Str) (i : Nat) (last : Option Nat)
    (h : ch ∉ post) :
    findLastOfAux ch (pre ++ ch :: post) i last = some (i + pre.length) := by
  induction pre generalizing i last with
  | nil =>
    simp only [List.nil_append, findLastOfAux, if_true]
    rw [findLastOfAux_not_mem ch post _ _ h]
    simp
  | cons x xs ih =>
    rw [List.cons_append, findLastOfAux, ih]
    simp only [List.length_cons]
    congr 1
    omega

theorem findLastOf_append (ch : Char) (pre post : Str) (h : ch ∉ post) :
    findLastOf (pre ++ ch :: post) ch = some pre.length := by
  simp [findLastOf, findLastOfAux_append ch pre post 0 none h]

/-- The parameters that a replacer reads from a marker: the text between the parenthesis
that ends the opener and the first closing parenthesis. -/
theorem parametersOf_call (name params rest : Str)
    (hname1 : '(' ∉ name) (hname2 : ')' ∉ name) (hparams : ')' ∉ params) :
    parametersOf (name ++ ('(' :: (params ++ ')' :: rest))) = params := by
  have h1 : find (name ++ ('(' :: (params ++ ')' :: rest))) ['('] = some name.length := by
    rw [find_eq_findAt]
    have := findAt_append_of_head_not_mem '(' [] name (params ++ ')' :: rest) 0 hname1
    simpa using this
  have hpre : ')' ∉ name ++ '(' :: params := by
    simp only [List.mem_append, List.mem_cons, not_or]
    exact ⟨hname2, by decide, hparams⟩
  have h2 : find (name ++ ('(' :: (params ++ ')' :: rest))) [')']
      = some (name.length + 1 + params.length) := by
    rw [find_eq_findAt]
    have := findAt_append_of_head_not_mem ')' [] (name ++ '(' :: params) rest 0 hpre
    simp only [List.append_assoc, List.cons_append, List.nil_append, List.singleton_append,
      List.length_append, List.length_cons, Nat.zero_add] at this
    rw [this]
    congr 1
    omega
  unfold parametersOf
  rw [h1, h2]
  simp only [succPos, countTo]
  rw [if_pos (by omega)]
  have hlen : name.length + 1 + params.length - (name.length + 1) = params.length := by omega
  rw [hlen]
  simp only [substr]
  have hdrop : (name ++ ('(' :: (params ++ ')' :: rest))).drop (name.length + 1)
      = params ++ ')' :: rest := by
    rw [List.drop_append_eq_append_drop]
    simp
  rw [hdrop, List.take_left']
  rfl

theorem sliceReplacer_call_eq (s da db rest : Str)
    (hs1 : ',' ∉ s) (hs2 : ')' ∉ s) (ha1 : ',' ∉ da) (ha2 : ')' ∉ da)
    (hb1 : ',' ∉ db) (hb2 : ')' ∉ db) :
    sliceReplacer ("\x7bslice".toList ++ ('(' :: ((s ++ ',' :: (da ++ ',' :: db)) ++ ')' :: rest)))
      = (stoi da).bind fun sliceStart => (stoi db).bind fun sliceEnd =>
          some (sliceString s (toSizeT sliceStart) (toSizeT sliceEnd)) := by
  have hparams : ')' ∉ s ++ ',' :: (da ++ ',' :: db) := by
    simp only [List.mem_append, List.mem_cons, not_or]
    exact ⟨hs2, by decide, ha2, by decide, hb2⟩
  unfold sliceReplacer
  rw [parametersOf_call _ _ _ (by decide) (by decide) hparams]
  have h1 : find (s ++ ',' :: (da ++ ',' :: db)) [','] = some s.length := by
    rw [find_eq_findAt]
    have := findAt_append_of_head_not_mem ',' [] s (da ++ ',' :: db) 0 hs1
    simpa using this
  have h2 : findFrom (s ++ ',' :: (da ++ ',' :: db)) [','] (s.length + 1)
      = some (s.length + 1 + da.length) := by
    have hre : s ++ ',' :: (da ++ ',' :: db) = (s ++ [',']) ++ (da ++ ',' :: db) := by simp
    have hl : (s ++ [',']).length = s.length + 1 := by simp
    rw [hre, ← hl, findFrom_append_left]
    have := findAt_append_of_head_not_mem ',' [] da db (s ++ [',']).length ha1
    simpa using this
  have h3 : findLastOf (s ++ ',' :: (da ++ ',' :: db)) ',' = some (s.length + 1 + da.length) := by
    have hre : s ++ ',' :: (da ++ ',' :: db) = (s ++ ',' :: da) ++ ',' :: db := by simp
    rw [hre, findLastOf_append _ _ _ hb1]
    simp only [List.length_append, List.length_cons]
    congr 1
    omega
  simp only [h1, h2, h3, succPos, countTo]
  rw [if_pos (by omega)]
  have hlen : s.length + 1 + da.length - (s.length + 1) = da.length := by omega
  rw [hlen]
  have hstr : substr (s ++ ',' :: (da ++ ',' :: db)) 0 (some s.length) = s := by
    simp [substr]
  have hda : substr (s ++ ',' :: (da ++ ',' :: db)) (s.length + 1) (some da.length) = da := by
    have hre : s ++ ',' :: (da ++ ',' :: db) = (s ++ [',']) ++ (da ++ ',' :: db) := by simp
    have hl : (s ++ [',']).length = s.length + 1 := by simp
    simp only [substr]
    rw [hre, ← hl, List.drop_left, List.take_left]
  have hdb : substr (s ++ ',' :: (da ++ ',' :: db)) (s.length + 1 + da.length + 1) none = db := by
    have hre : s ++ ',' :: (da ++ ',' :: db) = (s ++ ',' :: (da ++ [','])) ++ db := by simp
    have hl : (s ++ ',' :: (da ++ [','])).length = s.length + 1 + da.length + 1 := by
      simp; omega
    simp only [substr]
    rw [hre, ← hl, List.drop_left]
  rw [hstr, hda, hdb]

theorem sliceReplacer_call (s da db rest : Str) (va vb : Int)
    (hs1 : ',' ∉ s) (hs2 : ')' ∉ s) (ha1 : ',' ∉ da) (ha2 : ')' ∉ da)
    (hb1 : ',' ∉ db) (hb2 : ')' ∉ db)
    (hva : stoi da = some va) (hvb : stoi db = some vb) :
    sliceReplacer ("\x7bslice".toList ++ ('(' :: ((s ++ ',' :: (da ++ ',' :: db)) ++ ')' :: rest)))
      = some (sliceString s (toSizeT va) (toSizeT vb)) := by
  rw [sliceReplacer_call_eq s da db rest hs1 hs2 ha1 ha2 hb1 hb2, hva, hvb]
  rfl

theorem sliceReplacer_call_none (s da db rest : Str)
    (hs1 : ',' ∉ s) (hs2 : ')' ∉ s) (ha1 : ',' ∉ da) (ha2 : ')' ∉ da)
    (hb1 : ',' ∉ db) (hb2 : ')' ∉ db) (hvb : stoi db = none) :
    sliceReplacer ("\x7bslice".toList ++ ('(' :: ((s ++ ',' :: (da ++ ',' :: db)) ++ ')' :: rest)))
      = none := by
  rw [sliceReplacer_call_eq s da db rest hs1 hs2 ha1 ha2 hb1 hb2, hvb]
  cases stoi da <;> rfl

/-! ### Decimal numerals -/

theorem digitsValue_append (ds : Str) (d : Char) :
    digitsValue (ds ++ [d]) = digitsValue ds * 10 + (d.toNat - 48) := by
  simp [digitsValue, List.foldl_append]

theorem digitChar_isdigit (k : Nat) (hk : k < 10) :
    isdigit (Nat.digitChar k) = true ∧ (Nat.digitChar k).toNat - 48 = k := by
  interval_cases k <;> decide

theorem toDigitsCore_spec (fuel n : Nat) (ds : Str) (h : n < fuel) :
    ∃ pre : Str, Nat.toDigitsCore 10 fuel n ds = pre ++ ds ∧ pre ≠ [] ∧
      (∀ c ∈ pre, isdigit c = true) ∧ digitsValue pre = n := by
  induction fuel generalizing n ds with
  | zero => omega
  | succ fuel ih =>
    rw [Nat.toDigitsCore]
    have hd := digitChar_isdigit (n % 10) (Nat.mod_lt _ (by norm_num))
    by_cases h0 : n / 10 = 0
    · simp only [h0, if_true]
      refine ⟨[Nat.digitChar (n % 10)], rfl, by simp, ?_, ?_⟩
      · intro c hc
        simp only [List.mem_singleton] at hc
        subst hc
        exact hd.1
      · have : digitsValue [Nat.digitChar (n % 10)] = (Nat.digitChar (n % 10)).toNat - 48 := by
          simp [digitsValue]
        rw [this, hd.2]
        omega
    · simp only [h0, if_false]
      have hlt : n / 10 < fuel := by omega
      obtain ⟨pre, hpre, hne, hdig, hval⟩ := ih (n / 10) (Nat.digitChar (n % 10) :: ds) hlt
      refine ⟨pre ++ [Nat.digitChar (n % 10)], by simp [hpre], by simp, ?_, ?_⟩
      · intro c hc
        rcases List.mem_append.mp hc with hc | hc
        · exact hdig c hc
        · simp only [List.mem_singleton] at hc
          subst hc
          exact hd.1
      · rw [digitsValue_append, hval, hd.2]
        omega

theorem to_string_spec (n : Nat) :
    to_string n ≠ [] ∧ (∀ c ∈ to_string n, isdigit c = true) ∧ digitsValue (to_string n) = n := by
  obtain ⟨pre, hpre, hne, hdig, hval⟩ := toDigitsCore_spec (n + 1) n [] (by omega)
  have : to_string n = pre := by simp [to_string, Nat.toDigits, hpre]
  rw [this]
  exact ⟨hne, hdig, hval⟩

theorem readNumeral_digits (ds : Str) (hne : ds ≠ []) (hdig : ∀ c ∈ ds, isdigit c = true) :
    readNumeral ds = some (digitsValue ds : Int) := by
  cases ds with
  | nil => exact absurd rfl hne
  | cons c cs =>
    have hc : isdigit c = true := hdig c (by simp)
    have hsp : isspace c = false := by
      simp only [isdigit, isspace, Bool.and_eq_true, decide_eq_true_eq] at hc ⊢
      simp only [Bool.or_eq_false_iff, beq_eq_false_iff_ne, ne_eq, Bool.and_eq_false_iff,
        decide_eq_false_iff_not, not_le]
      omega
    have hminus : c ≠ '-' := by
      intro hcm; subst hcm; simp [isdigit] at hc
    have hplus : c ≠ '+' := by
      intro hcm; subst hcm; simp [isdigit] at hc
    have htake : (c :: cs).takeWhile isdigit = c :: cs := by
      rw [List.takeWhile_eq_self_iff]
      exact hdig
    simp [readNumeral, hsp, hminus, hplus, htake]

theorem stoi_digits (ds : Str) (hne : ds ≠ []) (hdig : ∀ c ∈ ds, isdigit c = true)
    (hint : digitsValue ds < 2 ^ 31) :
    stoi ds = some (digitsValue ds : Int) := by
  unfold stoi
  rw [readNumeral_digits ds hne hdig]
  have hrange : -(2 ^ 31 : Int) ≤ (digitsValue ds : Int) ∧
      (digitsValue ds : Int) < (2 ^ 31 : Int) := by
    constructor
    · omega
    · exact_mod_cast hint
  simp only [if_pos hrange]

theorem stoi_digits_large (ds : Str) (hne : ds ≠ []) (hdig : ∀ c ∈ ds, isdigit c = true)
    (hint : 2 ^ 31 ≤ digitsValue ds) :
    stoi ds = none := by
  unfold stoi
  rw [readNumeral_digits ds hne hdig]
  have hrange : ¬ (-(2 ^ 31 : Int) ≤ (digitsValue ds : Int) ∧
      (digitsValue ds : Int) < (2 ^ 31 : Int)) := by
    intro h
    have h2 : digitsValue ds < 2 ^ 31 := by exact_mod_cast h.2
    omega
  simp only [if_neg hrange]

theorem stoi_to_string (n : Nat) (hint : n < 2 ^ 31) : stoi (to_string n) = some (n : Int) := by
  obtain ⟨hne, hdig, hval⟩ := to_string_spec n
  rw [stoi_digits _ hne hdig (by rw [hval]; exact hint), hval]

theorem stoi_to_string_large (n : Nat) (hint : 2 ^ 31 ≤ n) : stoi (to_string n) = none := by
  obtain ⟨hne, hdig, hval⟩ := to_string_spec n
  exact stoi_digits_large _ hne hdig (by rw [hval]; exact hint)

theorem not_mem_to_string (c : Char) (hc : isdigit c = false) (n : Nat) : c ∉ to_string n := by
  intro hm
  have := (to_string_spec n).2.1 c hm
  rw [hc] at this
  exact Bool.false_ne_true this

theorem toSizeT_natCast (n : Nat) : toSizeT (n : Int) = n := by
  simp [toSizeT]

theorem replace_whole (s r : Str) (n : Nat) (h : s.length ≤ n) : replace s 0 n r = r := by
  simp [replace, List.drop_eq_nil_of_le h]

/-- One call marker that is the whole token: the marker is handed to the replacer and the
token becomes the replacer's result. -/
theorem replacePlaceholdersLoop_single (NULL_STR : Str) (c : Char) (pt body r : Str)
    (replacer : Str → Option Str) (fuel : Nat)
    (hc : c ∉ pt ++ body) (hc1 : c ≠ ')') (hc2 : c ≠ Char.ofNat 125)
    (hclose : ')' ∉ pt ++ body)
    (hr : replacer ((c :: pt) ++ (body ++ closeStr)) = some r) (hne : r ≠ [])
    (hcr : c ∉ r) :
    replacePlaceholdersLoop NULL_STR (c :: pt) replacer (fuel + 1)
      ((c :: pt) ++ (body ++ closeStr)) [] = .ok r := by
  have hfind : find ((c :: pt) ++ (body ++ closeStr)) (c :: pt) = some 0 := by
    rw [find_eq_findAt]
    have := findAt_append_of_head_not_mem c pt [] (body ++ closeStr) 0 (by simp)
    simpa using this
  have hrest : c ∉ pt ++ (body ++ closeStr) := by
    simp only [List.mem_append, not_or] at hc ⊢
    refine ⟨hc.1, hc.2, ?_⟩
    have hcs : closeStr = ')' :: [Char.ofNat 125] := by decide
    rw [hcs]
    simp only [List.mem_cons, List.not_mem_nil, or_false, not_or]
    exact ⟨hc1, hc2⟩
  have hnext : findFrom ((c :: pt) ++ (body ++ closeStr)) (c :: pt) (0 + 1) = none := by
    simp only [findFrom, List.cons_append, List.length_cons, Nat.zero_add, List.drop_succ_cons,
      List.drop_zero]
    rw [findAt_none_of_absent _ _ _ (absent_of_head_not_mem c pt _ hrest)]
    simp
  have hpre : ')' ∉ (c :: pt) ++ body := by
    simp only [List.cons_append, List.mem_cons, not_or]
    exact ⟨fun h => hc1 h.symm, hclose⟩
  have hend : findFrom ((c :: pt) ++ (body ++ closeStr)) closeStr 0
      = some ((c :: pt) ++ body).length := by
    have := findAt_append_of_head_not_mem ')' [Char.ofNat 125] ((c :: pt) ++ body) [] 0 hpre
    have hcs : closeStr = ')' :: [Char.ofNat 125] := by decide
    simp only [findFrom, Nat.zero_le, if_true, List.drop_zero, hcs]
    simp only [List.append_nil, List.append_assoc, Nat.zero_add] at this
    exact this
  have hscan : nestedScan ((c :: pt) ++ (body ++ closeStr)) (c :: pt)
      (((c :: pt) ++ (body ++ closeStr)).length + 1) 0
      = some (some ((c :: pt) ++ body).length) := by
    rw [nestedScan]
    simp only [hnext, hend]
  have hlen : ((c :: pt) ++ (body ++ closeStr)).length = ((c :: pt) ++ body).length + 2 := by
    simp [closeStr]
    omega
  have hpos : ¬ (((c :: pt) ++ body).length ≤ 0) := by simp
  have hsub : substr ((c :: pt) ++ (body ++ closeStr)) 0
      (some (((c :: pt) ++ body).length - 0 + 2)) = (c :: pt) ++ (body ++ closeStr) := by
    simp only [substr, List.drop_zero, Nat.sub_zero]
    rw [← hlen, List.take_length]
  have hrep : replace ((c :: pt) ++ (body ++ closeStr)) 0 (((c :: pt) ++ body).length - 0 + 2) r
      = r := replace_whole _ _ _ (by rw [hlen]; omega)
  have hfr : find r (c :: pt) = none := find_none_of_head_not_mem c pt r hcr
  rw [replacePlaceholdersLoop]
  simp only [hfind, hscan, if_neg hpos, hsub, hr, if_neg hne, hrep]
  rw [replacePlaceholdersLoop_of_find_none _ _ _ _ _ _ hfr]

theorem markerTexts_head : ∀ m ∈ markerTexts, m.head? = some lbraceChar := by decide

theorem find_none_of_lbrace_not_mem (m r : Str) (hm : m ∈ markerTexts)
    (hr : lbraceChar ∉ r) : find r m = none := by
  have h := markerTexts_head m hm
  cases m with
  | nil => simp at h
  | cons c pt =>
    simp only [List.head?_cons, Option.some.injEq] at h
    subst h
    exact find_none_of_head_not_mem _ pt r hr

theorem find_none_of_second (m tl : Str) (c : Char) (hm0 : m.head? = some c)
    (hc : c ∉ tl) (hm1 : m[1]? ≠ none) (h1 : m[1]? ≠ tl.head?) :
    find (c :: tl) m = none := by
  cases m with
  | nil => simp at hm0
  | cons c0 m1 =>
    simp only [List.head?_cons, Option.some.injEq] at hm0
    subst hm0
    cases m1 with
    | nil => simp at hm1
    | cons x m2 =>
      have hp : ¬ ((c0 :: x :: m2).isPrefixOf (c0 :: tl) = true) := by
        cases tl with
        | nil => simp [List.isPrefixOf]
        | cons y ys =>
          have hxy : x ≠ y := by simpa using h1
          simp [List.isPrefixOf, hxy]
      rw [find_eq_findAt, findAt, if_neg hp]
      exact findAt_none_of_absent _ _ _ (absent_of_head_not_mem c0 _ tl hc)

theorem applyCallPlaceholders_append (NULL_STR : Str) (fuel : Nat)
    (t1 t2 : List (Str × (Str → Option Str))) (arg : Str) :
    applyCallPlaceholders NULL_STR fuel (t1 ++ t2) arg =
      (applyCallPlaceholders NULL_STR fuel t1 arg).andThen
        (applyCallPlaceholders NULL_STR fuel t2) := by
  induction t1 generalizing arg with
  | nil => rfl
  | cons pr rest ih =>
    obtain ⟨placeholder, replacer⟩ := pr
    simp only [List.cons_append, applyCallPlaceholders]
    cases replacePlaceholders NULL_STR fuel arg placeholder replacer with
    | ok a => exact ih a
    | fault => rfl
    | outOfFuel => rfl

theorem openers_before_slice :
    ∀ m ∈ markerTexts.take 11, m.head? = some lbraceChar ∧ m[1]? ≠ none ∧ m[1]? ≠ some 's' := by
  decide

theorem not_mem_of_forall_ne (c : Char) (s : Str) (h : ∀ x ∈ s, x ≠ c) : c ∉ s :=
  fun hm => h c hm rfl

theorem sliceString_subset (s : Str) (a b : Nat) : ∀ c ∈ sliceString s a b, c ∈ s := by
  intro c hc
  exact List.mem_of_mem_drop (List.mem_of_mem_take hc)

/-- C6, amended. For every string s without comma, parenthesis or brace and all indices
a ≤ b ≤ length(s) with b below 2 ^ 31, the largest value of an int plus one, resolving the
token of the call slice(s,a,b) yields the substring of s over the half-open range from a
to b, when that substring is non-empty. -/
theorem slice_marker_resolves (ext : Externals) (fuel : Nat)
    (hexPath iniPath listString listPath jsonString jsonPath : Str)
    (s : Str) (a b : Nat)
    (hs : ∀ c ∈ s, c ≠ ',' ∧ c ≠ '(' ∧ c ≠ ')' ∧ c ≠ Char.ofNat 123 ∧ c ≠ Char.ofNat 125)
    (hab : a ≤ b) (_hb : b ≤ s.length) (hint : b < 2 ^ 31)
    (hne : (s.drop a).take (b - a) ≠ [])
    (hfuel : 1 ≤ fuel) :
    applyPlaceholderReplacementArg ext fuel hexPath iniPath listString listPath jsonString
      jsonPath (sliceMarker s a b) = .ok ((s.drop a).take (b - a)) := by
  obtain ⟨fuel, rfl⟩ : ∃ k, fuel = k + 1 := ⟨fuel - 1, by omega⟩
  have hcomma : ',' ∉ s := not_mem_of_forall_ne _ _ (fun x hx => (hs x hx).1)
  have hrpar : ')' ∉ s := not_mem_of_forall_ne _ _ (fun x hx => (hs x hx).2.2.1)
  have hlb : lbraceChar ∉ s := not_mem_of_forall_ne _ _ (fun x hx => (hs x hx).2.2.2.1)
  have hbody_lb : lbraceChar ∉ "slice(".toList ++ (s ++ ',' :: (to_string a ++ ',' :: to_string b)) := by
    simp only [List.mem_append, List.mem_cons, not_or]
    exact ⟨by decide, hlb, by decide, not_mem_to_string _ (by decide) a, by decide,
      not_mem_to_string _ (by decide) b⟩
  have hbody_rp : ')' ∉ "slice(".toList ++ (s ++ ',' :: (to_string a ++ ',' :: to_string b)) := by
    simp only [List.mem_append, List.mem_cons, not_or]
    exact ⟨by decide, hrpar, by decide, not_mem_to_string _ (by decide) a, by decide,
      not_mem_to_string _ (by decide) b⟩
  have hshape : sliceMarker s a b = (lbraceChar :: "slice(".toList) ++
      ((s ++ ',' :: (to_string a ++ ',' :: to_string b)) ++ closeStr) := rfl
  have hshape2 : sliceMarker s a b = lbraceChar ::
      ("slice(".toList ++ ((s ++ ',' :: (to_string a ++ ',' :: to_string b)) ++ closeStr)) := rfl
  have hshape3 : sliceMarker s a b = "\x7bslice".toList ++ ('(' ::
      ((s ++ ',' :: (to_string a ++ ',' :: to_string b)) ++ ')' :: [Char.ofNat 125])) := rfl
  have hresult : sliceReplacer (sliceMarker s a b) = some ((s.drop a).take (b - a)) := by
    rw [hshape3, sliceReplacer_call s (to_string a) (to_string b) _ a b hcomma hrpar
      (not_mem_to_string _ (by decide) a) (not_mem_to_string _ (by decide) a)
      (not_mem_to_string _ (by decide) b) (not_mem_to_string _ (by decide) b)
      (stoi_to_string a (by omega)) (stoi_to_string b hint)]
    simp [toSizeT_natCast, sliceString]
  have hres_lb : lbraceChar ∉ (s.drop a).take (b - a) :=
    fun hm => hlb (sliceString_subset s a b _ hm)
  -- the openers before `slice` do not occur in the token
  have hbefore : ∀ pr ∈ (placeholders ext hexPath iniPath listString listPath jsonString
      jsonPath).take 11, find (sliceMarker s a b) pr.1 = none := by
    intro pr hpr
    have hmem : pr.1 ∈ ((placeholders ext hexPath iniPath listString listPath jsonString
        jsonPath).take 11).map Prod.fst := List.mem_map_of_mem _ hpr
    have hmem2 : pr.1 ∈ markerTexts.take 11 := hmem
    obtain ⟨h0, h1, h2⟩ := openers_before_slice _ hmem2
    rw [hshape2]
    refine find_none_of_second pr.1 _ lbraceChar h0 ?_ h1 ?_
    · have hcl : lbraceChar ∉ closeStr := by decide
      simp only [List.mem_append, not_or] at hbody_lb ⊢
      exact ⟨hbody_lb.1, hbody_lb.2, hcl⟩
    · exact h2
  have hsplit : (placeholders ext hexPath iniPath listString listPath jsonString jsonPath)
      = (placeholders ext hexPath iniPath listString listPath jsonString jsonPath).take 11 ++
        [("\x7bslice(".toList, sliceReplacer), ("\x7bsplit(".toList, splitReplacer ext)] := rfl
  have hslice : replacePlaceholders ext.NULL_STR (fuel + 1) (sliceMarker s a b)
      "\x7bslice(".toList sliceReplacer = .ok ((s.drop a).take (b - a)) := by
    have := replacePlaceholdersLoop_single ext.NULL_STR lbraceChar "slice(".toList
      (s ++ ',' :: (to_string a ++ ',' :: to_string b)) ((s.drop a).take (b - a))
      sliceReplacer fuel hbody_lb (by decide) (by decide) hbody_rp
      (by rw [← hshape]; exact hresult) hne hres_lb
    rw [replacePlaceholders, hshape]
    exact this
  unfold applyPlaceholderReplacementArg
  rw [hsplit, applyCallPlaceholders_append, applyCallPlaceholders_of_find_none _ _ _ _ hbefore]
  simp only [Run.andThen, applyCallPlaceholders, hslice]
  simp only [replacePlaceholders]
  rw [replacePlaceholdersLoop_of_find_none _ _ _ _ _ _
    (find_none_of_lbrace_not_mem _ _ (by decide) hres_lb)]
  simp only [replaceAllPlaceholders]
  rw [replaceAllPlaceholdersLoop_of_find_none _ _ _ _ _
    (find_none_of_lbrace_not_mem _ _ (by decide) hres_lb)]
  simp only []
  rw [replaceAllPlaceholdersLoop_of_find_none _ _ _ _ _
    (find_none_of_lbrace_not_mem _ _ (by decide) hres_lb)]
  simp only []
  rw [replaceAllPlaceholdersLoop_of_find_none _ _ _ _ _
    (find_none_of_lbrace_not_mem _ _ (by decide) hres_lb)]
  simp only []
  rw [replaceAllPlaceholdersLoop_of_find_none _ _ _ _ _
    (find_none_of_lbrace_not_mem _ _ (by decide) hres_lb)]

/-- C6, witness: the call slice(hello,1,3) of the specification resolves to el. -/
theorem slice_marker_resolves_witness :
    sliceMarker "hello".toList 1 3 = "\x7bslice(hello,1,3)\x7d".toList ∧
    (("hello".toList).drop 1).take (3 - 1) = "el".toList ∧
    applyPlaceholderReplacementArg sampleExternals 1 [] [] [] [] [] []
      (sliceMarker "hello".toList 1 3) = .ok ((("hello".toList).drop 1).take (3 - 1)) :=
  ⟨by decide, by decide,
    slice_marker_resolves sampleExternals 1 [] [] [] [] [] [] "hello".toList 1 3
      (by decide) (by decide) (by decide) (by decide) (by decide) (by decide)⟩

theorem splitReplacer_three_eq (ext : Externals) (str delim idx rest : Str)
    (hstr : ',' ∉ str) (hidx : ',' ∉ idx)
    (hpar : ')' ∉ str ++ ',' :: (delim ++ ',' :: idx)) :
    splitReplacer ext ("\x7bsplit".toList ++
        ('(' :: ((str ++ ',' :: (delim ++ ',' :: idx)) ++ ')' :: rest))) =
      (stoi idx).bind fun index =>
        some (if ext.splitStringAtIndex (ext.removeQuotes (ext.trim str))
                (ext.removeQuotes (ext.trim delim)) (toSizeT index) = []
              then ext.removeQuotes (ext.trim str)
              else ext.splitStringAtIndex (ext.removeQuotes (ext.trim str))
                (ext.removeQuotes (ext.trim delim)) (toSizeT index)) := by
  unfold splitReplacer
  rw [parametersOf_call _ _ _ (by decide) (by decide) hpar]
  have h1 : find (str ++ ',' :: (delim ++ ',' :: idx)) [','] = some str.length := by
    rw [find_eq_findAt]
    have := findAt_append_of_head_not_mem ',' [] str (delim ++ ',' :: idx) 0 hstr
    simpa using this
  have h3 : findLastOf (str ++ ',' :: (delim ++ ',' :: idx)) ','
      = some (str.length + 1 + delim.length) := by
    have hre : str ++ ',' :: (delim ++ ',' :: idx) = (str ++ ',' :: delim) ++ ',' :: idx := by
      simp
    rw [hre, findLastOf_append _ _ _ hidx]
    simp only [List.length_append, List.length_cons]
    congr 1
    omega
  simp only [h1, h3]
  rw [if_pos (by omega)]
  have hlen : str.length + 1 + delim.length - str.length - 1 = delim.length := by omega
  rw [hlen]
  have hs : substr (str ++ ',' :: (delim ++ ',' :: idx)) 0 (some str.length) = str := by
    simp [substr]
  have hd : substr (str ++ ',' :: (delim ++ ',' :: idx)) (str.length + 1) (some delim.length)
      = delim := by
    have hre : str ++ ',' :: (delim ++ ',' :: idx) = (str ++ [',']) ++ (delim ++ ',' :: idx) := by
      simp
    have hl : (str ++ [',']).length = str.length + 1 := by simp
    simp only [substr]
    rw [hre, ← hl, List.drop_left, List.take_left]
  have hx : substr (str ++ ',' :: (delim ++ ',' :: idx)) (str.length + 1 + delim.length + 1) none
      = idx := by
    have hre : str ++ ',' :: (delim ++ ',' :: idx) = (str ++ ',' :: (delim ++ [','])) ++ idx := by
      simp
    have hl : (str ++ ',' :: (delim ++ [','])).length = str.length + 1 + delim.length + 1 := by
      simp; omega
    simp only [substr]
    rw [hre, ← hl, List.drop_left]
  rw [hs, hd, hx]
  cases stoi idx with
  | none => rfl
  | some index =>
    simp only [Option.bind]
    split <;> rfl

theorem splitReplacer_three (ext : Externals) (str delim idx rest : Str) (i : Int)
    (hstr : ',' ∉ str) (hidx : ',' ∉ idx)
    (hpar : ')' ∉ str ++ ',' :: (delim ++ ',' :: idx)) (hi : stoi idx = some i) :
    splitReplacer ext ("\x7bsplit".toList ++
        ('(' :: ((str ++ ',' :: (delim ++ ',' :: idx)) ++ ')' :: rest))) =
      some (if ext.splitStringAtIndex (ext.removeQuotes (ext.trim str))
              (ext.removeQuotes (ext.trim delim)) (toSizeT i) = []
            then ext.removeQuotes (ext.trim str)
            else ext.splitStringAtIndex (ext.removeQuotes (ext.trim str))
              (ext.removeQuotes (ext.trim delim)) (toSizeT i)) := by
  rw [splitReplacer_three_eq ext str delim idx rest hstr hidx hpar, hi]
  rfl

theorem splitReplacer_three_none (ext : Externals) (str delim idx rest : Str)
    (hstr : ',' ∉ str) (hidx : ',' ∉ idx)
    (hpar : ')' ∉ str ++ ',' :: (delim ++ ',' :: idx)) (hi : stoi idx = none) :
    splitReplacer ext ("\x7bsplit".toList ++
        ('(' :: ((str ++ ',' :: (delim ++ ',' :: idx)) ++ ')' :: rest))) = none := by
  rw [splitReplacer_three_eq ext str delim idx rest hstr hidx hpar, hi]
  rfl

theorem stoi_range (s : Str) (v : Int) (h : stoi s = some v) :
    -(2 ^ 31 : Int) ≤ v ∧ v < (2 ^ 31 : Int) := by
  unfold stoi at h
  cases hr : readNumeral s with
  | none => rw [hr] at h; cases h
  | some u =>
    rw [hr] at h
    simp only at h
    by_cases hu : -(2 ^ 31 : Int) ≤ u ∧ u < (2 ^ 31 : Int)
    · rw [if_pos hu] at h
      cases h
      exact hu
    · rw [if_neg hu] at h
      cases h

theorem findLastOf_not_mem (s : Str) (ch : Char) (h : ch ∉ s) : findLastOf s ch = none :=
  findLastOfAux_not_mem ch s 0 none h

theorem splitReplacer_few (ext : Externals) (params rest : Str)
    (hpar : ')' ∉ params) (hcount : params.count ',' < 2) :
    splitReplacer ext ("\x7bsplit".toList ++ ('(' :: (params ++ ')' :: rest))) =
      some ("\x7bsplit".toList ++ ('(' :: (params ++ ')' :: rest))) := by
  unfold splitReplacer
  rw [parametersOf_call _ _ _ (by decide) (by decide) hpar]
  rcases span_delim ',' params with hno | ⟨pre, post, hparams, hpre⟩
  · simp only [find_none_of_head_not_mem ',' [] params hno]
  · have hpost : ',' ∉ post := by
      rw [hparams] at hcount
      simp only [List.count_append, List.count_cons_self] at hcount
      have h0 : post.count ',' = 0 := by omega
      exact List.count_eq_zero.mp h0
    have h1 : find params [','] = some pre.length := by
      rw [hparams, find_eq_findAt]
      have := findAt_append_of_head_not_mem ',' [] pre post 0 hpre
      simpa using this
    have h3 : findLastOf params ',' = some pre.length := by
      rw [hparams, findLastOf_append _ _ _ hpost]
    simp only [h1, h3]
    simp

/-- C7, amended. For every marker of split, with the argument text read up to the first
closing parenthesis: when that text is str, a comma, delimiter, a comma and index (no comma
in str nor in index) and std::stoi reads index as the numeral i, which is then the value of
an int, the replacer returns the i-th field (i converted to size_t), as splitStringAtIndex
gives it, of the trimmed, unquoted str split by the trimmed, unquoted delimiter, or the
trimmed, unquoted str when that field is empty; when the argument text has fewer than two
commas the replacer returns the marker text itself; and when std::stoi throws on index (no
numeral, or a numeral that is not the value of an int) the replacer does not return. -/
theorem splitReplacer_spec (ext : Externals) :
    (∀ (str delim idx rest : Str) (i : Int),
      ',' ∉ str → ',' ∉ idx → ')' ∉ str ++ ',' :: (delim ++ ',' :: idx) → stoi idx = some i →
      splitReplacer ext ("\x7bsplit(".toList ++ ((str ++ ',' :: (delim ++ ',' :: idx)) ++
          ')' :: rest)) =
        some (if ext.splitStringAtIndex (ext.removeQuotes (ext.trim str))
                (ext.removeQuotes (ext.trim delim)) (toSizeT i) = []
              then ext.removeQuotes (ext.trim str)
              else ext.splitStringAtIndex (ext.removeQuotes (ext.trim str))
                (ext.removeQuotes (ext.trim delim)) (toSizeT i)) ∧
        -(2 ^ 31 : Int) ≤ i ∧ i < (2 ^ 31 : Int)) ∧
    (∀ (params rest : Str), ')' ∉ params → params.count ',' < 2 →
      splitReplacer ext ("\x7bsplit(".toList ++ (params ++ ')' :: rest)) =
        some ("\x7bsplit(".toList ++ (params ++ ')' :: rest))) ∧
    (∀ (str delim idx rest : Str),
      ',' ∉ str → ',' ∉ idx → ')' ∉ str ++ ',' :: (delim ++ ',' :: idx) → stoi idx = none →
      splitReplacer ext ("\x7bsplit(".toList ++ ((str ++ ',' :: (delim ++ ',' :: idx)) ++
          ')' :: rest)) = none) ∧
    (∀ n : Nat, stoi (to_string n) = if n < 2 ^ 31 then some (n : Int) else none) :=
  ⟨fun str delim idx rest i h1 h2 h3 h4 =>
      ⟨splitReplacer_three ext str delim idx rest i h1 h2 h3 h4, stoi_range idx i h4⟩,
   fun params rest h1 h2 => splitReplacer_few ext params rest h1 h2,
   fun str delim idx rest h1 h2 h3 h4 => splitReplacer_three_none ext str delim idx rest h1 h2 h3 h4,
   fun n => by
    by_cases hn : n < 2 ^ 31
    · rw [if_pos hn, stoi_to_string n hn]
    · rw [if_neg hn, stoi_to_string_large n (by omega)]⟩

/-- C7, witness: of a-b-c split at the hyphen the field 1 is b; in the call of the
specification, split(a,b,c , , 1), str is a, the delimiter is everything between the first
and the last comma and no field 1 exists, so the result is a; with one comma the marker is
returned; with the index text x the replacer does not return. -/
theorem splitReplacer_spec_witness :
    splitReplacer sampleExternals "\x7bsplit(a-b-c,-,1)\x7d".toList = some "b".toList ∧
    splitReplacer sampleExternals "\x7bsplit(a,b,c , , 1)\x7d".toList = some "a".toList ∧
    splitReplacer sampleExternals "\x7bsplit(abc,1)\x7d".toList
      = some "\x7bsplit(abc,1)\x7d".toList ∧
    splitReplacer sampleExternals "\x7bsplit(a-b,-,x)\x7d".toList = none :=
  ⟨(((splitReplacer_spec sampleExternals).1 "a-b-c".toList "-".toList "1".toList
      [Char.ofNat 125] 1 (by decide) (by decide) (by decide) (by decide)).1).trans (by decide),
   (((splitReplacer_spec sampleExternals).1 "a".toList "b,c , ".toList " 1".toList
      [Char.ofNat 125] 1 (by decide) (by decide) (by decide) (by decide)).1).trans (by decide),
   (splitReplacer_spec sampleExternals).2.1 "abc,1".toList [Char.ofNat 125]
      (by decide) (by decide),
   (splitReplacer_spec sampleExternals).2.2.1 "a-b".toList "-".toList "x".toList
      [Char.ofNat 125] (by decide) (by decide) (by decide) (by decide)⟩

/-- C7, counterexample. For the marker of the call split(a-b,-,2147483648) the
specification gives the whole str a-b, since the split of a-b at the hyphen yields nothing
at that index; but the index is not the value of an int, so std::stoi throws: the replacer
does not return, and neither does the resolution of the token. With the index 2147483647
the replacer returns a-b. -/
theorem split_index_beyond_int :
    sampleSplitStringAtIndex "a-b".toList "-".toList 2147483648 = [] ∧
    stoi "2147483648".toList = none ∧
    splitReplacer sampleExternals "\x7bsplit(a-b,-,2147483648)\x7d".toList = none ∧
    applyPlaceholderReplacementArg sampleExternals 5 [] [] [] [] [] []
      "\x7bsplit(a-b,-,2147483648)\x7d".toList = .fault ∧
    splitReplacer sampleExternals "\x7bsplit(a-b,-,2147483647)\x7d".toList
      = some "a-b".toList := by
  refine ⟨by decide, by decide, by decide, by decide, by decide⟩

theorem replace_middle (pre mid post r : Str) :
    replace (pre ++ (mid ++ post)) pre.length mid.length r = pre ++ (r ++ post) := by
  simp [replace, List.drop_append_eq_append_drop]

/-- One round of the outer loop on a token with one call marker: the marker is handed to the
replacer and replaced by its result, or by the null sentinel when the result is empty. -/
theorem replacePlaceholdersLoop_round (NULL_STR : Str) (c : Char) (pre pt body post r0 : Str)
    (replacer : Str → Option Str) (fuel : Nat) (lastArg : Str)
    (hpre : c ∉ pre) (hc : c ∉ pt ++ body) (hc1 : c ≠ ')') (hc2 : c ≠ Char.ofNat 125)
    (hpost : c ∉ post) (hclose : ')' ∉ pt ++ body)
    (hr : replacer ((c :: pt) ++ (body ++ closeStr)) = some r0) :
    replacePlaceholdersLoop NULL_STR (c :: pt) replacer (fuel + 1)
        (pre ++ (((c :: pt) ++ (body ++ closeStr)) ++ post)) lastArg =
      if pre ++ ((if r0 = [] then NULL_STR else r0) ++ post) = lastArg then
        .ok (replace (pre ++ ((if r0 = [] then NULL_STR else r0) ++ post)) pre.length
          ((c :: pt) ++ (body ++ closeStr)).length NULL_STR)
      else
        replacePlaceholdersLoop NULL_STR (c :: pt) replacer fuel
          (pre ++ ((if r0 = [] then NULL_STR else r0) ++ post))
          (pre ++ ((if r0 = [] then NULL_STR else r0) ++ post)) := by
  have hcs : closeStr = ')' :: [Char.ofNat 125] := by decide
  have hfind : find (pre ++ (((c :: pt) ++ (body ++ closeStr)) ++ post)) (c :: pt)
      = some pre.length := by
    rw [find_eq_findAt]
    have := findAt_append_of_head_not_mem c pt pre ((body ++ closeStr) ++ post) 0 hpre
    simpa using this
  have hrest : c ∉ pt ++ ((body ++ closeStr) ++ post) := by
    simp only [List.mem_append, not_or] at hc ⊢
    refine ⟨hc.1, ⟨hc.2, ?_⟩, hpost⟩
    rw [hcs]
    simp only [List.mem_cons, List.not_mem_nil, or_false, not_or]
    exact ⟨hc1, hc2⟩
  have hnext : findFrom (pre ++ (((c :: pt) ++ (body ++ closeStr)) ++ post)) (c :: pt)
      (pre.length + 1) = none := by
    have hre : pre ++ (((c :: pt) ++ (body ++ closeStr)) ++ post)
        = (pre ++ [c]) ++ (pt ++ ((body ++ closeStr) ++ post)) := by simp
    have hl : (pre ++ [c]).length = pre.length + 1 := by simp
    rw [hre, ← hl, findFrom_append_left,
      findAt_none_of_absent _ _ _ (absent_of_head_not_mem c pt _ hrest)]
  have hbefore : ')' ∉ (c :: pt) ++ body := by
    simp only [List.cons_append, List.mem_cons, not_or]
    exact ⟨fun h => hc1 h.symm, hclose⟩
  have hend : findFrom (pre ++ (((c :: pt) ++ (body ++ closeStr)) ++ post)) closeStr pre.length
      = some (pre.length + ((c :: pt) ++ body).length) := by
    rw [findFrom_append_left]
    have := findAt_append_of_head_not_mem ')' [Char.ofNat 125] ((c :: pt) ++ body) post
      pre.length hbefore
    rw [hcs]
    simp only [List.append_assoc] at this ⊢
    exact this
  have hscan : nestedScan (pre ++ (((c :: pt) ++ (body ++ closeStr)) ++ post)) (c :: pt)
      ((pre ++ (((c :: pt) ++ (body ++ closeStr)) ++ post)).length + 1) pre.length
      = some (some (pre.length + ((c :: pt) ++ body).length)) := by
    rw [nestedScan]
    simp only [hnext, hend]
  have hmlen : ((c :: pt) ++ (body ++ closeStr)).length = ((c :: pt) ++ body).length + 2 := by
    simp [hcs]
    omega
  have hcount : pre.length + ((c :: pt) ++ body).length - pre.length + 2
      = ((c :: pt) ++ (body ++ closeStr)).length := by
    rw [hmlen]; omega
  have hpos : ¬ (pre.length + ((c :: pt) ++ body).length ≤ pre.length) := by
    simp
  have hsub : substr (pre ++ (((c :: pt) ++ (body ++ closeStr)) ++ post)) pre.length
      (some ((c :: pt) ++ (body ++ closeStr)).length) = (c :: pt) ++ (body ++ closeStr) := by
    simp only [substr]
    rw [List.drop_left, List.take_left]
  rw [replacePlaceholdersLoop]
  simp only [hfind, hscan, if_neg hpos, hcount, hsub, hr, replace_middle]

/-! ### Halting of the loops -/

theorem findAt_sound (pat s : Str) (i j : Nat) (h : findAt pat s i = some j) :
    ∃ pre post, s = pre ++ (pat ++ post) ∧ j = i + pre.length := by
  induction s generalizing i with
  | nil =>
    by_cases hp : pat = []
    · simp only [findAt, hp, if_true, Option.some.injEq] at h
      exact ⟨[], [], by simp [hp], by simp [h]⟩
    · simp [findAt, hp] at h
  | cons x xs ih =>
    rw [findAt] at h
    by_cases hpre : pat.isPrefixOf (x :: xs) = true
    · rw [if_pos hpre] at h
      obtain ⟨post, hpost⟩ := List.isPrefixOf_iff_prefix.mp hpre
      exact ⟨[], post, by simp [hpost], by simpa using h.symm⟩
    · rw [if_neg hpre] at h
      obtain ⟨pre, post, hs, hj⟩ := ih (i + 1) h
      exact ⟨x :: pre, post, by simp [hs], by simp [hj]; omega⟩

theorem find_sound (s pat : Str) (p : Nat) (h : find s pat = some p) :
    ∃ pre post, s = pre ++ (pat ++ post) ∧ p = pre.length := by
  rw [find_eq_findAt] at h
  obtain ⟨pre, post, hs, hj⟩ := findAt_sound pat s 0 p h
  exact ⟨pre, post, hs, by simpa using hj⟩

theorem findFrom_bound (s pat : Str) (pos p : Nat) (h : findFrom s pat pos = some p) :
    pos ≤ p ∧ p ≤ s.length := by
  unfold findFrom at h
  by_cases hpos : pos ≤ s.length
  · rw [if_pos hpos] at h
    obtain ⟨pre, post, hs, hj⟩ := findAt_sound pat (s.drop pos) pos p h
    have hlen : (s.drop pos).length = pre.length + (pat.length + post.length) := by
      rw [hs]; simp
    rw [List.length_drop] at hlen
    omega
  · rw [if_neg hpos] at h
    exact absurd h (by simp)

theorem nestedScan_ne_none (arg placeholder : Str) (fuel n : Nat)
    (hn : n ≤ arg.length) (hfuel : arg.length + 1 - n ≤ fuel) :
    nestedScan arg placeholder fuel n ≠ none := by
  induction fuel generalizing n with
  | zero => omega
  | succ fuel ih =>
    rw [nestedScan]
    cases hf : findFrom arg placeholder (n + 1) with
    | none => simp
    | some ns =>
      have hb := findFrom_bound arg placeholder (n + 1) ns hf
      simp only []
      split
      · exact ih ns hb.2 (by omega)
      · simp

theorem count_replace_lt (c : Char) (pre pt post repl : Str) (len : Nat) (hlen : 1 ≤ len)
    (hrepl : c ∉ repl) :
    (replace (pre ++ ((c :: pt) ++ post)) pre.length len repl).count c
      < (pre ++ ((c :: pt) ++ post)).count c := by
  obtain ⟨k, rfl⟩ : ∃ k, len = k + 1 := ⟨len - 1, by omega⟩
  have hdrop : (pre ++ ((c :: pt) ++ post)).drop (pre.length + (k + 1)) = (pt ++ post).drop k := by
    rw [List.drop_append_eq_append_drop]
    simp
  have hle : ((pt ++ post).drop k).count c ≤ (pt ++ post).count c :=
    (List.drop_sublist k _).count_le c
  unfold replace
  rw [hdrop, List.take_left]
  simp only [List.count_append, List.count_cons_self, List.count_eq_zero_of_not_mem hrepl]
  simp only [List.count_append] at hle
  omega

theorem replacePlaceholdersLoop_halts (NULL_STR : Str) (c : Char) (pt : Str)
    (replacer : Str → Option Str) (hN : c ∉ NULL_STR)
    (hrep : ∀ m r, replacer m = some r → c ∉ r) (fuel : Nat) (arg lastArg : Str)
    (hfuel : arg.count c ≤ fuel) :
    replacePlaceholdersLoop NULL_STR (c :: pt) replacer fuel arg lastArg ≠ .outOfFuel := by
  induction fuel generalizing arg lastArg with
  | zero =>
    have hc : c ∉ arg := List.count_eq_zero.mp (by omega)
    rw [replacePlaceholdersLoop_of_find_none _ _ _ _ _ _ (find_none_of_head_not_mem c pt arg hc)]
    simp
  | succ fuel ih =>
    rw [replacePlaceholdersLoop]
    cases hf : find arg (c :: pt) with
    | none => simp
    | some startPos =>
      obtain ⟨pre, post, harg, hstart⟩ := find_sound arg (c :: pt) startPos hf
      have hle : startPos ≤ arg.length := by
        rw [harg, hstart]; simp
      simp only []
      cases hs : nestedScan arg (c :: pt) (arg.length + 1) startPos with
      | none => exact absurd hs (nestedScan_ne_none arg (c :: pt) _ _ hle (by omega))
      | some e =>
        cases e with
        | none => simp
        | some endPos =>
          simp only []
          split
          · simp
          · cases hr : replacer (substr arg startPos (some (endPos - startPos + 2))) with
            | none => simp
            | some r =>
              simp only []
              have hrepl : c ∉ (if r = [] then NULL_STR else r) := by
                split
                · exact hN
                · exact hrep _ _ hr
              generalize (if r = [] then NULL_STR else r) = repl at hrepl ⊢
              split
              · simp
              · apply ih
                have := count_replace_lt c pre pt post repl
                  (endPos - startPos + 2) (by omega) hrepl
                rw [← harg, ← hstart] at this
                omega

theorem flip_step_a (fuel : Nat) :
    replacePlaceholdersLoop "null".toList "\x7bf(".toList flipReplacer (fuel + 1)
        "\x7bf(a)\x7d".toList "\x7bf(a)\x7d".toList =
      replacePlaceholdersLoop "null".toList "\x7bf(".toList flipReplacer fuel
        "\x7bf(b)\x7d".toList "\x7bf(b)\x7d".toList := by
  rfl

theorem flip_step_b (fuel : Nat) :
    replacePlaceholdersLoop "null".toList "\x7bf(".toList flipReplacer (fuel + 1)
        "\x7bf(b)\x7d".toList "\x7bf(b)\x7d".toList =
      replacePlaceholdersLoop "null".toList "\x7bf(".toList flipReplacer fuel
        "\x7bf(a)\x7d".toList "\x7bf(a)\x7d".toList := by
  rfl

theorem flip_step_start (fuel : Nat) :
    replacePlaceholdersLoop "null".toList "\x7bf(".toList flipReplacer (fuel + 1)
        "\x7bf(a)\x7d".toList [] =
      replacePlaceholdersLoop "null".toList "\x7bf(".toList flipReplacer fuel
        "\x7bf(b)\x7d".toList "\x7bf(b)\x7d".toList := by
  rfl

theorem flip_outOfFuel (fuel : Nat) :
    replacePlaceholdersLoop "null".toList "\x7bf(".toList flipReplacer fuel
        "\x7bf(a)\x7d".toList "\x7bf(a)\x7d".toList = .outOfFuel ∧
    replacePlaceholdersLoop "null".toList "\x7bf(".toList flipReplacer fuel
        "\x7bf(b)\x7d".toList "\x7bf(b)\x7d".toList = .outOfFuel := by
  induction fuel with
  | zero => exact ⟨by decide, by decide⟩
  | succ fuel ih => exact ⟨by rw [flip_step_a]; exact ih.2, by rw [flip_step_b]; exact ih.1⟩

/-- C8, counterexample. With the opener of f and a replacer that answers the marker of
f(a) by the marker of f(b) and the marker of f(b) by the marker of f(a), the token never
equals its value after the previous round, and replacePlaceholders never returns: with any
fuel the model runs out of it. -/
theorem replacePlaceholders_not_halting :
    ¬ ∃ fuel : Nat, replacePlaceholders "null".toList fuel "\x7bf(a)\x7d".toList
        "\x7bf(".toList flipReplacer ≠ .outOfFuel := by
  rintro ⟨fuel, h⟩
  apply h
  cases fuel with
  | zero => decide
  | succ fuel =>
    rw [replacePlaceholders, flip_step_start]
    exact (flip_outOfFuel fuel).2

theorem replacePlaceholders_empty_result (NULL_STR : Str) (c : Char) (pre pt body post : Str)
    (replacer : Str → Option Str) (fuel : Nat)
    (hpre : c ∉ pre) (hc : c ∉ pt ++ body) (hc1 : c ≠ ')') (hc2 : c ≠ Char.ofNat 125)
    (hpost : c ∉ post) (hclose : ')' ∉ pt ++ body) (hN : c ∉ NULL_STR)
    (hr : replacer ((c :: pt) ++ (body ++ closeStr)) = some []) :
    replacePlaceholders NULL_STR (fuel + 1) (pre ++ (((c :: pt) ++ (body ++ closeStr)) ++ post))
      (c :: pt) replacer = .ok (pre ++ (NULL_STR ++ post)) := by
  rw [replacePlaceholders, replacePlaceholdersLoop_round NULL_STR c pre pt body post []
    replacer fuel [] hpre hc hc1 hc2 hpost hclose hr]
  simp only [if_true]
  by_cases hempty : pre ++ (NULL_STR ++ post) = []
  · rw [if_pos hempty]
    simp only [List.append_eq_nil] at hempty
    obtain ⟨h1, h2, h3⟩ := hempty
    subst h1 h2 h3
    simp [replace]
  · rw [if_neg hempty]
    apply replacePlaceholdersLoop_of_find_none
    apply find_none_of_head_not_mem
    simp only [List.mem_append, not_or]
    exact ⟨hpre, hN, hpost⟩

theorem replacePlaceholders_no_progress (NULL_STR : Str) (c : Char) (pre pt body post : Str)
    (replacer : Str → Option Str) (fuel : Nat)
    (hpre : c ∉ pre) (hc : c ∉ pt ++ body) (hc1 : c ≠ ')') (hc2 : c ≠ Char.ofNat 125)
    (hpost : c ∉ post) (hclose : ')' ∉ pt ++ body)
    (hr : replacer ((c :: pt) ++ (body ++ closeStr)) = some ((c :: pt) ++ (body ++ closeStr))) :
    replacePlaceholders NULL_STR (fuel + 2) (pre ++ (((c :: pt) ++ (body ++ closeStr)) ++ post))
      (c :: pt) replacer = .ok (pre ++ (NULL_STR ++ post)) := by
  have hm : ¬ ((c :: pt) ++ (body ++ closeStr) = []) := by simp
  have hne : ¬ (pre ++ (((c :: pt) ++ (body ++ closeStr)) ++ post) = []) := by simp
  rw [replacePlaceholders, replacePlaceholdersLoop_round NULL_STR c pre pt body post _
    replacer (fuel + 1) [] hpre hc hc1 hc2 hpost hclose hr]
  simp only [if_neg hm]
  rw [if_neg hne, replacePlaceholdersLoop_round NULL_STR c pre pt body post _
    replacer fuel _ hpre hc hc1 hc2 hpost hclose hr]
  simp only [if_neg hm, if_true]
  rw [replace_middle]

/-- C8, amended. For a token with one call marker (the first character of the opener occurs
nowhere else in it): when the replacer returns the empty string the marker is replaced by
NULL_STR; when the replacer returns the marker itself, so that the second round leaves the
token as the first left it, the marker is replaced by NULL_STR and the loop stops. The loop
halts on every token when neither NULL_STR nor any result of the replacer contains the
first character of the opener, within one round per occurrence of that character. -/
theorem replacePlaceholders_null_sentinel (NULL_STR : Str) (c : Char) (pt : Str)
    (replacer : Str → Option Str) (hc1 : c ≠ ')') (hc2 : c ≠ Char.ofNat 125)
    (hN : c ∉ NULL_STR) :
    (∀ (pre body post : Str) (fuel : Nat),
      c ∉ pre → c ∉ pt ++ body → c ∉ post → ')' ∉ pt ++ body →
      replacer ((c :: pt) ++ (body ++ closeStr)) = some [] →
      replacePlaceholders NULL_STR (fuel + 1)
        (pre ++ (((c :: pt) ++ (body ++ closeStr)) ++ post)) (c :: pt) replacer
        = .ok (pre ++ (NULL_STR ++ post))) ∧
    (∀ (pre body post : Str) (fuel : Nat),
      c ∉ pre → c ∉ pt ++ body → c ∉ post → ')' ∉ pt ++ body →
      replacer ((c :: pt) ++ (body ++ closeStr)) = some ((c :: pt) ++ (body ++ closeStr)) →
      replacePlaceholders NULL_STR (fuel + 2)
        (pre ++ (((c :: pt) ++ (body ++ closeStr)) ++ post)) (c :: pt) replacer
        = .ok (pre ++ (NULL_STR ++ post))) ∧
    ((∀ m r, replacer m = some r → c ∉ r) →
      ∀ (arg : Str) (fuel : Nat), arg.count c ≤ fuel →
        replacePlaceholders NULL_STR fuel arg (c :: pt) replacer ≠ .outOfFuel) :=
  ⟨fun pre body post fuel h1 h2 h3 h4 h5 =>
      replacePlaceholders_empty_result NULL_STR c pre pt body post replacer fuel
        h1 h2 hc1 hc2 h3 h4 hN h5,
   fun pre body post fuel h1 h2 h3 h4 h5 =>
      replacePlaceholders_no_progress NULL_STR c pre pt body post replacer fuel
        h1 h2 hc1 hc2 h3 h4 h5,
   fun hrep arg fuel hfuel =>
      replacePlaceholdersLoop_halts NULL_STR c pt replacer hN hrep fuel arg [] hfuel⟩

/-- C8, witness: the call slice(abc,1,1), whose result is empty, and the call slice(abc),
which the replacer returns as it is, both become the text null; with a replacer that always
answers v, the loop halts on a token with two markers within two rounds. -/
theorem replacePlaceholders_null_sentinel_witness :
    replacePlaceholders "null".toList 1 "a\x7bslice(abc,1,1)\x7dz".toList "\x7bslice(".toList
      sliceReplacer = .ok "anullz".toList ∧
    replacePlaceholders "null".toList 2 "a\x7bslice(abc)\x7dxyz".toList "\x7bslice(".toList
      sliceReplacer = .ok "anullxyz".toList ∧
    replacePlaceholders "null".toList 2 "\x7bf(x)\x7d\x7bf(y)\x7d".toList "\x7bf(".toList
      constReplacer ≠ .outOfFuel :=
  ⟨(replacePlaceholders_null_sentinel "null".toList lbraceChar "slice(".toList sliceReplacer
      (by decide) (by decide) (by decide)).1 "a".toList "abc,1,1".toList "z".toList 0
      (by decide) (by decide) (by decide) (by decide) (by decide),
   (replacePlaceholders_null_sentinel "null".toList lbraceChar "slice(".toList sliceReplacer
      (by decide) (by decide) (by decide)).2.1 "a".toList "abc".toList "xyz".toList 0
      (by decide) (by decide) (by decide) (by decide) (by decide),
   (replacePlaceholders_null_sentinel "null".toList lbraceChar "f(".toList constReplacer
      (by decide) (by decide) (by decide)).2.2
      (fun m r h => by
        have hr : r = "v".toList := by
          simpa [constReplacer] using h.symm
        rw [hr]
        decide)
      "\x7bf(x)\x7d\x7bf(y)\x7d".toList 2 (by decide)⟩

/-! ### Halting of `replaceAllPlaceholders` -/

theorem find_nil (s : Str) : find s [] = some 0 := by
  rw [find_eq_findAt]
  cases s <;> simp [findAt]

theorem growth_outOfFuel (fuel n : Nat) (last : Str) (hlast : last.length ≤ n + 3) :
    replaceAllPlaceholdersLoop "\x7ba\x7d".toList "x\x7ba\x7d".toList fuel
      (List.replicate n 'x' ++ "\x7ba\x7d".toList) last = .outOfFuel := by
  have hfind : ∀ k, find (List.replicate k 'x' ++ "\x7ba\x7d".toList) "\x7ba\x7d".toList
      = some k := by
    intro k
    rw [find_eq_findAt]
    have hx : lbraceChar ∉ List.replicate k 'x' := by
      intro hm
      have := (List.mem_replicate.mp hm).2
      exact absurd this (by decide)
    have := findAt_append_of_head_not_mem lbraceChar "a\x7d".toList (List.replicate k 'x') [] 0 hx
    simpa using this
  induction fuel generalizing n last with
  | zero =>
    rw [replaceAllPlaceholdersLoop, hfind]
    rfl
  | succ fuel ih =>
    have hstep : replacePlaceholder (List.replicate n 'x' ++ "\x7ba\x7d".toList)
        "\x7ba\x7d".toList "x\x7ba\x7d".toList
        = List.replicate (n + 1) 'x' ++ "\x7ba\x7d".toList := by
      unfold replacePlaceholder
      rw [hfind]
      have := replace_middle (List.replicate n 'x') "\x7ba\x7d".toList [] "x\x7ba\x7d".toList
      simp only [List.append_nil, List.length_replicate] at this
      simp only []
      rw [this, List.replicate_succ']
      simp
    rw [replaceAllPlaceholdersLoop]
    simp only [hfind, Option.isNone_some, Bool.false_eq_true, if_false, hstep]
    have hne : ¬ (List.replicate (n + 1) 'x' ++ "\x7ba\x7d".toList = last) := by
      intro h
      have hl := congrArg List.length h
      simp only [List.length_append, List.length_replicate] at hl
      have h3 : ("\x7ba\x7d".toList).length = 3 := by decide
      omega
    rw [if_neg hne]
    apply ih
    simp only [List.length_append, List.length_replicate]
    have h3 : ("\x7ba\x7d".toList).length = 3 := by decide
    omega

theorem prepend_outOfFuel (fuel : Nat) (s last : Str) (hlast : last.length ≤ s.length) :
    replaceAllPlaceholdersLoop [] "x".toList fuel s last = .outOfFuel := by
  induction fuel generalizing s last with
  | zero => simp [replaceAllPlaceholdersLoop, find_nil]
  | succ fuel ih =>
    have hstep : replacePlaceholder s [] "x".toList = 'x' :: s := by
      simp [replacePlaceholder, find_nil, replace]
    rw [replaceAllPlaceholdersLoop]
    simp only [find_nil, Option.isNone_some, Bool.false_eq_true, if_false, hstep]
    have hne : ¬ ('x' :: s = last) := by
      intro h
      have hl := congrArg List.length h
      simp only [List.length_cons] at hl
      omega
    rw [if_neg hne]
    exact ih _ _ (le_refl _)

/-- C9, counterexample. With the placeholder of a and a replacement that holds it after an
x, and with an empty placeholder and the replacement x, the string grows in every round and
replaceAllPlaceholders never returns: with any fuel the model runs out of it. -/
theorem replaceAllPlaceholders_not_halting :
    (¬ ∃ fuel : Nat, replaceAllPlaceholders fuel "\x7ba\x7d".toList "\x7ba\x7d".toList
        "x\x7ba\x7d".toList ≠ .outOfFuel) ∧
    (¬ ∃ fuel : Nat, replaceAllPlaceholders fuel [] [] "x".toList ≠ .outOfFuel) := by
  constructor
  · rintro ⟨fuel, h⟩
    exact h (growth_outOfFuel fuel 0 [] (by simp))
  · rintro ⟨fuel, h⟩
    exact h (prepend_outOfFuel fuel [] [] (le_refl _))

theorem replaceAllPlaceholdersLoop_halts (c : Char) (pt replacement : Str)
    (hrep : c ∉ replacement) (fuel : Nat) (arg last : Str)
    (hfuel : arg.count c ≤ fuel) (hlast : last = [] ∨ arg.count c ≤ last.count c) :
    ∃ r, replaceAllPlaceholdersLoop (c :: pt) replacement fuel arg last = .ok r ∧
      find r (c :: pt) = none := by
  induction fuel generalizing arg last with
  | zero =>
    have hc : c ∉ arg := List.count_eq_zero.mp (by omega)
    have hf := find_none_of_head_not_mem c pt arg hc
    exact ⟨arg, replaceAllPlaceholdersLoop_of_find_none _ _ _ _ _ hf, hf⟩
  | succ fuel ih =>
    cases hf : find arg (c :: pt) with
    | none => exact ⟨arg, replaceAllPlaceholdersLoop_of_find_none _ _ _ _ _ hf, hf⟩
    | some pos =>
      obtain ⟨pre, post, harg, hpos⟩ := find_sound arg (c :: pt) pos hf
      subst harg
      have hlt := count_replace_lt c pre pt post replacement (c :: pt).length (by simp) hrep
      have hstep : replacePlaceholder (pre ++ ((c :: pt) ++ post)) (c :: pt) replacement
          = replace (pre ++ ((c :: pt) ++ post)) pre.length (c :: pt).length replacement := by
        simp only [replacePlaceholder, hf]
        rw [hpos]
      rw [replaceAllPlaceholdersLoop]
      simp only [hf, Option.isNone_some, Bool.false_eq_true, if_false, hstep]
      split
      · rename_i heq
        rcases hlast with hl | hl
        · refine ⟨_, rfl, ?_⟩
          rw [heq, hl]
          simp [find_eq_findAt, findAt]
        · rw [heq] at hlt
          omega
      · exact ih _ _ (by omega) (Or.inr (le_refl _))

theorem replaceAllPlaceholders_same (source placeholder : Str) (fuel : Nat) :
    replaceAllPlaceholders (fuel + 2) source placeholder placeholder = .ok source := by
  cases hf : find source placeholder with
  | none => exact replaceAllPlaceholdersLoop_of_find_none _ _ _ _ _ hf
  | some pos =>
    obtain ⟨pre, post, harg, hpos⟩ := find_sound source placeholder pos hf
    have hstep : replacePlaceholder source placeholder placeholder = source := by
      simp only [replacePlaceholder, hf]
      rw [harg, hpos, replace_middle]
    rw [replaceAllPlaceholders, replaceAllPlaceholdersLoop]
    simp only [hf, Option.isNone_some, Bool.false_eq_true, if_false, hstep]
    split
    · rfl
    · rw [replaceAllPlaceholdersLoop]
      simp [hf, hstep]

/-- C9, amended. replaceAllPlaceholders repeats single replacements until no occurrence of
the placeholder remains or the string stops changing. It returns, with no occurrence left,
for every source when the replacement does not contain the first character of the
placeholder, within one round per occurrence of that character in the source; and it
returns the source when the replacement is the placeholder itself. -/
theorem replaceAllPlaceholders_halts :
    (∀ (c : Char) (pt replacement source : Str) (fuel : Nat),
      c ∉ replacement → source.count c ≤ fuel →
      ∃ r, replaceAllPlaceholders fuel source (c :: pt) replacement = .ok r ∧
        find r (c :: pt) = none) ∧
    (∀ (source placeholder : Str) (fuel : Nat), 2 ≤ fuel →
      replaceAllPlaceholders fuel source placeholder placeholder = .ok source) := by
  refine ⟨fun c pt replacement source fuel hrep hfuel =>
    replaceAllPlaceholdersLoop_halts c pt replacement hrep fuel source [] hfuel (Or.inl rfl),
    fun source placeholder fuel hfuel => ?_⟩
  obtain ⟨k, rfl⟩ : ∃ k, fuel = k + 2 := ⟨fuel - 2, by omega⟩
  exact replaceAllPlaceholders_same source placeholder k

/-- C9, witness: the two markers of a in a source are replaced by b within two rounds, and
a source is returned as it is when the marker is replaced by itself. -/
theorem replaceAllPlaceholders_halts_witness :
    (∃ r, replaceAllPlaceholders 2 "\x7ba\x7d-\x7ba\x7d".toList "\x7ba\x7d".toList "b".toList
        = .ok r ∧ find r "\x7ba\x7d".toList = none) ∧
    replaceAllPlaceholders 2 "\x7ba\x7d-\x7ba\x7d".toList "b".toList "b".toList = .ok "\x7ba\x7d-\x7ba\x7d".toList ∧
    replaceAllPlaceholders 2 "x\x7ba\x7d".toList "\x7ba\x7d".toList "\x7ba\x7d".toList
        = .ok "x\x7ba\x7d".toList :=
  ⟨replaceAllPlaceholders_halts.1 lbraceChar "a\x7d".toList "b".toList
      "\x7ba\x7d-\x7ba\x7d".toList 2 (by decide) (by decide),
   replaceAllPlaceholders_halts.2 "\x7ba\x7d-\x7ba\x7d".toList "b".toList 2 (by decide),
   replaceAllPlaceholders_halts.2 "x\x7ba\x7d".toList "\x7ba\x7d".toList 2 (by decide)⟩

/-! ### Nested calls -/

/-- C10, the failing input. The inner call slice(hello,0,4) alone resolves to hell, and
slice(hell,1,3) to el; but on the nested token the first round hands the text from the
outer opener to the inner closing to the replacer, which cuts the first four characters of
the outer call, and the token resolves to a broken marker, not to el. -/
theorem nested_slice_not_resolved :
    applyPlaceholderReplacementArg sampleExternals 5 [] [] [] [] [] []
      "\x7bslice(hello,0,4)\x7d".toList = .ok "hell".toList ∧
    applyPlaceholderReplacementArg sampleExternals 5 [] [] [] [] [] []
      "\x7bslice(hell,1,3)\x7d".toList = .ok "el".toList ∧
    nestedScan "\x7bslice(\x7bslice(hello,0,4)\x7d,1,3)\x7d".toList "\x7bslice(".toList 32 0
      = some (some 23) ∧
    substr "\x7bslice(\x7bslice(hello,0,4)\x7d,1,3)\x7d".toList 0 (some (23 - 0 + 2))
      = "\x7bslice(\x7bslice(hello,0,4)\x7d".toList ∧
    sliceReplacer "\x7bslice(\x7bslice(hello,0,4)\x7d".toList = some "\x7bsli".toList ∧
    applyPlaceholderReplacementArg sampleExternals 5 [] [] [] [] [] []
      "\x7bslice(\x7bslice(hello,0,4)\x7d,1,3)\x7d".toList = .ok "\x7bsli,1,3)\x7d".toList := by
  refine ⟨by decide, by decide, by decide, by decide, by decide, by decide⟩

/-! ### List lookups -/

theorem listReplacer_out_of_range (ext : Externals) (listString : Str) (i : Nat)
    (h : (ext.stringToList listString).length ≤ i) :
    listReplacer ext listString (listMarker i) = none := by
  have hshape : listMarker i = "\x7blist".toList ++ ('(' :: (to_string i ++ ')' :: [Char.ofNat 125])) :=
    rfl
  unfold listReplacer
  rw [hshape, parametersOf_call _ _ _ (by decide) (by decide) (not_mem_to_string _ (by decide) i)]
  by_cases hint : i < 2 ^ 31
  · rw [stoi_to_string i hint]
    simp only [Option.bind, toSizeT_natCast]
    exact List.getElem?_eq_none h
  · rw [stoi_to_string_large i (by omega)]
    rfl

/-- One round of the outer loop on a token with one call marker whose replacer does not
return normally: the loop does not return either. -/
theorem replacePlaceholdersLoop_round_fault (NULL_STR : Str) (c : Char) (pre pt body post : Str)
    (replacer : Str → Option Str) (fuel : Nat) (lastArg : Str)
    (hpre : c ∉ pre) (hc : c ∉ pt ++ body) (hc1 : c ≠ ')') (hc2 : c ≠ Char.ofNat 125)
    (hpost : c ∉ post) (hclose : ')' ∉ pt ++ body)
    (hr : replacer ((c :: pt) ++ (body ++ closeStr)) = none) :
    replacePlaceholdersLoop NULL_STR (c :: pt) replacer (fuel + 1)
        (pre ++ (((c :: pt) ++ (body ++ closeStr)) ++ post)) lastArg = .fault := by
  have hcs : closeStr = ')' :: [Char.ofNat 125] := by decide
  have hfind : find (pre ++ (((c :: pt) ++ (body ++ closeStr)) ++ post)) (c :: pt)
      = some pre.length := by
    rw [find_eq_findAt]
    have := findAt_append_of_head_not_mem c pt pre ((body ++ closeStr) ++ post) 0 hpre
    simpa using this
  have hrest : c ∉ pt ++ ((body ++ closeStr) ++ post) := by
    simp only [List.mem_append, not_or] at hc ⊢
    refine ⟨hc.1, ⟨hc.2, ?_⟩, hpost⟩
    rw [hcs]
    simp only [List.mem_cons, List.not_mem_nil, or_false, not_or]
    exact ⟨hc1, hc2⟩
  have hnext : findFrom (pre ++ (((c :: pt) ++ (body ++ closeStr)) ++ post)) (c :: pt)
      (pre.length + 1) = none := by
    have hre : pre ++ (((c :: pt) ++ (body ++ closeStr)) ++ post)
        = (pre ++ [c]) ++ (pt ++ ((body ++ closeStr) ++ post)) := by simp
    have hl : (pre ++ [c]).length = pre.length + 1 := by simp
    rw [hre, ← hl, findFrom_append_left,
      findAt_none_of_absent _ _ _ (absent_of_head_not_mem c pt _ hrest)]
  have hbefore : ')' ∉ (c :: pt) ++ body := by
    simp only [List.cons_append, List.mem_cons, not_or]
    exact ⟨fun h => hc1 h.symm, hclose⟩
  have hend : findFrom (pre ++ (((c :: pt) ++ (body ++ closeStr)) ++ post)) closeStr pre.length
      = some (pre.length + ((c :: pt) ++ body).length) := by
    rw [findFrom_append_left]
    have := findAt_append_of_head_not_mem ')' [Char.ofNat 125] ((c :: pt) ++ body) post
      pre.length hbefore
    rw [hcs]
    simp only [List.append_assoc] at this ⊢
    exact this
  have hscan : nestedScan (pre ++ (((c :: pt) ++ (body ++ closeStr)) ++ post)) (c :: pt)
      ((pre ++ (((c :: pt) ++ (body ++ closeStr)) ++ post)).length + 1) pre.length
      = some (some (pre.length + ((c :: pt) ++ body).length)) := by
    rw [nestedScan]
    simp only [hnext, hend]
  have hmlen : ((c :: pt) ++ (body ++ closeStr)).length = ((c :: pt) ++ body).length + 2 := by
    simp [hcs]
    omega
  have hcount : pre.length + ((c :: pt) ++ body).length - pre.length + 2
      = ((c :: pt) ++ (body ++ closeStr)).length := by
    rw [hmlen]; omega
  have hpos : ¬ (pre.length + ((c :: pt) ++ body).length ≤ pre.length) := by
    simp
  have hsub : substr (pre ++ (((c :: pt) ++ (body ++ closeStr)) ++ post)) pre.length
      (some ((c :: pt) ++ (body ++ closeStr)).length) = (c :: pt) ++ (body ++ closeStr) := by
    simp only [substr]
    rw [List.drop_left, List.take_left]
  rw [replacePlaceholdersLoop]
  simp only [hfind, hscan, if_neg hpos, hcount, hsub, hr]

theorem applyCallPlaceholders_fault (NULL_STR : Str) (fuel : Nat)
    (t1 t2 : List (Str × (Str → Option Str))) (placeholder : Str)
    (replacer : Str → Option Str) (arg : Str)
    (h1 : ∀ pr ∈ t1, find arg pr.1 = none)
    (h2 : replacePlaceholders NULL_STR fuel arg placeholder replacer = .fault) :
    applyCallPlaceholders NULL_STR fuel (t1 ++ (placeholder, replacer) :: t2) arg = .fault := by
  rw [applyCallPlaceholders_append, applyCallPlaceholders_of_find_none _ _ _ _ h1]
  simp only [Run.andThen, applyCallPlaceholders, h2]

theorem openers_before_list :
    ∀ m ∈ markerTexts.take 2, m.head? = some lbraceChar ∧ m[1]? ≠ none ∧ m[1]? ≠ some 'l' := by
  decide

/-- The call of `list` with an index at or beyond the length of the list: the replacer reads
the vector out of range, so the resolution of the token has no defined result. -/
theorem listMarker_out_of_range (ext : Externals) (fuel : Nat)
    (hexPath iniPath listString listPath jsonString jsonPath : Str) (i : Nat)
    (h : (ext.stringToList listString).length ≤ i) :
    applyPlaceholderReplacementArg ext (fuel + 1) hexPath iniPath listString listPath jsonString
      jsonPath (listMarker i) = .fault := by
  have hbody : lbraceChar ∉ "list(".toList ++ to_string i := by
    simp only [List.mem_append, not_or]
    exact ⟨by decide, not_mem_to_string _ (by decide) i⟩
  have hbody_rp : ')' ∉ "list(".toList ++ to_string i := by
    simp only [List.mem_append, not_or]
    exact ⟨by decide, not_mem_to_string _ (by decide) i⟩
  have hshape : listMarker i = [] ++ (((lbraceChar :: "list(".toList) ++
      (to_string i ++ closeStr)) ++ []) := by
    simp [listMarker]
    rfl
  have hshape2 : listMarker i = lbraceChar :: ("list(".toList ++ (to_string i ++ closeStr)) := rfl
  have hbefore : ∀ pr ∈ (placeholders ext hexPath iniPath listString listPath jsonString
      jsonPath).take 2, find (listMarker i) pr.1 = none := by
    intro pr hpr
    have hmem : pr.1 ∈ ((placeholders ext hexPath iniPath listString listPath jsonString
        jsonPath).take 2).map Prod.fst := List.mem_map_of_mem _ hpr
    have hmem2 : pr.1 ∈ markerTexts.take 2 := hmem
    obtain ⟨h0, h1, h2⟩ := openers_before_list _ hmem2
    rw [hshape2]
    refine find_none_of_second pr.1 _ lbraceChar h0 ?_ h1 h2
    have hcl : lbraceChar ∉ closeStr := by decide
    simp only [List.mem_append, not_or] at hbody ⊢
    exact ⟨hbody.1, hbody.2, hcl⟩
  have hfault : replacePlaceholders ext.NULL_STR (fuel + 1) (listMarker i) "\x7blist(".toList
      (listReplacer ext listString) = .fault := by
    have := replacePlaceholdersLoop_round_fault ext.NULL_STR lbraceChar [] "list(".toList
      (to_string i) [] (listReplacer ext listString) fuel [] (by simp) hbody (by decide)
      (by decide) (by simp) hbody_rp (listReplacer_out_of_range ext listString i h)
    rw [replacePlaceholders, hshape]
    exact this
  have hsplit : (placeholders ext hexPath iniPath listString listPath jsonString jsonPath)
      = (placeholders ext hexPath iniPath listString listPath jsonString jsonPath).take 2 ++
        ("\x7blist(".toList, listReplacer ext listString) ::
        (placeholders ext hexPath iniPath listString listPath jsonString jsonPath).drop 3 := rfl
  unfold applyPlaceholderReplacementArg
  rw [hsplit, applyCallPlaceholders_fault _ _ _ _ _ _ _ hbefore hfault]
  rfl

/-! ### Indices beyond the range of `int` -/

/-- The call of `slice` with an end index that is not the value of an `int`: `std::stoi`
throws, so the resolution of the token does not return. -/
theorem sliceMarker_beyond_int (ext : Externals) (fuel : Nat)
    (hexPath iniPath listString listPath jsonString jsonPath : Str)
    (s : Str) (a b : Nat)
    (hs : ∀ c ∈ s, c ≠ ',' ∧ c ≠ '(' ∧ c ≠ ')' ∧ c ≠ Char.ofNat 123 ∧ c ≠ Char.ofNat 125)
    (hint : 2 ^ 31 ≤ b) :
    applyPlaceholderReplacementArg ext (fuel + 1) hexPath iniPath listString listPath jsonString
      jsonPath (sliceMarker s a b) = .fault := by
  have hcomma : ',' ∉ s := not_mem_of_forall_ne _ _ (fun x hx => (hs x hx).1)
  have hrpar : ')' ∉ s := not_mem_of_forall_ne _ _ (fun x hx => (hs x hx).2.2.1)
  have hlb : lbraceChar ∉ s := not_mem_of_forall_ne _ _ (fun x hx => (hs x hx).2.2.2.1)
  have hbody_lb : lbraceChar ∉ "slice(".toList ++ (s ++ ',' :: (to_string a ++ ',' :: to_string b)) := by
    simp only [List.mem_append, List.mem_cons, not_or]
    exact ⟨by decide, hlb, by decide, not_mem_to_string _ (by decide) a, by decide,
      not_mem_to_string _ (by decide) b⟩
  have hbody_rp : ')' ∉ "slice(".toList ++ (s ++ ',' :: (to_string a ++ ',' :: to_string b)) := by
    simp only [List.mem_append, List.mem_cons, not_or]
    exact ⟨by decide, hrpar, by decide, not_mem_to_string _ (by decide) a, by decide,
      not_mem_to_string _ (by decide) b⟩
  have hshape : sliceMarker s a b = [] ++ (((lbraceChar :: "slice(".toList) ++
      ((s ++ ',' :: (to_string a ++ ',' :: to_string b)) ++ closeStr)) ++ []) := by
    simp [sliceMarker]
    rfl
  have hshape2 : sliceMarker s a b = lbraceChar ::
      ("slice(".toList ++ ((s ++ ',' :: (to_string a ++ ',' :: to_string b)) ++ closeStr)) := rfl
  have hshape3 : (lbraceChar :: "slice(".toList) ++
      ((s ++ ',' :: (to_string a ++ ',' :: to_string b)) ++ closeStr) =
      "\x7bslice".toList ++ ('(' ::
      ((s ++ ',' :: (to_string a ++ ',' :: to_string b)) ++ ')' :: [Char.ofNat 125])) := rfl
  have hresult : sliceReplacer ((lbraceChar :: "slice(".toList) ++
      ((s ++ ',' :: (to_string a ++ ',' :: to_string b)) ++ closeStr)) = none := by
    rw [hshape3]
    exact sliceReplacer_call_none s (to_string a) (to_string b) _ hcomma hrpar
      (not_mem_to_string _ (by decide) a) (not_mem_to_string _ (by decide) a)
      (not_mem_to_string _ (by decide) b) (not_mem_to_string _ (by decide) b)
      (stoi_to_string_large b hint)
  have hbefore : ∀ pr ∈ (placeholders ext hexPath iniPath listString listPath jsonString
      jsonPath).take 11, find (sliceMarker s a b) pr.1 = none := by
    intro pr hpr
    have hmem : pr.1 ∈ ((placeholders ext hexPath iniPath listString listPath jsonString
        jsonPath).take 11).map Prod.fst := List.mem_map_of_mem _ hpr
    have hmem2 : pr.1 ∈ markerTexts.take 11 := hmem
    obtain ⟨h0, h1, h2⟩ := openers_before_slice _ hmem2
    rw [hshape2]
    refine find_none_of_second pr.1 _ lbraceChar h0 ?_ h1 ?_
    · have hcl : lbraceChar ∉ closeStr := by decide
      simp only [List.mem_append, not_or] at hbody_lb ⊢
      exact ⟨hbody_lb.1, hbody_lb.2, hcl⟩
    · exact h2
  have hfault : replacePlaceholders ext.NULL_STR (fuel + 1) (sliceMarker s a b)
      "\x7bslice(".toList sliceReplacer = .fault := by
    have := replacePlaceholdersLoop_round_fault ext.NULL_STR lbraceChar [] "slice(".toList
      (s ++ ',' :: (to_string a ++ ',' :: to_string b)) [] sliceReplacer fuel []
      (by simp) hbody_lb (by decide) (by decide) (by simp) hbody_rp hresult
    rw [replacePlaceholders, hshape]
    exact this
  have hsplit : (placeholders ext hexPath iniPath listString listPath jsonString jsonPath)
      = (placeholders ext hexPath iniPath listString listPath jsonString jsonPath).take 11 ++
        ("\x7bslice(".toList, sliceReplacer) ::
        (placeholders ext hexPath iniPath listString listPath jsonString jsonPath).drop 12 := rfl
  unfold applyPlaceholderReplacementArg
  rw [hsplit, applyCallPlaceholders_fault _ _ _ _ _ _ _ hbefore hfault]
  rfl

theorem slice_beyond_int_replicate (n : Nat) (hn : 2 ^ 31 ≤ n) :
    (∀ c ∈ List.replicate n 'x',
      c ≠ ',' ∧ c ≠ '(' ∧ c ≠ ')' ∧ c ≠ Char.ofNat 123 ∧ c ≠ Char.ofNat 125) ∧
    (0 ≤ n ∧ n ≤ (List.replicate n 'x').length) ∧
    ((List.replicate n 'x').drop 0).take (n - 0) ≠ [] ∧
    stoi (to_string n) = none ∧
    (∀ fuel : Nat, applyPlaceholderReplacementArg sampleExternals (fuel + 1) [] [] [] [] [] []
      (sliceMarker (List.replicate n 'x') 0 n) = .fault) := by
  have hchars : ∀ c ∈ List.replicate n 'x',
      c ≠ ',' ∧ c ≠ '(' ∧ c ≠ ')' ∧ c ≠ Char.ofNat 123 ∧ c ≠ Char.ofNat 125 := by
    intro c hc
    have hx : c = 'x' := List.eq_of_mem_replicate hc
    subst hx
    decide
  have hpos : 0 < n := by
    have h31 : 0 < 2 ^ 31 := by norm_num
    omega
  refine ⟨hchars, ⟨Nat.zero_le n, by rw [List.length_replicate]⟩, ?_,
    stoi_to_string_large n hn,
    fun fuel => sliceMarker_beyond_int sampleExternals fuel [] [] [] [] [] [] _ 0 n hchars hn⟩
  intro hnil
  have hlen := congrArg List.length hnil
  rw [List.length_take, List.drop_zero, List.length_replicate] at hlen
  simp only [Nat.sub_zero, Nat.min_self, List.length_nil] at hlen
  omega

/-- C6, counterexample. Let s be the string of 2 ^ 31 letters x, a = 0 and b = 2 ^ 31: the
string holds no comma, parenthesis or brace, a ≤ b ≤ length(s) and the substring is not
empty, but the end index, written 2147483648 in the token, is not the value of an int, so
std::stoi throws and the resolution of the token of the call slice(s,0,2147483648) does
not return, whatever the fuel. -/
theorem slice_end_beyond_int :
    to_string (2 ^ 31) = "2147483648".toList ∧
    (∀ c ∈ List.replicate (2 ^ 31) 'x',
      c ≠ ',' ∧ c ≠ '(' ∧ c ≠ ')' ∧ c ≠ Char.ofNat 123 ∧ c ≠ Char.ofNat 125) ∧
    (0 ≤ 2 ^ 31 ∧ 2 ^ 31 ≤ (List.replicate (2 ^ 31) 'x').length) ∧
    ((List.replicate (2 ^ 31) 'x').drop 0).take (2 ^ 31 - 0) ≠ [] ∧
    stoi (to_string (2 ^ 31)) = none ∧
    (∀ fuel : Nat, applyPlaceholderReplacementArg sampleExternals (fuel + 1) [] [] [] [] [] []
      (sliceMarker (List.replicate (2 ^ 31) 'x') 0 (2 ^ 31)) = .fault) :=
  ⟨by decide, slice_beyond_int_replicate (2 ^ 31) (Nat.le_refl _)⟩

/-! ### List lookups: the failing input -/

/-- C11, the failing input. With a list of two entries the call list(1) resolves to the
second entry, but the call list(2), and the call list(0) on an empty list, make the
replacer read the vector out of range: the resolution has no defined result and the null
sentinel is not produced. -/
theorem list_lookup_out_of_range :
    sampleStringToList "a,b".toList = ["a".toList, "b".toList] ∧
    applyPlaceholderReplacementArg listExternals 5 [] [] "a,b".toList [] [] []
      "\x7blist(1)\x7d".toList = .ok "b".toList ∧
    listReplacer listExternals "a,b".toList "\x7blist(2)\x7d".toList = none ∧
    applyPlaceholderReplacementArg listExternals 5 [] [] "a,b".toList [] [] []
      "\x7blist(2)\x7d".toList = .fault ∧
    applyPlaceholderReplacementArg listExternals 5 [] [] [] [] [] []
      "\x7blist(0)\x7d".toList = .fault :=
  ⟨by decide, by decide, by decide,
   listMarker_out_of_range listExternals 4 [] [] "a,b".toList [] [] [] 2 (by decide),
   listMarker_out_of_range listExternals 4 [] [] [] [] [] [] 0 (by decide)⟩

/-! ### The dangerous-path gate -/

theorem find_zero_of_starts (s pat : Str) (h : pat <+: s) : find s pat = some 0 := by
  rw [find_eq_findAt]
  cases s with
  | nil =>
    have hp : pat = [] := List.prefix_nil.mp h
    simp [findAt, hp]
  | cons c cs =>
    rw [findAt, if_pos ( List.isPrefixOf_iff_prefix.mpr h)]

theorem starts_of_find_zero (s pat : Str) (h : find s pat = some 0) : pat <+: s := by
  obtain ⟨pre, post, hs, hlen⟩ := find_sound s pat 0 h
  have hpre : pre = [] := List.length_eq_zero.mp hlen.symm
  subst hpre
  exact ⟨post, by simpa using hs.symm⟩

theorem find_isSome_of_occurs (s pat : Str) (h : pat <:+: s) : (find s pat).isSome = true := by
  rw [find_eq_findAt]
  suffices hgen : ∀ i, (findAt pat s i).isSome = true from hgen 0
  induction s with
  | nil =>
    intro i
    have hp : pat = [] := List.infix_nil.mp h
    simp [findAt, hp]
  | cons c cs ih =>
    intro i
    rw [findAt]
    by_cases hpre : pat.isPrefixOf (c :: cs) = true
    · simp [hpre]
    · rw [if_neg hpre]
      rcases List.infix_cons_iff.mp h with h1 | h1
      · exact absurd ( List.isPrefixOf_iff_prefix.mpr h1) hpre
      · exact ih h1 (i + 1)

theorem find_isSome_of_mem (s : Str) (c : Char) (h : c ∈ s) : (find s [c]).isSome = true := by
  apply find_isSome_of_occurs
  obtain ⟨pre, post, hs⟩ := List.append_of_mem h
  exact ⟨pre, post, by simp [hs]⟩

/-- C12. For every path that is, or has as a prefix, one of the four ultra-protected
subtrees, isDangerousCombination returns true, whatever ROOT_PATH is. -/
theorem isDangerousCombination_ultraProtected (ROOT_PATH patternPath : Str)
    (h : ∃ folder ∈ ultraProtectedFolders, folder <+: patternPath) :
    isDangerousCombination ROOT_PATH patternPath = true := by
  obtain ⟨folder, hmem, hpre⟩ := h
  have hany : ultraProtectedFolders.any (fun folder => find patternPath folder == some 0)
      = true := by
    rw [List.any_eq_true]
    exact ⟨folder, hmem, by simp [find_zero_of_starts patternPath folder hpre]⟩
  simp [isDangerousCombination, hany]

/-- C12, witness: the path of the specification, below the Contents subtree. -/
theorem isDangerousCombination_ultraProtected_witness :
    (∃ folder ∈ ultraProtectedFolders, folder <+: "sdmc:/Nintendo/Contents/x".toList) ∧
    isDangerousCombination "sdmc:/".toList "sdmc:/Nintendo/Contents/x".toList = true :=
  ⟨⟨"sdmc:/Nintendo/Contents/".toList, by decide, by decide⟩,
   isDangerousCombination_ultraProtected "sdmc:/".toList "sdmc:/Nintendo/Contents/x".toList
    ⟨"sdmc:/Nintendo/Contents/".toList, by decide, by decide⟩⟩

theorem isDangerousCombination_of_dangerousPattern (ROOT_PATH patternPath pattern : Str)
    (hmem : pattern ∈ dangerousPatterns) (h : pattern <:+: patternPath) :
    isDangerousCombination ROOT_PATH patternPath = true := by
  have hany : dangerousPatterns.any (fun pattern => (find patternPath pattern).isSome)
      = true := by
    rw [List.any_eq_true]
    exact ⟨pattern, hmem, find_isSome_of_occurs patternPath pattern h⟩
  unfold isDangerousCombination
  split
  · rfl
  · split
    · rfl
    · simp [hany]

theorem isDangerousCombination_of_root_wildcard (ROOT_PATH patternPath pre post : Str)
    (hpath : patternPath = pre ++ (":/".toList ++ post))
    (hfirst : ∀ pre1 post1 : Str, patternPath = pre1 ++ (":/".toList ++ post1) →
      pre.length ≤ pre1.length)
    (hstar : '*' ∈ pre) :
    isDangerousCombination ROOT_PATH patternPath = true := by
  unfold isDangerousCombination
  split
  · rfl
  · split
    · rfl
    · split
      · rfl
      · cases hf : find patternPath ":/".toList with
        | none =>
          have := find_isSome_of_occurs patternPath ":/".toList ⟨pre, post, by simp [hpath]⟩
          rw [hf] at this
          exact absurd this (by simp)
        | some colonPos =>
          obtain ⟨pre1, post1, hs, hlen⟩ := find_sound patternPath ":/".toList colonPos hf
          have hle := hfirst pre1 post1 hs
          simp only []
          apply find_isSome_of_mem
          simp only [substr, List.drop_zero]
          rw [hpath, List.take_append_eq_append_take]
          apply List.mem_append_left
          rw [List.take_of_length_le (by omega)]
          exact hstar

/-- C13. Independent of any folder match, for every path that contains two dots in a row or
a tilde anywhere, isDangerousCombination returns true; and so it does for every path with
a star before its first colon-slash. -/
theorem isDangerousCombination_patterns (ROOT_PATH : Str) :
    (∀ patternPath : Str, ("..".toList <:+: patternPath ∨ '~' ∈ patternPath) →
      isDangerousCombination ROOT_PATH patternPath = true) ∧
    (∀ patternPath pre post : Str, patternPath = pre ++ (":/".toList ++ post) →
      (∀ pre1 post1 : Str, patternPath = pre1 ++ (":/".toList ++ post1) →
        pre.length ≤ pre1.length) →
      '*' ∈ pre → isDangerousCombination ROOT_PATH patternPath = true) := by
  refine ⟨fun patternPath h => ?_, fun patternPath pre post h1 h2 h3 =>
    isDangerousCombination_of_root_wildcard ROOT_PATH patternPath pre post h1 h2 h3⟩
  rcases h with h | h
  · exact isDangerousCombination_of_dangerousPattern ROOT_PATH patternPath _ (by decide) h
  · refine isDangerousCombination_of_dangerousPattern ROOT_PATH patternPath "~".toList
      (by decide) ?_
    obtain ⟨pre, post, hs⟩ := List.append_of_mem h
    exact ⟨pre, post, by simp [hs]⟩

theorem findAt_least (pat s : Str) (i j : Nat) (pre1 post1 : Str)
    (h : findAt pat s i = some j) (hs : s = pre1 ++ (pat ++ post1)) : j ≤ i + pre1.length := by
  induction s generalizing i pre1 with
  | nil =>
    have hp : pat = [] := by
      have := congrArg List.length hs
      simp only [List.length_nil, List.length_append] at this
      exact List.length_eq_zero.mp (by omega)
    simp only [findAt, hp, if_true, Option.some.injEq] at h
    omega
  | cons c cs ih =>
    rw [findAt] at h
    by_cases hpre : pat.isPrefixOf (c :: cs) = true
    · rw [if_pos hpre] at h
      simp only [Option.some.injEq] at h
      omega
    · rw [if_neg hpre] at h
      cases pre1 with
      | nil =>
        exfalso
        apply hpre
        apply List.isPrefixOf_iff_prefix.mpr
        exact ⟨post1, by simpa using hs.symm⟩
      | cons x xs =>
        simp only [List.cons_append, List.cons.injEq] at hs
        have := ih (i + 1) xs h hs.2
        simp only [List.length_cons]
        omega

theorem find_least (s pat : Str) (p : Nat) (pre1 post1 : Str)
    (h : find s pat = some p) (hs : s = pre1 ++ (pat ++ post1)) : p ≤ pre1.length := by
  rw [find_eq_findAt] at h
  simpa using findAt_least pat s 0 p pre1 post1 h hs

/-- C13, witness: the path of the specification, which holds two dots in a row, and a path
with a star in the root segment before its first colon-slash. -/
theorem isDangerousCombination_patterns_witness :
    ("..".toList <:+: "sdmc:/switch/../etc".toList ∨ '~' ∈ "sdmc:/switch/../etc".toList) ∧
    isDangerousCombination "sdmc:/".toList "sdmc:/switch/../etc".toList = true ∧
    '*' ∈ "sd*c".toList ∧
    isDangerousCombination "sdmc:/".toList "sd*c:/x".toList = true :=
  ⟨Or.inl (by decide),
   (isDangerousCombination_patterns "sdmc:/".toList).1 "sdmc:/switch/../etc".toList
     (Or.inl (by decide)),
   by decide,
   (isDangerousCombination_patterns "sdmc:/".toList).2 "sd*c:/x".toList "sd*c".toList
     "x".toList (by decide)
     (fun pre1 post1 hs =>
       find_least "sd*c:/x".toList ":/".toList 4 pre1 post1 (by decide) hs)
     (by decide)⟩

theorem protectedFolders_start :
    ∀ folder ∈ protectedFolders "sdmc:/".toList, folder.take 2 = "sd".toList := by decide

theorem ultra_remainders :
    ∀ folder ∈ protectedFolders "sdmc:/".toList, ∀ ultraFolder ∈ ultraProtectedFolders,
      2 ≤ (substr ultraFolder folder.length none).length ∧
      (substr ultraFolder folder.length none).take 2 ≠ "sd".toList := by decide

theorem take_eq_of_starts (pat s : Str) (n : Nat) (h : pat <+: s) (hn : n ≤ pat.length) :
    s.take n = pat.take n := by
  obtain ⟨post, hs⟩ := h
  rw [← hs, List.take_append_of_le_length hn]

theorem not_occurs_of_suffix (pat rel s : Str) (n : Nat) (hrel : rel = s.drop n)
    (h : ¬ pat <:+: s) : ¬ pat <:+: rel := by
  intro hin
  apply h
  rw [hrel] at hin
  exact hin.trans (List.drop_suffix n s).isInfix

theorem protectedFolderCheck_false (patternPath folder : Str)
    (hfolder : folder ∈ protectedFolders "sdmc:/".toList)
    (hne : patternPath ≠ folder)
    (hstar : '*' ∉ patternPath) (hdots : ¬ "..".toList <:+: patternPath)
    (htilde : '~' ∉ patternPath) :
    protectedFolderCheck patternPath folder = false := by
  unfold protectedFolderCheck
  rw [if_neg hne]
  by_cases hf : find patternPath folder = some 0
  · rw [if_pos hf]
    have hstarts := starts_of_find_zero patternPath folder hf
    have hrelstar : '*' ∉ substr patternPath folder.length none :=
      fun hm => hstar (List.mem_of_mem_drop hm)
    have hreltilde : '~' ∉ substr patternPath folder.length none :=
      fun hm => htilde (List.mem_of_mem_drop hm)
    have hreldots : ¬ "..".toList <:+: substr patternPath folder.length none :=
      not_occurs_of_suffix _ _ patternPath folder.length rfl hdots
    have h1 : dangerousPatterns.any
        (fun pattern => (find (substr patternPath folder.length none) pattern).isSome)
        = false := by
      simp only [dangerousPatterns, List.any_cons, List.any_nil, Bool.or_false]
      have e1 : find (substr patternPath folder.length none) "~".toList = none :=
        find_none_of_head_not_mem '~' [] _ hreltilde
      rw [find_none_of_absent _ _ hreldots, e1]
      rfl
    have h2 : dangerousCombinationPatterns.any
        (fun combination => (find (substr patternPath folder.length none) combination).isSome)
        = false := by
      simp only [dangerousCombinationPatterns, List.any_cons, List.any_nil, Bool.or_false]
      have e1 : find (substr patternPath folder.length none) "*".toList = none :=
        find_none_of_head_not_mem '*' [] _ hrelstar
      have e2 : find (substr patternPath folder.length none) "*/".toList = none :=
        find_none_of_head_not_mem '*' ['/'] _ hrelstar
      rw [e1, e2]
      rfl
    have h3 : ultraProtectedFolders.any
        (fun ultraFolder => find patternPath (substr ultraFolder folder.length none) == some 0)
        = false := by
      rw [Bool.eq_false_iff]
      intro hany
      rw [List.any_eq_true] at hany
      obtain ⟨ultraFolder, hu, hfound⟩ := hany
      have hfound2 : find patternPath (substr ultraFolder folder.length none) = some 0 := by
        simpa using hfound
      have hst := starts_of_find_zero _ _ hfound2
      obtain ⟨hlen, hne2⟩ := ultra_remainders folder hfolder ultraFolder hu
      have hfl : 2 ≤ folder.length := by
        have := congrArg List.length (protectedFolders_start folder hfolder)
        simp only [List.length_take] at this
        have h2 : ("sd".toList).length = 2 := by decide
        omega
      have e1 := take_eq_of_starts _ _ 2 hst hlen
      have e2 := take_eq_of_starts _ _ 2 hstarts hfl
      rw [e1, protectedFolders_start folder hfolder] at e2
      exact hne2 e2
    simp [h1, h2, h3]
  · rw [if_neg hf]

/-- C14. With ROOT_PATH the SD card root: for every path that is not equal to a protected
folder, has no ultra-protected subtree as prefix and contains neither a star, two dots in
a row, nor a tilde, isDangerousCombination returns false. -/
theorem isDangerousCombination_safe (patternPath : Str)
    (hne : ∀ folder ∈ protectedFolders "sdmc:/".toList, patternPath ≠ folder)
    (hultra : ∀ folder ∈ ultraProtectedFolders, ¬ folder <+: patternPath)
    (hstar : '*' ∉ patternPath) (hdots : ¬ "..".toList <:+: patternPath)
    (htilde : '~' ∉ patternPath) :
    isDangerousCombination "sdmc:/".toList patternPath = false := by
  have h1 : ultraProtectedFolders.any (fun folder => find patternPath folder == some 0)
      = false := by
    rw [Bool.eq_false_iff]
    intro hany
    rw [List.any_eq_true] at hany
    obtain ⟨folder, hu, hfound⟩ := hany
    exact hultra folder hu (starts_of_find_zero _ _ (by simpa using hfound))
  have h2 : (protectedFolders "sdmc:/".toList).any (protectedFolderCheck patternPath)
      = false := by
    rw [Bool.eq_false_iff]
    intro hany
    rw [List.any_eq_true] at hany
    obtain ⟨folder, hu, hfound⟩ := hany
    rw [protectedFolderCheck_false patternPath folder hu (hne folder hu) hstar hdots htilde]
      at hfound
    exact Bool.false_ne_true hfound
  have h3 : dangerousPatterns.any (fun pattern => (find patternPath pattern).isSome)
      = false := by
    simp only [dangerousPatterns, List.any_cons, List.any_nil, Bool.or_false]
    have e1 : find patternPath "~".toList = none := find_none_of_head_not_mem '~' [] _ htilde
    rw [find_none_of_absent _ _ hdots, e1]
    rfl
  unfold isDangerousCombination
  simp only [h1, h2, h3, Bool.false_eq_true, if_false]
  cases hf : find patternPath ":/".toList with
  | none => rfl
  | some colonPos =>
    simp only []
    have hroot : '*' ∉ substr patternPath 0 (some (colonPos + 2)) :=
      fun hm => hstar (List.mem_of_mem_take (by simpa [substr] using hm))
    rw [find_none_of_head_not_mem '*' [] _ hroot]
    rfl

/-- C14, witness: the package folder of the specification is not dangerous. -/
theorem isDangerousCombination_safe_witness :
    isDangerousCombination "sdmc:/".toList "sdmc:/switch/mypackage/".toList = false :=
  isDangerousCombination_safe "sdmc:/switch/mypackage/".toList
    (by decide) (by decide) (by decide) (by decide) (by decide)

/-! ### The execution engine: platform gates -/

theorem executeResolved_flags (eng : Engine) (packagePath selectedCommand : Str)
    (st : LoopState) (cmd : Command) :
    match executeResolved eng packagePath selectedCommand st cmd with
    | .next st1 => st1.inEristaSection = st.inEristaSection ∧
        st1.inMarikoSection = st.inMarikoSection ∧ st1.inTrySection = st.inTrySection
    | .stop _ => False
    | _ => True := by
  unfold executeResolved
  simp only []
  generalize (if st.world.interpreterLogging = true then
    logMessage (executingMessage cmd) st.world else st.world) = w
  split_ifs
  · cases cmd[1]? <;> simp
  · cases cmd[1]? <;> simp
  · cases cmd[1]? <;> simp
  · cases cmd[1]? <;> simp
  · cases cmd[1]? <;> simp
  · cases cmd[1]? <;> simp
  · cases eng.processCommand cmd packagePath selectedCommand w <;> simp

theorem interpretCommand_gate (eng : Engine) (fuel : Nat) (packagePath selectedCommand : Str)
    (st st1 : LoopState) (cmd : Command)
    (h : (interpretCommand eng fuel packagePath selectedCommand st cmd).finalState = some st1) :
    (st1.inEristaSection = st.inEristaSection ∧ st1.inMarikoSection = st.inMarikoSection) ∨
    (st1.inEristaSection = true ∧ st1.inMarikoSection = false) ∨
    (st1.inEristaSection = false ∧ st1.inMarikoSection = true) := by
  unfold interpretCommand at h
  by_cases hab : st.world.abortCommand = true
  · simp only [hab, if_true, LoopOutcome.finalState, Option.some.injEq] at h
    subst h
    left; exact ⟨rfl, rfl⟩
  · simp only [hab, Bool.false_eq_true, if_false] at h
    cases cmd with
    | nil =>
      simp only [LoopOutcome.finalState, Option.some.injEq] at h
      subst h
      left; exact ⟨rfl, rfl⟩
    | cons commandName args =>
      simp only [] at h
      by_cases h1 : commandName = "try:".toList
      · simp only [h1, if_true] at h
        split at h
        · simp only [LoopOutcome.finalState, Option.some.injEq] at h
          subst h
          left; exact ⟨rfl, rfl⟩
        · simp only [LoopOutcome.finalState, Option.some.injEq] at h
          subst h
          left; exact ⟨rfl, rfl⟩
      · rw [if_neg h1] at h
        by_cases h2 : commandName = "erista:".toList
        · rw [if_pos h2] at h
          simp only [LoopOutcome.finalState, Option.some.injEq] at h
          subst h
          right; left; exact ⟨rfl, rfl⟩
        · rw [if_neg h2] at h
          by_cases h3 : commandName = "mariko:".toList
          · rw [if_pos h3] at h
            simp only [LoopOutcome.finalState, Option.some.injEq] at h
            subst h
            right; right; exact ⟨rfl, rfl⟩
          · rw [if_neg h3] at h
            split at h
            · simp only [LoopOutcome.finalState, Option.some.injEq] at h
              subst h
              left; exact ⟨rfl, rfl⟩
            · split at h
              · split at h
                · split at h
                  · rename_i resolved _
                    have hflags := executeResolved_flags eng packagePath selectedCommand
                      { st with trace := st.trace ++ [Event.resolved (commandName :: args)] }
                      resolved
                    cases hex : executeResolved eng packagePath selectedCommand
                      { st with trace := st.trace ++ [Event.resolved (commandName :: args)] }
                      resolved with
                    | next st2 =>
                      rw [hex] at h hflags
                      simp only [LoopOutcome.finalState, Option.some.injEq] at h
                      subst h
                      left; exact ⟨hflags.1, hflags.2.1⟩
                    | stop st2 =>
                      rw [hex] at hflags
                      exact absurd hflags (by simp)
                    | fault =>
                      rw [hex] at h
                      simp [LoopOutcome.finalState] at h
                    | outOfFuel =>
                      rw [hex] at h
                      simp [LoopOutcome.finalState] at h
                  · simp [LoopOutcome.finalState] at h
                  · simp [LoopOutcome.finalState] at h
                · simp only [LoopOutcome.finalState, Option.some.injEq] at h
                  subst h
                  left; exact ⟨rfl, rfl⟩
              · simp only [LoopOutcome.finalState, Option.some.injEq] at h
                subst h
                left; exact ⟨rfl, rfl⟩

theorem interpretLoop_gate (eng : Engine) (fuel : Nat) (packagePath selectedCommand : Str)
    (commands : List Command) (st st1 : LoopState)
    (hst : ¬ (st.inEristaSection = true ∧ st.inMarikoSection = true))
    (h : (interpretLoop eng fuel packagePath selectedCommand st commands).finalState = some st1) :
    ¬ (st1.inEristaSection = true ∧ st1.inMarikoSection = true) := by
  induction commands generalizing st with
  | nil =>
    simp only [interpretLoop, LoopOutcome.finalState, Option.some.injEq] at h
    subst h
    exact hst
  | cons cmd rest ih =>
    rw [interpretLoop] at h
    cases hc : interpretCommand eng fuel packagePath selectedCommand st cmd with
    | next st2 =>
      rw [hc] at h
      simp only [] at h
      apply ih st2 _ h
      have hg := interpretCommand_gate eng fuel packagePath selectedCommand st st2 cmd
        (by rw [hc]; rfl)
      rcases hg with ⟨e1, e2⟩ | ⟨e1, e2⟩ | ⟨e1, e2⟩
      · rw [e1, e2]; exact hst
      · rw [e1, e2]; simp
      · rw [e1, e2]; simp
    | stop st2 =>
      rw [hc] at h
      simp only [LoopOutcome.finalState, Option.some.injEq] at h
      subst h
      have hg := interpretCommand_gate eng fuel packagePath selectedCommand st st2 cmd
        (by rw [hc]; rfl)
      rcases hg with ⟨e1, e2⟩ | ⟨e1, e2⟩ | ⟨e1, e2⟩
      · rw [e1, e2]; exact hst
      · rw [e1, e2]; simp
      · rw [e1, e2]; simp
    | fault =>
      rw [hc] at h
      simp [LoopOutcome.finalState] at h
    | outOfFuel =>
      rw [hc] at h
      simp [LoopOutcome.finalState] at h

theorem sourceReplacementGate_cases (lower : Str → Str) (gate : Bool × Bool) (cmd : Command) :
    sourceReplacementGate lower gate cmd = gate ∨
    sourceReplacementGate lower gate cmd = (true, false) ∨
    sourceReplacementGate lower gate cmd = (false, true) := by
  unfold sourceReplacementGate
  cases cmd with
  | nil => left; rfl
  | cons commandName args =>
    simp only []
    split_ifs
    · right; left; rfl
    · right; right; rfl
    · left; rfl

theorem addTableGate_cases (gate : Bool × Bool) (cmd : Command) :
    addTableGate gate cmd = gate ∨ addTableGate gate cmd = (true, false) ∨
    addTableGate gate cmd = (false, true) := by
  unfold addTableGate
  cases cmd with
  | nil => left; rfl
  | cons commandName args =>
    simp only []
    split_ifs
    · right; left; rfl
    · right; right; rfl
    · left; rfl

theorem foldl_gate_exclusive (step : Bool × Bool → Command → Bool × Bool)
    (hstep : ∀ gate cmd, step gate cmd = gate ∨ step gate cmd = (true, false) ∨
      step gate cmd = (false, true))
    (commands : List Command) (gate : Bool × Bool)
    (hgate : ¬ (gate.1 = true ∧ gate.2 = true)) :
    ¬ ((commands.foldl step gate).1 = true ∧ (commands.foldl step gate).2 = true) := by
  induction commands generalizing gate with
  | nil => exact hgate
  | cons cmd rest ih =>
    rw [List.foldl_cons]
    apply ih
    rcases hstep gate cmd with h | h | h
    · rw [h]; exact hgate
    · rw [h]; simp
    · rw [h]; simp

/-- C15. Gate exclusivity. In interpretAndExecuteCommands a processed erista marker leaves
inEristaSection set and inMarikoSection cleared, and a mariko marker the reverse, whatever
the state before; after every prefix of every command list at most one of the two flags is
set. The same holds for the flag updates of getSourceReplacement and of addTable. -/
theorem gate_exclusivity (eng : Engine) (fuel : Nat) (packagePath selectedCommand : Str)
    (lower : Str → Str) :
    (∀ (st : LoopState) (args : List Str), st.world.abortCommand = false →
      interpretCommand eng fuel packagePath selectedCommand st ("erista:".toList :: args) =
        .next { st with inEristaSection := true, inMarikoSection := false } ∧
      interpretCommand eng fuel packagePath selectedCommand st ("mariko:".toList :: args) =
        .next { st with inEristaSection := false, inMarikoSection := true }) ∧
    (∀ (w : World) (commands : List Command) (k : Nat) (st1 : LoopState),
      (interpretAndExecuteCommands eng fuel (commands.take k) packagePath selectedCommand
          w).finalState = some st1 →
      ¬ (st1.inEristaSection = true ∧ st1.inMarikoSection = true)) ∧
    (∀ (gate : Bool × Bool) (commandName : Str) (args : List Str),
      (lower commandName = "erista:".toList →
        sourceReplacementGate lower gate (commandName :: args) = (true, false)) ∧
      (lower commandName = "mariko:".toList →
        sourceReplacementGate lower gate (commandName :: args) = (false, true)) ∧
      addTableGate gate ("erista:".toList :: args) = (true, false) ∧
      addTableGate gate ("mariko:".toList :: args) = (false, true)) ∧
    (∀ (commands : List Command) (k : Nat),
      ¬ (((commands.take k).foldl (sourceReplacementGate lower) (false, false)).1 = true ∧
         ((commands.take k).foldl (sourceReplacementGate lower) (false, false)).2 = true) ∧
      ¬ (((commands.take k).foldl addTableGate (false, false)).1 = true ∧
         ((commands.take k).foldl addTableGate (false, false)).2 = true)) := by
  refine ⟨?_, ?_, ?_, ?_⟩
  · intro st args hab
    constructor
    · simp [interpretCommand, hab]
    · have hne : ¬ ("mariko:".toList = "erista:".toList) := by decide
      simp [interpretCommand, hab, hne]
  · intro w commands k st1 h
    exact interpretLoop_gate eng fuel packagePath selectedCommand _ (initialLoopState w) st1
      (by simp [initialLoopState]) h
  · intro gate commandName args
    refine ⟨fun h => ?_, fun h => ?_, ?_, ?_⟩
    · simp [sourceReplacementGate, h]
    · have hne : ¬ ("mariko:".toList = "erista:".toList) := by decide
      simp only [sourceReplacementGate, h, hne, if_false, if_true]
    · simp only [addTableGate, if_true]
    · have hne : ¬ ("mariko:".toList = "erista:".toList) := by decide
      simp only [addTableGate, hne, if_false, if_true]
  · intro commands k
    exact ⟨foldl_gate_exclusive _ (sourceReplacementGate_cases lower) _ _ (by simp),
      foldl_gate_exclusive _ addTableGate_cases _ _ (by simp)⟩

/-- C15, witness: from a state with both flags set, an erista marker and a mariko marker
each leave exactly one flag set; after the first three commands of a list with both
markers only the mariko flag is set. -/
theorem gate_exclusivity_witness :
    interpretCommand sampleEngine 1 [] []
        { initialLoopState sampleWorld with inEristaSection := true, inMarikoSection := true }
        ["erista:".toList] =
      .next { initialLoopState sampleWorld with inEristaSection := true,
                                                inMarikoSection := false } ∧
    interpretCommand sampleEngine 1 [] []
        { initialLoopState sampleWorld with inEristaSection := true, inMarikoSection := true }
        ["mariko:".toList] =
      .next { initialLoopState sampleWorld with inEristaSection := false,
                                                inMarikoSection := true } ∧
    (interpretAndExecuteCommands sampleEngine 1
        ([["erista:".toList], ["ok".toList], ["mariko:".toList], ["ok".toList]].take 3)
        [] [] sampleWorld).finalState =
      some { initialLoopState sampleWorld with
        inEristaSection := false, inMarikoSection := true,
        trace := [Event.resolved ["ok".toList], Event.dispatched ["ok".toList]] } ∧
    ¬ ((false = true) ∧ (true = true)) :=
  ⟨((gate_exclusivity sampleEngine 1 [] [] id).1
      { initialLoopState sampleWorld with inEristaSection := true, inMarikoSection := true }
      [] rfl).1,
   ((gate_exclusivity sampleEngine 1 [] [] id).1
      { initialLoopState sampleWorld with inEristaSection := true, inMarikoSection := true }
      [] rfl).2,
   by decide,
   (gate_exclusivity sampleEngine 1 [] [] id).2.1 sampleWorld
      [["erista:".toList], ["ok".toList], ["mariko:".toList], ["ok".toList]] 3
      { initialLoopState sampleWorld with
        inEristaSection := false, inMarikoSection := true,
        trace := [Event.resolved ["ok".toList], Event.dispatched ["ok".toList]] }
      (by decide)⟩

/-! ### The execution engine: try blocks and abort -/

theorem interpretLoop_append (eng : Engine) (fuel : Nat) (packagePath selectedCommand : Str)
    (done rest : List Command) (st0 st : LoopState)
    (h : interpretLoop eng fuel packagePath selectedCommand st0 done = .next st) :
    interpretLoop eng fuel packagePath selectedCommand st0 (done ++ rest) =
      interpretLoop eng fuel packagePath selectedCommand st rest := by
  induction done generalizing st0 with
  | nil =>
    simp only [interpretLoop, LoopOutcome.next.injEq] at h
    rw [h]; rfl
  | cons cmd more ih =>
    rw [List.cons_append]
    simp only [interpretLoop] at h ⊢
    cases hc : interpretCommand eng fuel packagePath selectedCommand st0 cmd with
    | next st1 =>
      rw [hc] at h
      simp only [] at h ⊢
      exact ih st1 h
    | stop st1 => rw [hc] at h; simp at h
    | fault => rw [hc] at h; simp at h
    | outOfFuel => rw [hc] at h; simp at h

theorem interpretCommand_abort (eng : Engine) (fuel : Nat) (packagePath selectedCommand : Str)
    (st : LoopState) (cmd : Command) (hab : st.world.abortCommand = true) :
    interpretCommand eng fuel packagePath selectedCommand st cmd =
      .stop { st with world := { st.world with abortCommand := false,
                                                commandSuccess := false } } := by
  simp [interpretCommand, hab]

theorem interpretCommand_try_enter (eng : Engine) (fuel : Nat)
    (packagePath selectedCommand : Str) (st : LoopState) (args : List Str)
    (hab : st.world.abortCommand = false)
    (h : (st.inTrySection && st.world.commandSuccess) = false) :
    interpretCommand eng fuel packagePath selectedCommand st ("try:".toList :: args) =
      .next { st with world := { st.world with commandSuccess := true },
                      inTrySection := true } := by
  simp [interpretCommand, hab, h]

theorem interpretCommand_try_stop (eng : Engine) (fuel : Nat)
    (packagePath selectedCommand : Str) (st : LoopState) (args : List Str)
    (hab : st.world.abortCommand = false)
    (htry : st.inTrySection = true) (hsucc : st.world.commandSuccess = true) :
    interpretCommand eng fuel packagePath selectedCommand st ("try:".toList :: args) =
      .stop st := by
  simp [interpretCommand, hab, htry, hsucc]

theorem interpretCommand_skip (eng : Engine) (fuel : Nat) (packagePath selectedCommand : Str)
    (st : LoopState) (commandName : Str) (args : List Str)
    (hab : st.world.abortCommand = false)
    (hname : commandName ∉ ["try:".toList, "erista:".toList, "mariko:".toList])
    (hfail : st.world.commandSuccess = false) (htry : st.inTrySection = true) :
    interpretCommand eng fuel packagePath selectedCommand st (commandName :: args) =
      .next st := by
  simp only [List.mem_cons, List.mem_singleton, List.not_mem_nil, or_false, not_or] at hname
  simp only [interpretCommand, hab, hname.1, hname.2.1, hname.2.2, hfail, htry,
    Bool.false_eq_true, if_false, Bool.not_false, Bool.and_self, if_true]

theorem executeResolved_dispatch (eng : Engine) (packagePath selectedCommand : Str)
    (st : LoopState) (cmd : Command) (w1 : World)
    (hdecl : cmd.headD [] ∉ [eng.LIST_STR, eng.LIST_FILE_STR, eng.ext.JSON_STR,
      eng.ext.JSON_FILE_STR, eng.ext.INI_FILE_STR, eng.HEX_FILE_STR])
    (hdisp : eng.processCommand cmd packagePath selectedCommand
      (if st.world.interpreterLogging then logMessage (executingMessage cmd) st.world
        else st.world) = .ok w1) :
    executeResolved eng packagePath selectedCommand st cmd =
      .next { st with world := w1, trace := st.trace ++ [Event.dispatched cmd] } := by
  simp only [List.mem_cons, List.mem_singleton, List.not_mem_nil, or_false, not_or] at hdecl
  obtain ⟨h1, h2, h3, h4, h5, h6⟩ := hdecl
  unfold executeResolved
  simp only [h1, h2, h3, h4, h5, h6, if_false, hdisp]

theorem interpretCommand_dispatch (eng : Engine) (fuel : Nat)
    (packagePath selectedCommand : Str) (st : LoopState) (commandName : Str)
    (args : List Str) (resolved : Command) (w1 : World)
    (hab : st.world.abortCommand = false)
    (hname : commandName ∉ ["try:".toList, "erista:".toList, "mariko:".toList])
    (hrun : st.inTrySection = true → st.world.commandSuccess = true)
    (hgate : gateOpen eng st = true)
    (hres : applyPlaceholderReplacement eng.ext fuel st.hexPath st.iniPath st.listString
      st.listPath st.jsonString st.jsonPath (commandName :: args) = .ok resolved)
    (hdecl : resolved.headD [] ∉ [eng.LIST_STR, eng.LIST_FILE_STR, eng.ext.JSON_STR,
      eng.ext.JSON_FILE_STR, eng.ext.INI_FILE_STR, eng.HEX_FILE_STR])
    (hdisp : eng.processCommand resolved packagePath selectedCommand
      (if st.world.interpreterLogging then logMessage (executingMessage resolved) st.world
        else st.world) = .ok w1) :
    interpretCommand eng fuel packagePath selectedCommand st (commandName :: args) =
      .next { st with world := w1,
                      trace := st.trace ++ [Event.resolved (commandName :: args),
                                            Event.dispatched resolved] } := by
  simp only [List.mem_cons, List.mem_singleton, List.not_mem_nil, or_false, not_or] at hname
  have hskip : (!st.world.commandSuccess && st.inTrySection) = false := by
    cases ht : st.inTrySection with
    | false => simp
    | true => simp [hrun ht]
  have hin : (!st.inTrySection || (st.world.commandSuccess && st.inTrySection)) = true := by
    cases ht : st.inTrySection with
    | false => simp
    | true => simp [hrun ht]
  have hexec := executeResolved_dispatch eng packagePath selectedCommand
    { st with trace := st.trace ++ [Event.resolved (commandName :: args)] } resolved w1
    hdecl hdisp
  simp only [interpretCommand, hab, hname.1, hname.2.1, hname.2.2, hskip, hgate, hin, hres,
    Bool.false_eq_true, if_false, if_true, hexec, List.append_assoc, List.singleton_append]

/-- C17. Try short-circuit. When the commands before a try: marker have been used up with
the run inside a try block and commandSuccess set, interpretAndExecuteCommands stops at
the marker, whatever follows it: the record of the run is the one at the marker, so no
later command is resolved or dispatched; and with the abort flag clear at the marker the
whole state is the one at the marker, so commandSuccess stays set. -/
theorem try_short_circuit (eng : Engine) (fuel : Nat) (packagePath selectedCommand : Str)
    (w : World) (done rest : List Command) (args : List Str) (st : LoopState)
    (hdone : interpretAndExecuteCommands eng fuel done packagePath selectedCommand w =
      .next st)
    (htry : st.inTrySection = true) (hsucc : st.world.commandSuccess = true) :
    (∃ st1 : LoopState,
      interpretAndExecuteCommands eng fuel (done ++ ("try:".toList :: args) :: rest)
        packagePath selectedCommand w = .stop st1 ∧ st1.trace = st.trace) ∧
    (st.world.abortCommand = false →
      interpretAndExecuteCommands eng fuel (done ++ ("try:".toList :: args) :: rest)
        packagePath selectedCommand w = .stop st ∧ st.world.commandSuccess = true) := by
  have happ := interpretLoop_append eng fuel packagePath selectedCommand done
    (("try:".toList :: args) :: rest) (initialLoopState w) st hdone
  have hclear : st.world.abortCommand = false →
      interpretAndExecuteCommands eng fuel (done ++ ("try:".toList :: args) :: rest)
        packagePath selectedCommand w = .stop st := by
    intro hab
    unfold interpretAndExecuteCommands
    rw [happ]
    simp only [interpretLoop,
      interpretCommand_try_stop eng fuel packagePath selectedCommand st args hab htry hsucc]
  constructor
  · cases hab : st.world.abortCommand with
    | false => exact ⟨st, hclear hab, rfl⟩
    | true =>
      refine ⟨{ st with world := { st.world with abortCommand := false,
                                                   commandSuccess := false } }, ?_, ?_⟩
      · unfold interpretAndExecuteCommands
        rw [happ]
        simp only [interpretLoop,
          interpretCommand_abort eng fuel packagePath selectedCommand st _ hab]
      · rfl
  · exact fun hab => ⟨hclear hab, hsucc⟩

/-- C17, witness: on the sample engine the run try:, ok, try:, fail dispatches ok and stops
at the second marker with commandSuccess set; fail is never resolved. -/
theorem try_short_circuit_witness :
    interpretAndExecuteCommands sampleEngine 1 [["try:".toList], ["ok".toList]] [] []
        sampleWorld =
      .next { initialLoopState sampleWorld with
        inTrySection := true,
        trace := [Event.resolved ["ok".toList], Event.dispatched ["ok".toList]] } ∧
    interpretAndExecuteCommands sampleEngine 1
        ([["try:".toList], ["ok".toList]] ++ ("try:".toList :: []) :: [["fail".toList]])
        [] [] sampleWorld =
      .stop { initialLoopState sampleWorld with
        inTrySection := true,
        trace := [Event.resolved ["ok".toList], Event.dispatched ["ok".toList]] } ∧
    (initialLoopState sampleWorld).world.commandSuccess = true :=
  ⟨by decide,
   ((try_short_circuit sampleEngine 1 [] [] sampleWorld [["try:".toList], ["ok".toList]]
      [["fail".toList]] []
      { initialLoopState sampleWorld with
        inTrySection := true,
        trace := [Event.resolved ["ok".toList], Event.dispatched ["ok".toList]] }
      (by decide) rfl rfl).2 rfl).1,
   rfl⟩

theorem interpretCommand_failed_try (eng : Engine) (fuel : Nat)
    (packagePath selectedCommand : Str) (st : LoopState) (cmd : Command)
    (hab : st.world.abortCommand = false) (hfail : st.world.commandSuccess = false)
    (htry : st.inTrySection = true) (hcmd : cmd.head? ≠ some "try:".toList) :
    ∃ inErista inMariko : Bool,
      interpretCommand eng fuel packagePath selectedCommand st cmd =
        .next { st with inEristaSection := inErista, inMarikoSection := inMariko } := by
  cases cmd with
  | nil =>
    exact ⟨st.inEristaSection, st.inMarikoSection, by simp [interpretCommand, hab]⟩
  | cons commandName args =>
    have h1 : ¬ (commandName = "try:".toList) := fun h => hcmd (by rw [h]; rfl)
    by_cases h2 : commandName = "erista:".toList
    · refine ⟨true, false, ?_⟩
      rw [h2]
      simp [interpretCommand, hab]
    · by_cases h3 : commandName = "mariko:".toList
      · refine ⟨false, true, ?_⟩
        have hne : ¬ ("mariko:".toList = "erista:".toList) := by decide
        rw [h3]
        simp [interpretCommand, hab, hne]
      · refine ⟨st.inEristaSection, st.inMarikoSection, ?_⟩
        exact interpretCommand_skip eng fuel packagePath selectedCommand st commandName args
          hab (by
            simp only [List.mem_cons, List.mem_singleton, List.not_mem_nil, or_false, not_or]
            exact ⟨h1, h2, h3⟩) hfail htry

theorem interpretLoop_failed_try (eng : Engine) (fuel : Nat)
    (packagePath selectedCommand : Str) (skipped : List Command) (st : LoopState)
    (hab : st.world.abortCommand = false) (hfail : st.world.commandSuccess = false)
    (htry : st.inTrySection = true)
    (hskipped : ∀ cmd ∈ skipped, cmd.head? ≠ some "try:".toList) :
    ∃ inErista inMariko : Bool,
      interpretLoop eng fuel packagePath selectedCommand st skipped =
        .next { st with inEristaSection := inErista, inMarikoSection := inMariko } := by
  induction skipped generalizing st with
  | nil => exact ⟨st.inEristaSection, st.inMarikoSection, rfl⟩
  | cons cmd more ih =>
    obtain ⟨e, m, hstep⟩ := interpretCommand_failed_try eng fuel packagePath selectedCommand
      st cmd hab hfail htry (hskipped cmd (List.mem_cons_self _ _))
    obtain ⟨e1, m1, hrest⟩ := ih { st with inEristaSection := e, inMarikoSection := m }
      hab hfail htry (fun c hc => hskipped c (List.mem_cons_of_mem _ hc))
    exact ⟨e1, m1, by simp only [interpretLoop, hstep, hrest]⟩

/-- C18, counterexample. On an Erista console the run try:, fail, erista:, ok uses up the
list with only fail resolved and dispatched: after the erista: marker the gate matches
the console, yet ok is consumed without being resolved or dispatched, because the marker
leaves commandSuccess cleared. -/
theorem gate_marker_does_not_resume :
    sampleEngine.usingErista = true ∧
    interpretAndExecuteCommands sampleEngine 1
        [["try:".toList], ["fail".toList], ["erista:".toList], ["ok".toList]]
        [] [] sampleWorld =
      .next { initialLoopState sampleWorld with
        inEristaSection := true, inMarikoSection := false, inTrySection := true,
        world := { (initialLoopState sampleWorld).world with commandSuccess := false },
        trace := [Event.resolved ["fail".toList], Event.dispatched ["fail".toList]] } ∧
    gateOpen sampleEngine { initialLoopState sampleWorld with
        inEristaSection := true, inMarikoSection := false, inTrySection := true,
        world := { (initialLoopState sampleWorld).world with commandSuccess := false },
        trace := [Event.resolved ["fail".toList], Event.dispatched ["fail".toList]] } =
      true := by
  decide

/-- C18, amended. Inside a try block with commandSuccess cleared (and the abort flag
clear), every run of commands that holds no try: marker is used up without anything being
resolved or dispatched: the state at its end differs from the state at its start at most
in the two platform flags, which erista: and mariko: markers among the commands still
set. A try: marker after it sets commandSuccess again, and a command after that marker
that is not a control marker, whose platform gate is open and that resolves to a command
other than a source declaration, is resolved and dispatched. -/
theorem failed_try_skips_until_try (eng : Engine) (fuel : Nat)
    (packagePath selectedCommand : Str) (st : LoopState) (skipped : List Command)
    (hab : st.world.abortCommand = false) (hfail : st.world.commandSuccess = false)
    (htry : st.inTrySection = true)
    (hskipped : ∀ cmd ∈ skipped, cmd.head? ≠ some "try:".toList) :
    ∃ inErista inMariko : Bool,
      interpretLoop eng fuel packagePath selectedCommand st skipped =
        .next { st with inEristaSection := inErista, inMarikoSection := inMariko } ∧
      ∀ (tryArgs : List Str) (commandName : Str) (args : List Str) (resolved : Command)
        (w1 : World),
        commandName ∉ ["try:".toList, "erista:".toList, "mariko:".toList] →
        gateOpen eng { st with inEristaSection := inErista, inMarikoSection := inMariko } =
          true →
        applyPlaceholderReplacement eng.ext fuel st.hexPath st.iniPath st.listString
          st.listPath st.jsonString st.jsonPath (commandName :: args) = .ok resolved →
        resolved.headD [] ∉ [eng.LIST_STR, eng.LIST_FILE_STR, eng.ext.JSON_STR,
          eng.ext.JSON_FILE_STR, eng.ext.INI_FILE_STR, eng.HEX_FILE_STR] →
        eng.processCommand resolved packagePath selectedCommand
          (if st.world.interpreterLogging then
            logMessage (executingMessage resolved) { st.world with commandSuccess := true }
          else { st.world with commandSuccess := true }) = .ok w1 →
        interpretLoop eng fuel packagePath selectedCommand st
            (skipped ++ [("try:".toList :: tryArgs), commandName :: args]) =
          .next { st with inEristaSection := inErista, inMarikoSection := inMariko,
                          world := w1,
                          trace := st.trace ++ [Event.resolved (commandName :: args),
                                                Event.dispatched resolved] } := by
  obtain ⟨e, m, hskip⟩ := interpretLoop_failed_try eng fuel packagePath selectedCommand
    skipped st hab hfail htry hskipped
  refine ⟨e, m, hskip, ?_⟩
  intro tryArgs commandName args resolved w1 hname hgate hres hdecl hdisp
  rw [interpretLoop_append eng fuel packagePath selectedCommand skipped _ st _ hskip]
  have e1 := interpretCommand_try_enter eng fuel packagePath selectedCommand
    { st with inEristaSection := e, inMarikoSection := m } tryArgs hab (by simp [hfail])
  have e2 := interpretCommand_dispatch eng fuel packagePath selectedCommand
    { st with inEristaSection := e, inMarikoSection := m, inTrySection := true,
              world := { st.world with commandSuccess := true } }
    commandName args resolved w1 hab hname (fun _ => rfl)
    (by simpa [gateOpen] using hgate) hres hdecl hdisp
  simp only [] at e1 e2
  simp only [interpretLoop, e1, e2]
  rw [htry]

/-- C18, witness: on the sample engine, after try:, fail, the commands ok, erista:, ok are
used up with nothing resolved, and after a further try: marker the command ok is resolved
and dispatched. -/
theorem failed_try_skips_until_try_witness :
    ∃ inErista inMariko : Bool,
      interpretLoop sampleEngine 1 [] []
          { initialLoopState sampleWorld with
            inTrySection := true,
            world := { (initialLoopState sampleWorld).world with commandSuccess := false },
            trace := [Event.resolved ["fail".toList], Event.dispatched ["fail".toList]] }
          [["ok".toList], ["erista:".toList], ["ok".toList]] =
        .next { initialLoopState sampleWorld with
            inEristaSection := inErista, inMarikoSection := inMariko,
            inTrySection := true,
            world := { (initialLoopState sampleWorld).world with commandSuccess := false },
            trace := [Event.resolved ["fail".toList], Event.dispatched ["fail".toList]] } ∧
      interpretLoop sampleEngine 1 [] []
          { initialLoopState sampleWorld with
            inTrySection := true,
            world := { (initialLoopState sampleWorld).world with commandSuccess := false },
            trace := [Event.resolved ["fail".toList], Event.dispatched ["fail".toList]] }
          ([["ok".toList], ["erista:".toList], ["ok".toList]] ++
            [("try:".toList :: []), "ok".toList :: []]) =
        .next { initialLoopState sampleWorld with
            inEristaSection := inErista, inMarikoSection := inMariko,
            inTrySection := true,
            world := (initialLoopState sampleWorld).world,
            trace := [Event.resolved ["fail".toList], Event.dispatched ["fail".toList]] ++
              [Event.resolved ["ok".toList], Event.dispatched ["ok".toList]] } :=
  match failed_try_skips_until_try sampleEngine 1 [] []
      { initialLoopState sampleWorld with
        inTrySection := true,
        world := { (initialLoopState sampleWorld).world with commandSuccess := false },
        trace := [Event.resolved ["fail".toList], Event.dispatched ["fail".toList]] }
      [["ok".toList], ["erista:".toList], ["ok".toList]] rfl rfl rfl (by decide) with
  | ⟨e, m, hskip, hresume⟩ =>
    ⟨e, m, hskip,
      hresume [] "ok".toList [] ["ok".toList] (initialLoopState sampleWorld).world
        (by decide)
        (by
          have h := hskip
          revert h
          cases e <;> cases m <;> decide)
        (by decide) (by decide) (by decide)⟩

/-- C19. Abort. When the commands before a command have been used up and the abort flag is
set, interpretAndExecuteCommands returns at that command, whatever it is and whatever
follows it: the record of the run is unchanged, so neither that command nor a later one
is resolved or dispatched, commandSuccess is cleared and the abort flag is cleared. -/
theorem abort_stops_run (eng : Engine) (fuel : Nat) (packagePath selectedCommand : Str)
    (w : World) (done rest : List Command) (cmd : Command) (st : LoopState)
    (hdone : interpretAndExecuteCommands eng fuel done packagePath selectedCommand w =
      .next st)
    (hab : st.world.abortCommand = true) :
    interpretAndExecuteCommands eng fuel (done ++ cmd :: rest) packagePath selectedCommand
        w =
      .stop { st with world := { st.world with abortCommand := false,
                                                commandSuccess := false } } := by
  unfold interpretAndExecuteCommands
  rw [interpretLoop_append eng fuel packagePath selectedCommand done (cmd :: rest)
    (initialLoopState w) st hdone]
  simp only [interpretLoop, interpretCommand_abort eng fuel packagePath selectedCommand st
    cmd hab]

/-- C19, witness: with the abort flag set from the start, the run of the sample engine on
ok, ok returns at the first command with nothing resolved, commandSuccess cleared and the
abort flag cleared. -/
theorem abort_stops_run_witness :
    interpretAndExecuteCommands sampleEngine 1 [] [] []
        { sampleWorld with abortCommand := true } =
      .next (initialLoopState { sampleWorld with abortCommand := true }) ∧
    interpretAndExecuteCommands sampleEngine 1 ([] ++ ["ok".toList] :: [["ok".toList]]) [] []
        { sampleWorld with abortCommand := true } =
      .stop { initialLoopState sampleWorld with
        world := { sampleWorld with abortCommand := false, commandSuccess := false } } :=
  ⟨rfl,
   abort_stops_run sampleEngine 1 [] [] { sampleWorld with abortCommand := true } []
     [["ok".toList]] ["ok".toList]
     (initialLoopState { sampleWorld with abortCommand := true }) rfl rfl⟩

/-! ### Command handlers: copy -/

theorem parseCommandArguments_short (preprocessPath : Str → Str → Str) (cmd : Command)
    (packagePath : Str) (h : cmd.length ≤ 2) :
    (parseCommandArguments preprocessPath cmd packagePath
      CommandArguments.empty).sourceListPath = [] ∧
    (parseCommandArguments preprocessPath cmd packagePath
      CommandArguments.empty).destinationListPath = [] ∧
    (parseCommandArguments preprocessPath cmd packagePath
      CommandArguments.empty).destinationPath = [] := by
  match cmd, h with
  | [], _ => exact ⟨rfl, rfl, rfl⟩
  | [_], _ => exact ⟨rfl, rfl, rfl⟩
  | [_, token], _ =>
    simp [parseCommandArguments, parseTokens, positionalArgument, CommandArguments.empty]
  | _ :: _ :: _ :: _, h => simp at h

theorem handleCopyCommand_unspecified (sys : Collaborators) (cmd : Command)
    (packagePath : Str) (w : World)
    (hlist : (parseCommandArguments sys.preprocessPath cmd packagePath
        CommandArguments.empty).sourceListPath = [] ∨
      (parseCommandArguments sys.preprocessPath cmd packagePath
        CommandArguments.empty).destinationListPath = [])
    (hpath : (parseCommandArguments sys.preprocessPath cmd packagePath
        CommandArguments.empty).sourcePath = [] ∨
      (parseCommandArguments sys.preprocessPath cmd packagePath
        CommandArguments.empty).destinationPath = []) :
    handleCopyCommand sys cmd packagePath w =
      .ok (logMessage "Source and destination paths must be specified.".toList w) := by
  unfold handleCopyCommand
  simp only []
  have h1 : ¬ ((!(parseCommandArguments sys.preprocessPath cmd packagePath
        CommandArguments.empty).sourceListPath.isEmpty &&
      !(parseCommandArguments sys.preprocessPath cmd packagePath
        CommandArguments.empty).destinationListPath.isEmpty) = true) := by
    rcases hlist with h | h <;> simp [h]
  have h2 : ((parseCommandArguments sys.preprocessPath cmd packagePath
        CommandArguments.empty).sourcePath.isEmpty ||
      (parseCommandArguments sys.preprocessPath cmd packagePath
        CommandArguments.empty).destinationPath.isEmpty) = true := by
    rcases hpath with h | h <;> simp [h]
  rw [if_neg h1, if_pos h2]

/-- C20, counterexample. The command cp -src s.txt -dest d.txt supplies no path operand:
parseCommandArguments leaves the source path and the destination path empty. Yet
handleCopyCommand, on collaborators whose list files hold the entries a and b, calls
copyFileOrDirectory on each pair of entries. -/
theorem list_copy_without_operands :
    (parseCommandArguments sampleCollaborators.preprocessPath
      ["cp".toList, "-src".toList, "s.txt".toList, "-dest".toList, "d.txt".toList] []
      CommandArguments.empty).sourcePath = [] ∧
    (parseCommandArguments sampleCollaborators.preprocessPath
      ["cp".toList, "-src".toList, "s.txt".toList, "-dest".toList, "d.txt".toList] []
      CommandArguments.empty).destinationPath = [] ∧
    handleCopyCommand sampleCollaborators
      ["cp".toList, "-src".toList, "s.txt".toList, "-dest".toList, "d.txt".toList] []
      sampleWorld =
      .ok (perform sampleCollaborators "copyFileOrDirectory" ["b".toList, "b".toList]
        (perform sampleCollaborators "copyFileOrDirectory" ["a".toList, "a".toList]
          sampleWorld)) ∧
    (perform sampleCollaborators "copyFileOrDirectory" ["b".toList, "b".toList]
        (perform sampleCollaborators "copyFileOrDirectory" ["a".toList, "a".toList]
          sampleWorld)).calls =
      [{ name := "copyFileOrDirectory", args := ["a".toList, "a".toList] },
       { name := "copyFileOrDirectory", args := ["b".toList, "b".toList] }] := by
  decide

/-- C20, amended. Copy with a missing operand. When a command has at most two tokens (the
name alone, or the name and one more token), or more generally when parseCommandArguments
leaves the source path or the destination path empty and does not find both list paths
(-src and -dest), handleCopyCommand returns with one line, "Source and destination paths
must be specified.", added to the log and nothing else changed: no collaborator is
invoked (neither copyFileOrDirectory nor copyFileOrDirectoryByPattern) and commandSuccess
is as before. -/
theorem handleCopyCommand_missing_operand (sys : Collaborators) (cmd : Command)
    (packagePath : Str) (w : World)
    (h : cmd.length ≤ 2 ∨
      (((parseCommandArguments sys.preprocessPath cmd packagePath
          CommandArguments.empty).sourceListPath = [] ∨
        (parseCommandArguments sys.preprocessPath cmd packagePath
          CommandArguments.empty).destinationListPath = []) ∧
       ((parseCommandArguments sys.preprocessPath cmd packagePath
          CommandArguments.empty).sourcePath = [] ∨
        (parseCommandArguments sys.preprocessPath cmd packagePath
          CommandArguments.empty).destinationPath = []))) :
    ∃ w1 : World,
      handleCopyCommand sys cmd packagePath w = .ok w1 ∧
      w1 = logMessage "Source and destination paths must be specified.".toList w ∧
      w1.calls = w.calls ∧ w1.commandSuccess = w.commandSuccess := by
  refine ⟨_, ?_, rfl, rfl, rfl⟩
  rcases h with h | ⟨hlist, hpath⟩
  · obtain ⟨h1, _, h3⟩ := parseCommandArguments_short sys.preprocessPath cmd packagePath h
    exact handleCopyCommand_unspecified sys cmd packagePath w (Or.inl h1) (Or.inr h3)
  · exact handleCopyCommand_unspecified sys cmd packagePath w hlist hpath

/-- C20, witness: on the sample collaborators, cp alone and cp with a source only invoke
nothing, and so does cp with a source and a log path; cp with a source and a destination
invokes copyFileOrDirectory. -/
theorem handleCopyCommand_missing_operand_witness :
    (∃ w1 : World,
      handleCopyCommand sampleCollaborators ["cp".toList] [] sampleWorld = .ok w1 ∧
      w1 = logMessage "Source and destination paths must be specified.".toList sampleWorld ∧
      w1.calls = sampleWorld.calls ∧ w1.commandSuccess = sampleWorld.commandSuccess) ∧
    (∃ w1 : World,
      handleCopyCommand sampleCollaborators ["copy".toList, "/a/b".toList] [] sampleWorld =
        .ok w1 ∧
      w1 = logMessage "Source and destination paths must be specified.".toList sampleWorld ∧
      w1.calls = sampleWorld.calls ∧ w1.commandSuccess = sampleWorld.commandSuccess) ∧
    (∃ w1 : World,
      handleCopyCommand sampleCollaborators
        ["cp".toList, "/a/b".toList, "-log_src".toList, "/c".toList] [] sampleWorld =
        .ok w1 ∧
      w1 = logMessage "Source and destination paths must be specified.".toList sampleWorld ∧
      w1.calls = sampleWorld.calls ∧ w1.commandSuccess = sampleWorld.commandSuccess) ∧
    handleCopyCommand sampleCollaborators ["cp".toList, "/a/b".toList, "/c".toList] []
        sampleWorld =
      .ok (perform sampleCollaborators "copyFileOrDirectory"
        ["/a/b".toList, "/c".toList, [], []] sampleWorld) :=
  ⟨handleCopyCommand_missing_operand sampleCollaborators ["cp".toList] [] sampleWorld
      (Or.inl (by decide)),
   handleCopyCommand_missing_operand sampleCollaborators ["copy".toList, "/a/b".toList] []
      sampleWorld (Or.inl (by decide)),
   handleCopyCommand_missing_operand sampleCollaborators
      ["cp".toList, "/a/b".toList, "-log_src".toList, "/c".toList] [] sampleWorld
      (Or.inr (by decide)),
   by decide⟩

/-! ### Command handlers: missing operands, lists and refusals -/

theorem processCommand_eq (h : Host) (fuel depth : Nat) :
    ∃ dispatch, processCommand h fuel depth = processCommandWith h fuel dispatch := by
  cases depth with
  | zero => exact ⟨_, rfl⟩
  | succ n => exact ⟨_, rfl⟩

theorem processCommandWith_copy (h : Host) (fuel : Nat)
    (dispatch : Command → Str → Str → World → Run World) (name : Str) (args : List Str)
    (packagePath selectedCommand : Str) (w : World)
    (hname : name ∈ ["cp".toList, "copy".toList]) :
    processCommandWith h fuel dispatch (name :: args) packagePath selectedCommand w =
      handleCopyCommand h.sys (name :: args) packagePath w := by
  simp only [List.mem_cons, List.mem_singleton, List.not_mem_nil, or_false] at hname
  rcases hname with rfl | rfl <;> rfl

theorem processCommandWith_delete (h : Host) (fuel : Nat)
    (dispatch : Command → Str → Str → World → Run World) (name : Str) (args : List Str)
    (packagePath selectedCommand : Str) (w : World)
    (hname : name ∈ ["del".toList, "delete".toList]) :
    processCommandWith h fuel dispatch (name :: args) packagePath selectedCommand w =
      handleDeleteCommand h.sys h.ROOT_PATH (name :: args) packagePath w := by
  simp only [List.mem_cons, List.mem_singleton, List.not_mem_nil, or_false] at hname
  rcases hname with rfl | rfl <;> rfl

theorem processCommandWith_move (h : Host) (fuel : Nat)
    (dispatch : Command → Str → Str → World → Run World) (name : Str) (args : List Str)
    (packagePath selectedCommand : Str) (w : World)
    (hname : name ∈ ["mv".toList, "move".toList, "rename".toList]) :
    processCommandWith h fuel dispatch (name :: args) packagePath selectedCommand w =
      handleMoveCommand h.sys h.ROOT_PATH (name :: args) packagePath w := by
  simp only [List.mem_cons, List.mem_singleton, List.not_mem_nil, or_false] at hname
  rcases hname with rfl | rfl | rfl <;> rfl

theorem processCommandWith_ini (h : Host) (fuel : Nat)
    (dispatch : Command → Str → Str → World → Run World) (name : Str) (args : List Str)
    (packagePath selectedCommand : Str) (w : World)
    (hname : name ∈ ["add-ini-section".toList, "rename-ini-section".toList,
      "remove-ini-section".toList, "remove-ini-key".toList, "set-ini-val".toList,
      "set-ini-value".toList, "set-ini-key".toList]) :
    processCommandWith h fuel dispatch (name :: args) packagePath selectedCommand w =
      handleIniCommands h.sys h.ext.removeQuotes (name :: args) packagePath w := by
  simp only [List.mem_cons, List.mem_singleton, List.not_mem_nil, or_false] at hname
  rcases hname with rfl | rfl | rfl | rfl | rfl | rfl | rfl <;> rfl

theorem handleDeleteCommand_unspecified (sys : Collaborators) (ROOT_PATH : Str)
    (cmd : Command) (packagePath : Str) (w : World)
    (hlist : (parseCommandArguments sys.preprocessPath cmd packagePath
        CommandArguments.empty).sourceListPath = [])
    (hpath : (parseCommandArguments sys.preprocessPath cmd packagePath
        CommandArguments.empty).sourcePath = []) :
    handleDeleteCommand sys ROOT_PATH cmd packagePath w =
      .ok (logMessage "Source path must be specified.".toList w) := by
  unfold handleDeleteCommand
  simp only [hlist, hpath, List.isEmpty_nil, Bool.not_true, Bool.false_eq_true, if_false,
    if_true]

theorem handleMoveCommand_unspecified (sys : Collaborators) (ROOT_PATH : Str)
    (cmd : Command) (packagePath : Str) (w : World)
    (hlist : (parseCommandArguments sys.preprocessPath cmd packagePath
        CommandArguments.empty).sourceListPath = [] ∨
      (parseCommandArguments sys.preprocessPath cmd packagePath
        CommandArguments.empty).destinationListPath = [])
    (hpath : (parseCommandArguments sys.preprocessPath cmd packagePath
        CommandArguments.empty).sourcePath = [] ∨
      (parseCommandArguments sys.preprocessPath cmd packagePath
        CommandArguments.empty).destinationPath = []) :
    handleMoveCommand sys ROOT_PATH cmd packagePath w =
      .ok (logMessage "Source and destination paths must be specified.".toList w) := by
  unfold handleMoveCommand
  simp only []
  have h1 : ¬ ((!(parseCommandArguments sys.preprocessPath cmd packagePath
        CommandArguments.empty).sourceListPath.isEmpty &&
      !(parseCommandArguments sys.preprocessPath cmd packagePath
        CommandArguments.empty).destinationListPath.isEmpty) = true) := by
    rcases hlist with h | h <;> simp [h]
  have h2 : ((parseCommandArguments sys.preprocessPath cmd packagePath
        CommandArguments.empty).sourcePath.isEmpty ||
      (parseCommandArguments sys.preprocessPath cmd packagePath
        CommandArguments.empty).destinationPath.isEmpty) = true := by
    rcases hpath with h | h <;> simp [h]
  rw [if_neg h1, if_pos h2]

/-- C21, counterexample. A copy and a move with a source only, and a delete without a
source, each write a line to the log: the state after the command is the state before it
with that line added, and its log differs from the log before. -/
theorem missing_operand_is_logged :
    processCommand sampleHost 1 0 ["cp".toList, "/a".toList] [] [] sampleWorld =
      .ok (logMessage "Source and destination paths must be specified.".toList
        sampleWorld) ∧
    processCommand sampleHost 1 0 ["mv".toList, "/a".toList] [] [] sampleWorld =
      .ok (logMessage "Source and destination paths must be specified.".toList
        sampleWorld) ∧
    processCommand sampleHost 1 0 ["del".toList] [] [] sampleWorld =
      .ok (logMessage "Source path must be specified.".toList sampleWorld) ∧
    (logMessage "Source and destination paths must be specified.".toList sampleWorld).log ≠
      sampleWorld.log ∧
    (logMessage "Source path must be specified.".toList sampleWorld).log ≠
      sampleWorld.log := by
  decide

/-- C21, amended. A command with too few tokens never changes commandSuccess and invokes
no collaborator, but it is not always silent. A copy or a move with at most one token
after the name logs "Source and destination paths must be specified."; a delete with the
name alone logs "Source path must be specified."; both leave everything but the log as
it was. The handlers that test the number of tokens leave the whole state as it was: the
name alone for mkdir, make, the mirror commands, set-footer, pchtxt2cheat, exec,
backlight and clear, at most one token after the name for download, unzip and
pchtxt2ips, at most two for compare and the hex commands. -/
theorem arity_errors_keep_commandSuccess (h : Host) (fuel depth : Nat)
    (packagePath selectedCommand : Str) (w : World) :
    (∀ (name : Str) (args : List Str),
      name ∈ ["cp".toList, "copy".toList, "mv".toList, "move".toList, "rename".toList] →
      args.length ≤ 1 →
      processCommand h fuel depth (name :: args) packagePath selectedCommand w =
        .ok (logMessage "Source and destination paths must be specified.".toList w)) ∧
    (∀ name : Str, name ∈ ["del".toList, "delete".toList] →
      processCommand h fuel depth [name] packagePath selectedCommand w =
        .ok (logMessage "Source path must be specified.".toList w)) ∧
    (∀ message : Str, (logMessage message w).commandSuccess = w.commandSuccess ∧
      (logMessage message w).calls = w.calls) ∧
    (∀ name : Str,
      name ∈ ["mkdir".toList, "make".toList, "mirror_copy".toList, "mirror_cp".toList,
        "mirror_delete".toList, "set-footer".toList, "pchtxt2cheat".toList, "exec".toList,
        "backlight".toList, "clear".toList] →
      processCommand h fuel depth [name] packagePath selectedCommand w = .ok w) ∧
    (∀ (name : Str) (args : List Str),
      name ∈ ["download".toList, "unzip".toList, "pchtxt2ips".toList] →
      args.length ≤ 1 →
      processCommand h fuel depth (name :: args) packagePath selectedCommand w = .ok w) ∧
    (∀ (name : Str) (args : List Str),
      name ∈ ["compare".toList, "hex-by-offset".toList, "hex-by-swap".toList,
        "hex-by-string".toList, "hex-by-decimal".toList, "hex-by-rdecimal".toList,
        "hex-by-custom-offset".toList, "hex-by-custom-decimal-offset".toList,
        "hex-by-custom-rdecimal-offset".toList] →
      args.length ≤ 2 →
      processCommand h fuel depth (name :: args) packagePath selectedCommand w = .ok w) := by
  obtain ⟨dispatch, hd⟩ := processCommand_eq h fuel depth
  rw [hd]
  refine ⟨?_, ?_, fun _ => ⟨rfl, rfl⟩, ?_, ?_, ?_⟩
  · intro name args hname hargs
    have hlen : (name :: args).length ≤ 2 := by simp; omega
    obtain ⟨h1, _, h3⟩ :=
      parseCommandArguments_short h.sys.preprocessPath (name :: args) packagePath hlen
    simp only [List.mem_cons, List.mem_singleton, List.not_mem_nil, or_false] at hname
    have hsplit : name ∈ ["cp".toList, "copy".toList] ∨
        name ∈ ["mv".toList, "move".toList, "rename".toList] := by
      simp only [List.mem_cons, List.mem_singleton, List.not_mem_nil, or_false]
      tauto
    rcases hsplit with hc | hm
    · rw [processCommandWith_copy h fuel dispatch name args packagePath selectedCommand w hc]
      exact handleCopyCommand_unspecified h.sys _ packagePath w (Or.inl h1) (Or.inr h3)
    · rw [processCommandWith_move h fuel dispatch name args packagePath selectedCommand w hm]
      exact handleMoveCommand_unspecified h.sys h.ROOT_PATH _ packagePath w (Or.inl h1)
        (Or.inr h3)
  · intro name hname
    rw [processCommandWith_delete h fuel dispatch name [] packagePath selectedCommand w hname]
    exact handleDeleteCommand_unspecified h.sys h.ROOT_PATH _ packagePath w rfl rfl
  · intro name hname
    simp only [List.mem_cons, List.mem_singleton, List.not_mem_nil, or_false] at hname
    rcases hname with rfl | rfl | rfl | rfl | rfl | rfl | rfl | rfl | rfl | rfl <;> rfl
  · intro name args hname hargs
    simp only [List.mem_cons, List.mem_singleton, List.not_mem_nil, or_false] at hname
    match args, hargs with
    | [], _ => rcases hname with rfl | rfl | rfl <;> rfl
    | [_], _ => rcases hname with rfl | rfl | rfl <;> rfl
    | _ :: _ :: _, hargs => simp at hargs
  · intro name args hname hargs
    simp only [List.mem_cons, List.mem_singleton, List.not_mem_nil, or_false] at hname
    match args, hargs with
    | [], _ => rcases hname with rfl | rfl | rfl | rfl | rfl | rfl | rfl | rfl | rfl <;> rfl
    | [_], _ => rcases hname with rfl | rfl | rfl | rfl | rfl | rfl | rfl | rfl | rfl <;> rfl
    | [_, _], _ =>
      rcases hname with rfl | rfl | rfl | rfl | rfl | rfl | rfl | rfl | rfl <;> rfl
    | _ :: _ :: _ :: _, hargs => simp at hargs

/-- C21, witness: on the sample host a move with a source only logs the line and keeps
commandSuccess, and a download with a URL only changes nothing. -/
theorem arity_errors_keep_commandSuccess_witness :
    processCommand sampleHost 1 0 ("mv".toList :: ["/a".toList]) [] [] sampleWorld =
      .ok (logMessage "Source and destination paths must be specified.".toList
        sampleWorld) ∧
    processCommand sampleHost 1 0 ["delete".toList] [] [] sampleWorld =
      .ok (logMessage "Source path must be specified.".toList sampleWorld) ∧
    processCommand sampleHost 1 0 ["mkdir".toList] [] [] sampleWorld = .ok sampleWorld ∧
    processCommand sampleHost 1 0 ("download".toList :: ["http://x".toList]) [] []
      sampleWorld = .ok sampleWorld ∧
    processCommand sampleHost 1 0 ("compare".toList :: ["/a".toList, "/b".toList]) [] []
      sampleWorld = .ok sampleWorld :=
  ⟨(arity_errors_keep_commandSuccess sampleHost 1 0 [] [] sampleWorld).1 "mv".toList
      ["/a".toList] (by decide) (by decide),
   (arity_errors_keep_commandSuccess sampleHost 1 0 [] [] sampleWorld).2.1 "delete".toList
      (by decide),
   (arity_errors_keep_commandSuccess sampleHost 1 0 [] [] sampleWorld).2.2.2.1
      "mkdir".toList (by decide),
   (arity_errors_keep_commandSuccess sampleHost 1 0 [] [] sampleWorld).2.2.2.2.1
      "download".toList ["http://x".toList] (by decide) (by decide),
   (arity_errors_keep_commandSuccess sampleHost 1 0 [] [] sampleWorld).2.2.2.2.2
      "compare".toList ["/a".toList, "/b".toList] (by decide) (by decide)⟩

/-- C22, the failing inputs. The tests of `add-ini-section` and `remove-ini-section` admit
a command of two tokens and the handler then reads `cmd[2]`; the tests of
`rename-ini-section` and `remove-ini-key` admit a command of three tokens and the handler
then reads `cmd[3]`. Each read is out of range, for every path and section, so the
command is not ignored; through processCommand the same. With one token more each of
the four returns after its call, and the set commands with fewer than five tokens are
ignored. -/
theorem ini_arity_reads_out_of_range (h : Host) (fuel depth : Nat)
    (packagePath selectedCommand : Str) (w : World) (path sectionName extra : Str) :
    tokenAt ["add-ini-section".toList, path] 2 = .fault ∧
    tokenAt ["rename-ini-section".toList, path, sectionName] 3 = .fault ∧
    handleIniCommands h.sys h.ext.removeQuotes ["add-ini-section".toList, path] packagePath w
      = .fault ∧
    handleIniCommands h.sys h.ext.removeQuotes ["remove-ini-section".toList, path]
      packagePath w = .fault ∧
    handleIniCommands h.sys h.ext.removeQuotes
      ["rename-ini-section".toList, path, sectionName] packagePath w = .fault ∧
    handleIniCommands h.sys h.ext.removeQuotes
      ["remove-ini-key".toList, path, sectionName] packagePath w = .fault ∧
    processCommand h fuel depth ["add-ini-section".toList, path] packagePath
      selectedCommand w = .fault ∧
    processCommand h fuel depth ["rename-ini-section".toList, path, sectionName]
      packagePath selectedCommand w = .fault ∧
    handleIniCommands h.sys h.ext.removeQuotes
      ["add-ini-section".toList, path, sectionName] packagePath w =
      .ok (perform h.sys "addIniSection"
        [h.sys.preprocessPath path packagePath, h.ext.removeQuotes sectionName] w) ∧
    handleIniCommands h.sys h.ext.removeQuotes
      ["rename-ini-section".toList, path, sectionName, extra] packagePath w =
      .ok (perform h.sys "renameIniSection"
        [h.sys.preprocessPath path packagePath, h.ext.removeQuotes sectionName,
         h.ext.removeQuotes extra] w) ∧
    handleIniCommands h.sys h.ext.removeQuotes
      ["set-ini-val".toList, path, sectionName, extra] packagePath w = .ok w ∧
    handleIniCommands h.sys h.ext.removeQuotes
      ["set-ini-key".toList, path, sectionName, extra] packagePath w = .ok w := by
  obtain ⟨dispatch, hd⟩ := processCommand_eq h fuel depth
  rw [hd]
  exact ⟨rfl, rfl, rfl, rfl, rfl, rfl, rfl, rfl, rfl, rfl, rfl, rfl⟩

/-- C23. Move with lists of different lengths. For a mv, move or rename command for which
parseCommandArguments finds both list paths (-src and -dest), when the two lists read
from them differ in length, processCommand returns with one line, "Source and destination
lists must have the same number of entries.", added to the log and nothing else changed:
no move and no copy is invoked and commandSuccess is as before. -/
theorem move_list_mismatch (h : Host) (fuel depth : Nat) (packagePath selectedCommand : Str)
    (w : World) (name : Str) (args : List Str)
    (hname : name ∈ ["mv".toList, "move".toList, "rename".toList])
    (hsrc : (parseCommandArguments h.sys.preprocessPath (name :: args) packagePath
      CommandArguments.empty).sourceListPath ≠ [])
    (hdest : (parseCommandArguments h.sys.preprocessPath (name :: args) packagePath
      CommandArguments.empty).destinationListPath ≠ [])
    (hlen : (h.sys.readListFromFile w (parseCommandArguments h.sys.preprocessPath
        (name :: args) packagePath CommandArguments.empty).sourceListPath).length ≠
      (h.sys.readListFromFile w (parseCommandArguments h.sys.preprocessPath
        (name :: args) packagePath CommandArguments.empty).destinationListPath).length) :
    ∃ w1 : World,
      processCommand h fuel depth (name :: args) packagePath selectedCommand w = .ok w1 ∧
      w1 = logMessage
        "Source and destination lists must have the same number of entries.".toList w ∧
      w1.calls = w.calls ∧ w1.commandSuccess = w.commandSuccess := by
  refine ⟨_, ?_, rfl, rfl, rfl⟩
  obtain ⟨dispatch, hd⟩ := processCommand_eq h fuel depth
  rw [hd, processCommandWith_move h fuel dispatch name args packagePath selectedCommand w
    hname]
  unfold handleMoveCommand
  simp only []
  have h1 : (!(parseCommandArguments h.sys.preprocessPath (name :: args) packagePath
        CommandArguments.empty).sourceListPath.isEmpty &&
      !(parseCommandArguments h.sys.preprocessPath (name :: args) packagePath
        CommandArguments.empty).destinationListPath.isEmpty) = true := by
    simp [List.isEmpty_iff, hsrc, hdest]
  rw [if_pos h1, if_pos hlen]

/-- C23, witness: a source list of three entries and a destination list of two. -/
theorem move_list_mismatch_witness :
    ∃ w1 : World,
      processCommand { sampleHost with sys := listCollaborators } 1 0
        ("mv".toList :: ["-src".toList, "src.txt".toList, "-dest".toList, "dst.txt".toList])
        [] [] sampleWorld = .ok w1 ∧
      w1 = logMessage
        "Source and destination lists must have the same number of entries.".toList
        sampleWorld ∧
      w1.calls = sampleWorld.calls ∧ w1.commandSuccess = sampleWorld.commandSuccess :=
  move_list_mismatch { sampleHost with sys := listCollaborators } 1 0 [] [] sampleWorld
    "mv".toList ["-src".toList, "src.txt".toList, "-dest".toList, "dst.txt".toList]
    (by decide) (by decide) (by decide) (by decide)

/-- C24. Refusal of a dangerous path. For a del or delete command that is not list-driven
(no -src list), and for a mv, move or rename command that is not list-driven (not both
-src and -dest), when isDangerousCombination holds for the source path that
parseCommandArguments finds, processCommand returns without invoking a collaborator and
with commandSuccess as before; with a destination given as well (always, for a delete)
the whole state is as before. -/
theorem dangerous_path_refused (h : Host) (fuel depth : Nat)
    (packagePath selectedCommand : Str) (w : World) (name : Str) (args : List Str)
    (hdanger : isDangerousCombination h.ROOT_PATH
      (parseCommandArguments h.sys.preprocessPath (name :: args) packagePath
        CommandArguments.empty).sourcePath = true)
    (hmode : (name ∈ ["del".toList, "delete".toList] ∧
        (parseCommandArguments h.sys.preprocessPath (name :: args) packagePath
          CommandArguments.empty).sourceListPath = []) ∨
      (name ∈ ["mv".toList, "move".toList, "rename".toList] ∧
        ((parseCommandArguments h.sys.preprocessPath (name :: args) packagePath
          CommandArguments.empty).sourceListPath = [] ∨
         (parseCommandArguments h.sys.preprocessPath (name :: args) packagePath
          CommandArguments.empty).destinationListPath = []))) :
    ∃ w1 : World,
      processCommand h fuel depth (name :: args) packagePath selectedCommand w = .ok w1 ∧
      w1.calls = w.calls ∧ w1.commandSuccess = w.commandSuccess ∧
      ((parseCommandArguments h.sys.preprocessPath (name :: args) packagePath
          CommandArguments.empty).sourcePath ≠ [] →
        (name ∈ ["del".toList, "delete".toList] ∨
          (parseCommandArguments h.sys.preprocessPath (name :: args) packagePath
            CommandArguments.empty).destinationPath ≠ []) →
        w1 = w) := by
  obtain ⟨dispatch, hd⟩ := processCommand_eq h fuel depth
  rw [hd]
  rcases hmode with ⟨hname, hlist⟩ | ⟨hname, hlist⟩
  · rw [processCommandWith_delete h fuel dispatch name args packagePath selectedCommand w
      hname]
    by_cases hsrc : (parseCommandArguments h.sys.preprocessPath (name :: args) packagePath
        CommandArguments.empty).sourcePath = []
    · exact ⟨_, handleDeleteCommand_unspecified h.sys h.ROOT_PATH _ packagePath w hlist hsrc,
        rfl, rfl, fun hne => absurd hsrc hne⟩
    · refine ⟨w, ?_, rfl, rfl, fun _ _ => rfl⟩
      unfold handleDeleteCommand
      simp only [hlist, List.isEmpty_nil, Bool.not_true, Bool.false_eq_true, if_false,
        hdanger, List.isEmpty_iff, hsrc]
  · rw [processCommandWith_move h fuel dispatch name args packagePath selectedCommand w
      hname]
    by_cases hsrc : (parseCommandArguments h.sys.preprocessPath (name :: args) packagePath
        CommandArguments.empty).sourcePath = [] ∨
        (parseCommandArguments h.sys.preprocessPath (name :: args) packagePath
        CommandArguments.empty).destinationPath = []
    · refine ⟨_, handleMoveCommand_unspecified h.sys h.ROOT_PATH _ packagePath w hlist hsrc,
        rfl, rfl, fun hne hor => ?_⟩
      rcases hsrc with hs | hs
      · exact absurd hs hne
      · rcases hor with hn | hn
        · exfalso
          simp only [List.mem_cons, List.mem_singleton, List.not_mem_nil, or_false] at hn hname
          rcases hn with rfl | rfl <;> revert hname <;> decide
        · exact absurd hs hn
    · refine ⟨w, ?_, rfl, rfl, fun _ _ => rfl⟩
      rw [not_or] at hsrc
      unfold handleMoveCommand
      simp only []
      have h1 : ¬ ((!(parseCommandArguments h.sys.preprocessPath (name :: args) packagePath
            CommandArguments.empty).sourceListPath.isEmpty &&
          !(parseCommandArguments h.sys.preprocessPath (name :: args) packagePath
            CommandArguments.empty).destinationListPath.isEmpty) = true) := by
        rcases hlist with hl | hl <;> simp [hl]
      have h2 : ¬ (((parseCommandArguments h.sys.preprocessPath (name :: args) packagePath
            CommandArguments.empty).sourcePath.isEmpty ||
          (parseCommandArguments h.sys.preprocessPath (name :: args) packagePath
            CommandArguments.empty).destinationPath.isEmpty) = true) := by
        simp [List.isEmpty_iff, hsrc.1, hsrc.2]
      rw [if_neg h1, if_neg h2, hdanger]
      rfl

/-- C24, witness: on the sample host, with the SD card root, a delete of the save subtree
and a move of the whole card by wildcard leave the state as it was. -/
theorem dangerous_path_refused_witness :
    (∃ w1 : World,
      processCommand sampleHost 1 0
        ("del".toList :: ["sdmc:/Nintendo/save/x".toList]) [] [] sampleWorld = .ok w1 ∧
      w1.calls = sampleWorld.calls ∧ w1.commandSuccess = sampleWorld.commandSuccess ∧
      ("sdmc:/Nintendo/save/x".toList ≠ [] →
        ("del".toList ∈ ["del".toList, "delete".toList] ∨ ([] : Str) ≠ []) →
        w1 = sampleWorld)) ∧
    (∃ w1 : World,
      processCommand sampleHost 1 0
        ("mv".toList :: ["sdmc:/*".toList, "sdmc:/x/".toList]) [] [] sampleWorld = .ok w1 ∧
      w1.calls = sampleWorld.calls ∧ w1.commandSuccess = sampleWorld.commandSuccess ∧
      ("sdmc:/*".toList ≠ [] →
        ("mv".toList ∈ ["del".toList, "delete".toList] ∨ "sdmc:/x/".toList ≠ []) →
        w1 = sampleWorld)) :=
  ⟨dangerous_path_refused sampleHost 1 0 [] [] sampleWorld "del".toList
      ["sdmc:/Nintendo/save/x".toList] (by decide) (Or.inl ⟨by decide, by decide⟩),
   dangerous_path_refused sampleHost 1 0 [] [] sampleWorld "mv".toList
      ["sdmc:/*".toList, "sdmc:/x/".toList] (by decide) (Or.inr ⟨by decide, by decide⟩)⟩

/-! ### The dispatcher: download, exec and the success flag -/

theorem downloadAttempts_frame (h : Host) (fileUrl destinationPath : Str) (k : Nat)
    (w : World) :
    (downloadAttempts h fileUrl destinationPath k w).2.commandSuccess = w.commandSuccess ∧
    (downloadAttempts h fileUrl destinationPath k w).2.calls =
      w.calls ++ List.replicate k { name := "downloadFile",
                                    args := [fileUrl, destinationPath] } := by
  induction k with
  | zero => exact ⟨rfl, by simp [downloadAttempts]⟩
  | succ k ih =>
    constructor
    · exact ih.1
    · show (downloadAttempts h fileUrl destinationPath k w).2.calls ++ _ = _
      rw [ih.2, List.replicate_succ', List.append_assoc]

theorem downloadLoop_three (h : Host) (fileUrl destinationPath : Str) (w : World) :
    ∃ n : Nat, 1 ≤ n ∧ n ≤ 3 ∧
      downloadLoop h fileUrl destinationPath 3 w =
        ((downloadAttempts h fileUrl destinationPath n w).1 &&
          !(downloadAttempts h fileUrl destinationPath n w).2.abortDownload,
         (downloadAttempts h fileUrl destinationPath n w).2) ∧
      (∀ k : Nat, 1 ≤ k → k < n →
        (downloadAttempts h fileUrl destinationPath k w).1 = false ∧
        (downloadAttempts h fileUrl destinationPath k w).2.abortDownload = false) ∧
      (n < 3 → (downloadAttempts h fileUrl destinationPath n w).1 = true ∨
        (downloadAttempts h fileUrl destinationPath n w).2.abortDownload = true) := by
  have e1 : downloadAttempts h fileUrl destinationPath 1 w =
      downloadFile h fileUrl destinationPath w := rfl
  have e2 : downloadAttempts h fileUrl destinationPath 2 w =
      downloadFile h fileUrl destinationPath (downloadFile h fileUrl destinationPath w).2 :=
    rfl
  have e3 : downloadAttempts h fileUrl destinationPath 3 w =
      downloadFile h fileUrl destinationPath (downloadFile h fileUrl destinationPath
        (downloadFile h fileUrl destinationPath w).2).2 := rfl
  cases ha1 : (downloadFile h fileUrl destinationPath w).2.abortDownload with
  | true =>
    refine ⟨1, le_refl _, by omega, ?_, fun k h1 h2 => by omega, fun _ => Or.inr ?_⟩
    · rw [e1]; simp [downloadLoop, ha1]
    · rw [e1]; exact ha1
  | false =>
    cases hs1 : (downloadFile h fileUrl destinationPath w).1 with
    | true =>
      refine ⟨1, le_refl _, by omega, ?_, fun k h1 h2 => by omega, fun _ => Or.inl ?_⟩
      · rw [e1]; simp [downloadLoop, ha1, hs1]
      · rw [e1]; exact hs1
    | false =>
      have first : ∀ k : Nat, 1 ≤ k → k < 2 →
          (downloadAttempts h fileUrl destinationPath k w).1 = false ∧
          (downloadAttempts h fileUrl destinationPath k w).2.abortDownload = false := by
        intro k h1 h2
        have hk : k = 1 := by omega
        subst hk
        rw [e1]; exact ⟨hs1, ha1⟩
      cases ha2 : (downloadFile h fileUrl destinationPath
          (downloadFile h fileUrl destinationPath w).2).2.abortDownload with
      | true =>
        refine ⟨2, by omega, by omega, ?_, first, fun _ => Or.inr ?_⟩
        · rw [e2]; simp [downloadLoop, ha1, hs1, ha2]
        · rw [e2]; exact ha2
      | false =>
        cases hs2 : (downloadFile h fileUrl destinationPath
            (downloadFile h fileUrl destinationPath w).2).1 with
        | true =>
          refine ⟨2, by omega, by omega, ?_, first, fun _ => Or.inl ?_⟩
          · rw [e2]; simp [downloadLoop, ha1, hs1, ha2, hs2]
          · rw [e2]; exact hs2
        | false =>
          refine ⟨3, by omega, le_refl _, ?_, ?_, fun h3 => by omega⟩
          · rw [e3]
            cases ha3 : (downloadFile h fileUrl destinationPath
                (downloadFile h fileUrl destinationPath
                  (downloadFile h fileUrl destinationPath w).2).2).2.abortDownload <;>
            cases hs3 : (downloadFile h fileUrl destinationPath
                (downloadFile h fileUrl destinationPath
                  (downloadFile h fileUrl destinationPath w).2).2).1 <;>
            simp [downloadLoop, ha1, hs1, ha2, hs2, ha3, hs3]
          · intro k h1 h2
            have hk : k = 1 ∨ k = 2 := by omega
            rcases hk with rfl | rfl
            · rw [e1]; exact ⟨hs1, ha1⟩
            · rw [e2]; exact ⟨hs2, ha2⟩

/-- C25. Download retries. For a download command with a URL and a destination (three
tokens or more), processCommand returns after n calls of downloadFile, with n between 1
and 3: the calls before the n-th returned false with the abort flag clear, fewer than
three calls are made only when the n-th call returned true or left the abort flag set,
and commandSuccess ends as its value before the command and the n-th call having
returned true with the abort flag clear after it (which is then the only call that did).
With fewer than three tokens nothing is called and the state is as before. -/
theorem download_retries (h : Host) (fuel depth : Nat) (packagePath selectedCommand : Str)
    (w : World) (url destination : Str) (rest : List Str) :
    (∃ n : Nat, 1 ≤ n ∧ n ≤ 3 ∧
      processCommand h fuel depth ("download".toList :: url :: destination :: rest)
          packagePath selectedCommand w =
        .ok { (downloadAttempts h (h.preprocessUrl url)
                (h.sys.preprocessPath destination packagePath) n w).2 with
              commandSuccess :=
                ((downloadAttempts h (h.preprocessUrl url)
                    (h.sys.preprocessPath destination packagePath) n w).1 &&
                  !(downloadAttempts h (h.preprocessUrl url)
                    (h.sys.preprocessPath destination packagePath) n w).2.abortDownload) &&
                w.commandSuccess } ∧
      (downloadAttempts h (h.preprocessUrl url)
          (h.sys.preprocessPath destination packagePath) n w).2.calls =
        w.calls ++ List.replicate n
          { name := "downloadFile",
            args := [h.preprocessUrl url, h.sys.preprocessPath destination packagePath] } ∧
      (∀ k : Nat, 1 ≤ k → k < n →
        (downloadAttempts h (h.preprocessUrl url)
          (h.sys.preprocessPath destination packagePath) k w).1 = false ∧
        (downloadAttempts h (h.preprocessUrl url)
          (h.sys.preprocessPath destination packagePath) k w).2.abortDownload = false) ∧
      (n < 3 →
        (downloadAttempts h (h.preprocessUrl url)
          (h.sys.preprocessPath destination packagePath) n w).1 = true ∨
        (downloadAttempts h (h.preprocessUrl url)
          (h.sys.preprocessPath destination packagePath) n w).2.abortDownload = true)) ∧
    processCommand h fuel depth ["download".toList] packagePath selectedCommand w = .ok w ∧
    processCommand h fuel depth ["download".toList, url] packagePath selectedCommand w =
      .ok w := by
  obtain ⟨dispatch, hd⟩ := processCommand_eq h fuel depth
  rw [hd]
  refine ⟨?_, rfl, rfl⟩
  obtain ⟨n, h1, h3, hloop, hbefore, hearly⟩ := downloadLoop_three h (h.preprocessUrl url)
    (h.sys.preprocessPath destination packagePath) w
  refine ⟨n, h1, h3, ?_, (downloadAttempts_frame h _ _ n w).2, hbefore, hearly⟩
  have hrun : processCommandWith h fuel dispatch
      ("download".toList :: url :: destination :: rest) packagePath selectedCommand w =
      .ok { (downloadLoop h (h.preprocessUrl url)
              (h.sys.preprocessPath destination packagePath) 3 w).2 with
            commandSuccess :=
              (downloadLoop h (h.preprocessUrl url)
                (h.sys.preprocessPath destination packagePath) 3 w).1 &&
              (downloadLoop h (h.preprocessUrl url)
                (h.sys.preprocessPath destination packagePath) 3 w).2.commandSuccess } := by
    unfold processCommandWith
    simp only []
    rw [if_neg (by decide), if_neg (by decide), if_neg (by decide), if_neg (by decide),
      if_neg (by decide), if_neg (by decide), if_neg (by decide), if_neg (by decide),
      if_neg (by decide), if_pos trivial]
    simp only [List.getElem?_cons_succ, List.getElem?_cons_zero]
  rw [hrun, hloop]
  simp only [(downloadAttempts_frame h _ _ n w).1]

/-- C25, witness: on the sample host the first two calls fail and the third succeeds; the
command ends after three calls with commandSuccess as before. -/
theorem download_retries_witness :
    (∃ n : Nat, 1 ≤ n ∧ n ≤ 3 ∧
      processCommand sampleHost 1 0 ["download".toList, "u".toList, "d".toList] [] []
          { sampleWorld with commandSuccess := true } =
        .ok { (downloadAttempts sampleHost "u".toList "d".toList n
                { sampleWorld with commandSuccess := true }).2 with
              commandSuccess :=
                ((downloadAttempts sampleHost "u".toList "d".toList n
                    { sampleWorld with commandSuccess := true }).1 &&
                  !(downloadAttempts sampleHost "u".toList "d".toList n
                    { sampleWorld with commandSuccess := true }).2.abortDownload) &&
                true }) ∧
    processCommand sampleHost 1 0 ["download".toList, "u".toList, "d".toList] [] []
        { sampleWorld with commandSuccess := true } =
      .ok { sampleWorld with
        commandSuccess := true,
        calls := List.replicate 3
          { name := "downloadFile", args := ["u".toList, "d".toList] } } :=
  ⟨match download_retries sampleHost 1 0 [] [] { sampleWorld with commandSuccess := true }
      "u".toList "d".toList [] with
    | ⟨⟨n, h1, h3, hrun, _⟩, _⟩ => ⟨n, h1, h3, hrun⟩,
   by decide⟩

theorem processCommandWith_exec (h : Host) (fuel : Nat)
    (dispatch : Command → Str → Str → World → Run World) (args : List Str)
    (packagePath selectedCommand : Str) (w : World) :
    processCommandWith h fuel dispatch ("exec".toList :: args) packagePath selectedCommand w =
      processExecCommand h fuel dispatch ("exec".toList :: args) packagePath w := rfl

/-- C26. The exec command keeps an outer failure. For an exec command whose section is
found in the boot package (the file exists and holds a section of the unquoted name),
when the run of the section returns (by using up its commands, by break or by the return
of an abort) in a state st, processCommand returns; commandSuccess is then false when it
was false before the command, whatever st, and the state is the one the run left, so
commandSuccess is that of the run, when it was true before the command. -/
theorem exec_keeps_outer_failure (h : Host) (fuel depth : Nat)
    (packagePath selectedCommand : Str) (w : World) (token : Str) (rest : List Str)
    (bootOption : Str × List Command) (st : LoopState)
    (hfile : h.sys.isFileOrDirectory w (packagePath ++ h.BOOT_PACKAGE_FILENAME) = true)
    (hfound : (loadOptionsFromIni
        (h.readFile w (packagePath ++ h.BOOT_PACKAGE_FILENAME))).find?
        (fun option => option.1 = h.ext.removeQuotes token) = some bootOption)
    (hinner : (interpretAndExecuteCommands (engineOf h (processCommand h fuel depth)) fuel
        bootOption.2 packagePath bootOption.1 w).finalState = some st) :
    ∃ w1 : World,
      processCommand h fuel (depth + 1) ("exec".toList :: token :: rest) packagePath
        selectedCommand w = .ok w1 ∧
      w1.commandSuccess = (w.commandSuccess && st.world.commandSuccess) ∧
      (w.commandSuccess = false → w1.commandSuccess = false) ∧
      (w.commandSuccess = true → w1 = st.world) := by
  have hrun : processCommand h fuel (depth + 1) ("exec".toList :: token :: rest) packagePath
      selectedCommand w =
      processExecCommand h fuel (processCommand h fuel depth)
        ("exec".toList :: token :: rest) packagePath w :=
    processCommandWith_exec h fuel _ _ packagePath selectedCommand w
  rw [hrun]
  unfold processExecCommand
  simp only [List.getElem?_cons_succ, List.getElem?_cons_zero, hfile, if_true, hfound]
  cases hout : interpretAndExecuteCommands (engineOf h (processCommand h fuel depth)) fuel
      bootOption.2 packagePath bootOption.1 w with
  | next st1 =>
    rw [hout] at hinner
    simp only [LoopOutcome.finalState, Option.some.injEq] at hinner
    subst hinner
    cases hw : w.commandSuccess <;> simp
  | stop st1 =>
    rw [hout] at hinner
    simp only [LoopOutcome.finalState, Option.some.injEq] at hinner
    subst hinner
    cases hw : w.commandSuccess <;> simp
  | fault => rw [hout] at hinner; simp [LoopOutcome.finalState] at hinner
  | outOfFuel => rw [hout] at hinner; simp [LoopOutcome.finalState] at hinner

/-- C26, witness: on the sample host, with commandSuccess false before it, the command exec
boot runs a section that ends with commandSuccess true and leaves commandSuccess false;
with commandSuccess true before it, exec fail ends with the value false of its run. -/
theorem exec_keeps_outer_failure_witness :
    (∃ w1 : World,
      processCommand sampleHost 1 (0 + 1) ("exec".toList :: "boot".toList :: []) [] []
        sampleWorld = .ok w1 ∧
      w1.commandSuccess = (false && true) ∧
      (sampleWorld.commandSuccess = false → w1.commandSuccess = false) ∧
      (sampleWorld.commandSuccess = true →
        w1 = { sampleWorld with commandSuccess := true, interpreterLogging := true })) ∧
    (∃ w1 : World,
      processCommand sampleHost 1 (0 + 1) ("exec".toList :: "fail".toList :: []) [] []
        { sampleWorld with commandSuccess := true } = .ok w1 ∧
      w1.commandSuccess = (true && false) ∧
      (true = false → w1.commandSuccess = false) ∧
      (true = true →
        w1 = { sampleWorld with
          calls := [{ name := "unzipFile", args := ["a".toList, "b".toList] }] })) :=
  ⟨exec_keeps_outer_failure sampleHost 1 0 [] [] sampleWorld "boot".toList []
      ("boot".toList, [["logging".toList]])
      { initialLoopState sampleWorld with
        world := { sampleWorld with commandSuccess := true, interpreterLogging := true },
        trace := [Event.resolved ["logging".toList], Event.dispatched ["logging".toList]] }
      (by decide) (by decide) (by decide),
   exec_keeps_outer_failure sampleHost 1 0 [] [] { sampleWorld with commandSuccess := true }
      "fail".toList [] ("fail".toList, [["unzip".toList, "a".toList, "b".toList]])
      { initialLoopState sampleWorld with
        world := { sampleWorld with
          calls := [{ name := "unzipFile", args := ["a".toList, "b".toList] }] },
        trace := [Event.resolved ["unzip".toList, "a".toList, "b".toList],
                  Event.dispatched ["unzip".toList, "a".toList, "b".toList]] }
      (by decide) (by decide) (by decide)⟩

theorem perform_commandSuccess (sys : Collaborators)
    (heffect : ∀ (c : Call) (w : World), (sys.effect c w).commandSuccess = w.commandSuccess)
    (name : String) (args : List Str) (w : World) :
    (perform sys name args w).commandSuccess = w.commandSuccess := by
  unfold perform
  rw [heffect]
  rfl

theorem handleMakeDirCommand_commandSuccess (sys : Collaborators)
    (heffect : ∀ (c : Call) (w : World), (sys.effect c w).commandSuccess = w.commandSuccess)
    (cmd : Command) (packagePath : Str) (w w1 : World)
    (hrun : handleMakeDirCommand sys cmd packagePath w = .ok w1) :
    w1.commandSuccess = w.commandSuccess := by
  unfold handleMakeDirCommand at hrun
  split at hrun <;> simp only [Run.ok.injEq] at hrun <;> subst hrun
  · exact perform_commandSuccess sys heffect _ _ _
  · rfl

theorem copyListLoop_commandSuccess (sys : Collaborators)
    (heffect : ∀ (c : Call) (w : World), (sys.effect c w).commandSuccess = w.commandSuccess)
    (filterListPath : Str) (filterSet sources destinations : List Str) (w w1 : World)
    (hrun : copyListLoop sys filterListPath filterSet sources destinations w = .ok w1) :
    w1.commandSuccess = w.commandSuccess := by
  induction sources generalizing destinations w with
  | nil =>
    simp only [copyListLoop, Run.ok.injEq] at hrun
    rw [← hrun]
  | cons source more ih =>
    cases destinations with
    | nil => simp [copyListLoop] at hrun
    | cons destination rest =>
      simp only [copyListLoop] at hrun
      split at hrun
      · rw [ih _ _ hrun, perform_commandSuccess sys heffect]
      · exact ih _ _ hrun

theorem handleCopyCommand_commandSuccess (sys : Collaborators)
    (heffect : ∀ (c : Call) (w : World), (sys.effect c w).commandSuccess = w.commandSuccess)
    (cmd : Command) (packagePath : Str) (w w1 : World)
    (hrun : handleCopyCommand sys cmd packagePath w = .ok w1) :
    w1.commandSuccess = w.commandSuccess := by
  unfold handleCopyCommand at hrun
  simp only [] at hrun
  split at hrun
  · exact copyListLoop_commandSuccess sys heffect _ _ _ _ _ _ hrun
  · split at hrun
    · simp only [Run.ok.injEq] at hrun; subst hrun; rfl
    · split at hrun
      · simp only [Run.ok.injEq] at hrun; subst hrun; rfl
      · split at hrun <;> simp only [Run.ok.injEq] at hrun <;> subst hrun <;>
          exact perform_commandSuccess sys heffect _ _ _

theorem deleteListLoop_commandSuccess (sys : Collaborators)
    (heffect : ∀ (c : Call) (w : World), (sys.effect c w).commandSuccess = w.commandSuccess)
    (filterListPath : Str) (filterSet sources : List Str) (w : World) :
    (deleteListLoop sys filterListPath filterSet sources w).commandSuccess =
      w.commandSuccess := by
  induction sources generalizing w with
  | nil => rfl
  | cons source more ih =>
    simp only [deleteListLoop]
    split
    · rw [ih, perform_commandSuccess sys heffect]
    · exact ih _

theorem handleDeleteCommand_commandSuccess (sys : Collaborators)
    (heffect : ∀ (c : Call) (w : World), (sys.effect c w).commandSuccess = w.commandSuccess)
    (ROOT_PATH : Str) (cmd : Command) (packagePath : Str) (w w1 : World)
    (hrun : handleDeleteCommand sys ROOT_PATH cmd packagePath w = .ok w1) :
    w1.commandSuccess = w.commandSuccess := by
  unfold handleDeleteCommand at hrun
  simp only [] at hrun
  split at hrun
  · simp only [Run.ok.injEq] at hrun; subst hrun
    exact deleteListLoop_commandSuccess sys heffect _ _ _ _
  · split at hrun
    · simp only [Run.ok.injEq] at hrun; subst hrun; rfl
    · split at hrun
      · split at hrun <;> simp only [Run.ok.injEq] at hrun <;> subst hrun <;>
          exact perform_commandSuccess sys heffect _ _ _
      · simp only [Run.ok.injEq] at hrun; subst hrun; rfl

theorem moveListLoop_commandSuccess (sys : Collaborators)
    (heffect : ∀ (c : Call) (w : World), (sys.effect c w).commandSuccess = w.commandSuccess)
    (copyFilterListPath filterListPath : Str)
    (copyFilterSet filterSet sources destinations : List Str) (w w1 : World)
    (hrun : moveListLoop sys copyFilterListPath filterListPath copyFilterSet filterSet
      sources destinations w = .ok w1) :
    w1.commandSuccess = w.commandSuccess := by
  induction sources generalizing destinations w with
  | nil =>
    simp only [moveListLoop, Run.ok.injEq] at hrun
    rw [← hrun]
  | cons source more ih =>
    cases destinations with
    | nil => simp [moveListLoop] at hrun
    | cons destination rest =>
      simp only [moveListLoop] at hrun
      split at hrun
      · split at hrun <;> rw [ih _ _ hrun, perform_commandSuccess sys heffect]
      · exact ih _ _ hrun

theorem handleMoveCommand_commandSuccess (sys : Collaborators)
    (heffect : ∀ (c : Call) (w : World), (sys.effect c w).commandSuccess = w.commandSuccess)
    (ROOT_PATH : Str) (cmd : Command) (packagePath : Str) (w w1 : World)
    (hrun : handleMoveCommand sys ROOT_PATH cmd packagePath w = .ok w1) :
    w1.commandSuccess = w.commandSuccess := by
  unfold handleMoveCommand at hrun
  simp only [] at hrun
  split at hrun
  · split at hrun
    · simp only [Run.ok.injEq] at hrun; subst hrun; rfl
    · exact moveListLoop_commandSuccess sys heffect _ _ _ _ _ _ _ _ hrun
  · split at hrun
    · simp only [Run.ok.injEq] at hrun; subst hrun; rfl
    · split at hrun
      · split at hrun <;> simp only [Run.ok.injEq] at hrun <;> subst hrun <;>
          exact perform_commandSuccess sys heffect _ _ _
      · simp only [Run.ok.injEq] at hrun; subst hrun; rfl

theorem andThen_eq_ok {α β : Type} (r : Run α) (f : α → Run β) (b : β)
    (hrun : r.andThen f = .ok b) : ∃ a, r = .ok a ∧ f a = .ok b := by
  cases r with
  | ok a => exact ⟨a, rfl, hrun⟩
  | fault => simp [Run.andThen] at hrun
  | outOfFuel => simp [Run.andThen] at hrun

theorem mirrorLoop_commandSuccess (sys : Collaborators)
    (heffect : ∀ (c : Call) (w : World), (sys.effect c w).commandSuccess = w.commandSuccess)
    (destinationPath operation : Str) (entries : List Str) (w : World) :
    (mirrorLoop sys destinationPath operation entries w).commandSuccess =
      w.commandSuccess := by
  induction entries generalizing w with
  | nil => rfl
  | cons entry more ih =>
    simp only [mirrorLoop]
    rw [ih, perform_commandSuccess sys heffect]

theorem handleMirrorCommand_commandSuccess (h : Host)
    (heffect : ∀ (c : Call) (w : World),
      (h.sys.effect c w).commandSuccess = w.commandSuccess)
    (cmd : Command) (packagePath : Str) (w w1 : World)
    (hrun : handleMirrorCommand h cmd packagePath w = .ok w1) :
    w1.commandSuccess = w.commandSuccess := by
  unfold handleMirrorCommand at hrun
  split at hrun
  · simp only [] at hrun
    split at hrun <;> simp only [Run.ok.injEq] at hrun <;> subst hrun
    · exact perform_commandSuccess h.sys heffect _ _ _
    · exact mirrorLoop_commandSuccess h.sys heffect _ _ _ _
  · simp only [Run.ok.injEq] at hrun; subst hrun; rfl

theorem handleIniCommands_commandSuccess (sys : Collaborators)
    (heffect : ∀ (c : Call) (w : World), (sys.effect c w).commandSuccess = w.commandSuccess)
    (removeQuotes : Str → Str) (cmd : Command) (packagePath : Str) (w w1 : World)
    (hrun : handleIniCommands sys removeQuotes cmd packagePath w = .ok w1) :
    w1.commandSuccess = w.commandSuccess := by
  unfold handleIniCommands at hrun
  obtain ⟨name, _, hrun⟩ := andThen_eq_ok _ _ _ hrun
  split at hrun
  · obtain ⟨_, _, hrun⟩ := andThen_eq_ok _ _ _ hrun
    obtain ⟨_, _, hrun⟩ := andThen_eq_ok _ _ _ hrun
    simp only [Run.ok.injEq] at hrun; subst hrun
    exact perform_commandSuccess sys heffect _ _ _
  · split at hrun
    · obtain ⟨_, _, hrun⟩ := andThen_eq_ok _ _ _ hrun
      obtain ⟨_, _, hrun⟩ := andThen_eq_ok _ _ _ hrun
      obtain ⟨_, _, hrun⟩ := andThen_eq_ok _ _ _ hrun
      simp only [Run.ok.injEq] at hrun; subst hrun
      exact perform_commandSuccess sys heffect _ _ _
    · split at hrun
      · obtain ⟨_, _, hrun⟩ := andThen_eq_ok _ _ _ hrun
        obtain ⟨_, _, hrun⟩ := andThen_eq_ok _ _ _ hrun
        simp only [Run.ok.injEq] at hrun; subst hrun
        exact perform_commandSuccess sys heffect _ _ _
      · split at hrun
        · obtain ⟨_, _, hrun⟩ := andThen_eq_ok _ _ _ hrun
          obtain ⟨_, _, hrun⟩ := andThen_eq_ok _ _ _ hrun
          obtain ⟨_, _, hrun⟩ := andThen_eq_ok _ _ _ hrun
          simp only [Run.ok.injEq] at hrun; subst hrun
          exact perform_commandSuccess sys heffect _ _ _
        · split at hrun
          · obtain ⟨_, _, hrun⟩ := andThen_eq_ok _ _ _ hrun
            obtain ⟨_, _, hrun⟩ := andThen_eq_ok _ _ _ hrun
            obtain ⟨_, _, hrun⟩ := andThen_eq_ok _ _ _ hrun
            simp only [Run.ok.injEq] at hrun; subst hrun
            exact perform_commandSuccess sys heffect _ _ _
          · split at hrun
            · obtain ⟨_, _, hrun⟩ := andThen_eq_ok _ _ _ hrun
              obtain ⟨_, _, hrun⟩ := andThen_eq_ok _ _ _ hrun
              obtain ⟨_, _, hrun⟩ := andThen_eq_ok _ _ _ hrun
              simp only [Run.ok.injEq] at hrun; subst hrun
              exact perform_commandSuccess sys heffect _ _ _
            · simp only [Run.ok.injEq] at hrun; subst hrun; rfl

theorem hexFindReplace_commandSuccess (h : Host)
    (heffect : ∀ (c : Call) (w : World),
      (h.sys.effect c w).commandSuccess = w.commandSuccess)
    (sourcePath hexDataToReplace hexDataReplacement : Str) (cmd : Command) (w w1 : World)
    (hrun : hexFindReplace h sourcePath hexDataToReplace hexDataReplacement cmd w = .ok w1) :
    w1.commandSuccess = w.commandSuccess := by
  unfold hexFindReplace at hrun
  split at hrun
  · obtain ⟨_, _, hrun⟩ := andThen_eq_ok _ _ _ hrun
    split at hrun
    · simp only [Run.ok.injEq] at hrun; subst hrun
      exact perform_commandSuccess h.sys heffect _ _ _
    · simp at hrun
  · simp only [Run.ok.injEq] at hrun; subst hrun
    exact perform_commandSuccess h.sys heffect _ _ _

theorem handleHexEdit_commandSuccess (h : Host)
    (heffect : ∀ (c : Call) (w : World),
      (h.sys.effect c w).commandSuccess = w.commandSuccess)
    (sourcePath secondArg thirdArg commandName : Str) (cmd : Command) (w w1 : World)
    (hrun : handleHexEdit h sourcePath secondArg thirdArg commandName cmd w = .ok w1) :
    w1.commandSuccess = w.commandSuccess := by
  unfold handleHexEdit at hrun
  split at hrun
  · simp only [Run.ok.injEq] at hrun; subst hrun
    exact perform_commandSuccess h.sys heffect _ _ _
  · split at hrun
    · exact hexFindReplace_commandSuccess h heffect _ _ _ _ _ _ hrun
    · split at hrun
      · split at hrun
        · exact hexFindReplace_commandSuccess h heffect _ _ _ _ _ _ hrun
        · simp at hrun
      · split at hrun
        · split at hrun
          · exact hexFindReplace_commandSuccess h heffect _ _ _ _ _ _ hrun
          · simp at hrun
        · split at hrun
          · split at hrun
            · exact hexFindReplace_commandSuccess h heffect _ _ _ _ _ _ hrun
            · simp at hrun
          · simp only [Run.ok.injEq] at hrun; subst hrun; rfl

theorem handleHexByCustom_commandSuccess (h : Host)
    (heffect : ∀ (c : Call) (w : World),
      (h.sys.effect c w).commandSuccess = w.commandSuccess)
    (sourcePath customPattern offset hexDataReplacement commandName : Str) (w w1 : World)
    (hrun : handleHexByCustom h sourcePath customPattern offset hexDataReplacement
      commandName w = .ok w1) :
    w1.commandSuccess = w.commandSuccess := by
  unfold handleHexByCustom at hrun
  split at hrun
  · simp only [] at hrun
    split at hrun
    · simp only [Run.ok.injEq] at hrun; subst hrun
      exact perform_commandSuccess h.sys heffect _ _ _
    · simp at hrun
  · simp only [Run.ok.injEq] at hrun; subst hrun; rfl

theorem processHexCommand_commandSuccess (h : Host)
    (heffect : ∀ (c : Call) (w : World),
      (h.sys.effect c w).commandSuccess = w.commandSuccess)
    (commandName : Str) (cmd : Command) (packagePath : Str) (w w1 : World)
    (hrun : processHexCommand h commandName cmd packagePath w = .ok w1) :
    w1.commandSuccess = w.commandSuccess := by
  unfold processHexCommand at hrun
  split at hrun
  · obtain ⟨_, _, hrun⟩ := andThen_eq_ok _ _ _ hrun
    obtain ⟨_, _, hrun⟩ := andThen_eq_ok _ _ _ hrun
    obtain ⟨_, _, hrun⟩ := andThen_eq_ok _ _ _ hrun
    simp only [] at hrun
    split at hrun
    · split at hrun
      · obtain ⟨_, _, hrun⟩ := andThen_eq_ok _ _ _ hrun
        exact handleHexByCustom_commandSuccess h heffect _ _ _ _ _ _ _ hrun
      · simp only [Run.ok.injEq] at hrun; subst hrun; rfl
    · exact handleHexEdit_commandSuccess h heffect _ _ _ _ _ _ _ hrun
  · simp only [Run.ok.injEq] at hrun; subst hrun; rfl

theorem rebootToHekateConfig_commandSuccess (h : Host)
    (heffect : ∀ (c : Call) (w : World),
      (h.sys.effect c w).commandSuccess = w.commandSuccess)
    (configList : List Str) (option : Str) (isIni : Bool) (w w1 : World)
    (hrun : rebootToHekateConfig h configList option isIni w = .ok w1) :
    w1.commandSuccess = w.commandSuccess := by
  unfold rebootToHekateConfig at hrun
  split at hrun
  · split at hrun
    · simp at hrun
    · split at hrun
      · simp only [Run.ok.injEq] at hrun; subst hrun
        exact perform_commandSuccess h.sys heffect _ _ _
      · simp at hrun
  · split at hrun
    · simp only [Run.ok.injEq] at hrun; subst hrun
      exact perform_commandSuccess h.sys heffect _ _ _
    · simp only [Run.ok.injEq] at hrun; subst hrun; rfl

theorem processRebootCommand_commandSuccess (h : Host)
    (heffect : ∀ (c : Call) (w : World),
      (h.sys.effect c w).commandSuccess = w.commandSuccess)
    (cmd : Command) (w w1 : World)
    (hrun : processRebootCommand h cmd w = .ok w1) :
    w1.commandSuccess = w.commandSuccess := by
  unfold processRebootCommand at hrun
  simp only [] at hrun
  obtain ⟨w4, h4, hrun⟩ := andThen_eq_ok _ _ _ hrun
  simp only [Run.ok.injEq] at hrun
  subst hrun
  simp only [perform_commandSuccess h.sys heffect]
  split at h4
  · split at h4
    · obtain ⟨wa, ha, h4⟩ := andThen_eq_ok _ _ _ h4
      obtain ⟨wb, hb, h4⟩ := andThen_eq_ok _ _ _ h4
      have e1 : wa.commandSuccess = w.commandSuccess := by
        split at ha
        · split at ha
          · exact rebootToHekateConfig_commandSuccess h heffect _ _ _ _ _ ha
          · split at ha
            · exact rebootToHekateConfig_commandSuccess h heffect _ _ _ _ _ ha
            · simp only [Run.ok.injEq] at ha; subst ha; rfl
        · simp only [Run.ok.injEq] at ha; subst ha; rfl
      have e2 : wb.commandSuccess = wa.commandSuccess := by
        split at hb
        · simp only [Run.ok.injEq] at hb; subst hb
          exact perform_commandSuccess h.sys heffect _ _ _
        · split at hb
          · simp only [Run.ok.injEq] at hb; subst hb
            exact perform_commandSuccess h.sys heffect _ _ _
          · split at hb
            · split at hb
              · simp only [Run.ok.injEq] at hb; subst hb
                exact perform_commandSuccess h.sys heffect _ _ _
              · rw [rebootToHekateConfig_commandSuccess h heffect _ _ _ _ _ hb,
                  perform_commandSuccess h.sys heffect]
            · simp only [Run.ok.injEq] at hb; subst hb; rfl
      split at h4 <;> simp only [Run.ok.injEq] at h4 <;> subst h4
      · rw [perform_commandSuccess h.sys heffect, e2, e1]
      · rw [e2, e1]
    · simp only [Run.ok.injEq] at h4; subst h4
      exact perform_commandSuccess h.sys heffect _ _ _
  · simp only [Run.ok.injEq] at h4; subst h4; rfl

theorem processExecCommand_commandSuccess (h : Host) (fuel : Nat)
    (dispatch : Command → Str → Str → World → Run World) (cmd : Command)
    (packagePath : Str) (w w1 : World)
    (hrun : processExecCommand h fuel dispatch cmd packagePath w = .ok w1)
    (hafter : w1.commandSuccess = true) : w.commandSuccess = true := by
  unfold processExecCommand at hrun
  split at hrun
  · simp only [] at hrun
    split at hrun
    · split at hrun
      · cases hw : w.commandSuccess with
        | true => rfl
        | false =>
          exfalso
          split at hrun
          · simp only [hw, Bool.not_false, if_true, Run.ok.injEq] at hrun
            subst hrun; simp at hafter
          · simp only [hw, Bool.not_false, if_true, Run.ok.injEq] at hrun
            subst hrun; simp at hafter
          · cases hrun
          · cases hrun
      · simp only [Run.ok.injEq] at hrun; subst hrun; exact hafter
    · simp only [Run.ok.injEq] at hrun; subst hrun; exact hafter
  · simp only [Run.ok.injEq] at hrun; subst hrun; exact hafter

theorem downloadLoop_commandSuccess (h : Host) (fileUrl destinationPath : Str)
    (attempts : Nat) (w : World) :
    (downloadLoop h fileUrl destinationPath attempts w).2.commandSuccess =
      w.commandSuccess := by
  induction attempts generalizing w with
  | zero => rfl
  | succ n ih =>
    simp only [downloadLoop]
    split
    · rfl
    · split
      · rfl
      · rw [ih]; rfl

/-- C27. The dispatcher never raises commandSuccess. When the collaborators that act on the
file system do not write commandSuccess, for every command, every nesting depth and every
returned value of every collaborator: if processCommand returns with commandSuccess true,
commandSuccess was true before the command. This includes exec, whose run of the section
starts by setting commandSuccess to true. -/
theorem commandSuccess_never_raised (h : Host)
    (heffect : ∀ (c : Call) (w : World),
      (h.sys.effect c w).commandSuccess = w.commandSuccess)
    (fuel depth : Nat) (cmd : Command) (packagePath selectedCommand : Str) (w w1 : World)
    (hrun : processCommand h fuel depth cmd packagePath selectedCommand w = .ok w1)
    (hafter : w1.commandSuccess = true) : w.commandSuccess = true := by
  obtain ⟨dispatch, hd⟩ := processCommand_eq h fuel depth
  rw [hd] at hrun
  cases cmd with
  | nil => cases hrun
  | cons commandName args =>
  unfold processCommandWith at hrun
  simp only [] at hrun
  by_cases hc1 : commandName = "mkdir".toList ∨ commandName = "make".toList
  · rw [if_pos hc1] at hrun
    rw [← handleMakeDirCommand_commandSuccess h.sys heffect _ _ _ _ hrun]; exact hafter
  rw [if_neg hc1] at hrun
  by_cases hc2 : commandName = "cp".toList ∨ commandName = "copy".toList
  · rw [if_pos hc2] at hrun
    rw [← handleCopyCommand_commandSuccess h.sys heffect _ _ _ _ hrun]; exact hafter
  rw [if_neg hc2] at hrun
  by_cases hc3 : commandName = "del".toList ∨ commandName = "delete".toList
  · rw [if_pos hc3] at hrun
    rw [← handleDeleteCommand_commandSuccess h.sys heffect _ _ _ _ _ hrun]; exact hafter
  rw [if_neg hc3] at hrun
  by_cases hc4 : substr commandName 0 (some 7) = "mirror_".toList
  · rw [if_pos hc4] at hrun
    rw [← handleMirrorCommand_commandSuccess h heffect _ _ _ _ hrun]; exact hafter
  rw [if_neg hc4] at hrun
  by_cases hc5 : commandName = "mv".toList ∨ commandName = "move".toList ∨
      commandName = "rename".toList
  · rw [if_pos hc5] at hrun
    rw [← handleMoveCommand_commandSuccess h.sys heffect _ _ _ _ _ hrun]; exact hafter
  rw [if_neg hc5] at hrun
  by_cases hc6 : commandName = "add-ini-section".toList ∨
      commandName = "rename-ini-section".toList ∨
      commandName = "remove-ini-section".toList ∨ commandName = "remove-ini-key".toList ∨
      commandName = "set-ini-val".toList ∨ commandName = "set-ini-value".toList ∨
      commandName = "set-ini-key".toList
  · rw [if_pos hc6] at hrun
    rw [← handleIniCommands_commandSuccess h.sys heffect _ _ _ _ _ hrun]; exact hafter
  rw [if_neg hc6] at hrun
  by_cases hc7 : commandName = "set-footer".toList
  · rw [if_pos hc7] at hrun
    split at hrun <;> simp only [Run.ok.injEq] at hrun <;> subst hrun
    · rw [perform_commandSuccess h.sys heffect] at hafter; exact hafter
    · exact hafter
  rw [if_neg hc7] at hrun
  by_cases hc8 : commandName = "compare".toList
  · rw [if_pos hc8] at hrun
    split at hrun
    · split at hrun <;> simp only [Run.ok.injEq] at hrun <;> subst hrun <;>
        (rw [perform_commandSuccess h.sys heffect] at hafter; exact hafter)
    · simp only [Run.ok.injEq] at hrun; subst hrun; exact hafter
  rw [if_neg hc8] at hrun
  by_cases hc9 : substr commandName 0 (some 7) = "hex-by-".toList
  · rw [if_pos hc9] at hrun
    rw [← processHexCommand_commandSuccess h heffect _ _ _ _ _ hrun]; exact hafter
  rw [if_neg hc9] at hrun
  by_cases hc10 : commandName = "download".toList
  · rw [if_pos hc10] at hrun
    split at hrun <;> simp only [Run.ok.injEq] at hrun <;> subst hrun
    · simp only [Bool.and_eq_true, downloadLoop_commandSuccess] at hafter
      exact hafter.2
    · exact hafter
  rw [if_neg hc10] at hrun
  by_cases hc11 : commandName = "unzip".toList
  · rw [if_pos hc11] at hrun
    split at hrun <;> simp only [Run.ok.injEq] at hrun <;> subst hrun
    · simp only [Bool.and_eq_true] at hafter
      exact hafter.2
    · exact hafter
  rw [if_neg hc11] at hrun
  by_cases hc12 : commandName = "pchtxt2ips".toList
  · rw [if_pos hc12] at hrun
    split at hrun <;> simp only [Run.ok.injEq] at hrun <;> subst hrun
    · simp only [Bool.and_eq_true, perform_commandSuccess h.sys heffect] at hafter
      exact hafter.2
    · exact hafter
  rw [if_neg hc12] at hrun
  by_cases hc13 : commandName = "pchtxt2cheat".toList
  · rw [if_pos hc13] at hrun
    split at hrun <;> simp only [Run.ok.injEq] at hrun <;> subst hrun
    · simp only [Bool.and_eq_true, perform_commandSuccess h.sys heffect] at hafter
      exact hafter.2
    · exact hafter
  rw [if_neg hc13] at hrun
  by_cases hc14 : commandName = "exec".toList
  · rw [if_pos hc14] at hrun
    exact processExecCommand_commandSuccess h fuel dispatch _ packagePath w w1 hrun hafter
  rw [if_neg hc14] at hrun
  by_cases hc15 : commandName = "reboot".toList
  · rw [if_pos hc15] at hrun
    rw [← processRebootCommand_commandSuccess h heffect _ _ _ hrun]; exact hafter
  rw [if_neg hc15] at hrun
  by_cases hc16 : commandName = "shutdown".toList
  · rw [if_pos hc16] at hrun
    simp only [Run.ok.injEq] at hrun; subst hrun
    simp only [perform_commandSuccess h.sys heffect] at hafter; exact hafter
  rw [if_neg hc16] at hrun
  by_cases hc17 : commandName = "exit".toList
  · rw [if_pos hc17] at hrun
    simp only [Run.ok.injEq] at hrun; subst hrun
    simp only [perform_commandSuccess h.sys heffect] at hafter
    split at hafter
    · split at hafter
      · rw [perform_commandSuccess h.sys heffect] at hafter; exact hafter
      · split at hafter
        · simp only [perform_commandSuccess h.sys heffect] at hafter; exact hafter
        · exact hafter
    · exact hafter
  rw [if_neg hc17] at hrun
  by_cases hc18 : commandName = "backlight".toList
  · rw [if_pos hc18] at hrun
    split at hrun <;> simp only [Run.ok.injEq] at hrun <;> subst hrun
    · simp only [perform_commandSuccess h.sys heffect] at hafter
      split at hafter
      · simp only [perform_commandSuccess h.sys heffect] at hafter; exact hafter
      · split at hafter
        · simp only [perform_commandSuccess h.sys heffect] at hafter; exact hafter
        · split at hafter
          · simp only [perform_commandSuccess h.sys heffect] at hafter; exact hafter
          · simp only [perform_commandSuccess h.sys heffect] at hafter; exact hafter
    · exact hafter
  rw [if_neg hc18] at hrun
  by_cases hc19 : commandName = "refresh".toList
  · rw [if_pos hc19] at hrun
    split at hrun
    · simp only [Run.ok.injEq] at hrun; subst hrun; exact hafter
    · split at hrun
      · simp only [Run.ok.injEq] at hrun; subst hrun
        rw [perform_commandSuccess h.sys heffect] at hafter; exact hafter
      · split at hrun
        · simp only [Run.ok.injEq] at hrun; subst hrun; exact hafter
        · split at hrun <;> simp only [Run.ok.injEq] at hrun <;> subst hrun
          · rw [perform_commandSuccess h.sys heffect] at hafter; exact hafter
          · exact hafter
  rw [if_neg hc19] at hrun
  by_cases hc20 : commandName = "logging".toList
  · rw [if_pos hc20] at hrun
    simp only [Run.ok.injEq] at hrun; subst hrun; exact hafter
  rw [if_neg hc20] at hrun
  by_cases hc21 : commandName = "clear".toList
  · rw [if_pos hc21] at hrun
    split at hrun
    · split at hrun
      · simp only [Run.ok.injEq] at hrun; subst hrun
        rw [perform_commandSuccess h.sys heffect] at hafter; exact hafter
      · split at hrun <;> simp only [Run.ok.injEq] at hrun <;> subst hrun
        · rw [perform_commandSuccess h.sys heffect] at hafter; exact hafter
        · exact hafter
    · simp only [Run.ok.injEq] at hrun; subst hrun; exact hafter
  rw [if_neg hc21] at hrun
  · simp only [Run.ok.injEq] at hrun; subst hrun; exact hafter

/-- C27, witness: on the sample host no collaborator writes commandSuccess; the command
exec boot returns with commandSuccess true, and it was true before. -/
theorem commandSuccess_never_raised_witness :
    (∀ (c : Call) (w : World),
      (sampleHost.sys.effect c w).commandSuccess = w.commandSuccess) ∧
    processCommand sampleHost 1 1 ["exec".toList, "boot".toList] [] []
        { sampleWorld with commandSuccess := true } =
      .ok { sampleWorld with commandSuccess := true, interpreterLogging := true } ∧
    ({ sampleWorld with commandSuccess := true } : World).commandSuccess = true :=
  ⟨fun _ _ => rfl, by decide,
   commandSuccess_never_raised sampleHost (fun _ _ => rfl) 1 1
     ["exec".toList, "boot".toList] [] [] { sampleWorld with commandSuccess := true }
     { sampleWorld with commandSuccess := true, interpreterLogging := true }
     (by decide) rfl⟩

/-! ### The background worker -/

/-- C28, counterexample. Started with two jobs with commands in the queue and no exit
requested, the worker runs the first job only: it leaves its loop with the second job
still in the queue and not run. -/
theorem worker_runs_one_job :
    backgroundInterpreter sampleEngine 1
        [{ commands := [["ok".toList]], packagePath := [], selectedCommand := "first".toList },
         { commands := [["ok".toList]], packagePath := [], selectedCommand := "second".toList }]
        false [] sampleWorld =
      .exited
        [{ commands := [["ok".toList]], packagePath := [], selectedCommand := "second".toList }]
        [{ commands := [["ok".toList]], packagePath := [], selectedCommand := "first".toList }]
        { sampleWorld with commandSuccess := true } := by
  decide

/-- C28, amended. Started with a job with commands at the front of the queue and no exit
requested, the worker pops that job, runs it (when its run returns) between two clears of
the abort flags, stores the exit request itself and leaves its loop: exactly that job is
run, and the jobs behind it stay in the queue in their order. A job without commands at
the front is popped without being run and the worker goes on with the rest of the
queue. -/
theorem worker_runs_front_job (eng : Engine) (fuel : Nat) (job : Job) (queue ran : List Job)
    (w : World) :
    (∀ st : LoopState, job.commands ≠ [] →
      (interpretAndExecuteCommands eng fuel job.commands job.packagePath
        job.selectedCommand (clearInterpreterFlags w)).finalState = some st →
      backgroundInterpreter eng fuel (job :: queue) false ran w =
        .exited queue (ran ++ [job]) (clearInterpreterFlags st.world)) ∧
    (job.commands = [] →
      backgroundInterpreter eng fuel (job :: queue) false ran w =
        backgroundInterpreter eng fuel queue false ran w) := by
  constructor
  · intro st hne hrun
    have hcond : (!job.commands.isEmpty) = true := by
      simp [List.isEmpty_iff, hne]
    rw [backgroundInterpreter, if_pos hcond]
    cases hout : interpretAndExecuteCommands eng fuel job.commands job.packagePath
        job.selectedCommand (clearInterpreterFlags w) with
    | next st1 =>
      rw [hout] at hrun
      simp only [LoopOutcome.finalState, Option.some.injEq] at hrun
      subst hrun
      simp only [backgroundInterpreter]
    | stop st1 =>
      rw [hout] at hrun
      simp only [LoopOutcome.finalState, Option.some.injEq] at hrun
      subst hrun
      simp only [backgroundInterpreter]
    | fault => rw [hout] at hrun; simp [LoopOutcome.finalState] at hrun
    | outOfFuel => rw [hout] at hrun; simp [LoopOutcome.finalState] at hrun
  · intro hempty
    rw [backgroundInterpreter, if_neg (by simp [hempty])]

/-- C28, witness: with three jobs in the queue, of which the first has no commands, the
worker of the sample engine skips the first, runs the second and leaves the third in the
queue. -/
theorem worker_runs_front_job_witness :
    backgroundInterpreter sampleEngine 1
        ({ commands := [["ok".toList]], packagePath := [], selectedCommand := "b".toList } ::
         [{ commands := [["ok".toList]], packagePath := [], selectedCommand := "c".toList }])
        false [] sampleWorld =
      .exited
        [{ commands := [["ok".toList]], packagePath := [], selectedCommand := "c".toList }]
        ([] ++ [{ commands := [["ok".toList]], packagePath := [],
                  selectedCommand := "b".toList }])
        (clearInterpreterFlags { sampleWorld with commandSuccess := true }) ∧
    backgroundInterpreter sampleEngine 1
        ({ commands := [], packagePath := [], selectedCommand := "a".toList } ::
         [{ commands := [["ok".toList]], packagePath := [], selectedCommand := "b".toList },
          { commands := [["ok".toList]], packagePath := [], selectedCommand := "c".toList }])
        false [] sampleWorld =
      backgroundInterpreter sampleEngine 1
        [{ commands := [["ok".toList]], packagePath := [], selectedCommand := "b".toList },
         { commands := [["ok".toList]], packagePath := [], selectedCommand := "c".toList }]
        false [] sampleWorld :=
  ⟨(worker_runs_front_job sampleEngine 1
      { commands := [["ok".toList]], packagePath := [], selectedCommand := "b".toList }
      [{ commands := [["ok".toList]], packagePath := [], selectedCommand := "c".toList }]
      [] sampleWorld).1
      { initialLoopState sampleWorld with
        trace := [Event.resolved ["ok".toList], Event.dispatched ["ok".toList]] }
      (by decide) (by decide),
   (worker_runs_front_job sampleEngine 1
      { commands := [], packagePath := [], selectedCommand := "a".toList }
      [{ commands := [["ok".toList]], packagePath := [], selectedCommand := "b".toList },
       { commands := [["ok".toList]], packagePath := [], selectedCommand := "c".toList }]
      [] sampleWorld).2 rfl⟩

/-! ### The expander and the platform gates -/

theorem interpretCommand_interpreterGate (eng : Engine) (fuel : Nat)
    (packagePath selectedCommand : Str) (st st1 : LoopState) (cmd : Command)
    (hrun : interpretCommand eng fuel packagePath selectedCommand st cmd = .next st1) :
    (st1.inEristaSection, st1.inMarikoSection) =
      interpreterGate (st.inEristaSection, st.inMarikoSection) cmd := by
  unfold interpretCommand at hrun
  by_cases hab : st.world.abortCommand = true
  · rw [if_pos hab] at hrun; cases hrun
  rw [if_neg hab] at hrun
  cases cmd with
  | nil =>
    simp only [LoopOutcome.next.injEq] at hrun
    subst hrun; rfl
  | cons commandName args =>
    simp only [] at hrun
    by_cases h1 : commandName = "try:".toList
    · rw [if_pos h1] at hrun
      have hne1 : ¬ ("try:".toList = "erista:".toList) := by decide
      have hne2 : ¬ ("try:".toList = "mariko:".toList) := by decide
      split at hrun
      · cases hrun
      · simp only [LoopOutcome.next.injEq] at hrun
        subst hrun
        simp only [interpreterGate, h1, hne1, hne2, if_false]
    rw [if_neg h1] at hrun
    by_cases h2 : commandName = "erista:".toList
    · rw [if_pos h2] at hrun
      simp only [LoopOutcome.next.injEq] at hrun
      subst hrun
      simp only [interpreterGate, h2, if_true]
    rw [if_neg h2] at hrun
    by_cases h3 : commandName = "mariko:".toList
    · rw [if_pos h3] at hrun
      simp only [LoopOutcome.next.injEq] at hrun
      subst hrun
      simp only [interpreterGate, if_neg h2, if_pos h3]
    rw [if_neg h3] at hrun
    simp only [interpreterGate, h2, h3, if_false]
    split at hrun
    · simp only [LoopOutcome.next.injEq] at hrun; subst hrun; rfl
    · split at hrun
      · split at hrun
        · split at hrun
          · rename_i resolved _
            have hflags := executeResolved_flags eng packagePath selectedCommand
              { st with trace := st.trace ++ [Event.resolved (commandName :: args)] }
              resolved
            rw [hrun] at hflags
            simp only [] at hflags
            rw [hflags.1, hflags.2.1]
          · cases hrun
          · cases hrun
        · simp only [LoopOutcome.next.injEq] at hrun; subst hrun; rfl
      · simp only [LoopOutcome.next.injEq] at hrun; subst hrun; rfl

theorem interpretLoop_interpreterGate (eng : Engine) (fuel : Nat)
    (packagePath selectedCommand : Str) (done : List Command) (st st1 : LoopState)
    (hrun : interpretLoop eng fuel packagePath selectedCommand st done = .next st1) :
    (st1.inEristaSection, st1.inMarikoSection) =
      done.foldl interpreterGate (st.inEristaSection, st.inMarikoSection) := by
  induction done generalizing st with
  | nil =>
    simp only [interpretLoop, LoopOutcome.next.injEq] at hrun
    subst hrun; rfl
  | cons cmd more ih =>
    simp only [interpretLoop] at hrun
    cases hstep : interpretCommand eng fuel packagePath selectedCommand st cmd with
    | next st2 =>
      rw [hstep] at hrun
      simp only [] at hrun
      rw [List.foldl_cons, ← interpretCommand_interpreterGate eng fuel packagePath
        selectedCommand st st2 cmd hstep]
      exact ih st2 hrun
    | stop st2 => rw [hstep] at hrun; cases hrun
    | fault => rw [hstep] at hrun; cases hrun
    | outOfFuel => rw [hstep] at hrun; cases hrun

theorem declareSource_frame (x : Expander) (packagePath : Str) (cmd : Command)
    (commandName : Str) (st st1 : ExpanderState)
    (hrun : declareSource x packagePath cmd commandName st = .ok st1) :
    st1.inEristaSection = st.inEristaSection ∧ st1.inMarikoSection = st.inMarikoSection ∧
    st1.modifiedCommands = st.modifiedCommands ∧
    st1.usingFileSource =
      (st.usingFileSource || decide (commandName = "file_source".toList)) := by
  unfold declareSource at hrun
  by_cases h0 : commandName = "file_source".toList
  · rw [if_pos h0] at hrun
    simp only [Run.ok.injEq] at hrun
    subst hrun
    simp [h0]
  rw [if_neg h0] at hrun
  have hdec : decide (commandName = "file_source".toList) = false := decide_eq_false h0
  rw [hdec, Bool.or_false]
  split at hrun
  · obtain ⟨_, _, hrun⟩ := andThen_eq_ok _ _ _ hrun
    simp only [Run.ok.injEq] at hrun; subst hrun; exact ⟨rfl, rfl, rfl, rfl⟩
  split at hrun
  · obtain ⟨_, _, hrun⟩ := andThen_eq_ok _ _ _ hrun
    simp only [Run.ok.injEq] at hrun; subst hrun; exact ⟨rfl, rfl, rfl, rfl⟩
  split at hrun
  · obtain ⟨_, _, hrun⟩ := andThen_eq_ok _ _ _ hrun
    simp only [Run.ok.injEq] at hrun; subst hrun; exact ⟨rfl, rfl, rfl, rfl⟩
  split at hrun
  · obtain ⟨_, _, hrun⟩ := andThen_eq_ok _ _ _ hrun
    simp only [Run.ok.injEq] at hrun; subst hrun; exact ⟨rfl, rfl, rfl, rfl⟩
  split at hrun
  · obtain ⟨_, _, hrun⟩ := andThen_eq_ok _ _ _ hrun
    simp only [Run.ok.injEq] at hrun; subst hrun; exact ⟨rfl, rfl, rfl, rfl⟩
  · simp only [Run.ok.injEq] at hrun; subst hrun; exact ⟨rfl, rfl, rfl, rfl⟩

theorem expandArguments_frame (x : Expander) (fuel : Nat) (entry : Str) (entryIndex : Nat)
    (packagePath : Str) (cmd : Command) (commandName : Str) (args : List Str)
    (st st1 : ExpanderState) (modifiedCmd modifiedCmd1 : Command)
    (hrun : expandArguments x fuel entry entryIndex packagePath cmd commandName args st
      modifiedCmd = .ok (st1, modifiedCmd1)) :
    st1.inEristaSection = st.inEristaSection ∧ st1.inMarikoSection = st.inMarikoSection ∧
    st1.modifiedCommands = st.modifiedCommands ∧
    st1.usingFileSource =
      (st.usingFileSource ||
        (!args.isEmpty && decide (commandName = "file_source".toList))) := by
  induction args generalizing st modifiedCmd with
  | nil =>
    simp only [expandArguments, Run.ok.injEq, Prod.mk.injEq] at hrun
    obtain ⟨rfl, _⟩ := hrun
    simp
  | cons arg more ih =>
    simp only [expandArguments] at hrun
    obtain ⟨st2, h2, hrun⟩ := andThen_eq_ok _ _ _ hrun
    obtain ⟨modifiedArg, _, hrun⟩ := andThen_eq_ok _ _ _ hrun
    obtain ⟨d1, d2, d3, d4⟩ := declareSource_frame x packagePath cmd commandName st st2 h2
    obtain ⟨e1, e2, e3, e4⟩ := ih st2 _ hrun
    refine ⟨e1.trans d1, e2.trans d2, e3.trans d3, ?_⟩
    rw [e4, d4]
    cases st.usingFileSource <;> cases decide (commandName = "file_source".toList) <;>
      cases more.isEmpty <;> rfl

theorem expandCommand_spec (x : Expander) (fuel : Nat) (entry : Str) (entryIndex : Nat)
    (packagePath : Str) (st st1 : ExpanderState) (cmd : Command)
    (hrun : expandCommand x fuel entry entryIndex packagePath st cmd = .ok st1) :
    (st1.inEristaSection, st1.inMarikoSection) =
      sourceReplacementGate x.stringToLowercase (st.inEristaSection, st.inMarikoSection)
        cmd ∧
    (∃ added : List Command, st1.modifiedCommands = st.modifiedCommands ++ added ∧
      added.length = if keptCommand x.stringToLowercase x.usingErista x.usingMariko
        (st.inEristaSection, st.inMarikoSection) cmd then 1 else 0) ∧
    st1.usingFileSource =
      (st.usingFileSource ||
        (keptCommand x.stringToLowercase x.usingErista x.usingMariko
          (st.inEristaSection, st.inMarikoSection) cmd &&
         decide (cmd.head? = some "file_source".toList))) := by
  unfold expandCommand at hrun
  cases cmd with
  | nil =>
    simp only [Run.ok.injEq] at hrun
    subst hrun
    exact ⟨rfl, ⟨[], by simp, by simp [keptCommand]⟩, by simp [keptCommand]⟩
  | cons commandName args =>
    simp only [] at hrun
    have hst1 : ∀ s : ExpanderState,
        s = (if commandName = "download".toList then
          { st with isDownloadCommand := true } else st) →
        s.inEristaSection = st.inEristaSection ∧ s.inMarikoSection = st.inMarikoSection ∧
        s.modifiedCommands = st.modifiedCommands ∧
        s.usingFileSource = st.usingFileSource := by
      intro s hs
      subst hs
      split <;> exact ⟨rfl, rfl, rfl, rfl⟩
    obtain ⟨s1, s2, s3, s4⟩ := hst1 _ rfl
    generalize (if commandName = "download".toList then
      { st with isDownloadCommand := true } else st) = sd at hrun s1 s2 s3 s4
    by_cases h1 : x.stringToLowercase commandName = "erista:".toList
    · rw [if_pos h1] at hrun
      simp only [Run.ok.injEq] at hrun
      subst hrun
      have hk : keptCommand x.stringToLowercase x.usingErista x.usingMariko
          (st.inEristaSection, st.inMarikoSection) (commandName :: args) = false := by
        simp [keptCommand, h1]
      rw [hk]
      exact ⟨by simp only [sourceReplacementGate, if_pos h1],
        ⟨[], by simp [s3], by simp⟩, by simp [s4]⟩
    rw [if_neg h1] at hrun
    by_cases h2 : x.stringToLowercase commandName = "mariko:".toList
    · rw [if_pos h2] at hrun
      simp only [Run.ok.injEq] at hrun
      subst hrun
      have hk : keptCommand x.stringToLowercase x.usingErista x.usingMariko
          (st.inEristaSection, st.inMarikoSection) (commandName :: args) = false := by
        simp [keptCommand, h2]
      rw [hk]
      exact ⟨by simp only [sourceReplacementGate, if_neg h1, if_pos h2],
        ⟨[], by simp [s3], by simp⟩, by simp [s4]⟩
    rw [if_neg h2] at hrun
    have hkept : keptCommand x.stringToLowercase x.usingErista x.usingMariko
        (st.inEristaSection, st.inMarikoSection) (commandName :: args) =
        ((st.inEristaSection && x.usingErista) || (st.inMarikoSection && x.usingMariko) ||
          (!st.inEristaSection && !st.inMarikoSection)) := by
      simp only [keptCommand, decide_eq_false h1, decide_eq_false h2, Bool.not_false,
        Bool.true_and]
    have hgate : expanderGateOpen x sd =
        ((st.inEristaSection && x.usingErista) || (st.inMarikoSection && x.usingMariko) ||
          (!st.inEristaSection && !st.inMarikoSection)) := by
      simp only [expanderGateOpen, s1, s2]
    rw [hkept]
    have hflags : ∀ s : ExpanderState, s.inEristaSection = st.inEristaSection →
        s.inMarikoSection = st.inMarikoSection →
        (s.inEristaSection, s.inMarikoSection) =
          sourceReplacementGate x.stringToLowercase
            (st.inEristaSection, st.inMarikoSection) (commandName :: args) := by
      intro s e1 e2
      simp only [sourceReplacementGate, if_neg h1, if_neg h2, e1, e2]
    rw [hgate] at hrun
    cases hopen : ((st.inEristaSection && x.usingErista) ||
        (st.inMarikoSection && x.usingMariko) ||
        (!st.inEristaSection && !st.inMarikoSection)) with
    | false =>
      rw [hopen] at hrun
      simp only [Bool.false_eq_true, if_false, Run.ok.injEq] at hrun
      subst hrun
      exact ⟨hflags _ s1 s2, ⟨[], by rw [s3]; simp, by simp⟩, by rw [s4]; simp⟩
    | true =>
      rw [hopen] at hrun
      simp only [if_true] at hrun
      obtain ⟨done, hdone, hrun⟩ := andThen_eq_ok _ _ _ hrun
      simp only [Run.ok.injEq] at hrun
      subst hrun
      obtain ⟨e1, e2, e3, e4⟩ := expandArguments_frame x fuel entry entryIndex packagePath
        _ commandName _ _ done.1 [] done.2 hdone
      refine ⟨hflags _ (e1.trans s1) (e2.trans s2), ⟨[done.2], ?_, by simp⟩, ?_⟩
      · show done.1.modifiedCommands ++ [done.2] = _
        rw [e3, s3]
      · show done.1.usingFileSource = _
        rw [e4, s4]
        simp

theorem expandCommands_spec (x : Expander) (fuel : Nat) (entry : Str) (entryIndex : Nat)
    (packagePath : Str) (commands : List Command) (st st1 : ExpanderState)
    (hrun : expandCommands x fuel entry entryIndex packagePath commands st = .ok st1) :
    (∃ added : List Command, st1.modifiedCommands = st.modifiedCommands ++ added ∧
      added.length = (keptBySourceReplacement x.stringToLowercase x.usingErista
        x.usingMariko (st.inEristaSection, st.inMarikoSection) commands).count true) ∧
    st1.usingFileSource =
      (st.usingFileSource ||
        (List.zip commands (keptBySourceReplacement x.stringToLowercase x.usingErista
          x.usingMariko (st.inEristaSection, st.inMarikoSection) commands)).any
          (fun p => p.2 && decide (p.1.head? = some "file_source".toList))) := by
  induction commands generalizing st with
  | nil =>
    simp only [expandCommands, Run.ok.injEq] at hrun
    subst hrun
    exact ⟨⟨[], by simp, by simp [keptBySourceReplacement]⟩,
      by simp [keptBySourceReplacement]⟩
  | cons cmd rest ih =>
    simp only [expandCommands] at hrun
    obtain ⟨st2, h2, hrun⟩ := andThen_eq_ok _ _ _ hrun
    obtain ⟨hflags, ⟨added1, ha1, hl1⟩, hfile⟩ :=
      expandCommand_spec x fuel entry entryIndex packagePath st st2 cmd h2
    obtain ⟨⟨added2, ha2, hl2⟩, hfile2⟩ := ih st2 hrun
    rw [hflags] at hl2 hfile2
    constructor
    · refine ⟨added1 ++ added2, by rw [ha2, ha1, List.append_assoc], ?_⟩
      rw [List.length_append, hl1, hl2]
      simp only [keptBySourceReplacement, List.count_cons]
      cases keptCommand x.stringToLowercase x.usingErista x.usingMariko
        (st.inEristaSection, st.inMarikoSection) cmd
      · simp
      · simp
        omega
    · rw [hfile2, hfile]
      simp only [keptBySourceReplacement, List.zip_cons_cons, List.any_cons]
      rw [Bool.or_assoc]

theorem gate_steps_agree (stringToLowercase : Str → Str) (gate : Bool × Bool)
    (cmd : Command)
    (hname : ∀ name ∈ cmd.head?,
      (stringToLowercase name = "erista:".toList ↔ name = "erista:".toList) ∧
      (stringToLowercase name = "mariko:".toList ↔ name = "mariko:".toList)) :
    sourceReplacementGate stringToLowercase gate cmd = interpreterGate gate cmd := by
  cases cmd with
  | nil => rfl
  | cons name args =>
    obtain ⟨he, hm⟩ := hname name (by simp)
    simp only [sourceReplacementGate, interpreterGate]
    by_cases h1 : name = "erista:".toList
    · rw [if_pos (he.mpr h1), if_pos h1]
    · rw [if_neg (fun hc => h1 (he.mp hc)), if_neg h1]
      by_cases h2 : name = "mariko:".toList
      · rw [if_pos (hm.mpr h2), if_pos h2]
      · rw [if_neg (fun hc => h2 (hm.mp hc)), if_neg h2]

theorem foldl_gates_agree (stringToLowercase : Str → Str) (commands : List Command)
    (gate : Bool × Bool)
    (hnames : ∀ cmd ∈ commands, ∀ name ∈ cmd.head?,
      (stringToLowercase name = "erista:".toList ↔ name = "erista:".toList) ∧
      (stringToLowercase name = "mariko:".toList ↔ name = "mariko:".toList)) :
    commands.foldl (sourceReplacementGate stringToLowercase) gate =
      commands.foldl interpreterGate gate := by
  induction commands generalizing gate with
  | nil => rfl
  | cons cmd rest ih =>
    rw [List.foldl_cons, List.foldl_cons,
      gate_steps_agree stringToLowercase gate cmd (hnames cmd (List.mem_cons_self _ _))]
    exact ih _ (fun c hc => hnames c (List.mem_cons_of_mem _ hc))

/-- C29, the failing inputs, with the markers ERISTA: and Mariko: in other letter case.
The expander compares the lower-case form of a command name with the gate markers, the engine
the name itself. On a Mariko console, for the list ERISTA:, a, getSourceReplacement takes
the first command as a gate marker and keeps nothing, while interpretAndExecuteCommands
resolves and dispatches both commands; on an Erista console the same holds for the list
Mariko:, a. With the markers in lower case the two agree: nothing is kept and nothing is
dispatched. -/
theorem gate_marker_case_mismatch :
    stringToLowercase "ERISTA:".toList = "erista:".toList ∧
    stringToLowercase "Mariko:".toList = "mariko:".toList ∧
    getSourceReplacement sampleExpander 1 [["ERISTA:".toList], ["a".toList]]
      "sdmc:/x/f.txt".toList 0 [] = .ok [] ∧
    (interpretAndExecuteCommands { sampleEngine with usingErista := false, usingMariko := true }
      1 [["ERISTA:".toList], ["a".toList]] [] [] sampleWorld).finalState.map
        (fun st => st.trace) =
      some [Event.resolved ["ERISTA:".toList], Event.dispatched ["ERISTA:".toList],
            Event.resolved ["a".toList], Event.dispatched ["a".toList]] ∧
    getSourceReplacement { sampleExpander with usingErista := true, usingMariko := false } 1
      [["Mariko:".toList], ["a".toList]] "sdmc:/x/f.txt".toList 0 [] = .ok [] ∧
    (interpretAndExecuteCommands sampleEngine
      1 [["Mariko:".toList], ["a".toList]] [] [] sampleWorld).finalState.map
        (fun st => st.trace) =
      some [Event.resolved ["Mariko:".toList], Event.dispatched ["Mariko:".toList],
            Event.resolved ["a".toList], Event.dispatched ["a".toList]] ∧
    getSourceReplacement sampleExpander 1 [["erista:".toList], ["a".toList]]
      "sdmc:/x/f.txt".toList 0 [] = .ok [] ∧
    (interpretAndExecuteCommands { sampleEngine with usingErista := false, usingMariko := true }
      1 [["erista:".toList], ["a".toList]] [] [] sampleWorld).finalState.map
        (fun st => st.trace) = some [] ∧
    getSourceReplacement { sampleExpander with usingErista := true, usingMariko := false } 1
      [["mariko:".toList], ["a".toList]] "sdmc:/x/f.txt".toList 0 [] = .ok [] ∧
    (interpretAndExecuteCommands sampleEngine
      1 [["mariko:".toList], ["a".toList]] [] [] sampleWorld).finalState.map
        (fun st => st.trace) = some [] := by
  refine ⟨by decide, by decide, by decide, by decide, by decide, by decide, by decide,
    by decide, by decide, by decide⟩

/-- C30. The synthetic file_name command. Whenever getSourceReplacement returns, its output
is the output of its loop over the commands, with the command file_name followed by the
name of the entry (without its extension unless the entry is a directory) put in front
exactly when the list holds, at a position that the loop keeps, a command whose first
token is file_source; the output of the loop holds one command for each position kept. -/
theorem file_name_prepended (x : Expander) (fuel : Nat) (commands : List Command)
    (entry : Str) (entryIndex : Nat) (packagePath : Str) (out : List Command)
    (hrun : getSourceReplacement x fuel commands entry entryIndex packagePath = .ok out) :
    ∃ st : ExpanderState,
      expandCommands x fuel entry entryIndex packagePath commands
        (initialExpanderState false) = .ok st ∧
      out = (if st.usingFileSource then [["file_name".toList, entryFileName x entry]]
        else []) ++ st.modifiedCommands ∧
      (st.usingFileSource = true ↔
        ∃ p ∈ List.zip commands (keptBySourceReplacement x.stringToLowercase x.usingErista
          x.usingMariko (false, false) commands),
          p.2 = true ∧ p.1.head? = some "file_source".toList) ∧
      st.modifiedCommands.length =
        (keptBySourceReplacement x.stringToLowercase x.usingErista x.usingMariko
          (false, false) commands).count true := by
  unfold getSourceReplacement at hrun
  obtain ⟨st, hloop, hout⟩ := andThen_eq_ok _ _ _ hrun
  obtain ⟨⟨added, hadded, hlen⟩, hfile⟩ :=
    expandCommands_spec x fuel entry entryIndex packagePath commands _ st hloop
  refine ⟨st, hloop, ?_, ?_, ?_⟩
  · split at hout <;> simp only [Run.ok.injEq] at hout <;> subst hout
    · rename_i hfs
      rw [if_pos hfs]; rfl
    · rename_i hfs
      rw [if_neg hfs]; rfl
  · rw [hfile]
    simp only [initialExpanderState, Bool.false_or, List.any_eq_true, Bool.and_eq_true,
      decide_eq_true_eq]
  · have hlen2 : added.length = (keptBySourceReplacement x.stringToLowercase x.usingErista
        x.usingMariko (false, false) commands).count true := hlen
    rw [hadded, ← hlen2]
    simp [initialExpanderState]

/-- C30, witness: on the sample expander the list Mariko:, a with a file-name marker,
file_source, erista:, b, for the entry f.txt, gives file_name f in front of the two kept
commands. -/
theorem file_name_prepended_witness :
    getSourceReplacement sampleExpander 2
        [["Mariko:".toList], ["a".toList, "\x7bfile_name\x7d".toList],
         ["file_source".toList, "/p/*".toList], ["erista:".toList], ["b".toList]]
        "sdmc:/x/f.txt".toList 0 [] =
      .ok [["file_name".toList, "f".toList], ["a".toList, "f".toList],
           ["file_source".toList, "/p/*".toList]] ∧
    ∃ st : ExpanderState,
      expandCommands sampleExpander 2 "sdmc:/x/f.txt".toList 0 []
        [["Mariko:".toList], ["a".toList, "\x7bfile_name\x7d".toList],
         ["file_source".toList, "/p/*".toList], ["erista:".toList], ["b".toList]]
        (initialExpanderState false) = .ok st ∧
      [["file_name".toList, "f".toList], ["a".toList, "f".toList],
           ["file_source".toList, "/p/*".toList]] =
        (if st.usingFileSource then
          [["file_name".toList, entryFileName sampleExpander "sdmc:/x/f.txt".toList]]
        else []) ++ st.modifiedCommands :=
  ⟨by decide,
   match file_name_prepended sampleExpander 2
      [["Mariko:".toList], ["a".toList, "\x7bfile_name\x7d".toList],
       ["file_source".toList, "/p/*".toList], ["erista:".toList], ["b".toList]]
      "sdmc:/x/f.txt".toList 0 []
      [["file_name".toList, "f".toList], ["a".toList, "f".toList],
       ["file_source".toList, "/p/*".toList]] (by decide) with
   | ⟨st, hloop, hout, _⟩ => ⟨st, hloop, hout⟩⟩

/-! ### The expander: entry-indexed lookups -/

/-- C31, the failing input. With an `ini_file_source` binding whose file holds the sections
first, second and third, the argument a, marker, b at entry 1 expands to aasecondbb, and
the argument sec=, marker at entry 2 to sec=sec=third: the text before and after the
marker comes out twice, because the block puts the whole text returned by
replaceIniPlaceholder in place of the marker. Only an argument that is the marker alone
expands to the section name. -/
theorem ini_file_source_doubles_context :
    getSourceReplacement iniExpander 2
        [["ini_file_source".toList, "f.ini".toList],
         ["echo".toList, "a\x7bini_file_source(*)\x7db".toList]]
        "sdmc:/x/e.txt".toList 1 [] =
      .ok [["ini_file_source".toList, "f.ini".toList],
           ["echo".toList, "aasecondbb".toList]] ∧
    getSourceReplacement iniExpander 2
        [["ini_file_source".toList, "f.ini".toList],
         ["echo".toList, "sec=\x7bini_file_source(*)\x7d".toList]]
        "sdmc:/x/e.txt".toList 2 [] =
      .ok [["ini_file_source".toList, "f.ini".toList],
           ["echo".toList, "sec=sec=third".toList]] ∧
    replaceIniPlaceholder iniExpander.ext "a\x7bini_file_source(1)\x7db".toList
        "ini_file_source".toList "f.ini".toList = some "asecondb".toList ∧
    replace "a\x7bini_file_source(1)\x7db".toList 1 20 "asecondb".toList =
      "aasecondbb".toList ∧
    getSourceReplacement iniExpander 2
        [["ini_file_source".toList, "f.ini".toList],
         ["echo".toList, "\x7bini_file_source(*)\x7d".toList]]
        "sdmc:/x/e.txt".toList 1 [] =
      .ok [["ini_file_source".toList, "f.ini".toList],
           ["echo".toList, "second".toList]] := by
  decide

/-! ### Command handlers: the joined value of the set commands -/

theorem intercalate_cons_cons (sep a b : Str) (rest : List Str) :
    List.intercalate sep (a :: b :: rest) = a ++ sep ++ List.intercalate sep (b :: rest) := by
  simp [List.intercalate, List.intersperse]

theorem foldl_accumulate (acc : Str) (tokens : List Str) (hacc : acc ≠ []) :
    tokens.foldl (fun a b => if a.isEmpty then b else a ++ " ".toList ++ b) acc =
      List.intercalate " ".toList (acc :: tokens) := by
  induction tokens generalizing acc with
  | nil => simp [List.intercalate]
  | cons token rest ih =>
    have hne : acc.isEmpty = false := by
      cases acc with
      | nil => exact absurd rfl hacc
      | cons c cs => rfl
    rw [List.foldl_cons, hne]
    simp only [Bool.false_eq_true, if_false]
    have hnext : acc ++ " ".toList ++ token ≠ [] := by
      cases acc with
      | nil => exact absurd rfl hacc
      | cons c cs => simp
    rw [ih _ hnext, intercalate_cons_cons]
    cases rest with
    | nil => simp [List.intercalate]
    | cons r more =>
      rw [intercalate_cons_cons, intercalate_cons_cons]
      simp [List.append_assoc]

theorem foldl_accumulate_empty (tokens : List Str) :
    tokens.foldl (fun a b => if a.isEmpty then b else a ++ " ".toList ++ b) [] =
      List.intercalate " ".toList (tokens.dropWhile List.isEmpty) := by
  induction tokens with
  | nil => simp [List.intercalate]
  | cons token rest ih =>
    rw [List.foldl_cons]
    simp only [List.isEmpty_nil, if_true]
    cases token with
    | nil => simpa [List.dropWhile] using ih
    | cons c cs =>
      rw [foldl_accumulate (c :: cs) rest (by simp)]
      simp [List.dropWhile]

theorem accumulateFrom4_eq (name path sectionToken keyToken : Str) (values : List Str) :
    accumulateFrom4 (name :: path :: sectionToken :: keyToken :: values) =
      List.intercalate " ".toList (values.dropWhile List.isEmpty) := by
  unfold accumulateFrom4
  exact foldl_accumulate_empty values

/-- C32, counterexample. For the command set-ini-val f.ini s k followed by an empty token
and the token x, the value passed to setIniFileValue is x, while the tokens from index 4
joined with single spaces give a space followed by x. -/
theorem leading_empty_token_dropped :
    handleIniCommands sampleCollaborators sampleRemoveQuotes
        ["set-ini-val".toList, "f.ini".toList, "s".toList, "k".toList, [], "x".toList] []
        sampleWorld =
      .ok (perform sampleCollaborators "setIniFileValue"
        ["f.ini".toList, "s".toList, "k".toList, "x".toList] sampleWorld) ∧
    List.intercalate " ".toList [[], "x".toList] = " x".toList ∧
    " x".toList ≠ "x".toList := by
  decide

/-- C32, amended. For a set-ini-val, set-ini-value or set-ini-key command with at least
five tokens, the value (or the new key) passed to the collaborator is the tokens from
index 4 on, without the empty tokens at their start, joined with one space between
consecutive tokens. It is the join of all the tokens from index 4 on when the token at
index 4 is not empty; empty tokens after a non-empty one are kept. -/
theorem ini_value_join (sys : Collaborators) (removeQuotes : Str → Str)
    (name path sectionToken keyToken : Str) (values : List Str) (packagePath : Str)
    (w : World)
    (hname : name ∈ ["set-ini-val".toList, "set-ini-value".toList, "set-ini-key".toList])
    (hvalues : values ≠ []) :
    handleIniCommands sys removeQuotes (name :: path :: sectionToken :: keyToken :: values)
        packagePath w =
      .ok (perform sys
        (if name = "set-ini-key".toList then "setIniFileKey" else "setIniFileValue")
        [sys.preprocessPath path packagePath, removeQuotes sectionToken,
         removeQuotes keyToken,
         List.intercalate " ".toList (values.dropWhile List.isEmpty)] w) ∧
    (values.head? ≠ some [] →
      List.intercalate " ".toList (values.dropWhile List.isEmpty) =
        List.intercalate " ".toList values) := by
  constructor
  · cases values with
    | nil => exact absurd rfl hvalues
    | cons value more =>
      rw [← accumulateFrom4_eq name path sectionToken keyToken (value :: more)]
      simp only [List.mem_cons, List.mem_singleton, List.not_mem_nil, or_false] at hname
      have hlen : (name :: path :: sectionToken :: keyToken :: value :: more).length ≥ 5 := by
        simp
      unfold handleIniCommands
      simp only [tokenAt, List.getElem?_cons_zero, List.getElem?_cons_succ, Run.andThen]
      rcases hname with rfl | rfl | rfl
      · rw [if_neg (fun hc => absurd hc.1 (by decide)),
          if_neg (fun hc => absurd hc.1 (by decide)),
          if_neg (fun hc => absurd hc.1 (by decide)),
          if_neg (fun hc => absurd hc.1 (by decide)), if_pos ⟨Or.inl rfl, hlen⟩,
          if_neg (by decide)]
      · rw [if_neg (fun hc => absurd hc.1 (by decide)),
          if_neg (fun hc => absurd hc.1 (by decide)),
          if_neg (fun hc => absurd hc.1 (by decide)),
          if_neg (fun hc => absurd hc.1 (by decide)), if_pos ⟨Or.inr rfl, hlen⟩,
          if_neg (by decide)]
      · rw [if_neg (fun hc => absurd hc.1 (by decide)),
          if_neg (fun hc => absurd hc.1 (by decide)),
          if_neg (fun hc => absurd hc.1 (by decide)),
          if_neg (fun hc => absurd hc.1 (by decide)),
          if_neg (fun hc => hc.1.elim (by decide) (by decide)), if_pos ⟨rfl, hlen⟩,
          if_pos rfl]
  · intro hhead
    cases values with
    | nil => rfl
    | cons value more =>
      cases value with
      | nil => exact absurd rfl hhead
      | cons c cs => simp [List.dropWhile]

/-- C32, witness: the value of set-ini-value with the tokens a, an empty token and b is a,
two spaces, b: the join of all three tokens. -/
theorem ini_value_join_witness :
    handleIniCommands sampleCollaborators sampleRemoveQuotes
        ("set-ini-value".toList :: "f.ini".toList :: "s".toList :: "k".toList ::
          ["a".toList, [], "b".toList]) [] sampleWorld =
      .ok (perform sampleCollaborators "setIniFileValue"
        ["f.ini".toList, "s".toList, "k".toList, "a  b".toList] sampleWorld) ∧
    List.intercalate " ".toList ["a".toList, [], "b".toList] = "a  b".toList :=
  ⟨(ini_value_join sampleCollaborators sampleRemoveQuotes "set-ini-value".toList
      "f.ini".toList "s".toList "k".toList ["a".toList, [], "b".toList] [] sampleWorld
      (by decide) (by decide)).1,
   by decide⟩

/-! ### Carriage returns -/

theorem processLine_congr (st : ParserState) (a b : Str) (h : stripCR a = stripCR b) :
    processLine st a = processLine st b := by
  unfold processLine
  rw [h]

theorem stripCR_stripCR (s : Str) : stripCR (stripCR s) = stripCR s := by
  simp [stripCR, List.filter_filter]

theorem getlines_stripCR (text : Str) :
    (getlines nlChar text).map stripCR = getlines nlChar (stripCR text) ∨
    (getlines nlChar text).map stripCR = getlines nlChar (stripCR text) ++ [[]] := by
  induction text with
  | nil => left; rfl
  | cons c cs ih =>
    by_cases hnl : c = nlChar
    · subst hnl
      have hkeep : stripCR (nlChar :: cs) = nlChar :: stripCR cs := by
        simp [stripCR, List.filter_cons, nlChar, crChar]
      rw [hkeep]
      simp only [getlines, if_true, List.map_cons]
      have hnil : stripCR [] = [] := rfl
      rw [hnil]
      rcases ih with h | h
      · left; rw [h]
      · right; rw [h]; rfl
    · by_cases hcr : c = crChar
      · subst hcr
        have hdrop : stripCR (crChar :: cs) = stripCR cs := by
          simp [stripCR, List.filter_cons]
        rw [hdrop]
        simp only [getlines, if_neg hnl]
        cases hg : getlines nlChar cs with
        | nil =>
          rw [hg] at ih
          have hcs : cs = [] := (getlines_eq_nil nlChar cs).mp hg
          subst hcs
          right
          rfl
        | cons p ps =>
          rw [hg] at ih
          simp only [List.map_cons] at ih ⊢
          have hp : stripCR (crChar :: p) = stripCR p := by
            simp [stripCR, List.filter_cons]
          rw [hp]
          exact ih
      · have hkeep : stripCR (c :: cs) = c :: stripCR cs := by
          have hne : (c != crChar) = true := by simpa using hcr
          simp [stripCR, List.filter_cons, hne]
        rw [hkeep]
        simp only [getlines, if_neg hnl]
        cases hg : getlines nlChar cs with
        | nil =>
          have hcs : cs = [] := (getlines_eq_nil nlChar cs).mp hg
          subst hcs
          left
          have h1 : stripCR [c] = [c] := hkeep
          show [stripCR [c]] = [[c]]
          rw [h1]
        | cons p ps =>
          rw [hg] at ih
          simp only [List.map_cons] at ih ⊢
          have hcp : stripCR (c :: p) = c :: stripCR p := by
            have hne : (c != crChar) = true := by simpa using hcr
            simp [stripCR, List.filter_cons, hne]
          rw [hcp]
          cases hg2 : getlines nlChar (stripCR cs) with
          | nil =>
            rw [hg2] at ih
            rcases ih with h | h
            · cases h
            · simp only [List.nil_append, List.cons.injEq] at h
              left
              rw [h.1, h.2]
          | cons q qs =>
            rw [hg2] at ih
            rcases ih with h | h
            · simp only [List.cons.injEq] at h
              left
              rw [h.1, h.2]
            · simp only [List.cons_append, List.cons.injEq] at h
              right
              rw [h.1, h.2]
              rfl

theorem effectiveLines_stripCR (text : Str) :
    effectiveLines (stripCR text) = effectiveLines text := by
  unfold effectiveLines
  have hidem : (getlines nlChar (stripCR text)).map stripCR =
      getlines nlChar (stripCR text) := by
    have hall : ∀ l ∈ getlines nlChar (stripCR text), stripCR l = l := by
      intro l hl
      rcases getlines_stripCR text with h | h
      · rw [← h] at hl
        obtain ⟨l0, _, rfl⟩ := List.mem_map.mp hl
        exact stripCR_stripCR l0
      · have hl2 : l ∈ (getlines nlChar text).map stripCR := by
          rw [h]; exact List.mem_append_left _ hl
        obtain ⟨l0, _, rfl⟩ := List.mem_map.mp hl2
        exact stripCR_stripCR l0
    calc (getlines nlChar (stripCR text)).map stripCR
        = (getlines nlChar (stripCR text)).map id := List.map_congr_left hall
      _ = getlines nlChar (stripCR text) := List.map_id _
  rw [hidem]
  rcases getlines_stripCR text with h | h
  · rw [h]
  · rw [h, List.filter_append]
    simp [isSkipped]

theorem loadOptionsFromIni_effective (text : Str) :
    loadOptionsFromIni (some text) = sectionsOf (effectiveLines text) := by
  have h := foldl_processLine (getlines nlChar text) initialParserState (fun _ => rfl)
  simpa [loadOptionsFromIni, effectiveLines, initialParserState] using h

/-- C33, counterexample. A carriage return inside a quoted argument and one in the middle
of an unquoted word are both removed: the line with the text (cp, quote, a, CR, b, quote,
c, CR, d, CR) is tokenized as (cp, ab, cd), the same as the line without any carriage
return. -/
theorem inner_carriage_return_removed :
    loadOptionsFromIni (some "[s]\ncp 'a\rb' c\rd\r\n".toList)
      = [("s".toList, [["cp".toList, "ab".toList, "cd".toList]])] ∧
    loadOptionsFromIni (some "[s]\ncp 'ab' cd\n".toList)
      = [("s".toList, [["cp".toList, "ab".toList, "cd".toList]])] ∧
    stripCR "cp 'a\rb' c\rd\r".toList = "cp 'ab' cd".toList := by
  decide

/-- C33, amended. For every line read by loadOptionsFromIni, the text that is classified
and tokenized is the line with every carriage return removed, wherever it stands: the
step taken on a line is the step taken on the line without its carriage returns, a
carriage return at any position of a line leaves the step unchanged, the stripped text
holds no carriage return, and the package read
from a text is the package read from the text without its carriage returns. -/
theorem carriage_returns_all_removed :
    (∀ (st : ParserState) (raw : Str), processLine st raw = processLine st (stripCR raw)) ∧
    (∀ (st : ParserState) (pre post : Str),
      processLine st (pre ++ crChar :: post) = processLine st (pre ++ post)) ∧
    (∀ line : Str, crChar ∉ stripCR line ∧
      ∀ pre post : Str, stripCR (pre ++ crChar :: post) = stripCR pre ++ stripCR post) ∧
    (∀ text : Str,
      loadOptionsFromIni (some text) = loadOptionsFromIni (some (stripCR text))) := by
  refine ⟨fun st raw => ?_, fun st pre post => ?_, fun line => ⟨?_, ?_⟩, fun text => ?_⟩
  · exact processLine_congr st raw (stripCR raw) (stripCR_stripCR raw).symm
  · apply processLine_congr
    simp [stripCR, List.filter_append, List.filter_cons]
  · intro hmem
    have h := (List.mem_filter.mp hmem).2
    simp at h
  · intro pre post
    simp [stripCR, List.filter_append, List.filter_cons]
  · rw [loadOptionsFromIni_effective, loadOptionsFromIni_effective, effectiveLines_stripCR]

/-! ### Archive extraction: the double-space loop -/

theorem findFrom_fits (s pat : Str) (pos p : Nat) (h : findFrom s pat pos = some p) :
    pos ≤ p ∧ p + pat.length ≤ s.length := by
  refine ⟨(findFrom_bound s pat pos p h).1, ?_⟩
  unfold findFrom at h
  by_cases hpos : pos ≤ s.length
  · rw [if_pos hpos] at h
    obtain ⟨pre, post, hs, hp⟩ := findAt_sound pat (s.drop pos) pos p h
    have hlen : (s.drop pos).length = pre.length + (pat.length + post.length) := by
      rw [hs]; simp
    rw [List.length_drop] at hlen
    omega
  · rw [if_neg hpos] at h
    cases h

theorem unzipFileColonLoop_halts (fuel : Nat) (path : Str) (pos : Option Nat)
    (hfit : ∀ p, pos = some p → p + 1 ≤ path.length)
    (hpos : 0 < fuel) (hfuel : ∀ p, pos = some p → path.length - p < fuel) :
    ∃ r, unzipFileColonLoop fuel path pos = .ok r ∧ r.length = path.length := by
  induction fuel generalizing path pos with
  | zero => omega
  | succ fuel ih =>
    cases pos with
    | none => exact ⟨path, rfl, rfl⟩
    | some p =>
      have hp := hfit p rfl
      have hf := hfuel p rfl
      have hlen : (path.set p ' ').length = path.length := List.length_set _ _ _
      have hnext : ∀ q, findFrom (path.set p ' ') [':'] (p + 1) = some q →
          q + 1 ≤ (path.set p ' ').length := by
        intro q hq
        simpa using (findFrom_fits _ _ _ _ hq).2
      have hmeasure : ∀ q, findFrom (path.set p ' ') [':'] (p + 1) = some q →
          (path.set p ' ').length - q < fuel := by
        intro q hq
        have hb := findFrom_fits _ _ _ _ hq
        simp only [List.length_cons, List.length_nil] at hb
        omega
      obtain ⟨r, hr, hrlen⟩ := ih (path.set p ' ') _ hnext (by omega) hmeasure
      exact ⟨r, by simpa [unzipFileColonLoop] using hr, by rw [hrlen, hlen]⟩

theorem unzipFileSpaceLoop_halts (fuel : Nat) (path : Str) (pos : Option Nat)
    (hfit : ∀ p, pos = some p → p + 2 ≤ path.length)
    (hpos : 0 < fuel) (hfuel : ∀ p, pos = some p → path.length - p < fuel) :
    ∃ r, unzipFileSpaceLoop fuel path pos = .ok r := by
  induction fuel generalizing path pos with
  | zero => omega
  | succ fuel ih =>
    cases pos with
    | none => exact ⟨path, rfl⟩
    | some p =>
      have hp := hfit p rfl
      have hf := hfuel p rfl
      have hlen : (replace path p 2 " ".toList).length + 1 = path.length := by
        simp [replace, List.length_take, List.length_drop]
        omega
      have hnext : ∀ q, findFrom (replace path p 2 " ".toList) "  ".toList (p + 1) = some q →
          q + 2 ≤ (replace path p 2 " ".toList).length := by
        intro q hq
        simpa using (findFrom_fits _ _ _ _ hq).2
      have hmeasure : ∀ q, findFrom (replace path p 2 " ".toList) "  ".toList (p + 1) = some q →
          (replace path p 2 " ".toList).length - q < fuel := by
        intro q hq
        have hb := hnext q hq
        have hb2 := (findFrom_fits _ _ _ _ hq).1
        omega
      obtain ⟨r, hr⟩ := ih (replace path p 2 " ".toList) _ hnext (by omega) hmeasure
      exact ⟨r, by simpa [unzipFileSpaceLoop] using hr⟩

theorem unzipFileSanitize_halts (path : Str) :
    ∃ r, unzipFileSanitize (path.length + 1) path = .ok r := by
  have hcolons : ∃ c, (match find path [':'] with
      | some firstColonPos =>
        unzipFileColonLoop (path.length + 1) path (findFrom path [':'] (firstColonPos + 1))
      | none => Run.ok path) = .ok c ∧ c.length = path.length := by
    cases hfirst : find path [':'] with
    | none => exact ⟨path, rfl, rfl⟩
    | some firstColonPos =>
      simp only
      apply unzipFileColonLoop_halts
      · intro q hq
        simpa using (findFrom_fits _ _ _ _ hq).2
      · omega
      · intro q _
        omega
  obtain ⟨c, hc, hclen⟩ := hcolons
  have hspaces : ∃ r, unzipFileSpaceLoop (path.length + 1) c (find c "  ".toList) = .ok r := by
    apply unzipFileSpaceLoop_halts
    · intro q hq
      simpa using (findFrom_fits _ _ _ _ hq).2
    · omega
    · intro q _
      omega
  obtain ⟨r, hr⟩ := hspaces
  refine ⟨r, ?_⟩
  unfold unzipFileSanitize
  rw [hc]
  exact hr

/-- C34. The double-space loop of unzipFile leaves double spaces behind: it resumes the
search one position after the replacement, so of three consecutive spaces two remain and
of four consecutive spaces two remain, and the result still holds a double space; the
same happens when the spaces come from colons that the colon loop has rewritten. The run
over `toDestination + fileName` always ends (a fuel of one more than the length of the
path is enough). -/
theorem double_space_survives :
    (∀ path : Str, ∃ r, unzipFileSanitize (path.length + 1) path = .ok r) ∧
    unzipFileSpaceLoop 6 "a   b".toList (find "a   b".toList "  ".toList)
      = .ok "a  b".toList ∧
    unzipFileSpaceLoop 7 "a    b".toList (find "a    b".toList "  ".toList)
      = .ok "a  b".toList ∧
    find "a  b".toList "  ".toList = some 1 ∧
    unzipFileSanitize 15 "sdmc:/x/a   b.txt".toList = .ok "sdmc:/x/a  b.txt".toList ∧
    unzipFileSanitize 15 "sdmc:/x/a:::b.txt".toList = .ok "sdmc:/x/a  b.txt".toList ∧
    unzipFileSanitize 15 "sdmc:/x/a  b.txt".toList = .ok "sdmc:/x/a b.txt".toList := by
  refine ⟨unzipFileSanitize_halts, ?_, ?_, ?_, ?_, ?_, ?_⟩ <;> decide

/-! ### The execution engine: a first try marker after a failure -/

theorem ultra_loop_never_fires (patternPath folder : Str)
    (hfolder : folder ∈ protectedFolders "sdmc:/".toList)
    (hf : find patternPath folder = some 0) :
    ultraProtectedFolders.any
      (fun ultraFolder => find patternPath (substr ultraFolder folder.length none) == some 0)
      = false := by
  have hstarts := starts_of_find_zero patternPath folder hf
  rw [Bool.eq_false_iff]
  intro hany
  rw [List.any_eq_true] at hany
  obtain ⟨ultraFolder, hu, hfound⟩ := hany
  have hfound2 : find patternPath (substr ultraFolder folder.length none) = some 0 := by
    simpa using hfound
  have hst := starts_of_find_zero _ _ hfound2
  obtain ⟨hlen, hne2⟩ := ultra_remainders folder hfolder ultraFolder hu
  have hfl : 2 ≤ folder.length := by
    have hall : ∀ f ∈ protectedFolders "sdmc:/".toList, 2 ≤ f.length := by decide
    exact hall folder hfolder
  have e1 := take_eq_of_starts folder patternPath 2 hstarts hfl
  have e2 := take_eq_of_starts _ patternPath 2 hst hlen
  rw [protectedFolders_start folder hfolder] at e1
  exact hne2 (e2.symm.trans e1)

theorem combination_patterns_reduce (rel : Str) :
    dangerousCombinationPatterns.any (fun combination => (find rel combination).isSome) =
    reducedCombinationPatterns.any (fun combination => (find rel combination).isSome) := by
  simp only [dangerousCombinationPatterns, reducedCombinationPatterns, List.any_cons,
    List.any_nil, Bool.or_false]
  cases h2 : (find rel "*/".toList).isSome with
  | false => simp
  | true =>
    obtain ⟨p, hp⟩ := Option.isSome_iff_exists.mp h2
    obtain ⟨pre, post, hs, _⟩ := find_sound rel "*/".toList p hp
    have hmem : '*' ∈ rel := by
      rw [hs]
      simp
    have h1 := find_isSome_of_mem rel '*' hmem
    have h1b : (find rel "*".toList).isSome = true := h1
    rw [h1b]
    rfl

theorem protectedFolderCheck_reduce (patternPath folder : Str)
    (hfolder : folder ∈ protectedFolders "sdmc:/".toList) :
    protectedFolderCheck patternPath folder = reducedFolderCheck patternPath folder := by
  unfold protectedFolderCheck reducedFolderCheck
  by_cases hne : patternPath = folder
  · rw [if_pos hne, if_pos hne]
  · rw [if_neg hne, if_neg hne]
    by_cases hf : find patternPath folder = some 0
    · rw [if_pos hf, if_pos hf, ultra_loop_never_fires patternPath folder hfolder hf,
        combination_patterns_reduce]
    · rw [if_neg hf, if_neg hf]

/-- C36. With ROOT_PATH the text sdmc:/, two checks inside isDangerousCombination never
decide the result: for every path the function returns the value of the variant in which
the second entry of dangerousCombinationPatterns is removed and the inner loop over
ultraProtectedFolders is deleted; inside the function, that inner loop finds nothing for
any path that starts with a protected folder, and the two lists of combination patterns
give the same answer on every relative path; and every protected folder is shorter than
every ultra-protected folder, so each substr call of that loop starts within its string. -/
theorem isDangerousCombination_reduces :
    (∀ patternPath : Str,
      isDangerousCombination "sdmc:/".toList patternPath =
        reducedDangerousCombination "sdmc:/".toList patternPath) ∧
    (∀ patternPath : Str, ∀ folder ∈ protectedFolders "sdmc:/".toList,
      protectedFolderCheck patternPath folder = reducedFolderCheck patternPath folder) ∧
    (∀ folder ∈ protectedFolders "sdmc:/".toList, ∀ ultraFolder ∈ ultraProtectedFolders,
      folder.length < ultraFolder.length) := by
  refine ⟨fun patternPath => ?_, fun patternPath folder hfolder =>
    protectedFolderCheck_reduce patternPath folder hfolder, by decide⟩
  have hany : (protectedFolders "sdmc:/".toList).any (protectedFolderCheck patternPath) =
      (protectedFolders "sdmc:/".toList).any (reducedFolderCheck patternPath) := by
    have hgen : ∀ folders : List Str, (∀ f ∈ folders, f ∈ protectedFolders "sdmc:/".toList) →
        folders.any (protectedFolderCheck patternPath) =
          folders.any (reducedFolderCheck patternPath) := by
      intro folders
      induction folders with
      | nil => intro _; rfl
      | cons f fs ih =>
        intro hall
        rw [List.any_cons, List.any_cons,
          protectedFolderCheck_reduce patternPath f (hall f (List.mem_cons_self f fs)),
          ih (fun g hg => hall g (List.mem_cons_of_mem f hg))]
    exact hgen _ (fun _ h => h)
  unfold isDangerousCombination reducedDangerousCombination
  rw [hany]

/-- C36, witness: for the path of a wildcard one level below the switch folder, the body of
the loop over the protected folders and its variant agree on the switch folder, and the
switch folder is shorter than the first ultra-protected folder. -/
theorem isDangerousCombination_reduces_witness :
    protectedFolderCheck "sdmc:/switch/*/".toList "sdmc:/switch/".toList =
      reducedFolderCheck "sdmc:/switch/*/".toList "sdmc:/switch/".toList ∧
    "sdmc:/switch/".toList.length < "sdmc:/Nintendo/Contents/".toList.length :=
  ⟨isDangerousCombination_reduces.2.1 "sdmc:/switch/*/".toList "sdmc:/switch/".toList
      (by decide),
    isDangerousCombination_reduces.2.2 "sdmc:/switch/".toList (by decide)
      "sdmc:/Nintendo/Contents/".toList (by decide)⟩

/-! ### Dangerous-path gate: protected folders named without the final slash -/

/-- C37. With ROOT_PATH the text sdmc:/, a protected folder named without its final slash
is not refused: isDangerousCombination returns false for each of sdmc:/Nintendo,
sdmc:/emuMMC, sdmc:/atmosphere, sdmc:/bootloader, sdmc:/switch and sdmc:/config, and for
the wildcard one level below a protected folder sdmc:/switch/*/; with the final slash each
of the six folders is refused. Accordingly handleDeleteCommand, with paths taken as they
are, calls deleteFileOrDirectory on sdmc:/switch and deleteFileOrDirectoryByPattern on
sdmc:/switch/*/, and calls nothing on sdmc:/switch/. -/
theorem slashless_folder_not_refused :
    (∀ patternPath ∈ ["sdmc:/Nintendo".toList, "sdmc:/emuMMC".toList,
        "sdmc:/atmosphere".toList, "sdmc:/bootloader".toList, "sdmc:/switch".toList,
        "sdmc:/config".toList],
      isDangerousCombination "sdmc:/".toList patternPath = false ∧
      isDangerousCombination "sdmc:/".toList (patternPath ++ ['/']) = true) ∧
    isDangerousCombination "sdmc:/".toList "sdmc:/switch/*/".toList = false ∧
    handleDeleteCommand sampleCollaborators "sdmc:/".toList
        ["delete".toList, "sdmc:/switch".toList] [] sampleWorld =
      .ok (perform sampleCollaborators "deleteFileOrDirectory"
        ["sdmc:/switch".toList, []] sampleWorld) ∧
    handleDeleteCommand sampleCollaborators "sdmc:/".toList
        ["delete".toList, "sdmc:/switch/*/".toList] [] sampleWorld =
      .ok (perform sampleCollaborators "deleteFileOrDirectoryByPattern"
        ["sdmc:/switch/*/".toList, []] sampleWorld) ∧
    handleDeleteCommand sampleCollaborators "sdmc:/".toList
        ["delete".toList, "sdmc:/switch/".toList] [] sampleWorld = .ok sampleWorld := by
  decide

/-- C37, witness: the switch folder without its final slash is not refused, with it the
folder is refused. -/
theorem slashless_folder_not_refused_witness :
    isDangerousCombination "sdmc:/".toList "sdmc:/switch".toList = false ∧
    isDangerousCombination "sdmc:/".toList ("sdmc:/switch".toList ++ ['/']) = true :=
  slashless_folder_not_refused.1 "sdmc:/switch".toList (by decide)

/-! ### Command handlers: exec and the requests of the outer run -/

/-- C38. An exec command discards the requests made earlier in the outer run. For an exec
command whose section is found in the boot package (the file exists and holds a section of
the unquoted name), when the run of the section returns in a state st, processCommand
returns, and refreshPage, refreshPackage and interpreterLogging are then the values that
the run of the section left, whatever they were before the command; the run of the section
starts with all three cleared, and it is the same run for every value that the three had
before the command. -/
theorem exec_discards_outer_requests (h : Host) (fuel depth : Nat)
    (packagePath selectedCommand : Str) (w : World) (token : Str) (rest : List Str)
    (bootOption : Str × List Command) (st : LoopState)
    (hfile : h.sys.isFileOrDirectory w (packagePath ++ h.BOOT_PACKAGE_FILENAME) = true)
    (hfound : (loadOptionsFromIni
        (h.readFile w (packagePath ++ h.BOOT_PACKAGE_FILENAME))).find?
        (fun option => option.1 = h.ext.removeQuotes token) = some bootOption)
    (hinner : (interpretAndExecuteCommands (engineOf h (processCommand h fuel depth)) fuel
        bootOption.2 packagePath bootOption.1 w).finalState = some st) :
    (∃ w1 : World,
      processCommand h fuel (depth + 1) ("exec".toList :: token :: rest) packagePath
        selectedCommand w = .ok w1 ∧
      w1.refreshPage = st.world.refreshPage ∧
      w1.refreshPackage = st.world.refreshPackage ∧
      w1.interpreterLogging = st.world.interpreterLogging) ∧
    ((initialLoopState w).world.refreshPage = false ∧
      (initialLoopState w).world.refreshPackage = false ∧
      (initialLoopState w).world.interpreterLogging = false) ∧
    (∀ page package logging : Bool,
      interpretAndExecuteCommands (engineOf h (processCommand h fuel depth)) fuel
        bootOption.2 packagePath bootOption.1
        { w with refreshPage := page, refreshPackage := package,
                 interpreterLogging := logging } =
      interpretAndExecuteCommands (engineOf h (processCommand h fuel depth)) fuel
        bootOption.2 packagePath bootOption.1 w) := by
  refine ⟨?_, ⟨rfl, rfl, rfl⟩, fun _ _ _ => rfl⟩
  have hrun : processCommand h fuel (depth + 1) ("exec".toList :: token :: rest) packagePath
      selectedCommand w =
      processExecCommand h fuel (processCommand h fuel depth)
        ("exec".toList :: token :: rest) packagePath w :=
    processCommandWith_exec h fuel _ _ packagePath selectedCommand w
  rw [hrun]
  unfold processExecCommand
  simp only [List.getElem?_cons_succ, List.getElem?_cons_zero, hfile, if_true, hfound]
  cases hout : interpretAndExecuteCommands (engineOf h (processCommand h fuel depth)) fuel
      bootOption.2 packagePath bootOption.1 w with
  | next st1 =>
    rw [hout] at hinner
    simp only [LoopOutcome.finalState, Option.some.injEq] at hinner
    subst hinner
    cases hw : w.commandSuccess <;> simp
  | stop st1 =>
    rw [hout] at hinner
    simp only [LoopOutcome.finalState, Option.some.injEq] at hinner
    subst hinner
    cases hw : w.commandSuccess <;> simp
  | fault => rw [hout] at hinner; simp [LoopOutcome.finalState] at hinner
  | outOfFuel => rw [hout] at hinner; simp [LoopOutcome.finalState] at hinner

theorem outer_run_refresh_exec :
    (interpretAndExecuteCommands (engineOf sampleHost (processCommand sampleHost 1 1)) 1
      [["refresh".toList], ["exec".toList, "fail".toList]]
      [] [] sampleWorld).finalState.map
        (fun st => (st.world.refreshPage, st.world.refreshPackage,
          st.world.interpreterLogging)) = some (false, false, false) := by
  decide

theorem outer_run_refresh_package_exec :
    (interpretAndExecuteCommands (engineOf sampleHost (processCommand sampleHost 1 1)) 1
      [["refresh".toList, "package".toList], ["exec".toList, "fail".toList]]
      [] [] sampleWorld).finalState.map
        (fun st => (st.world.refreshPage, st.world.refreshPackage,
          st.world.interpreterLogging)) = some (false, false, false) := by
  decide

theorem outer_run_logging_exec :
    (interpretAndExecuteCommands (engineOf sampleHost (processCommand sampleHost 1 1)) 1
      [["logging".toList], ["exec".toList, "fail".toList]]
      [] [] sampleWorld).finalState.map
        (fun st => (st.world.refreshPage, st.world.refreshPackage,
          st.world.interpreterLogging)) = some (false, false, false) := by
  decide

theorem outer_run_refresh_alone :
    (interpretAndExecuteCommands (engineOf sampleHost (processCommand sampleHost 1 1)) 1
      [["refresh".toList]] [] [] sampleWorld).finalState.map
        (fun st => (st.world.refreshPage, st.world.refreshPackage,
          st.world.interpreterLogging)) = some (true, false, false) := by
  decide

theorem outer_run_refresh_exec_boot :
    (interpretAndExecuteCommands (engineOf sampleHost (processCommand sampleHost 1 1)) 1
      [["refresh".toList], ["exec".toList, "boot".toList]]
      [] [] sampleWorld).finalState.map
        (fun st => (st.world.refreshPage, st.world.refreshPackage,
          st.world.interpreterLogging)) = some (false, false, true) := by
  decide

theorem outer_run_refresh_exec_missing :
    (interpretAndExecuteCommands (engineOf sampleHost (processCommand sampleHost 1 1)) 1
      [["refresh".toList], ["exec".toList, "none".toList]]
      [] [] sampleWorld).finalState.map
        (fun st => (st.world.refreshPage, st.world.refreshPackage,
          st.world.interpreterLogging)) = some (true, false, false) := by
  decide

/-- C38, witness: on the sample host, with the three flags set before it, the command exec
fail returns with all three cleared, as its section (one unzip) leaves them. In the outer
runs refresh, exec fail and refresh package, exec fail and logging, exec fail the three
flags end cleared, although the first command of each run alone sets its flag; in the
outer run refresh, exec boot, whose section holds the command logging, refreshPage ends
cleared and interpreterLogging set; with an exec whose section is not found the flag of
the outer run stays. -/
theorem exec_discards_outer_requests_witness :
    (∃ w1 : World,
      processCommand sampleHost 1 (0 + 1) ("exec".toList :: "fail".toList :: []) [] []
        { sampleWorld with refreshPage := true, refreshPackage := true,
                           interpreterLogging := true } = .ok w1 ∧
      w1.refreshPage = false ∧ w1.refreshPackage = false ∧ w1.interpreterLogging = false) ∧
    (interpretAndExecuteCommands (engineOf sampleHost (processCommand sampleHost 1 1)) 1
      [["refresh".toList], ["exec".toList, "fail".toList]]
      [] [] sampleWorld).finalState.map
        (fun st => (st.world.refreshPage, st.world.refreshPackage,
          st.world.interpreterLogging)) = some (false, false, false) ∧
    (interpretAndExecuteCommands (engineOf sampleHost (processCommand sampleHost 1 1)) 1
      [["refresh".toList, "package".toList], ["exec".toList, "fail".toList]]
      [] [] sampleWorld).finalState.map
        (fun st => (st.world.refreshPage, st.world.refreshPackage,
          st.world.interpreterLogging)) = some (false, false, false) ∧
    (interpretAndExecuteCommands (engineOf sampleHost (processCommand sampleHost 1 1)) 1
      [["logging".toList], ["exec".toList, "fail".toList]]
      [] [] sampleWorld).finalState.map
        (fun st => (st.world.refreshPage, st.world.refreshPackage,
          st.world.interpreterLogging)) = some (false, false, false) ∧
    (interpretAndExecuteCommands (engineOf sampleHost (processCommand sampleHost 1 1)) 1
      [["refresh".toList]] [] [] sampleWorld).finalState.map
        (fun st => (st.world.refreshPage, st.world.refreshPackage,
          st.world.interpreterLogging)) = some (true, false, false) ∧
    (interpretAndExecuteCommands (engineOf sampleHost (processCommand sampleHost 1 1)) 1
      [["refresh".toList], ["exec".toList, "boot".toList]]
      [] [] sampleWorld).finalState.map
        (fun st => (st.world.refreshPage, st.world.refreshPackage,
          st.world.interpreterLogging)) = some (false, false, true) ∧
    (interpretAndExecuteCommands (engineOf sampleHost (processCommand sampleHost 1 1)) 1
      [["refresh".toList], ["exec".toList, "none".toList]]
      [] [] sampleWorld).finalState.map
        (fun st => (st.world.refreshPage, st.world.refreshPackage,
          st.world.interpreterLogging)) = some (true, false, false) :=
  ⟨(exec_discards_outer_requests sampleHost 1 0 [] []
      { sampleWorld with refreshPage := true, refreshPackage := true,
                         interpreterLogging := true }
      "fail".toList [] ("fail".toList, [["unzip".toList, "a".toList, "b".toList]])
      { initialLoopState sampleWorld with
        world := { sampleWorld with
          calls := [{ name := "unzipFile", args := ["a".toList, "b".toList] }] },
        trace := [Event.resolved ["unzip".toList, "a".toList, "b".toList],
                  Event.dispatched ["unzip".toList, "a".toList, "b".toList]] }
      (by decide) (by decide) (by decide)).1,
    outer_run_refresh_exec, outer_run_refresh_package_exec, outer_run_logging_exec,
    outer_run_refresh_alone, outer_run_refresh_exec_boot, outer_run_refresh_exec_missing⟩

/-! ### Command handlers: the two lists of a list-driven copy -/

theorem copyListLoop_fault (sys : Collaborators) (filterListPath : Str)
    (filterSet sources destinations : List Str) (w : World) :
    copyListLoop sys filterListPath filterSet sources destinations w = .fault ↔
      destinations.length < sources.length := by
  induction sources generalizing destinations w with
  | nil => simp [copyListLoop]
  | cons source sources ih =>
    cases destinations with
    | nil => simp [copyListLoop]
    | cons destination destinations =>
      unfold copyListLoop
      simp only [List.length_cons, Nat.add_lt_add_iff_right]
      split_ifs
      · exact ih destinations _
      · exact ih destinations _

/-- C39. The list-driven copy does not stay in bounds: the loop of handleCopyCommand reads
destinationFilesList at every index below the length of the source list, so it reads out
of range exactly when the destination list is shorter than the source list, for every
filter and all collaborators; the command cp -src src.txt -dest d.txt, with three entries
in src.txt and two in d.txt, reads destinationFilesList[2] of a list of two entries, and
the same loop of handleMoveCommand is guarded by a comparison of the sizes. -/
theorem copy_list_reads_out_of_range :
    (∀ (sys : Collaborators) (filterListPath : Str) (filterSet sources destinations : List Str)
        (w : World),
      copyListLoop sys filterListPath filterSet sources destinations w = .fault ↔
        destinations.length < sources.length) ∧
    handleCopyCommand listCollaborators
      ["cp".toList, "-src".toList, "src.txt".toList, "-dest".toList, "d.txt".toList]
      [] sampleWorld = .fault ∧
    handleCopyCommand listCollaborators
      ["copy".toList, "-src".toList, "src.txt".toList, "-dest".toList, "d.txt".toList]
      [] sampleWorld = .fault ∧
    handleMoveCommand listCollaborators "sdmc:/".toList
      ["mv".toList, "-src".toList, "src.txt".toList, "-dest".toList, "d.txt".toList]
      [] sampleWorld =
      .ok (logMessage
        "Source and destination lists must have the same number of entries.".toList
        sampleWorld) := by
  refine ⟨copyListLoop_fault, ?_, ?_, ?_⟩ <;> decide

/-! ### The tokens of a package -/

theorem getlines_append_quote (d : Char) (body tail : Str) :
    getlines d (body ++ d :: tail) = body.splitOn d ++ getlines d tail := by
  induction body with
  | nil =>
    have h0 : ([] : Str).splitOn d = [[]] := rfl
    rw [h0]
    simp [getlines]
  | cons c cs ih =>
    have hcons : (c :: cs).splitOn d =
        if (c == d) = true then [] :: cs.splitOn d
        else (cs.splitOn d).modifyHead (List.cons c) := by
      simp only [List.splitOn]
      exact List.splitOnP_cons _ c cs
    rw [hcons, List.cons_append]
    by_cases hc : c = d
    · subst hc
      simp only [beq_self_eq_true, if_true, getlines]
      rw [ih]
      rfl
    · have hb : ¬ ((c == d) = true) := by simpa using hc
      simp only [hb, if_false, getlines, hc]
      rw [ih]
      cases hs : cs.splitOn d with
      | nil => exact absurd hs (List.splitOnP_ne_nil _ cs)
      | cons p ps => rfl

theorem alternatingRule_append (xs ys : List Str) (i : Nat) :
    alternatingRule i (xs ++ ys) = alternatingRule i xs ++ alternatingRule (i + xs.length) ys := by
  induction xs generalizing i with
  | nil => simp [alternatingRule]
  | cons p ps ih =>
    rw [List.cons_append, alternatingRule, alternatingRule, ih (i + 1), List.append_assoc]
    have hlen : i + 1 + ps.length = i + (p :: ps).length := by simp; omega
    rw [hlen]

theorem alternatingRule_splitOn_even (body : Str) (heven : body.count quoteChar % 2 = 0) :
    alternatingRule 0 (body.splitOn quoteChar) = tokenizeLine body := by
  rw [tokenizeLine_eq]
  rcases getlines_splitOn quoteChar body with h | h
  · rw [h]
  · have hlen := length_splitOn quoteChar body
    rw [h] at hlen
    rw [h, alternatingRule_append_empty]
    simp only [List.length_append, List.length_singleton] at hlen
    omega

theorem tokenizeLine_open_quote (body tail : Str) (htail : quoteChar ∉ tail)
    (heven : body.count quoteChar % 2 = 0) :
    tokenizeLine (body ++ quoteChar :: tail) =
      tokenizeLine body ++ (if tail = [] then [] else [tail]) := by
  rw [tokenizeLine_eq, getlines_append_quote, alternatingRule_append,
    alternatingRule_splitOn_even body heven, length_splitOn]
  have hodd : (0 + (body.count quoteChar + 1)) % 2 = 1 := by omega
  by_cases ht : tail = []
  · subst ht
    simp [getlines, alternatingRule]
  · rw [if_neg ht, getlines_single quoteChar tail ht htail]
    have hne : ¬ (0 + (body.count quoteChar + 1)) % 2 = 0 := by omega
    simp only [alternatingRule, if_neg hne, List.append_nil]

theorem extractWordsAux_tokens (s cur : Str) :
    ∀ tok ∈ extractWordsAux s cur,
      tok ≠ [] ∧ ∀ c ∈ tok, c ∈ cur ∨ (c ∈ s ∧ isspace c = false) := by
  induction s generalizing cur with
  | nil =>
    intro tok htok
    rw [extractWordsAux] at htok
    by_cases hcur : cur = []
    · rw [if_pos hcur] at htok
      cases htok
    · rw [if_neg hcur] at htok
      have htc : tok = cur := by simpa using htok
      subst htc
      exact ⟨hcur, fun c hc => Or.inl hc⟩
  | cons x xs ih =>
    intro tok htok
    rw [extractWordsAux] at htok
    by_cases hx : isspace x = true
    · rw [if_pos hx] at htok
      by_cases hcur : cur = []
      · rw [if_pos hcur] at htok
        obtain ⟨hne, hall⟩ := ih [] tok htok
        refine ⟨hne, fun c hc => ?_⟩
        rcases hall c hc with h | h
        · cases h
        · exact Or.inr ⟨List.mem_cons_of_mem _ h.1, h.2⟩
      · rw [if_neg hcur] at htok
        rcases List.mem_cons.mp htok with h | h
        · subst h
          exact ⟨hcur, fun c hc => Or.inl hc⟩
        · obtain ⟨hne, hall⟩ := ih [] tok h
          refine ⟨hne, fun c hc => ?_⟩
          rcases hall c hc with h2 | h2
          · cases h2
          · exact Or.inr ⟨List.mem_cons_of_mem _ h2.1, h2.2⟩
    · rw [if_neg hx] at htok
      obtain ⟨hne, hall⟩ := ih (cur ++ [x]) tok htok
      refine ⟨hne, fun c hc => ?_⟩
      rcases hall c hc with h | h
      · rcases List.mem_append.mp h with h1 | h1
        · exact Or.inl h1
        · have hcx : c = x := by simpa using h1
          subst hcx
          exact Or.inr ⟨List.mem_cons_self _ _, by simpa using hx⟩
      · exact Or.inr ⟨List.mem_cons_of_mem _ h.1, h.2⟩

theorem extractWords_tokens (part : Str) :
    ∀ tok ∈ extractWords part,
      tok ≠ [] ∧ (∀ c ∈ tok, isspace c = false) ∧ ∀ c ∈ tok, c ∈ part := by
  intro tok htok
  obtain ⟨hne, hall⟩ := extractWordsAux_tokens part [] tok htok
  refine ⟨hne, fun c hc => ?_, fun c hc => ?_⟩
  · rcases hall c hc with h | h
    · cases h
    · exact h.2
  · rcases hall c hc with h | h
    · cases h
    · exact h.1

theorem alternatingRule_no_quote (pieces : List Str) (i : Nat)
    (hpieces : ∀ p ∈ pieces, quoteChar ∉ p) :
    ∀ tok ∈ alternatingRule i pieces, quoteChar ∉ tok := by
  induction pieces generalizing i with
  | nil =>
    intro tok htok
    simp [alternatingRule] at htok
  | cons p ps ih =>
    intro tok htok
    rw [alternatingRule] at htok
    rcases List.mem_append.mp htok with h | h
    · have hp := hpieces p (List.mem_cons_self _ _)
      by_cases hi : i % 2 = 0
      · rw [if_pos hi, ← extractWords_eq_splitWhitespace] at h
        exact fun hq => hp ((extractWords_tokens p tok h).2.2 quoteChar hq)
      · rw [if_neg hi] at h
        have htp : tok = p := by simpa using h
        rw [htp]
        exact hp
    · exact ih (i + 1) (fun q hq => hpieces q (List.mem_cons_of_mem _ hq)) tok h

theorem tokenizeLine_no_quote (line : Str) : ∀ tok ∈ tokenizeLine line, quoteChar ∉ tok := by
  rw [tokenizeLine_eq]
  exact alternatingRule_no_quote _ 0 (getlines_no_delim quoteChar line)

theorem commandsUntilHeader_lines (ls : List Str) :
    ∀ cmd ∈ commandsUntilHeader ls, ∃ l ∈ ls, cmd = tokenizeLine l := by
  induction ls with
  | nil =>
    intro cmd hcmd
    simp [commandsUntilHeader] at hcmd
  | cons l ls ih =>
    intro cmd hcmd
    rw [commandsUntilHeader] at hcmd
    by_cases hh : isHeader l = true
    · rw [if_pos hh] at hcmd
      cases hcmd
    · rw [if_neg hh] at hcmd
      rcases List.mem_cons.mp hcmd with h | h
      · exact ⟨l, List.mem_cons_self _ _, h⟩
      · obtain ⟨l2, hl2, he⟩ := ih cmd h
        exact ⟨l2, List.mem_cons_of_mem _ hl2, he⟩

theorem sectionsOf_lines (ls : List Str) :
    ∀ sec ∈ sectionsOf ls, ∀ cmd ∈ sec.2, ∃ l ∈ ls, cmd = tokenizeLine l := by
  induction ls with
  | nil =>
    intro sec hsec
    simp [sectionsOf] at hsec
  | cons l ls ih =>
    intro sec hsec cmd hcmd
    rw [sectionsOf] at hsec
    have hrest : sec ∈ sectionsOf ls → ∃ l2 ∈ l :: ls, cmd = tokenizeLine l2 := by
      intro h
      obtain ⟨l2, hl2, he⟩ := ih sec h cmd hcmd
      exact ⟨l2, List.mem_cons_of_mem _ hl2, he⟩
    by_cases hh : isHeader l = true
    · rw [if_pos hh] at hsec
      rcases List.mem_append.mp hsec with h | h
      · by_cases hn : headerName l ≠ []
        · rw [if_pos hn] at h
          have hs : sec = (headerName l, commandsUntilHeader ls) := by simpa using h
          rw [hs] at hcmd
          obtain ⟨l2, hl2, he⟩ := commandsUntilHeader_lines ls cmd hcmd
          exact ⟨l2, List.mem_cons_of_mem _ hl2, he⟩
        · rw [if_neg hn] at h
          cases h
      · exact hrest h
    · rw [if_neg hh] at hsec
      exact hrest hsec

/-- C40, counterexample. With unbalanced quotes and nothing after the last quote, no token
is returned for the text after it: the line (cp, space, quote) gives the single token cp,
in a package as well, while the balanced line (cp, space, quote, quote) gives cp and an
empty token. -/
theorem open_quote_at_end_gives_no_token :
    tokenizeLine ("cp ".toList ++ [quoteChar]) = ["cp".toList] ∧
    loadOptionsFromIni (some ("[s]\ncp ".toList ++ [quoteChar])) =
      [("s".toList, [["cp".toList]])] ∧
    tokenizeLine ("cp ".toList ++ [quoteChar, quoteChar]) = ["cp".toList, []] := by
  decide

/-- C40, amended. For every package text, every command returned by loadOptionsFromIni is
the tokenizer applied to one of the classified lines of the text, and no token of it
contains a single quote; a round of the tokenizer outside quotes appends the words of its
part, each of which is non-empty and contains no whitespace, and a round inside quotes
appends its part verbatim; when the quotes of a line are unbalanced (an even number of
quotes before the last one), the tokens are those of the text before the last quote,
followed by the text after it as one verbatim token when that text is not empty, and by
nothing when it is empty. -/
theorem token_invariants :
    (∀ (text : Str) (sec : Str × List Command) (cmd : Command),
      sec ∈ loadOptionsFromIni (some text) → cmd ∈ sec.2 →
      (∃ line ∈ effectiveLines text, cmd = tokenizeLine line) ∧
      ∀ tok ∈ cmd, quoteChar ∉ tok) ∧
    (∀ (parts : List Str) (part : Str),
      tokenizeStep (parts, false) part = (parts ++ extractWords part, true) ∧
      tokenizeStep (parts, true) part = (parts ++ [part], false) ∧
      ∀ tok ∈ extractWords part, tok ≠ [] ∧ ∀ c ∈ tok, isspace c = false) ∧
    (∀ body tail : Str, quoteChar ∉ tail → body.count quoteChar % 2 = 0 →
      tokenizeLine (body ++ quoteChar :: tail) =
        tokenizeLine body ++ (if tail = [] then [] else [tail])) := by
  refine ⟨fun text sec cmd hsec hcmd => ?_, fun parts part => ⟨rfl, rfl, fun tok htok => ?_⟩,
    fun body tail htail heven => tokenizeLine_open_quote body tail htail heven⟩
  · rw [loadOptionsFromIni_effective] at hsec
    obtain ⟨line, hline, he⟩ := sectionsOf_lines (effectiveLines text) sec hsec cmd hcmd
    refine ⟨⟨line, hline, he⟩, ?_⟩
    rw [he]
    exact tokenizeLine_no_quote line
  · have h := extractWords_tokens part tok htok
    exact ⟨h.1, h.2.1⟩

/-- C40, witness: in the package with the section s and the line (cp, space, quote, a,
space, b), whose quotes are unbalanced, the command of the section holds no quote; the
tokens of that line are cp and the text a b after the quote, verbatim. -/
theorem token_invariants_witness :
    (∀ tok ∈ ["cp".toList, "a b".toList], quoteChar ∉ tok) ∧
    tokenizeLine ("cp ".toList ++ quoteChar :: "a b".toList) =
      tokenizeLine "cp ".toList ++ (if "a b".toList = [] then [] else ["a b".toList]) ∧
    ("cp".toList ≠ [] ∧ ∀ c ∈ "cp".toList, isspace c = false) :=
  ⟨(token_invariants.1 ("[s]\ncp ".toList ++ quoteChar :: "a b".toList)
      ("s".toList, [["cp".toList, "a b".toList]]) ["cp".toList, "a b".toList]
      (by decide) (by decide)).2,
    token_invariants.2.2 "cp ".toList "a b".toList (by decide) (by decide),
    (token_invariants.2.1 [] "cp x".toList).2.2 "cp".toList (by decide)⟩

end Ultrahand
